import Mathlib

/-!
# SERVICE operator of the query engine: embedding of `src/engine/Service.cpp`

The stateful C++ code is embedded by explicit state passing.  Exceptions are values of
`Exception`; a function that may throw and that touches global state has the shape
`World → Except Exception α × World`, so that the effects performed before a throw
(allocated blank nodes, issued requests, polls of the cancellation handle) stay visible.

Code of collaborators that is not part of the embedded sources (the JSON library, the
vocabulary, the transport, the chunked JSON tokenizer) enters as fields of `Context`.

The class `ad_semsearch::Exception` of `src/util/Exception.h` is embedded as a structure of
its three data members with its constructors and methods.
-/

set_option autoImplicit false

namespace QLever

/-! ## Exceptions -/

/-- The ways a call can fail: the exception classes (all derived from `std::exception`) that
the embedded code throws or distinguishes in its `catch` clauses, and a marker for undefined
behaviour. -/
inductive Exception where
  /-- Class `ad_utility::CancellationException`. -/
  | CancellationException (what : String)
  /-- Class `ad_utility::detail::AllocationExceedsLimitException`. -/
  | AllocationExceedsLimitException (what : String)
  /-- Class `std::runtime_error`. -/
  | runtime_error (what : String)
  /-- Class `ad_utility::LazyJsonParser::Error`. -/
  | LazyJsonParserError (what : String)
  /-- A failed `AD_CORRECTNESS_CHECK`; the payload is the text of the violated condition. -/
  | CorrectnessCheck (condition : String)
  /-- Class `nlohmann::json::exception` (`type_error`, `out_of_range`). -/
  | json_exception (what : String)
  /-- Any other class derived from `std::exception`. -/
  | other (what : String)
  /-- Not an exception: the marker of undefined behaviour (an access outside a container).
  No `catch` clause handles it. -/
  | UndefinedBehaviour (what : String)
  deriving DecidableEq, Repr

namespace Exception

/-- Whether `catch (const ad_utility::CancellationException&)` handles the exception. -/
def isCancellation : Exception → Bool
  | CancellationException _ => true
  | _ => false

/-- Whether `catch (const ad_utility::detail::AllocationExceedsLimitException&)` handles
the exception. -/
def isAllocationExceedsLimit : Exception → Bool
  | AllocationExceedsLimitException _ => true
  | _ => false

/-- Whether `catch (const std::exception&)` handles the failure: every exception, but not
undefined behaviour. -/
def isStdException : Exception → Bool
  | UndefinedBehaviour _ => false
  | _ => true

end Exception

/-! ## JSON values (`nlohmann::json`) -/

/-- A JSON value.  An object is the association list of its members; the first entry of a
key is the member of that key. -/
inductive Json where
  | null
  | boolean (b : Bool)
  | number (n : Int)
  | string (s : String)
  | array (elements : List Json)
  | object (members : List (String × Json))

namespace Json

/-- Member access `j[key]` guarded by `j.contains(key)`: the member when `j` is an object
that has it, nothing otherwise (`contains` is false for every non-object). -/
def get? (j : Json) (key : String) : Option Json :=
  match j with
  | object members => members.lookup key
  | _ => none

/-- Method `contains(key)`. -/
def contains (j : Json) (key : String) : Bool :=
  (j.get? key).isSome

/-- Method `at(key)`: throws for a non-object and for a missing key. -/
def at_ (j : Json) (key : String) : Except Exception Json :=
  match j with
  | object members =>
    match members.lookup key with
    | some v => .ok v
    | none => .error (.json_exception "out_of_range.403: key not found")
  | _ => .error (.json_exception "type_error.304: cannot use at() with this type")

/-- Conversion `get<std::string_view>()` / `get<std::string>()`: throws unless the value is
a string. -/
def getString (j : Json) : Except Exception String :=
  match j with
  | string s => .ok s
  | _ => .error (.json_exception "type_error.302: type must be string")

/-- Conversion of the elements of an array to strings, in order; the first element that is
no string throws. -/
def getStrings : List Json → Except Exception (List String)
  | [] => .ok []
  | j :: rest =>
    match j.getString with
    | .error e => .error e
    | .ok s =>
      match getStrings rest with
      | .error e => .error e
      | .ok strings => .ok (s :: strings)

/-- Conversion `get<std::vector<std::string>>()`: throws unless the value is an array all of
whose elements are strings. -/
def getStringVector (j : Json) : Except Exception (List String) :=
  match j with
  | array elements => getStrings elements
  | _ => .error (.json_exception "type_error.302: type must be array")

/-- Method `is_array()`. -/
def is_array (j : Json) : Bool :=
  match j with
  | array _ => true
  | _ => false

end Json

/-! ## Ids, tables, vocabularies -/

/-- The tag of an `Id`. -/
inductive Datatype where
  | Undefined
  | Bool
  | Int
  | Double
  | VocabIndex
  | LocalVocabIndex
  | TextRecordIndex
  | Date
  | GeoPoint
  | WordVocabIndex
  | BlankNodeIndex
  | EncodedVal
  deriving DecidableEq, Repr

/-- Class `ValueId` (`Id` in the sources): a tag and a payload. -/
structure ValueId where
  datatype : Datatype
  bits : Nat
  deriving DecidableEq, Repr

namespace ValueId

/-- Factory `Id::makeUndefined()`. -/
def makeUndefined : ValueId := ⟨Datatype.Undefined, 0⟩

/-- Factory `Id::makeFromBlankNodeIndex(idx)`. -/
def makeFromBlankNodeIndex (idx : Nat) : ValueId := ⟨Datatype.BlankNodeIndex, idx⟩

/-- Accessor `getDatatype()`. -/
def getDatatype (id : ValueId) : Datatype := id.datatype

end ValueId

/-- Class `TripleComponent::Iri`, represented by its bracket-free content. -/
structure Iri where
  content : String
  deriving DecidableEq, Repr

namespace Iri

/-- Factory `Iri::fromIrirefWithoutBrackets(s)`. -/
def fromIrirefWithoutBrackets (s : String) : Iri := ⟨s⟩

/-- Accessor `getContent()`. -/
def getContent (i : Iri) : String := i.content

/-- Method `toStringRepresentation()`: the content in angle brackets. -/
def toStringRepresentation (i : Iri) : String := "<" ++ i.content ++ ">"

end Iri

/-- The optional descriptor of a literal: nothing, a language tag or a datatype. -/
inductive LiteralDescriptor where
  | none
  | languageTag (tag : String)
  | datatype (iri : Iri)
  deriving DecidableEq, Repr

/-- Class `TripleComponent::Literal`: normalized content and descriptor. -/
structure Literal where
  content : String
  descriptor : LiteralDescriptor
  deriving DecidableEq, Repr

/-- Factory `Literal::literalWithNormalizedContent(content, descriptor)`; the one-argument
call of the sources passes no descriptor. -/
def Literal.literalWithNormalizedContent (content : String)
    (descriptor : LiteralDescriptor) : Literal :=
  ⟨content, descriptor⟩

/-- An entry of a vocabulary: an IRI or a literal. -/
inductive LiteralOrIri where
  | iri (i : Iri)
  | literal (l : Literal)
  deriving DecidableEq, Repr

/-- Class `LocalVocab`: the entries created while decoding, in insertion order, and the
blank-node indices handed out through this vocabulary. -/
structure LocalVocab where
  words : List LiteralOrIri
  blankNodes : List Nat
  deriving DecidableEq, Repr

/-- The vocabulary `LocalVocab{}`. -/
def LocalVocab.empty : LocalVocab := ⟨[], []⟩

/-- Modelled from the spec: `LocalVocab::getIndexAndAddIfNotContained` is missing from the
sources.  The entry is inserted "if not already present there"; the index of an entry is its
position and earlier indices stay valid. -/
def LocalVocab.getIndexAndAddIfNotContained (lv : LocalVocab) (w : LiteralOrIri) :
    Nat × LocalVocab :=
  if lv.words.contains w then (lv.words.indexOf w, lv)
  else (lv.words.length, { lv with words := lv.words ++ [w] })

/-- Class `TripleComponent`, the intermediate value of a decoded binding.  The alternative
`id` stands for every alternative that already is an `Id` (blank nodes, inline values). -/
inductive TripleComponent where
  | UNDEF
  | id (i : ValueId)
  | iri (i : Iri)
  | literal (l : Literal)
  deriving DecidableEq, Repr

/-- Modelled from the spec: `TripleComponent::toValueId(vocab, localVocab)` is missing from
the sources.  It converts "the resulting intermediate value into an Id (resolving against the
global vocabulary, inserting into LocalVocab if not already present there)"; `vocab` is the
lookup in the global vocabulary. -/
def TripleComponent.toValueId (tc : TripleComponent) (vocab : LiteralOrIri → Option Nat)
    (localVocab : LocalVocab) : ValueId × LocalVocab :=
  match tc with
  | .UNDEF => (ValueId.makeUndefined, localVocab)
  | .id i => (i, localVocab)
  | .iri i =>
    match vocab (.iri i) with
    | some idx => (⟨Datatype.VocabIndex, idx⟩, localVocab)
    | none =>
      let r := localVocab.getIndexAndAddIfNotContained (.iri i)
      (⟨Datatype.LocalVocabIndex, r.1⟩, r.2)
  | .literal l =>
    match vocab (.literal l) with
    | some idx => (⟨Datatype.VocabIndex, idx⟩, localVocab)
    | none =>
      let r := localVocab.getIndexAndAddIfNotContained (.literal l)
      (⟨Datatype.LocalVocabIndex, r.1⟩, r.2)

/-- Class `IdTable`: a fixed number of columns and the rows in arrival order. -/
structure IdTable where
  numColumns_ : Nat
  rows : List (List ValueId)
  deriving DecidableEq, Repr

namespace IdTable

/-- Constructor `IdTable{numColumns, allocator}`: no rows. -/
def mk0 (numColumns : Nat) : IdTable := ⟨numColumns, []⟩

/-- Accessor `numColumns()`. -/
def numColumns (t : IdTable) : Nat := t.numColumns_

/-- Accessor `size()` / `numRows()`. -/
def size (t : IdTable) : Nat := t.rows.length

/-- Method `emplace_back()`: appends one row whose cells are not initialized; `garbage` is
what the fresh cells happen to hold. -/
def emplace_back (t : IdTable) (garbage : ValueId) : IdTable :=
  { t with rows := t.rows ++ [List.replicate t.numColumns_ garbage] }

/-- Read access `t(row, col)`; nothing outside the table. -/
def get? (t : IdTable) (row col : Nat) : Option ValueId :=
  match t.rows[row]? with
  | some r => r[col]?
  | none => none

/-- Write access `t(row, col) = id`; nothing when the cell is outside the table (undefined
behaviour in the sources). -/
def set? (t : IdTable) (row col : Nat) (id : ValueId) : Option IdTable :=
  match t.rows[row]? with
  | some r =>
    if col < r.length then some { t with rows := t.rows.set row (r.set col id) } else none
  | none => none

/-- Method `clear()`: drops the rows, keeps the number of columns. -/
def clear (t : IdTable) : IdTable := { t with rows := [] }

end IdTable

/-- A pair `Result::IdTableVocabPair`: a table and the vocabulary its local entries live in. -/
structure IdTableVocabPair where
  idTable_ : IdTable
  localVocab_ : LocalVocab
  deriving DecidableEq, Repr

/-! ## Strings -/

/-- Replaces the last character, as `s.back() = c` does on a non-empty string. -/
def setBack : List Char → Char → List Char
  | [], _ => []
  | [_], c => [c]
  | x :: y :: rest, c => x :: setBack (y :: rest) c

/-- Method `std::string::starts_with(p)`. -/
def starts_with (s p : String) : Bool :=
  p.data.isPrefixOf s.data

/-- Modelled from the spec: `ad_utility::utf8ToLower` is missing from the sources; the spec
compares "case-insensitively", here by lower-casing every character. -/
def utf8ToLower (s : String) : String :=
  String.mk (s.data.map Char.toLower)

/-- Call `absl::StrJoin(parts, sep)`. -/
def StrJoin (parts : List String) (sep : String) : String :=
  sep.intercalate parts

/-- Equality of two `ad_utility::HashSet`s, each given by the list of the elements that
were inserted into it. -/
def hashSetEq {α : Type} [DecidableEq α] (a b : List α) : Bool :=
  a.all (fun x => decide (x ∈ b)) && b.all (fun x => decide (x ∈ a))

/-! ## The clause, the environment and the global state -/

/-- Class `Variable`: a SPARQL variable, given by its name with the leading question mark.
The constructor stores the name; its optional check of the name is outside the embedded
sources and not part of the embedding. -/
structure Variable where
  name : String
  deriving DecidableEq, Repr

/-- The call `v.name().substr(1)`: the name without its first character (a variable name is
never empty, so `substr` does not throw). -/
def Variable.nameWithoutQuestionMark (v : Variable) : String :=
  String.mk (v.name.data.drop 1)

/-- Struct `parsedQuery::Service`: the parsed SERVICE clause. -/
structure parsedQuery.Service where
  visibleVariables_ : List Variable
  serviceIri_ : Iri
  prologue_ : String
  graphPatternAsString_ : String
  silent_ : Bool
  deriving DecidableEq, Repr

/-- Class `ad_utility::httpUtils::Url`, reduced to its textual form. -/
structure Url where
  asString : String
  deriving DecidableEq, Repr

/-- The arguments of one call of the transport function (`SendRequestType`). -/
structure HttpRequest where
  url : Url
  method : String
  postData : String
  contentTypeHeader : String
  acceptHeader : String
  deriving DecidableEq, Repr

/-- Struct `HttpOrHttpsResponse`; the body is the sequence of the received pieces. -/
structure HttpOrHttpsResponse where
  status_ : Nat
  contentType_ : String
  body_ : List String
  deriving DecidableEq, Repr

/-- Modelled from the spec: `readResponseHead` is missing from the sources; it gives "up to
100 bytes" of the start of the raw response body. -/
def HttpOrHttpsResponse.readResponseHead (r : HttpOrHttpsResponse) (n : Nat) : String :=
  String.mk ((String.join r.body_).data.take n)

/-- The status `boost::beast::http::status::ok`. -/
def status_ok : Nat := 200

namespace LazyJsonParser

/-- Struct `LazyJsonParser::Details`: excerpts of the raw body seen so far. -/
structure Details where
  first100_ : String
  last100_ : String
  deriving DecidableEq, Repr

/-- The generator returned by `LazyJsonParser::parse`: the fragments it will deliver, each
with the details as of its delivery; then the stream either ends or the pull throws
`failure`; `details` are the details as of that last pull. -/
structure Generator where
  parts : List (Json × Details)
  failure : Option Exception
  details : Details

end LazyJsonParser

/-- The runtime parameters the operator reads. -/
structure RuntimeParameters where
  cacheServiceResults : Bool
  syntaxTestMode : Bool
  serviceMaxValueRows : Nat
  deriving DecidableEq, Repr

/-- The collaborators of the operator that are not part of the embedded sources. -/
structure Context where
  /-- Call `RuntimeParameters()`. -/
  runtimeParameters : RuntimeParameters
  /-- Lookup in the global vocabulary `getIndex().getVocab()`. -/
  vocab : LiteralOrIri → Option Nat
  /-- What a cell of a freshly emplaced table row holds. -/
  uninitialized : ValueId
  /-- State of the cancellation handle as seen by the polls, in the order of the polls. -/
  cancelled : Nat → Bool
  /-- Call `TurtleParser<TokenizerCtre>::literalAndDatatypeToTripleComponent`. -/
  literalAndDatatypeToTripleComponent : String → Iri → Except Exception TripleComponent
  /-- Method `nlohmann::json::dump()`. -/
  dump : Json → String
  /-- Call `ExportQueryExecutionTrees::idToStringAndType`. -/
  idToStringAndType : ValueId → LocalVocab → Option (String × Option String)
  /-- Call `RdfEscaping::validRDFLiteralFromNormalized`. -/
  validRDFLiteralFromNormalized : String → String
  /-- Constructor of `ad_utility::httpUtils::Url`; it throws for an invalid URL. -/
  makeUrl : String → Except Exception Url
  /-- Call `boost::beast::http::obsolete_reason`. -/
  obsolete_reason : Nat → String
  /-- Call `LazyJsonParser::parse(body, \x7b"results", "bindings"\x7d)`. -/
  parse : List String → LazyJsonParser.Generator

/-- The global state the operator acts on. -/
structure World where
  /-- Number of polls of the cancellation handle so far. -/
  cancellationPolls : Nat
  /-- State of the `BlankNodeManager`: the number of blank-node indices handed out so far. -/
  blankNodeManager : Nat
  /-- The calls of the transport function so far, oldest first. -/
  sentRequests : List HttpRequest
  deriving DecidableEq, Repr

/-- Modelled from the spec: `Operation::checkCancellation` is missing from the sources.  "A
shared cancellation signal is polled at well-defined points and raises immediately when
set." -/
def checkCancellation (ctx : Context) (w : World) : Except Exception Unit × World :=
  (if ctx.cancelled w.cancellationPolls then
      .error (.CancellationException "Operation was cancelled")
    else .ok (),
   { w with cancellationPolls := w.cancellationPolls + 1 })

/-- Modelled from the spec: `LocalVocab::getBlankNodeIndex` is missing from the sources; it
must "allocate a new local blank-node identifier": the next unused index of the manager. -/
def LocalVocab.getBlankNodeIndex (lv : LocalVocab) (w : World) : Nat × LocalVocab × World :=
  (w.blankNodeManager,
   { lv with blankNodes := lv.blankNodes ++ [w.blankNodeManager] },
   { w with blankNodeManager := w.blankNodeManager + 1 })

/-- The map `ad_utility::HashMap<std::string, Id>` from remote blank-node labels to Ids. -/
abbrev BlankNodeMap := List (String × ValueId)

namespace BlankNodeMap

/-- Method `try_emplace(key, v)`: inserts only when the key is new and tells whether it
inserted. -/
def try_emplace (m : BlankNodeMap) (key : String) (v : ValueId) : BlankNodeMap × Bool :=
  match m.lookup key with
  | some _ => (m, false)
  | none => ((key, v) :: m, true)

/-- The assignment `it->second = v` for the entry of `key`. -/
def assign (m : BlankNodeMap) (key : String) (v : ValueId) : BlankNodeMap :=
  m.map (fun kv => if kv.1 = key then (kv.1, v) else kv)

/-- The read `it->second` for the entry of `key`. -/
def second (m : BlankNodeMap) (key : String) : ValueId :=
  (m.lookup key).getD ValueId.makeUndefined

end BlankNodeMap

/-! ## Decoding one binding -/

/-- The objects `bindingToTripleComponent` reaches through references and pointers: the
blank-node map, the local vocabulary and the global state. -/
structure Refs where
  blankNodeMap : BlankNodeMap
  localVocab : LocalVocab
  world : World
  deriving DecidableEq, Repr

/-- The literal branch of `Service::bindingToTripleComponent`. -/
def bindingToLiteral (ctx : Context) (binding : Json) (value : String) :
    Except Exception TripleComponent :=
  match binding.get? "datatype" with
  | some dt =>
    match dt.getString with
    | .error e => .error e
    | .ok datatype =>
      ctx.literalAndDatatypeToTripleComponent value (Iri.fromIrirefWithoutBrackets datatype)
  | none =>
    match binding.get? "xml:lang" with
    | some lang =>
      match lang.getString with
      | .error e => .error e
      | .ok tag =>
        .ok (.literal (Literal.literalWithNormalizedContent value (.languageTag tag)))
    | none => .ok (.literal (Literal.literalWithNormalizedContent value .none))

/-- Method `Service::bindingToTripleComponent`.  The returned `Refs` are the referenced
objects after the call, also when the call throws. -/
def bindingToTripleComponent (ctx : Context) (binding : Json) (refs : Refs) :
    Except Exception TripleComponent × Refs :=
  if !binding.contains "type" || !binding.contains "value" then
    (.error (.runtime_error ("Missing type or value field in binding. The binding is: '"
        ++ ctx.dump binding ++ "'")), refs)
  else
    match ((binding.get? "type").getD Json.null).getString with
    | .error e => (.error e, refs)
    | .ok type =>
      match ((binding.get? "value").getD Json.null).getString with
      | .error e => (.error e, refs)
      | .ok value =>
        if type = "literal" then
          (bindingToLiteral ctx binding value, refs)
        else if type = "uri" then
          (.ok (.iri (Iri.fromIrirefWithoutBrackets value)), refs)
        else if type = "bnode" then
          let emplaced := refs.blankNodeMap.try_emplace value ValueId.makeUndefined
          if emplaced.2 then
            let fresh := refs.localVocab.getBlankNodeIndex refs.world
            let map := emplaced.1.assign value (ValueId.makeFromBlankNodeIndex fresh.1)
            (.ok (.id (map.second value)), ⟨map, fresh.2.1, fresh.2.2⟩)
          else
            (.ok (.id (emplaced.1.second value)), { refs with blankNodeMap := emplaced.1 })
        else
          (.error (.runtime_error ("Type " ++ type ++ " is undefined. The binding is: '"
              ++ ctx.dump binding ++ "'")), refs)

/-! ## Decoding one fragment -/

/-- The loop over `colIdx` inside the lambda `writeBindings` of `Service::writeJsonResult`,
from column `colIdx` on; `vars` are the names of the columns from `colIdx` on.  The counter
`numLocalVocabPerColumn` is only written, never read, and is left out. -/
def writeBindingsColumns (ctx : Context) (binding : Json) (rowIdx : Nat) :
    Nat → List String → IdTable → Refs → Except Exception IdTable × Refs
  | _, [], idTable, refs => (.ok idTable, refs)
  | colIdx, var :: vars, idTable, refs =>
    let decoded : Except Exception TripleComponent × Refs :=
      match binding.get? var with
      | some b => bindingToTripleComponent ctx b refs
      | none => (.ok TripleComponent.UNDEF, refs)
    match decoded with
    | (.error e, refs1) => (.error e, refs1)
    | (.ok tc, refs1) =>
      let converted := tc.toValueId ctx.vocab refs1.localVocab
      match idTable.set? rowIdx colIdx converted.1 with
      | none => (.error (.UndefinedBehaviour "idTable(rowIdx, colIdx)"), refs1)
      | some idTable1 =>
        writeBindingsColumns ctx binding rowIdx (colIdx + 1) vars idTable1
          { refs1 with localVocab := converted.2 }

/-- The lambda `writeBindings` of `Service::writeJsonResult`: one row per binding.  The
result is the table and the row counter after the loop. -/
def writeBindings (ctx : Context) (vars : List String) :
    List Json → IdTable → Nat → Refs → Except Exception (IdTable × Nat) × Refs
  | [], idTable, rowIdx, refs => (.ok (idTable, rowIdx), refs)
  | binding :: bindings, idTable, rowIdx, refs =>
    match writeBindingsColumns ctx binding rowIdx 0 vars
        (idTable.emplace_back ctx.uninitialized) refs with
    | (.error e, refs1) => (.error e, refs1)
    | (.ok idTable1, refs1) =>
      match checkCancellation ctx refs1.world with
      | (.error e, w) => (.error e, { refs1 with world := w })
      | (.ok _, w) => writeBindings ctx vars bindings idTable1 (rowIdx + 1) { refs1 with world := w }

/-- The array `partJson["results"]["bindings"]`, when the correctness check of
`Service::writeJsonResult` passes. -/
def resultsBindings (partJson : Json) : Option (List Json) :=
  match partJson.get? "results" with
  | some results =>
    match results.get? "bindings" with
    | some (.array bindings) => some bindings
    | _ => none
  | none => none

/-- The values `writeJsonResult` leaves in the objects it received by pointer or reference. -/
structure Written where
  idTable : IdTable
  localVocab : LocalVocab
  rowIdx : Nat
  deriving DecidableEq, Repr

/-- Method `Service::writeJsonResult`.  The blank-node map is a local variable of the
method: every call starts with an empty map. -/
def writeJsonResult (ctx : Context) (vars : List String) (partJson : Json) (idTable : IdTable)
    (localVocab : LocalVocab) (rowIdx : Nat) (w : World) : Except Exception Written × World :=
  match checkCancellation ctx w with
  | (.error e, w1) => (.error e, w1)
  | (.ok _, w1) =>
    let blankNodeMap : BlankNodeMap := []
    match resultsBindings partJson with
    | none =>
      (.error (.CorrectnessCheck ("partJson.contains(\"results\") && "
        ++ "partJson[\"results\"].contains(\"bindings\") && "
        ++ "partJson[\"results\"][\"bindings\"].is_array()")), w1)
    | some bindings =>
      match writeBindings ctx vars bindings idTable rowIdx ⟨blankNodeMap, localVocab, w1⟩ with
      | (.error e, refs) => (.error e, refs.world)
      | (.ok written, refs) =>
        match checkCancellation ctx refs.world with
        | (.error e, w2) => (.error e, w2)
        | (.ok _, w2) => (.ok ⟨written.1, refs.localVocab, written.2⟩, w2)

/-! ## Errors with context and the check of the header -/

/-- Method `Service::throwErrorWithContext`: the value is what the call throws (it never
returns).  The URL is constructed first, and its constructor may throw. -/
def throwErrorWithContext (clause : parsedQuery.Service) (ctx : Context)
    (msg first100 last100 : String) : Exception :=
  match ctx.makeUrl clause.serviceIri_.getContent with
  | .error e => e
  | .ok serviceUrl =>
    .runtime_error ("Error while executing a SERVICE request to <" ++ serviceUrl.asString
      ++ ">: " ++ msg ++ ". First 100 bytes of the response: '" ++ first100
      ++ (if last100 = "" then "'" else ", last 100 bytes: '" ++ last100 ++ "'"))

/-- Method `Service::verifyVariables`. -/
def verifyVariables (clause : parsedQuery.Service) (ctx : Context) (head : Json)
    (details : LazyJsonParser.Details) : Except Exception Unit :=
  match (head.at_ "vars").bind Json.getStringVector with
  | .error _ =>
    .error (.runtime_error ("JSON result does not have the expected structure, as its "
      ++ "\"head\" section is not according to the SPARQL "
      ++ "standard. The \"head\" section is: '" ++ ctx.dump head ++ "'."))
  | .ok vars =>
    let responseVars : List Variable := vars.map (fun v => ⟨"?" ++ v⟩)
    let expectedVars : List Variable := clause.visibleVariables_
    if !hashSetEq responseVars expectedVars then
      .error (throwErrorWithContext clause ctx
        ("Header row of JSON result for SERVICE query is \""
          ++ ("?" ++ StrJoin vars " ?") ++ "\", but expected \""
          ++ StrJoin (clause.visibleVariables_.map Variable.name) " "
          ++ "\". Probable cause: The remote endpoint sent a JSON "
          ++ "response that is not according to the SPARQL Standard")
        details.first100_ details.last100_)
    else .ok ()

/-! ## The lazy decode -/

/-- The state captured by the lambda `get` of `Service::computeResultLazily`.  The captured
pointer `service` is represented by the part of the operator the lambda reads, its clause. -/
structure Get where
  service : parsedQuery.Service
  vars : List String
  singleIdTable : Bool
  inputRange : LazyJsonParser.Generator
  localVocab : LocalVocab
  idTable : IdTable
  rowIdx : Nat
  varsChecked : Bool
  resultExists : Bool

/-- Type `Result::IdTableLoopControl`, as far as the lambda uses it. -/
inductive LoopControl where
  | yieldValue (pair : IdTableVocabPair)
  | breakWithValue (pair : IdTableVocabPair)
  | makeBreak

/-- The `while` loop of the lambda `get`, over the fragments `inputRange` still delivers.
It ends with a chunk when the loop body returns one, with nothing when the stream is
exhausted, and with the thrown exception and the parser details as of the throw. -/
def Get.whileLoop (ctx : Context) : List (Json × LazyJsonParser.Details) → Get → World →
    Except (Exception × LazyJsonParser.Details) (Option IdTableVocabPair × Get) × World
  | [], g, w =>
    match g.inputRange.failure with
    | some e => (.error (e, g.inputRange.details), w)
    | none => (.ok (none, { g with inputRange := { g.inputRange with parts := [] } }), w)
  | (partJson, details) :: rest, g, w =>
    let headChecked : Except Exception Bool :=
      match partJson.get? "head" with
      | some head =>
        if g.varsChecked then .error (.CorrectnessCheck "!varsChecked")
        else
          match verifyVariables g.service ctx head details with
          | .error e => .error e
          | .ok _ => .ok true
      | none => .ok g.varsChecked
    match headChecked with
    | .error e => (.error (e, details), w)
    | .ok varsChecked =>
      match writeJsonResult ctx g.vars partJson g.idTable g.localVocab g.rowIdx w with
      | (.error e, w1) => (.error (e, details), w1)
      | (.ok written, w1) =>
        if !g.singleIdTable then
          (.ok (some ⟨written.idTable, written.localVocab⟩,
            { g with
              inputRange := { g.inputRange with parts := rest }
              idTable := written.idTable.clear
              localVocab := LocalVocab.empty
              rowIdx := 0
              varsChecked := varsChecked
              resultExists := true }), w1)
        else
          Get.whileLoop ctx rest
            { g with
              idTable := written.idTable
              localVocab := written.localVocab
              rowIdx := written.rowIdx
              varsChecked := varsChecked
              resultExists := true } w1

/-- One call of the lambda `get` of `Service::computeResultLazily`. -/
def Get.call (ctx : Context) (g : Get) (w : World) :
    Except Exception (LoopControl × Get) × World :=
  match Get.whileLoop ctx g.inputRange.parts g w with
  | (.error (.LazyJsonParserError what, details), w1) =>
    (.error (throwErrorWithContext g.service ctx
      ("Parser failed with error: '" ++ what ++ "'") details.first100_ details.last100_), w1)
  | (.error (e, _), w1) => (.error e, w1)
  | (.ok (some pair, g1), w1) => (.ok (.yieldValue pair, g1), w1)
  | (.ok (none, g1), w1) =>
    if !g1.resultExists then
      (.error (throwErrorWithContext g1.service ctx
        ("JSON result does not have the expected structure (results "
          ++ "section " ++ "missing)")
        g1.inputRange.details.first100_ g1.inputRange.details.last100_), w1)
    else if !g1.varsChecked then
      (.error (throwErrorWithContext g1.service ctx
        ("JSON result does not have the expected structure (head "
          ++ "section " ++ "missing)")
        g1.inputRange.details.first100_ g1.inputRange.details.last100_), w1)
    else if g1.singleIdTable then
      (.ok (.breakWithValue ⟨g1.idTable, g1.localVocab⟩, g1), w1)
    else (.ok (.makeBreak, g1), w1)

/-- Modelled from the spec: `ad_utility::InputRangeFromLoopControlGet` is missing from the
sources.  It is the "explicit state-machine value carried and advanced by each pull next
chunk call": the lambda and whether the lambda has asked to stop. -/
structure InputRangeFromLoopControlGet where
  getter : Get
  finished : Bool

/-- Modelled from the spec: one pull of the next chunk.  A yielded value is delivered and
the range goes on; a value delivered with a break is the last one; a break ends the range. -/
def InputRangeFromLoopControlGet.get (ctx : Context) (r : InputRangeFromLoopControlGet)
    (w : World) : Except Exception (Option IdTableVocabPair × InputRangeFromLoopControlGet)
      × World :=
  if r.finished then (.ok (none, r), w)
  else
    match r.getter.call ctx w with
    | (.error e, w1) => (.error e, w1)
    | (.ok (.yieldValue pair, g), w1) => (.ok (some pair, ⟨g, false⟩), w1)
    | (.ok (.breakWithValue pair, g), w1) => (.ok (some pair, ⟨g, true⟩), w1)
    | (.ok (.makeBreak, g), w1) => (.ok (none, ⟨g, true⟩), w1)

/-- Pulls chunks until the range ends or throws, at most `fuel` pulls; `none` when the
pulls did not suffice. -/
def InputRangeFromLoopControlGet.drain (ctx : Context) :
    Nat → InputRangeFromLoopControlGet → World →
      Option (Except Exception (List IdTableVocabPair) × World)
  | 0, _, _ => none
  | fuel + 1, r, w =>
    match r.get ctx w with
    | (.error e, w1) => some (.error e, w1)
    | (.ok (none, _), w1) => some (.ok [], w1)
    | (.ok (some pair, r1), w1) =>
      match InputRangeFromLoopControlGet.drain ctx fuel r1 w1 with
      | none => none
      | some (.error e, w2) => some (.error e, w2)
      | some (.ok pairs, w2) => some (.ok (pair :: pairs), w2)

/-- Full consumption of a lazy result: every pull delivers a chunk of a further fragment or
ends the range, so one pull per pending fragment and two more suffice. -/
def InputRangeFromLoopControlGet.consume (ctx : Context) (r : InputRangeFromLoopControlGet)
    (w : World) : Option (Except Exception (List IdTableVocabPair) × World) :=
  r.drain ctx (r.getter.inputRange.parts.length + 2) w

/-- Modelled from the spec: `ad_utility::getSingleElement` is missing from the sources.  It
returns the only element of a range ("exactly one chunk") and fails a correctness check
when the range has no element or more than one. -/
def getSingleElement (ctx : Context) (r : InputRangeFromLoopControlGet) (w : World) :
    Except Exception IdTableVocabPair × World :=
  match r.get ctx w with
  | (.error e, w1) => (.error e, w1)
  | (.ok (none, _), w1) => (.error (.CorrectnessCheck "it != view.end()"), w1)
  | (.ok (some pair, r1), w1) =>
    match r1.get ctx w1 with
    | (.error e, w2) => (.error e, w2)
    | (.ok (none, _), w2) => (.ok pair, w2)
    | (.ok (some _, _), w2) => (.error (.CorrectnessCheck "++it == view.end()"), w2)

/-- Class `Result`: a fully materialized table with its vocabulary, or a lazy sequence of
chunks; both with the columns the result is sorted on. -/
inductive Result where
  | materialized (idTable : IdTable) (sortedBy : List Nat) (localVocab : LocalVocab)
  | lazy (idTables : InputRangeFromLoopControlGet) (sortedBy : List Nat)

/-- Method `Result::isFullyMaterialized()`. -/
def Result.isFullyMaterialized : Result → Bool
  | .materialized _ _ _ => true
  | .lazy _ _ => false

/-! ## The operator -/

/-- Whether a column may hold undefined values. -/
inductive UndefStatus where
  | AlwaysDefined
  | PossiblyUndefined
  deriving DecidableEq, Repr

/-- Struct `ColumnIndexAndTypeInfo`. -/
structure ColumnIndexAndTypeInfo where
  columnIndex_ : Nat
  mightContainUndef_ : UndefStatus
  deriving DecidableEq, Repr

/-- Function `makePossiblyUndefinedColumn`. -/
def makePossiblyUndefinedColumn (columnIndex : Nat) : ColumnIndexAndTypeInfo :=
  ⟨columnIndex, UndefStatus.PossiblyUndefined⟩

/-- The map `VariableToColumnMap`; the first entry of a variable is its entry. -/
abbrev VariableToColumnMap := List (Variable × ColumnIndexAndTypeInfo)

/-- The assignment `map[key] = value` of a hash map given as association list. -/
def VariableToColumnMap.insert (map : VariableToColumnMap) (key : Variable)
    (value : ColumnIndexAndTypeInfo) : VariableToColumnMap :=
  (key, value) :: map.filter (fun kv => kv.1 ≠ key)

/-- Struct `Service::SiblingInfo`; `precomputedResult_` is a shared pointer and may be null. -/
structure SiblingInfo where
  precomputedResult_ : Option Result
  variables_ : VariableToColumnMap
  cacheKey_ : String

/-- Class `Service`: the members of the operator. -/
structure Service where
  parsedServiceClause_ : parsedQuery.Service
  getResultFunction_ : HttpRequest → Except Exception HttpOrHttpsResponse
  siblingInfo_ : Option SiblingInfo
  cacheBreaker_ : Nat

namespace Service

/-- Method `Service::getCacheKeyImpl`. -/
def getCacheKeyImpl (s : Service) (ctx : Context) : String :=
  if ctx.runtimeParameters.cacheServiceResults then
    "SERVICE " ++ (if s.parsedServiceClause_.silent_ then "SILENT " else "")
      ++ s.parsedServiceClause_.serviceIri_.toStringRepresentation ++ " \x7b\n"
      ++ s.parsedServiceClause_.prologue_ ++ "\n"
      ++ s.parsedServiceClause_.graphPatternAsString_ ++ "\n\x7d"
  else "SERVICE " ++ toString s.cacheBreaker_

/-- Method `Service::getDescriptor`. -/
def getDescriptor (s : Service) : String :=
  "Service with IRI " ++ s.parsedServiceClause_.serviceIri_.toStringRepresentation

/-- Method `Service::getResultWidth`. -/
def getResultWidth (s : Service) : Nat :=
  s.parsedServiceClause_.visibleVariables_.length

/-- The loop of `Service::computeVariableToColumnMap`, from index `i` on. -/
def computeVariableToColumnMapLoop : Nat → List Variable → VariableToColumnMap →
    VariableToColumnMap
  | _, [], map => map
  | i, v :: rest, map =>
    computeVariableToColumnMapLoop (i + 1) rest (map.insert v (makePossiblyUndefinedColumn i))

/-- Method `Service::computeVariableToColumnMap`. -/
def computeVariableToColumnMap (s : Service) : VariableToColumnMap :=
  computeVariableToColumnMapLoop 0 s.parsedServiceClause_.visibleVariables_ []

/-- Method `Service::getMultiplicity`. -/
def getMultiplicity (_s : Service) (_col : Nat) : Nat := 1

/-- Method `Service::getSizeEstimateBeforeLimit`. -/
def getSizeEstimateBeforeLimit (_s : Service) : Nat := 100000

/-- Method `Service::getCostEstimate`. -/
def getCostEstimate (s : Service) : Nat := 10 * s.getSizeEstimateBeforeLimit

/-- Modelled from the spec: `Service::resultSortedOn` is missing from the sources; the
operator "declares no sort order of its own". -/
def resultSortedOn (_s : Service) : List Nat := []

/-- The position after the first opening brace: `pattern.find` and `remove_prefix`. -/
def afterFirstBrace : List Char → Option (List Char)
  | [] => none
  | c :: rest => if c = Char.ofNat 123 then some rest else afterFirstBrace rest

/-- The match `ctre::starts_with<"[ \t\r\n]*SELECT">(pattern)`. -/
def startsWithSelect (pattern : List Char) : Bool :=
  "SELECT".data.isPrefixOf
    (pattern.dropWhile (fun c => c = ' ' || c = '\t' || c = '\r' || c = '\n'))

/-- Method `Service::pushDownValues`. -/
def pushDownValues (pattern values : String) : Except Exception String :=
  match afterFirstBrace pattern.data with
  | none => .error (.CorrectnessCheck "index != std::string::npos")
  | some rest =>
    if startsWithSelect rest then
      .ok ("\x7b\n" ++ values ++ "\n\x7b" ++ String.mk rest ++ "\n\x7d")
    else .ok ("\x7b\n" ++ values ++ "\n" ++ String.mk rest)

/-- Method `Service::idToValueForValuesClause`. -/
def idToValueForValuesClause (ctx : Context) (id : ValueId) (localVocab : LocalVocab) :
    Except Exception (Option String) :=
  match ctx.idToStringAndType id localVocab with
  | none =>
    if id.getDatatype = Datatype.Undefined then .ok (some "UNDEF")
    else .error (.CorrectnessCheck "id.getDatatype() == Undefined")
  | some (value, xsdType) =>
    match id.getDatatype with
    | .BlankNodeIndex => .ok none
    | .Int => .ok (some value)
    | .Double => .ok (some value)
    | .Bool => .ok (some value)
    | _ =>
      match xsdType with
      | some type => .ok (some ("\"" ++ value ++ "\"^^<" ++ type ++ ">"))
      | none =>
        if starts_with value "<" then .ok (some value)
        else .ok (some (ctx.validRDFLiteralFromNormalized value))

/-- The first loop of `Service::getSiblingValuesClause`: the text of the variable list and
the columns of the common variables. -/
def commonVariables : List Variable → VariableToColumnMap → String → List Nat →
    String × List Nat
  | [], _, vars, commonColumnIndices => (vars, commonColumnIndices)
  | localVar :: rest, siblingVars, vars, commonColumnIndices =>
    match siblingVars.lookup localVar with
    | none => commonVariables rest siblingVars vars commonColumnIndices
    | some info =>
      commonVariables rest siblingVars (vars ++ localVar.name ++ " ")
        (commonColumnIndices ++ [info.columnIndex_])

/-- The lambda `createValueRow` of `Service::getSiblingValuesClause`, from the columns
`commonColumnIndices` on, with the text `row` built so far. -/
def createValueRow (ctx : Context) (idTable : IdTable) (localVocab : LocalVocab)
    (rowIndex : Nat) : List Nat → String → Except Exception String
  | [], row => .ok (String.mk (setBack row.data ')'))
  | columnIdx :: rest, row =>
    match idTable.get? rowIndex columnIdx with
    | none => .error (.UndefinedBehaviour "siblingResult->idTable()(rowIndex, columnIdx)")
    | some id =>
      match idToValueForValuesClause ctx id localVocab with
      | .error e => .error e
      | .ok none => .ok ""
      | .ok (some str) => createValueRow ctx idTable localVocab rowIndex rest (row ++ str ++ " ")

/-- The loop over the rows of the sibling table in `Service::getSiblingValuesClause`. -/
def valuesRows (ctx : Context) (idTable : IdTable) (localVocab : LocalVocab)
    (commonColumnIndices : List Nat) :
    List Nat → List String → String → World → Except Exception String × World
  | [], _, values, w => (.ok values, w)
  | rowIndex :: rest, rowSet, values, w =>
    match createValueRow ctx idTable localVocab rowIndex commonColumnIndices "(" with
    | .error e => (.error e, w)
    | .ok row =>
      if row = "" || rowSet.contains row then
        valuesRows ctx idTable localVocab commonColumnIndices rest rowSet values w
      else
        match checkCancellation ctx w with
        | (.error e, w1) => (.error e, w1)
        | (.ok _, w1) =>
          valuesRows ctx idTable localVocab commonColumnIndices rest (row :: rowSet)
            (values ++ row ++ " ") w1

/-- Method `Service::getSiblingValuesClause`. -/
def getSiblingValuesClause (s : Service) (ctx : Context) (w : World) :
    Except Exception (Option String) × World :=
  match s.siblingInfo_ with
  | none => (.ok none, w)
  | some info =>
    match info.precomputedResult_ with
    | none => (.error (.CorrectnessCheck "siblingResult != nullptr"), w)
    | some siblingResult =>
      match checkCancellation ctx w with
      | (.error e, w1) => (.error e, w1)
      | (.ok _, w1) =>
        let common := commonVariables s.parsedServiceClause_.visibleVariables_
          info.variables_ "(" []
        let vars := String.mk (setBack common.1.data ')')
        match checkCancellation ctx w1 with
        | (.error e, w2) => (.error e, w2)
        | (.ok _, w2) =>
          match siblingResult with
          | .lazy _ _ => (.error (.other "idTable() of a result that is not materialized"), w2)
          | .materialized idTable _ localVocab =>
            match valuesRows ctx idTable localVocab common.2 (List.range idTable.size) []
                " \x7b " w2 with
            | (.error e, w3) => (.error e, w3)
            | (.ok values, w3) => (.ok (some ("VALUES " ++ vars ++ values ++ "\x7d . ")), w3)

/-- Method `Service::getGraphPattern`. -/
def getGraphPattern (s : Service) (ctx : Context) (w : World) :
    Except Exception String × World :=
  match s.getSiblingValuesClause ctx w with
  | (.error e, w1) => (.error e, w1)
  | (.ok (some valuesClause), w1) =>
    (pushDownValues s.parsedServiceClause_.graphPatternAsString_ valuesClause, w1)
  | (.ok none, w1) => (.ok s.parsedServiceClause_.graphPatternAsString_, w1)

/-- The loop of `Service::makeNeutralElementResultForSilentFail` over the columns, with
`remaining` columns still to write; nothing when a write leaves the table. -/
def makeNeutralElementLoop (width : Nat) : Nat → IdTable → Option IdTable
  | 0, idTable => some idTable
  | remaining + 1, idTable =>
    match idTable.set? 0 (width - (remaining + 1)) ValueId.makeUndefined with
    | none => none
    | some idTable1 => makeNeutralElementLoop width remaining idTable1

/-- Method `Service::makeNeutralElementResultForSilentFail`. -/
def makeNeutralElementResultForSilentFail (s : Service) (ctx : Context) :
    Except Exception Result :=
  let idTable := (IdTable.mk0 s.getResultWidth).emplace_back ctx.uninitialized
  match makeNeutralElementLoop s.getResultWidth s.getResultWidth idTable with
  | none => .error (.UndefinedBehaviour "idTable(0, colIdx)")
  | some idTable1 => .ok (.materialized idTable1 s.resultSortedOn LocalVocab.empty)

/-- Method `Service::computeResultLazily`: the range over the lambda `get` in its initial
state. -/
def computeResultLazily (s : Service) (vars : List String) (body : LazyJsonParser.Generator)
    (singleIdTable : Bool) : InputRangeFromLoopControlGet :=
  { getter :=
      { service := s.parsedServiceClause_
        vars := vars
        singleIdTable := singleIdTable
        inputRange := body
        localVocab := LocalVocab.empty
        idTable := IdTable.mk0 s.getResultWidth
        rowIdx := 0
        varsChecked := false
        resultExists := false }
    finished := false }

/-- The text of the query sent to the endpoint, given the graph pattern. -/
def serviceQuery (s : Service) (graphPattern : String) : String :=
  let visibleVariables := s.parsedServiceClause_.visibleVariables_
  let variablesForSelectClause :=
    if visibleVariables.isEmpty then "*" else StrJoin (visibleVariables.map Variable.name) " "
  s.parsedServiceClause_.prologue_ ++ "\nSELECT " ++ variablesForSelectClause ++ " "
    ++ graphPattern

/-- Method `Service::computeResultImpl`. -/
def computeResultImpl (s : Service) (ctx : Context) (requestLaziness : Bool) (w : World) :
    Except Exception Result × World :=
  if ctx.runtimeParameters.syntaxTestMode then
    (s.makeNeutralElementResultForSilentFail ctx, w)
  else
    match ctx.makeUrl s.parsedServiceClause_.serviceIri_.getContent with
    | .error e => (.error e, w)
    | .ok serviceUrl =>
      match s.getGraphPattern ctx w with
      | (.error e, w1) => (.error e, w1)
      | (.ok graphPattern, w1) =>
        let request : HttpRequest :=
          ⟨serviceUrl, "POST", s.serviceQuery graphPattern, "application/sparql-query",
            "application/sparql-results+json"⟩
        let w2 := { w1 with sentRequests := w1.sentRequests ++ [request] }
        match s.getResultFunction_ request with
        | .error e => (.error e, w2)
        | .ok response =>
          if response.status_ ≠ status_ok then
            (.error (throwErrorWithContext s.parsedServiceClause_ ctx
              ("SERVICE responded with HTTP status code: " ++ toString response.status_
                ++ ", " ++ ctx.obsolete_reason response.status_)
              (response.readResponseHead 100) ""), w2)
          else if !starts_with (utf8ToLower response.contentType_)
              "application/sparql-results+json" then
            (.error (throwErrorWithContext s.parsedServiceClause_ ctx
              ("QLever requires the endpoint of a SERVICE to send the result as "
                ++ "'application/sparql-results+json' but the endpoint sent '"
                ++ response.contentType_ ++ "'")
              (response.readResponseHead 100) ""), w2)
          else
            let expVariableKeys :=
              s.parsedServiceClause_.visibleVariables_.map Variable.nameWithoutQuestionMark
            let body := ctx.parse response.body_
            let generator := s.computeResultLazily expVariableKeys body (!requestLaziness)
            if requestLaziness then (.ok (.lazy generator s.resultSortedOn), w2)
            else
              match getSingleElement ctx generator w2 with
              | (.error e, w3) => (.error e, w3)
              | (.ok pair, w3) =>
                (.ok (.materialized pair.idTable_ s.resultSortedOn pair.localVocab_), w3)

/-- Method `Service::computeResult`: the three `catch` clauses in their order.  Undefined
behaviour is no exception and passes through. -/
def computeResult (s : Service) (ctx : Context) (requestLaziness : Bool) (w : World) :
    Except Exception Result × World :=
  match s.computeResultImpl ctx requestLaziness w with
  | (.ok result, w1) => (.ok result, w1)
  | (.error (.CancellationException what), w1) => (.error (.CancellationException what), w1)
  | (.error (.AllocationExceedsLimitException what), w1) =>
    (.error (.AllocationExceedsLimitException what), w1)
  | (.error (.UndefinedBehaviour what), w1) => (.error (.UndefinedBehaviour what), w1)
  | (.error e, w1) =>
    if s.parsedServiceClause_.silent_ then (s.makeNeutralElementResultForSilentFail ctx, w1)
    else (.error e, w1)

/-- Modelled from the spec: the constructor `Service::Service`.  The initializer of
`cacheBreaker_` is in the header, which is missing from the sources; the spec calls it "an
operator-instance-unique cache breaker token": the constructor takes the next value of a
counter, `counter` being the state of that counter. -/
def construct (parsedServiceClause : parsedQuery.Service)
    (getResultFunction : HttpRequest → Except Exception HttpOrHttpsResponse) (counter : Nat) :
    Service × Nat :=
  (⟨parsedServiceClause, getResultFunction, none, counter⟩, counter + 1)

/-- Method `Service::cloneImpl`: a newly constructed operator with the same clause and
transport function, whose `cacheBreaker_` is then overwritten with that of the original. -/
def cloneImpl (s : Service) (counter : Nat) : Service × Nat :=
  let constructed := construct s.parsedServiceClause_ s.getResultFunction_ counter
  ({ constructed.1 with cacheBreaker_ := s.cacheBreaker_ }, constructed.2)

end Service

/-! ## The sibling of a SERVICE -/

/-- Enum `ComputationMode`, as far as `Service::precomputeSiblingResult` uses it. -/
inductive ComputationMode where
  | FULLY_MATERIALIZED
  | LAZY_IF_SUPPORTED
  deriving DecidableEq, Repr

/-- Modelled from the spec: the input ranges behind `Result::LazyResult` are missing from the
sources.  A lazy result is "a pull-based sequence" that "may be consumed exactly once": a
stream delivers its pending chunks in order and then ends or throws; the join of two views
delivers "already-read chunks concatenated with the remaining unread stream". -/
inductive LazyResult where
  | range (pending : List IdTableVocabPair) (failure : Option Exception)
  | join (first second : LazyResult)
  deriving DecidableEq, Repr

namespace LazyResult

/-- Modelled from the spec: one pull `get()`, the next chunk or nothing at the end, and the
range after the pull. -/
def get : LazyResult → Except Exception (Option IdTableVocabPair × LazyResult)
  | .range (pair :: rest) failure => .ok (some pair, .range rest failure)
  | .range [] (some e) => .error e
  | .range [] none => .ok (none, .range [] none)
  | .join first second =>
    match first.get with
    | .error e => .error e
    | .ok (some pair, first1) => .ok (some pair, .join first1 second)
    | .ok (none, first1) =>
      match second.get with
      | .error e => .error e
      | .ok (out, second1) => .ok (out, .join first1 second1)

/-- The number of chunks the range can still deliver. -/
def numPending : LazyResult → Nat
  | .range pending _ => pending.length
  | .join first second => first.numPending + second.numPending

/-- Pulls until the range ends or throws, at most `fuel` pulls: the chunks delivered and the
exception that ended the range, if any; `none` when the pulls did not suffice. -/
def drain : Nat → LazyResult → Option (List IdTableVocabPair × Option Exception)
  | 0, _ => none
  | fuel + 1, r =>
    match r.get with
    | .error e => some ([], some e)
    | .ok (none, _) => some ([], none)
    | .ok (some pair, r1) =>
      match drain fuel r1 with
      | none => none
      | some (pairs, failure) => some (pair :: pairs, failure)

/-- Full consumption of a lazy result: one pull per pending chunk and one more suffice. -/
def consume (r : LazyResult) : Option (List IdTableVocabPair × Option Exception) :=
  r.drain (r.numPending + 1)

end LazyResult

/-- Function `moveToCachingInputRange` on a vector of pairs: the range over them. -/
def moveToCachingInputRange (pairs : List IdTableVocabPair) : LazyResult :=
  .range pairs none

/-- Class `Result` as `Operation::getResult` of an arbitrary operation hands it out: the
lazy alternative holds a type-erased range. -/
inductive OperationResult where
  | materialized (idTable : IdTable) (sortedBy : List Nat) (localVocab : LocalVocab)
  | lazy (idTables : LazyResult) (sortedBy : List Nat)
  deriving DecidableEq, Repr

/-- The concrete operator classes `precomputeSiblingResult` distinguishes by
`std::dynamic_pointer_cast`: a `Sort` with the root operations of its children, a `Service`,
or any other class. -/
inductive OperationKind where
  | Sort (children : List Nat)
  | Service (service : Service)
  | Other

/-- Class `Operation`, as far as `precomputeSiblingResult` uses it.  The members that are no
data of the class are the results of its methods, which are missing from the sources. -/
structure Operation where
  kind : OperationKind
  /-- The details of `runtimeInfo()`. -/
  details : List (String × String)
  /-- Member behind `precomputedResultBecauseSiblingOfService()`. -/
  precomputedResult : Option OperationResult
  /-- Call `getResult(false, mode)`. -/
  getResult : ComputationMode → Except Exception OperationResult
  /-- Call `getExternallyVisibleVariableColumns()`. -/
  getExternallyVisibleVariableColumns : VariableToColumnMap
  /-- Call `getCacheKey()`. -/
  getCacheKey : String
  /-- Call `getResultWidth()` of an operation that is no `Service`. -/
  resultWidth : Nat

/-- The virtual call `getResultWidth()`. -/
def Operation.getResultWidth (op : Operation) : Nat :=
  match op.kind with
  | .Service service => service.getResultWidth
  | _ => op.resultWidth

/-- Modelled from the spec: `RuntimeInformation::addDetail` is missing from the sources; it
must "record on both operators' diagnostics whether the optimization was applied": the
detail `key` is set to `value`. -/
def Operation.addDetail (op : Operation) (key value : String) : Operation :=
  { op with details := (key, value) :: op.details.filter (fun kv => kv.1 ≠ key) }

/-- The operations of a query plan.  A `std::shared_ptr<Operation>` is the position of the
operation in `operations` (a position outside is the null pointer); `resultRequests` are
the calls of `getResult` so far, oldest first. -/
structure Plan where
  operations : List Operation
  resultRequests : List (Nat × ComputationMode)

namespace Plan

/-- A write through the pointer `op`. -/
def modify (plan : Plan) (op : Nat) (f : Operation → Operation) : Plan :=
  match plan.operations[op]? with
  | some operation => { plan with operations := plan.operations.set op (f operation) }
  | none => plan

/-- The cast `std::dynamic_pointer_cast<Service>(op)` as a truth value. -/
def isService (plan : Plan) (op : Nat) : Bool :=
  match plan.operations[op]? with
  | some operation =>
    match operation.kind with
    | .Service _ => true
    | _ => false
  | none => false

/-- The call `service->siblingInfo_.emplace(...)`. -/
def emplaceSiblingInfo (plan : Plan) (service : Nat) (info : SiblingInfo) : Plan :=
  plan.modify service (fun operation =>
    match operation.kind with
    | .Service s => { operation with kind := .Service { s with siblingInfo_ := some info } }
    | _ => operation)

/-- The member `siblingInfo_` of the operation `op`, when it is a `Service`. -/
def siblingInfo (plan : Plan) (op : Nat) : Option SiblingInfo :=
  match plan.operations[op]? with
  | some operation =>
    match operation.kind with
    | .Service s => s.siblingInfo_
    | _ => none
  | none => none

/-- The member behind `precomputedResultBecauseSiblingOfService()` of the operation `op`. -/
def precomputedResult (plan : Plan) (op : Nat) : Option OperationResult :=
  match plan.operations[op]? with
  | some operation => operation.precomputedResult
  | none => none

/-- The detail `key` of the runtime information of the operation `op`. -/
def detail (plan : Plan) (op : Nat) (key : String) : Option String :=
  match plan.operations[op]? with
  | some operation => operation.details.lookup key
  | none => none

end Plan

/-- Modelled from the spec: `IdTable::insertAtEnd` is missing from the sources; it must
"concatenate all chunks into one materialized table". -/
def IdTable.insertAtEnd (t other : IdTable) : IdTable :=
  { t with rows := t.rows ++ other.rows }

/-- Modelled from the spec: `LocalVocab::mergeWith` is missing from the sources; "merging
two LocalVocabs concatenates their entries". -/
def LocalVocab.mergeWith (lv other : LocalVocab) : LocalVocab :=
  ⟨lv.words ++ other.words, lv.blankNodes ++ other.blankNodes⟩

namespace Service

/-- The lambda `skipSortOperation` of `Service::precomputeSiblingResult`: the pointer after
the call. -/
def skipSortOperation (plan : Plan) (op : Nat) : Except Exception Nat :=
  match plan.operations[op]? with
  | some operation =>
    match operation.kind with
    | .Sort children =>
      match children with
      | [child] => .ok child
      | _ => .error (.CorrectnessCheck "children.size() == 1")
    | _ => .ok op
  | none => .ok op

/-- The lambda `addRuntimeInfo` of `Service::precomputeSiblingResult`. -/
def addRuntimeInfo (plan : Plan) (service sibling : Nat) (siblingUsed : Bool) : Plan :=
  let v := if siblingUsed then "yes" else "no"
  (plan.modify service (fun op => op.addDetail "optimized-with-sibling-result" v)).modify
    sibling (fun op => op.addDetail "used-to-optimize-service-sibling" v)

/-- How the `while` loop of `Service::precomputeSiblingResult` ends: by the `return` inside
(the threshold is exceeded) or with the generator exhausted. -/
inductive SiblingLoop where
  | exceeded (resultPairs : List IdTableVocabPair) (generator : LazyResult)
  | exhausted (resultPairs : List IdTableVocabPair) (rows : Nat)
  deriving DecidableEq, Repr

/-- The `while` loop of `Service::precomputeSiblingResult`, at most `fuel` pulls. -/
def precomputeLoop (maxValueRows : Nat) :
    Nat → LazyResult → Nat → List IdTableVocabPair → Option (Except Exception SiblingLoop)
  | 0, _, _, _ => none
  | fuel + 1, generator, rows, resultPairs =>
    match generator.get with
    | .error e => some (.error e)
    | .ok (none, _) => some (.ok (.exhausted resultPairs rows))
    | .ok (some pair, generator1) =>
      let rows1 := rows + pair.idTable_.size
      let resultPairs1 := resultPairs ++ [pair]
      if rows1 > maxValueRows then some (.ok (.exceeded resultPairs1 generator1))
      else precomputeLoop maxValueRows fuel generator1 rows1 resultPairs1

/-- The `for` loop of `Service::precomputeSiblingResult` that fills `siblingPair`. -/
def concatenatePairs : List IdTableVocabPair → IdTableVocabPair → IdTableVocabPair
  | [], siblingPair => siblingPair
  | pair :: rest, siblingPair =>
    concatenatePairs rest
      ⟨siblingPair.idTable_.insertAtEnd pair.idTable_,
        siblingPair.localVocab_.mergeWith pair.localVocab_⟩

/-- The part of `Service::precomputeSiblingResult` after the choice of `service` and
`sibling`: from the call of `getResult` on; `none` when the pulls granted to the `while` loop
did not suffice (one pull per pending chunk and one more are granted). -/
def precomputeFor (ctx : Context) (service sibling : Nat) (requestLaziness : Bool)
    (plan : Plan) : Option (Except Exception Unit × Plan) :=
  match plan.operations[sibling]? with
  | none => some (.error (.UndefinedBehaviour "sibling->getResult"), plan)
  | some siblingOperation =>
    let mode :=
      if requestLaziness then ComputationMode.LAZY_IF_SUPPORTED
      else ComputationMode.FULLY_MATERIALIZED
    let plan1 : Plan :=
      { plan with resultRequests := plan.resultRequests ++ [(sibling, mode)] }
    match siblingOperation.getResult mode with
    | .error e => some (.error e, plan1)
    | .ok (.materialized idTable sortedBy localVocab) =>
      let resultIsSmall : Bool :=
        decide (idTable.size ≤ ctx.runtimeParameters.serviceMaxValueRows)
      let plan2 :=
        if resultIsSmall then
          plan1.emplaceSiblingInfo service
            ⟨some (.materialized idTable sortedBy localVocab),
              siblingOperation.getExternallyVisibleVariableColumns,
              siblingOperation.getCacheKey⟩
        else plan1
      let plan3 := plan2.modify sibling (fun op =>
        { op with precomputedResult := some (.materialized idTable sortedBy localVocab) })
      some (.ok (), addRuntimeInfo plan3 service sibling resultIsSmall)
    | .ok (.lazy idTables sortedBy) =>
      match precomputeLoop ctx.runtimeParameters.serviceMaxValueRows
          (idTables.numPending + 1) idTables 0 [] with
      | none => none
      | some (.error e) => some (.error e, plan1)
      | some (.ok (.exceeded resultPairs generator)) =>
        let joined : OperationResult :=
          .lazy (.join (moveToCachingInputRange resultPairs) generator) sortedBy
        let plan2 := plan1.modify sibling (fun op =>
          { op with precomputedResult := some joined })
        some (.ok (), addRuntimeInfo plan2 service sibling false)
      | some (.ok (.exhausted resultPairs _)) =>
        let siblingPair := concatenatePairs resultPairs
          ⟨IdTable.mk0 siblingOperation.getResultWidth, LocalVocab.empty⟩
        let plan2 := plan1.emplaceSiblingInfo service
          ⟨some (.materialized siblingPair.idTable_ sortedBy siblingPair.localVocab_),
            siblingOperation.getExternallyVisibleVariableColumns,
            siblingOperation.getCacheKey⟩
        let shared : OperationResult :=
          .materialized siblingPair.idTable_ sortedBy siblingPair.localVocab_
        let plan3 := plan2.modify sibling (fun op =>
          { op with precomputedResult := some shared })
        some (.ok (), addRuntimeInfo plan3 service sibling true)

/-- Method `Service::precomputeSiblingResult`, up to the choice of `service` and
`sibling`. -/
def precomputeSiblingResult (ctx : Context) (left right : Nat) (rightOnly : Bool)
    (requestLaziness : Bool) (plan : Plan) : Option (Except Exception Unit × Plan) :=
  if !(decide (left < plan.operations.length) && decide (right < plan.operations.length)) then
    some (.error (.CorrectnessCheck "left && right"), plan)
  else
    match skipSortOperation plan left with
    | .error e => some (.error e, plan)
    | .ok left1 =>
      match skipSortOperation plan right with
      | .error e => some (.error e, plan)
      | .ok right1 =>
        let a := plan.isService left1
        let b := plan.isService right1
        if ctx.runtimeParameters.cacheServiceResults || (rightOnly && !b)
            || (!rightOnly && a == b) then some (.ok (), plan)
        else if a then precomputeFor ctx left1 right1 requestLaziness plan
        else if b then precomputeFor ctx right1 left1 requestLaziness plan
        else some (.error (.CorrectnessCheck "b"), plan)

end Service

/-! ## The entries of a VALUES clause -/

/-- The entries "in the order of first occurrence", every entry once: the first element,
then the first occurrences among the others that differ from it. -/
def firstOccurrences : List String → List String
  | [] => []
  | entry :: rest => entry :: (firstOccurrences rest).filter (fun other => other ≠ entry)

/-! ## What the cells of a chunk denote -/

/-- What a cell of a chunk stands for.  A chunk is "a table together with the LocalVocab that
owns any locally-allocated values referenced inside it": an Id with the tag
`LocalVocabIndex` stands for the entry at its index in the vocabulary of its own chunk,
every other Id stands for itself.  An index outside the vocabulary denotes nothing. -/
inductive Meaning where
  | id (i : ValueId)
  | entry (w : LiteralOrIri)
  | dangling
  deriving DecidableEq, Repr

/-- The meaning of an Id with respect to the vocabulary of its chunk. -/
def LocalVocab.meaning (lv : LocalVocab) (id : ValueId) : Meaning :=
  if id.datatype = Datatype.LocalVocabIndex then
    match lv.words[id.bits]? with
    | some w => .entry w
    | none => .dangling
  else .id id

/-- The rows of a chunk, every cell replaced by what it denotes. -/
def IdTableVocabPair.denotedRows (p : IdTableVocabPair) : List (List Meaning) :=
  p.idTable_.rows.map (fun row => row.map p.localVocab_.meaning)

/-- Every local Id in `rows` is an index into `lv`. -/
def LocalVocab.covers (lv : LocalVocab) (rows : List (List ValueId)) : Prop :=
  ∀ row ∈ rows, ∀ id ∈ row, id.datatype = Datatype.LocalVocabIndex → id.bits < lv.words.length

/-- What the Id of an intermediate value denotes: an entry of the global vocabulary is its
Id there, any other IRI or literal is itself. -/
def TripleComponent.meaning (tc : TripleComponent) (vocab : LiteralOrIri → Option Nat) :
    Meaning :=
  match tc with
  | .UNDEF => .id ValueId.makeUndefined
  | .id i => .id i
  | .iri i =>
    match vocab (.iri i) with
    | some idx => .id ⟨Datatype.VocabIndex, idx⟩
    | none => .entry (.iri i)
  | .literal l =>
    match vocab (.literal l) with
    | some idx => .id ⟨Datatype.VocabIndex, idx⟩
    | none => .entry (.literal l)

/-- What the cell of variable `v` denotes in the row of `binding`, for a binding without
blank nodes: Undefined when `v` has no entry, else the decoded entry. -/
def cellMeaning (ctx : Context) (binding : Json) (v : String) : Meaning :=
  match binding.get? v with
  | none => .id ValueId.makeUndefined
  | some b =>
    match (bindingToTripleComponent ctx b ⟨[], LocalVocab.empty, ⟨0, 0, []⟩⟩).1 with
    | .ok tc => tc.meaning ctx.vocab
    | .error _ => .dangling

/-- The rows a fragment stands for: one row per binding in arrival order, one cell per
variable. -/
def rowsMeaning (ctx : Context) (vars : List String) (partJson : Json) :
    List (List Meaning) :=
  ((resultsBindings partJson).getD []).map
    (fun binding => vars.map (cellMeaning ctx binding))

/-! ## Two decodes of the same body -/

/-- The Id `id` with its blank-node index moved by `d`; an Id that is no blank node is left
as it is. -/
def ValueId.shiftBlankNode (d : Nat) (id : ValueId) : ValueId :=
  if id.datatype = Datatype.BlankNodeIndex then ⟨Datatype.BlankNodeIndex, id.bits + d⟩ else id

/-- The intermediate value with its blank-node index moved by `d`. -/
def TripleComponent.shiftBlankNode (d : Nat) : TripleComponent → TripleComponent
  | .id i => .id (i.shiftBlankNode d)
  | tc => tc

/-- The vocabulary with the blank-node indices it handed out moved by `d`. -/
def LocalVocab.shiftBlankNodes (d : Nat) (lv : LocalVocab) : LocalVocab :=
  ⟨lv.words, lv.blankNodes.map (fun index => index + d)⟩

/-- The table with every blank-node index moved by `d`: same rows, same cells, and in every
cell that holds a blank node the index `n + d` instead of `n`. -/
def IdTable.shiftBlankNodes (d : Nat) (t : IdTable) : IdTable :=
  ⟨t.numColumns_, t.rows.map (fun row => row.map (ValueId.shiftBlankNode d))⟩

/-- The chunk with every blank-node index moved by `d`. -/
def IdTableVocabPair.shiftBlankNodes (d : Nat) (p : IdTableVocabPair) : IdTableVocabPair :=
  ⟨p.idTable_.shiftBlankNodes d, p.localVocab_.shiftBlankNodes d⟩

/-- The state of the lambda `get` with every blank-node index moved by `d`. -/
def Get.shiftBlankNodes (d : Nat) (g : Get) : Get :=
  { g with
    localVocab := g.localVocab.shiftBlankNodes d
    idTable := g.idTable.shiftBlankNodes d }

/-- Every blank node in `rows` has an index from `lo` up to, but not including, `hi`. -/
def blankNodesWithin (lo hi : Nat) (rows : List (List ValueId)) : Prop :=
  ∀ row ∈ rows, ∀ id ∈ row, id.datatype = Datatype.BlankNodeIndex → lo ≤ id.bits ∧ id.bits < hi

/-- The referenced objects of a second decode, seen from a first one: the same labels are
known, with blank-node indices moved by `d`; the same entries are in the vocabulary; the
blank-node manager is `d` indices ahead. -/
def Refs.shiftedBy (d : Nat) (first second : Refs) : Prop :=
  second.blankNodeMap = first.blankNodeMap.map (fun kv => (kv.1, kv.2.shiftBlankNode d))
    ∧ second.localVocab = first.localVocab.shiftBlankNodes d
    ∧ second.world.blankNodeManager = first.world.blankNodeManager + d

/-- Whether the entry of a variable in a binding is a blank node (`"type": "bnode"`);
`none` is a variable without entry. -/
def isBnodeBinding (entry : Option Json) : Bool :=
  match entry with
  | some b =>
    match b.get? "type" with
    | some (.string type) => type == "bnode"
    | _ => false
  | none => false

/-- For every row and every variable of a fragment, whether the cell comes from a blank-node
binding. -/
def bnodeBindings (vars : List String) (partJson : Json) : List (List Bool) :=
  ((resultsBindings partJson).getD []).map
    (fun binding => vars.map (fun v => isBnodeBinding (binding.get? v)))

/-- For every cell of a chunk, whether it holds a blank node. -/
def IdTableVocabPair.blankNodeCells (p : IdTableVocabPair) : List (List Bool) :=
  p.idTable_.rows.map
    (fun row => row.map (fun id => decide (id.datatype = Datatype.BlankNodeIndex)))

/-- The blank nodes known to a decode that started when the manager had handed out `lo`
indices: every label stands for a blank node whose index is at least `lo` and was already
handed out. -/
def Refs.blankNodesFrom (lo : Nat) (refs : Refs) : Prop :=
  lo ≤ refs.world.blankNodeManager ∧
    ∀ kv ∈ refs.blankNodeMap, kv.2.datatype = Datatype.BlankNodeIndex
      ∧ lo ≤ kv.2.bits ∧ kv.2.bits < refs.world.blankNodeManager

/-- For every chunk of a decode, every row and every variable, whether the cell comes from a
blank-node binding: one chunk per fragment, or a single chunk with the rows of all
fragments. -/
def bnodeOrigin (vars : List String) (parts : List (Json × LazyJsonParser.Details))
    (singleIdTable : Bool) : List (List (List Bool)) :=
  if singleIdTable then [(parts.map (fun p => bnodeBindings vars p.1)).flatten]
  else parts.map (fun p => bnodeBindings vars p.1)

/-! ## The exception class of `src/util/Exception.h` -/

/-- Class `ad_semsearch::Exception`: its three data members. -/
structure ad_semsearch.Exception where
  _errorCode : Int
  _errorDetails : String
  _errorDetailsNoFileAndLines : String
  deriving DecidableEq, Repr

namespace ad_semsearch.Exception

/-- Enumerator `VOCABULARY_MISS` of `ExceptionType`. -/
def VOCABULARY_MISS : Int := 16 * 1 + 1
/-- Enumerator `UNKNOWN_RELATION_ID`. -/
def UNKNOWN_RELATION_ID : Int := 16 * 1 + 2
/-- Enumerator `BAD_INPUT`. -/
def BAD_INPUT : Int := 16 * 2 + 5
/-- Enumerator `BAD_REQUEST`. -/
def BAD_REQUEST : Int := 16 * 2 + 6
/-- Enumerator `BAD_QUERY`. -/
def BAD_QUERY : Int := 16 * 2 + 7
/-- Enumerator `REALLOC_FAILED`. -/
def REALLOC_FAILED : Int := 16 * 3 + 1
/-- Enumerator `NEW_FAILED`. -/
def NEW_FAILED : Int := 16 * 3 + 2
/-- Enumerator `UNCOMPRESS_ERROR`. -/
def UNCOMPRESS_ERROR : Int := 16 * 6 + 1
/-- Enumerator `COULD_NOT_GET_MUTEX`. -/
def COULD_NOT_GET_MUTEX : Int := 16 * 7 + 1
/-- Enumerator `COULD_NOT_CREATE_THREAD`. -/
def COULD_NOT_CREATE_THREAD : Int := 16 * 7 + 6
/-- Enumerator `COULD_NOT_CREATE_SOCKET`. -/
def COULD_NOT_CREATE_SOCKET : Int := 17 * 8 + 1
/-- Enumerator `ASSERT_FAILED`. -/
def ASSERT_FAILED : Int := 16 * 9 + 1
/-- Enumerator `ERROR_PASSED_ON`. -/
def ERROR_PASSED_ON : Int := 16 * 9 + 3
/-- Enumerator `NOT_YET_IMPLEMENTED`. -/
def NOT_YET_IMPLEMENTED : Int := 16 * 9 + 5
/-- Enumerator `INVALID_PARAMETER_VALUE`. -/
def INVALID_PARAMETER_VALUE : Int := 16 * 9 + 6
/-- Enumerator `CHECK_FAILED`. -/
def CHECK_FAILED : Int := 16 * 9 + 7
/-- Enumerator `OTHER`. -/
def OTHER : Int := 0

/-- Method `errorCodeAsString`: the text the returned `const char*` points to.  The cases are
those of the `switch`, in its order.  In the `default` branch the function returns
`os.str().c_str()`, a pointer into a temporary string that is destroyed before the function
has returned; such a pointer refers to no text: `none`. -/
def errorCodeAsString (errorCode : Int) : Option String :=
  if errorCode = VOCABULARY_MISS then some "VOCABULARY MISS"
  else if errorCode = UNKNOWN_RELATION_ID then
    some ("UNKNOWN_RELATION_ID: " ++ "Trying to access a relation that is not present.")
  else if errorCode = BAD_INPUT then some "BAD INPUT STRING"
  else if errorCode = BAD_REQUEST then some "BAD REQUEST STRING"
  else if errorCode = BAD_QUERY then some "BAD QUERY"
  else if errorCode = REALLOC_FAILED then some "MEMORY ALLOCATION ERROR: Realloc failed"
  else if errorCode = NEW_FAILED then some "MEMORY ALLOCATION ERROR: new failed"
  else if errorCode = ERROR_PASSED_ON then some "PASSING ON ERROR"
  else if errorCode = UNCOMPRESS_ERROR then some "UNCOMPRESSION PROBLEM"
  else if errorCode = COULD_NOT_GET_MUTEX then
    some ("MUTEX EXCEPTION: " ++ "Could not get lock on mutex")
  else if errorCode = COULD_NOT_CREATE_THREAD then some "Error creating thread"
  else if errorCode = COULD_NOT_CREATE_SOCKET then some "SOCKET ERROR: could not create socket"
  else if errorCode = ASSERT_FAILED then some "ASSERT FAILED"
  else if errorCode = NOT_YET_IMPLEMENTED then some "NOT YET IMPLEMENTED"
  else if errorCode = INVALID_PARAMETER_VALUE then some "INVALID PARAMETER VALUE"
  else if errorCode = CHECK_FAILED then some "CHECK FAILED"
  else if errorCode = OTHER then some "ERROR"
  else none

/-- Constructor `Exception(int errorCode)`. -/
def ofCode (errorCode : Int) : ad_semsearch.Exception :=
  ⟨errorCode, "", ""⟩

/-- Constructor `Exception(int errorCode, string errorDetails)`. -/
def ofCodeAndDetails (errorCode : Int) (errorDetails : String) : ad_semsearch.Exception :=
  ⟨errorCode, errorDetails, errorDetails⟩

/-- Constructor `Exception(errorCode, errorDetails, file_name, line_no, fct_name)`. -/
def ofCodeDetailsAndPlace (errorCode : Int) (errorDetails file_name : String) (line_no : Int)
    (fct_name : String) : ad_semsearch.Exception :=
  ⟨errorCode,
    (if errorDetails.length > 0 then errorDetails ++ "; " else "") ++ "in " ++ file_name
      ++ ", line " ++ toString line_no ++ ", function " ++ fct_name,
    errorDetails⟩

/-- Method `setErrorCode`. -/
def setErrorCode (e : ad_semsearch.Exception) (errorCode : Int) : ad_semsearch.Exception :=
  { e with _errorCode := errorCode }

/-- Method `setErrorDetails`: the second statement assigns the member
`_errorDetailsNoFileAndLines` to itself. -/
def setErrorDetails (e : ad_semsearch.Exception) (errorDetails : String) :
    ad_semsearch.Exception :=
  { e with
    _errorDetails := errorDetails
    _errorDetailsNoFileAndLines := e._errorDetailsNoFileAndLines }

/-- Method `getErrorCode`. -/
def getErrorCode (e : ad_semsearch.Exception) : Int := e._errorCode

/-- Method `getErrorMessage`: the `std::string` made from the pointer `errorCodeAsString`
returns; reading through a pointer that refers to no text is undefined behaviour. -/
def getErrorMessage (e : ad_semsearch.Exception) : Except QLever.Exception String :=
  match errorCodeAsString e._errorCode with
  | some message => .ok message
  | none => .error (.UndefinedBehaviour "std::string(errorCodeAsString(_errorCode))")

/-- Method `getErrorDetails`. -/
def getErrorDetails (e : ad_semsearch.Exception) : String := e._errorDetails

/-- Method `getFullErrorMessage`. -/
def getFullErrorMessage (e : ad_semsearch.Exception) : Except QLever.Exception String :=
  if e._errorDetails.length > 0 then
    match e.getErrorMessage with
    | .error u => .error u
    | .ok message => .ok (message ++ " (" ++ e._errorDetails ++ ")")
  else e.getErrorMessage

/-- Method `getErrorMsgNoFileAndLines`. -/
def getErrorMsgNoFileAndLines (e : ad_semsearch.Exception) : String :=
  e._errorDetailsNoFileAndLines

end ad_semsearch.Exception

/-! ## Concrete inputs -/

namespace Example

/-- Parser details of the examples: nothing seen of the body. -/
def details : LazyJsonParser.Details := ⟨"", ""⟩

/-- A body whose tokenizer fails at the first pull. -/
def malformedBody : LazyJsonParser.Generator :=
  ⟨[], some (.LazyJsonParserError "unexpected end of input"), details⟩

/-- An environment: empty global vocabulary, no cancellation, and a tokenizer that finds
`malformedBody` in every response. -/
def ctx : Context where
  runtimeParameters := ⟨false, false, 1000⟩
  vocab := fun _ => none
  uninitialized := ⟨Datatype.Int, 99⟩
  cancelled := fun _ => false
  literalAndDatatypeToTripleComponent := fun value iri =>
    .ok (.literal (Literal.literalWithNormalizedContent value (.datatype iri)))
  dump := fun _ => "<binding>"
  idToStringAndType := fun _ _ => none
  validRDFLiteralFromNormalized := fun s => s
  makeUrl := fun s => .ok ⟨s⟩
  obsolete_reason := fun _ => "Internal Server Error"
  parse := fun _ => malformedBody

/-- The same environment in syntax-test mode. -/
def ctxSyntaxTest : Context :=
  { ctx with runtimeParameters := ⟨false, true, 1000⟩ }

/-- The initial global state. -/
def world : World := ⟨0, 0, []⟩

/-- The global state after the one request of the examples has been sent. -/
def worldAfterRequest : World :=
  ⟨0, 0, [⟨⟨"http://e/"⟩, "POST", "\nSELECT ?x ?y \x7b ?x ?p ?y \x7d",
    "application/sparql-query", "application/sparql-results+json"⟩]⟩

/-- The clause `SERVICE SILENT <http://e/> \x7b ?x ?p ?y \x7d` with visible variables
`?x` and `?y`. -/
def silentClause : parsedQuery.Service :=
  ⟨[⟨"?x"⟩, ⟨"?y"⟩], ⟨"http://e/"⟩, "", "\x7b ?x ?p ?y \x7d", true⟩

/-- A SILENT operator whose endpoint answers with HTTP status 500. -/
def silentService500 : Service :=
  ⟨silentClause, fun _ => .ok ⟨500, "text/html", ["oops"]⟩, none, 0⟩

/-- A SILENT operator whose transport is cancelled. -/
def silentServiceCancelled : Service :=
  ⟨silentClause, fun _ => .error (.CancellationException "cancelled"), none, 0⟩

/-- A SILENT operator whose endpoint answers with status 200 and the right content type. -/
def silentService200 : Service :=
  ⟨silentClause, fun _ => .ok ⟨200, "application/sparql-results+json", ["\x7b"]⟩, none, 0⟩

/-- The header `\x7b"vars": ["x", "y"]\x7d`. -/
def headXY : Json := .object [("vars", .array [.string "x", .string "y"])]

/-- The header `\x7b"vars": ["y", "x"]\x7d`. -/
def headYX : Json := .object [("vars", .array [.string "y", .string "x"])]

/-- The binding `\x7b"type": "bnode", "value": label\x7d`. -/
def bnode (label : String) : Json :=
  .object [("type", .string "bnode"), ("value", .string label)]

/-- A first fragment: the header and one row in which both variables are bound to the blank
node `b0`. -/
def fragmentFirst : Json :=
  .object [("head", headXY),
    ("results", .object [("bindings", .array [.object [("x", bnode "b0"), ("y", bnode "b0")]])])]

/-- A second fragment: one row that binds `x` to the blank node `b0` and has no entry for
`y`. -/
def fragmentSecond : Json :=
  .object [("results", .object [("bindings", .array [.object [("x", bnode "b0")]])])]

/-- A body that the tokenizer delivers in the two fragments above. -/
def bodyTwoFragments : LazyJsonParser.Generator :=
  ⟨[(fragmentFirst, details), (fragmentSecond, details)], none, details⟩

/-- The environment whose tokenizer finds `bodyTwoFragments` in every response. -/
def ctxTwoFragments : Context :=
  { ctx with parse := fun _ => bodyTwoFragments }

/-- The operator of the clause above without SILENT; its endpoint answers with status 200
and the right content type. -/
def service200 : Service :=
  ⟨{ silentClause with silent_ := false },
    fun _ => .ok ⟨200, "application/sparql-results+json", ["\x7b"]⟩, none, 0⟩

/-- A literal binding that has both a datatype and a language tag. -/
def bindingDatatypeAndLang : Json :=
  .object [("type", .string "literal"), ("value", .string "5"),
    ("datatype", .string "http://www.w3.org/2001/XMLSchema#integer"),
    ("xml:lang", .string "en")]

/-- A binding without a `value` member. -/
def bindingWithoutValue : Json := .object [("type", .string "uri")]

/-- A fragment whose only row binds `x` to `bindingWithoutValue`. -/
def fragmentRejected : Json :=
  .object [("results", .object [("bindings", .array [.object [("x", bindingWithoutValue)]])])]

/-- A body that delivers `fragmentFirst` and then `fragmentRejected`. -/
def bodyRejected : LazyJsonParser.Generator :=
  ⟨[(fragmentFirst, details), (fragmentRejected, details)], none, details⟩

/-- No blank node known, nothing in the local vocabulary, initial global state. -/
def refs : Refs := ⟨[], LocalVocab.empty, world⟩

/-- The environment with caching of SERVICE results enabled. -/
def ctxCaching : Context :=
  { ctx with runtimeParameters := ⟨true, false, 1000⟩ }

/-- An operator whose endpoint answers with status 200 and content type `text/plain`. -/
def serviceTextPlain : Service :=
  ⟨{ silentClause with silent_ := false },
    fun _ => .ok ⟨200, "text/plain", ["oops"]⟩, none, 0⟩

/-- The operator `service200` with sibling info: a sibling table with one row and one
column, the column of `?x`, holding Undefined. -/
def serviceWithSibling : Service :=
  { service200 with
    siblingInfo_ := some
      ⟨some (.materialized ⟨1, [[ValueId.makeUndefined]]⟩ [] LocalVocab.empty),
        [(⟨"?x"⟩, ⟨0, UndefStatus.AlwaysDefined⟩)], "sibling"⟩ }

/-- A body without any fragment that ends normally. -/
def bodyEmpty : LazyJsonParser.Generator := ⟨[], none, details⟩

/-- A fragment with an empty bindings array and no header. -/
def fragmentNoRows : Json := .object [("results", .object [("bindings", .array [])])]

/-- A body that delivers `fragmentNoRows` and ends normally. -/
def bodyNoHead : LazyJsonParser.Generator := ⟨[(fragmentNoRows, details)], none, details⟩

/-- The binding `\x7b"type": "uri", "value": value\x7d`. -/
def uri (value : String) : Json :=
  .object [("type", .string "uri"), ("value", .string value)]

/-- The binding `\x7b"type": "literal", "value": value\x7d`. -/
def plainLiteral (value : String) : Json :=
  .object [("type", .string "literal"), ("value", .string value)]

/-- A first fragment without blank nodes: the header and two rows. -/
def fragmentPlainFirst : Json :=
  .object [("head", headXY),
    ("results", .object [("bindings", .array [
      .object [("x", uri "http://a"), ("y", plainLiteral "one")],
      .object [("x", uri "http://b")]])])]

/-- A second fragment without blank nodes: one row, whose IRI is new and whose literal was
seen in the first fragment. -/
def fragmentPlainSecond : Json :=
  .object [("results", .object [("bindings", .array [
    .object [("x", uri "http://c"), ("y", plainLiteral "one")]])])]

/-- A body that delivers the two fragments without blank nodes. -/
def bodyPlain : LazyJsonParser.Generator :=
  ⟨[(fragmentPlainFirst, details), (fragmentPlainSecond, details)], none, details⟩

/-- A sibling table with one column and the rows of the given cells. -/
def siblingTable (cells : List ValueId) : IdTable := ⟨1, cells.map (fun id => [id])⟩

/-- An operation that is no `Service` with the given result; its only variable is `?x` in
column 0. -/
def otherOperation (result : Except Exception OperationResult) : Operation :=
  ⟨.Other, [], none, fun _ => result, [(⟨"?x"⟩, ⟨0, UndefStatus.AlwaysDefined⟩)], "sibling", 1⟩

/-- The operation of a `Service`; its own result is never requested in the examples. -/
def serviceOperation (service : Service) : Operation :=
  ⟨.Service service, [], none, fun _ => .error (.other "not computed"), [], "service", 0⟩

/-- A materialized sibling result of two rows. -/
def twoRows : OperationResult :=
  .materialized (siblingTable [⟨Datatype.Int, 1⟩, ⟨Datatype.Int, 2⟩]) [0] LocalVocab.empty

/-- A plan of a `Service` (operation 0) and a sibling with a materialized result of two rows
(operation 1). -/
def planServiceSibling : Plan :=
  ⟨[serviceOperation service200, otherOperation (.ok twoRows)], []⟩

/-- A plan of two `Service` operations; the right one has a materialized result of two
rows. -/
def planTwoServices : Plan :=
  ⟨[serviceOperation service200,
    { serviceOperation silentService200 with getResult := fun _ => .ok twoRows }], []⟩

/-- A plan of a `Service` and a sibling whose result cannot be computed. -/
def planFailingSibling (silent : Bool) : Plan :=
  ⟨[serviceOperation { service200 with
      parsedServiceClause_ := { silentClause with silent_ := silent } },
    otherOperation (.error (.runtime_error "sibling failed"))], []⟩

/-- A chunk of a lazy sibling result with the rows of the given cells. -/
def chunk (cells : List ValueId) : IdTableVocabPair := ⟨siblingTable cells, LocalVocab.empty⟩

/-- A lazy sibling result of three chunks with two rows, one row and two rows. -/
def threeChunks : OperationResult :=
  .lazy (.range [chunk [⟨Datatype.Int, 1⟩, ⟨Datatype.Int, 2⟩], chunk [⟨Datatype.Int, 3⟩],
    chunk [⟨Datatype.Int, 4⟩, ⟨Datatype.Int, 5⟩]] none) [0]

/-- A plan of a `Service` and a sibling with the lazy result of three chunks. -/
def planLazySibling : Plan :=
  ⟨[serviceOperation service200, otherOperation (.ok threeChunks)], []⟩

/-- The environment with a threshold of two rows for the sibling result. -/
def ctxThresholdTwo : Context :=
  { ctx with runtimeParameters := ⟨false, false, 2⟩ }

/-- The environment in which an Id other than Undefined is exported as "1", "2" or "0",
according to its payload, without datatype. -/
def ctxExport : Context :=
  { ctx with
    idToStringAndType := fun id _ =>
      if id.datatype = Datatype.Undefined then none
      else some (if id.bits = 1 then "1" else if id.bits = 2 then "2" else "0", none) }

/-- The sibling table of the example below: the common variable `?x` is column 0. -/
def siblingRows : IdTable :=
  ⟨2, [[⟨Datatype.Int, 1⟩, ⟨Datatype.BlankNodeIndex, 9⟩],
    [⟨Datatype.BlankNodeIndex, 7⟩, ⟨Datatype.Int, 0⟩],
    [⟨Datatype.Int, 1⟩, ⟨Datatype.Int, 5⟩],
    [ValueId.makeUndefined, ⟨Datatype.Int, 1⟩],
    [⟨Datatype.Int, 2⟩, ⟨Datatype.Int, 2⟩]]⟩

/-- The operator `service200` with a sibling of five rows: a blank node outside the common
column, a blank node in the common column, a repeated value, Undefined, and a new value. -/
def serviceSiblingRows : Service :=
  { service200 with
    siblingInfo_ := some
      ⟨some (.materialized siblingRows [] LocalVocab.empty),
        [(⟨"?x"⟩, ⟨0, UndefStatus.AlwaysDefined⟩)], "sibling"⟩ }

/-- The chunks of a decode of `bodyTwoFragments` that starts in the initial global state. -/
def chunksFirstDecode : List IdTableVocabPair :=
  [⟨⟨2, [[ValueId.makeFromBlankNodeIndex 0, ValueId.makeFromBlankNodeIndex 0]]⟩, ⟨[], [0]⟩⟩,
    ⟨⟨2, [[ValueId.makeFromBlankNodeIndex 1, ValueId.makeUndefined]]⟩, ⟨[], [1]⟩⟩]

/-- The global state after that decode: six polls, two blank nodes handed out. -/
def worldAfterFirstDecode : World := ⟨6, 2, []⟩

/-- The chunks of a decode of `bodyTwoFragments` that starts after the first one. -/
def chunksSecondDecode : List IdTableVocabPair :=
  [⟨⟨2, [[ValueId.makeFromBlankNodeIndex 2, ValueId.makeFromBlankNodeIndex 2]]⟩, ⟨[], [2]⟩⟩,
    ⟨⟨2, [[ValueId.makeFromBlankNodeIndex 3, ValueId.makeUndefined]]⟩, ⟨[], [3]⟩⟩]

/-- The global state after the second decode. -/
def worldAfterSecondDecode : World := ⟨12, 4, []⟩

/-- An exception object whose error code `5` is none of the enumerators. -/
def unknownCode : ad_semsearch.Exception :=
  ad_semsearch.Exception.ofCodeAndDetails 5 "details"

/-- An exception object with the code `ASSERT_FAILED`. -/
def assertFailed : ad_semsearch.Exception :=
  ad_semsearch.Exception.ofCodeAndDetails ad_semsearch.Exception.ASSERT_FAILED "details"

/-- The operator `service200` (visible variables `?x`, `?y`) with a sibling whose only
variable is `?z`: two rows, no variable in common. -/
def serviceSiblingNoCommon : Service :=
  { service200 with
    siblingInfo_ := some
      ⟨some (.materialized ⟨1, [[⟨Datatype.Int, 1⟩], [⟨Datatype.Int, 2⟩]]⟩ [] LocalVocab.empty),
        [(⟨"?z"⟩, ⟨0, UndefStatus.AlwaysDefined⟩)], "sibling"⟩ }

/-- An operation of class `Sort` with the given root operations of its children. -/
def sortOperation (children : List Nat) : Operation :=
  ⟨.Sort children, [], none, fun _ => .error (.other "not computed"), [], "sort", 1⟩

/-- A plan in which both sides are sorted: operation 0 sorts the `Service` (operation 2),
operation 1 sorts the sibling with a materialized result of two rows (operation 3). -/
def planSorted : Plan :=
  ⟨[sortOperation [2], sortOperation [3], serviceOperation service200,
    otherOperation (.ok twoRows)], []⟩

/-- A plan whose left operation is a sort with two children. -/
def planSortTwoChildren : Plan :=
  ⟨[sortOperation [2, 3], sortOperation [3], serviceOperation service200,
    otherOperation (.ok twoRows)], []⟩

/-- A sibling whose result is the stream `threeChunks` when laziness is requested and the
table of the same five rows otherwise. -/
def siblingBothModes : Operation :=
  { otherOperation (.ok threeChunks) with
    getResult := fun mode =>
      match mode with
      | .LAZY_IF_SUPPORTED => .ok threeChunks
      | .FULLY_MATERIALIZED =>
        .ok (.materialized (siblingTable [⟨Datatype.Int, 1⟩, ⟨Datatype.Int, 2⟩,
          ⟨Datatype.Int, 3⟩, ⟨Datatype.Int, 4⟩, ⟨Datatype.Int, 5⟩]) [0] LocalVocab.empty) }

/-- A plan of a `Service` and the sibling `siblingBothModes`. -/
def planBothModes : Plan :=
  ⟨[serviceOperation service200, siblingBothModes], []⟩

/-- The environment whose cancellation handle is set at the poll number `poll` (counted from
0) and at no other poll. -/
def ctxCancelledAt (poll : Nat) : Context :=
  { ctx with cancelled := fun n => n == poll }

end Example

/-! ## The neutral result and the SILENT policy -/

theorem set_replicate_append (u g : ValueId) :
    ∀ a r : Nat, (List.replicate a u ++ List.replicate (r + 1) g).set a u
      = List.replicate (a + 1) u ++ List.replicate r g := by
  intro a
  induction a with
  | zero => intro r; simp [List.replicate_succ]
  | succ a ih =>
    intro r
    show (u :: List.replicate a u ++ List.replicate (r + 1) g).set (a + 1) u
      = u :: List.replicate (a + 1) u ++ List.replicate r g
    rw [List.cons_append, List.set_cons_succ, ih]
    rfl

theorem makeNeutralElementLoop_replicate (width : Nat) (g : ValueId) :
    ∀ remaining, remaining ≤ width →
      Service.makeNeutralElementLoop width remaining
          ⟨width, [List.replicate (width - remaining) ValueId.makeUndefined
            ++ List.replicate remaining g]⟩
        = some ⟨width, [List.replicate width ValueId.makeUndefined]⟩ := by
  intro remaining
  induction remaining with
  | zero => intro _; simp [Service.makeNeutralElementLoop]
  | succ r ih =>
    intro h
    have hlt : width - (r + 1) < (List.replicate (width - (r + 1)) ValueId.makeUndefined
        ++ List.replicate (r + 1) g).length := by simp
    have hw : width - (r + 1) + 1 = width - r := by omega
    simp only [Service.makeNeutralElementLoop, IdTable.set?, List.getElem?_cons_zero, hlt,
      if_true, List.set_cons_zero, set_replicate_append, hw]
    exact ih (by omega)

theorem makeNeutralElementResultForSilentFail_eq (s : Service) (ctx : Context) :
    s.makeNeutralElementResultForSilentFail ctx
      = .ok (.materialized
          ⟨s.parsedServiceClause_.visibleVariables_.length,
            [List.replicate s.parsedServiceClause_.visibleVariables_.length
              ValueId.makeUndefined]⟩ [] LocalVocab.empty) := by
  have h := makeNeutralElementLoop_replicate s.getResultWidth ctx.uninitialized
    s.getResultWidth (le_refl _)
  simp only [Nat.sub_self, List.replicate_zero, List.nil_append] at h
  simp only [Service.makeNeutralElementResultForSilentFail, IdTable.mk0, IdTable.emplace_back,
    List.nil_append, h]
  rfl

/-- C1: when `computeResultImpl` fails with an exception `F` that is neither a cancellation
nor an allocation-limit error, `computeResult` returns the neutral result (one row, every
column Undefined, empty local vocabulary) if the clause is SILENT, and fails with the same
`F` otherwise. -/
theorem computeResult_silent_or_rethrow (s : Service) (ctx : Context) (requestLaziness : Bool)
    (w w1 : World) (F : Exception)
    (hF : s.computeResultImpl ctx requestLaziness w = (.error F, w1))
    (hstd : F.isStdException = true) (hc : F.isCancellation = false)
    (ha : F.isAllocationExceedsLimit = false) :
    s.computeResult ctx requestLaziness w =
      if s.parsedServiceClause_.silent_ = true then
        (.ok (.materialized
          ⟨s.parsedServiceClause_.visibleVariables_.length,
            [List.replicate s.parsedServiceClause_.visibleVariables_.length
              ValueId.makeUndefined]⟩ [] LocalVocab.empty), w1)
      else (.error F, w1) := by
  unfold Service.computeResult
  rw [hF]
  cases F <;>
    simp_all [Exception.isStdException, Exception.isCancellation,
      Exception.isAllocationExceedsLimit, makeNeutralElementResultForSilentFail_eq]

theorem computeResult_silent_or_rethrow_witness :
    Example.silentService500.computeResultImpl Example.ctx false Example.world
        = (.error (.runtime_error ("Error while executing a SERVICE request to <http://e/>: "
            ++ "SERVICE responded with HTTP status code: 500, Internal Server Error. "
            ++ "First 100 bytes of the response: 'oops'")), Example.worldAfterRequest)
      ∧ Example.silentService500.computeResult Example.ctx false Example.world
        = (.ok (.materialized ⟨2, [[ValueId.makeUndefined, ValueId.makeUndefined]]⟩ []
            LocalVocab.empty), Example.worldAfterRequest) :=
  ⟨rfl, computeResult_silent_or_rethrow Example.silentService500 Example.ctx false
    Example.world _ _ rfl rfl rfl rfl⟩

/-- C2: when `computeResultImpl` fails with a cancellation error or an allocation-limit
error, `computeResult` fails with that same error, whatever the SILENT flag of the clause
is. -/
theorem computeResult_propagates_cancellation_and_limit (s : Service) (ctx : Context)
    (requestLaziness : Bool) (w w1 : World) (F : Exception)
    (hF : s.computeResultImpl ctx requestLaziness w = (.error F, w1))
    (hkind : F.isCancellation = true ∨ F.isAllocationExceedsLimit = true) :
    s.computeResult ctx requestLaziness w = (.error F, w1) := by
  unfold Service.computeResult
  rw [hF]
  cases F <;> simp_all [Exception.isCancellation, Exception.isAllocationExceedsLimit]

theorem computeResult_propagates_cancellation_and_limit_witness :
    Example.silentServiceCancelled.computeResultImpl Example.ctx false Example.world
        = (.error (.CancellationException "cancelled"), Example.worldAfterRequest)
      ∧ Example.silentClause.silent_ = true
      ∧ Example.silentServiceCancelled.computeResult Example.ctx false Example.world
        = (.error (.CancellationException "cancelled"), Example.worldAfterRequest) :=
  ⟨rfl, rfl, computeResult_propagates_cancellation_and_limit Example.silentServiceCancelled
    Example.ctx false Example.world _ _ rfl (Or.inl rfl)⟩

/-- C4: for a clause with `n` visible variables, `makeNeutralElementResultForSilentFail`
returns a fully materialized table with `n` columns and exactly one row, every entry of
which is Undefined, together with an empty local vocabulary; this holds whatever the fresh
row held before it was written. -/
theorem makeNeutralElementResultForSilentFail_spec (s : Service) (ctx : Context) :
    ∃ idTable : IdTable,
      s.makeNeutralElementResultForSilentFail ctx
          = .ok (.materialized idTable s.resultSortedOn LocalVocab.empty)
        ∧ idTable.numColumns = s.parsedServiceClause_.visibleVariables_.length
        ∧ idTable.size = 1
        ∧ idTable.rows
          = [List.replicate s.parsedServiceClause_.visibleVariables_.length
              ValueId.makeUndefined]
        ∧ (∀ col, col < s.parsedServiceClause_.visibleVariables_.length →
            idTable.get? 0 col = some ValueId.makeUndefined)
        ∧ LocalVocab.empty = ⟨[], []⟩ := by
  refine ⟨_, makeNeutralElementResultForSilentFail_eq s ctx, rfl, rfl, rfl, ?_, rfl⟩
  intro col hcol
  simp [IdTable.get?, hcol]

theorem makeNeutralElementResultForSilentFail_spec_witness :
    ∃ idTable : IdTable,
      Example.silentService500.makeNeutralElementResultForSilentFail Example.ctx
          = .ok (.materialized idTable [] LocalVocab.empty)
        ∧ idTable.numColumns = 2
        ∧ idTable.size = 1
        ∧ idTable.rows = [[ValueId.makeUndefined, ValueId.makeUndefined]]
        ∧ (∀ col, col < 2 → idTable.get? 0 col = some ValueId.makeUndefined)
        ∧ LocalVocab.empty = ⟨[], []⟩ :=
  makeNeutralElementResultForSilentFail_spec Example.silentService500 Example.ctx

/-- C5: in syntax-test mode `computeResult` returns the neutral result for every clause,
SILENT or not, and for both laziness requests; the global state is unchanged, so the
transport function has not been called and no request has been issued. -/
theorem computeResult_syntax_test_mode (s : Service) (ctx : Context) (requestLaziness : Bool)
    (w : World) (hmode : ctx.runtimeParameters.syntaxTestMode = true) :
    s.computeResult ctx requestLaziness w
        = (.ok (.materialized
            ⟨s.parsedServiceClause_.visibleVariables_.length,
              [List.replicate s.parsedServiceClause_.visibleVariables_.length
                ValueId.makeUndefined]⟩ [] LocalVocab.empty), w)
      ∧ (s.computeResult ctx requestLaziness w).2.sentRequests = w.sentRequests := by
  have h : s.computeResult ctx requestLaziness w
      = (.ok (.materialized
          ⟨s.parsedServiceClause_.visibleVariables_.length,
            [List.replicate s.parsedServiceClause_.visibleVariables_.length
              ValueId.makeUndefined]⟩ [] LocalVocab.empty), w) := by
    simp [Service.computeResult, Service.computeResultImpl, hmode,
      makeNeutralElementResultForSilentFail_eq]
  exact ⟨h, by rw [h]⟩

theorem computeResult_syntax_test_mode_witness :
    Example.ctxSyntaxTest.runtimeParameters.syntaxTestMode = true
      ∧ Example.silentService500.computeResult Example.ctxSyntaxTest true Example.world
        = (.ok (.materialized ⟨2, [[ValueId.makeUndefined, ValueId.makeUndefined]]⟩ []
            LocalVocab.empty), Example.world)
      ∧ (Example.silentService500.computeResult Example.ctxSyntaxTest true
          Example.world).2.sentRequests = [] :=
  ⟨rfl, computeResult_syntax_test_mode Example.silentService500 Example.ctxSyntaxTest true
    Example.world rfl⟩

/-! ## The check of the header -/

theorem getStrings_eq_ok (elements : List Json) (vars : List String) :
    Json.getStrings elements = .ok vars ↔ elements = vars.map Json.string := by
  induction elements generalizing vars with
  | nil =>
    cases vars <;> simp [Json.getStrings]
  | cons j rest ih =>
    cases j with
    | string s =>
      cases h : Json.getStrings rest with
      | error e =>
        have hne : ∀ vs, rest ≠ List.map Json.string vs := by
          intro vs hvs
          have := (ih vs).2 hvs
          rw [h] at this
          cases this
        cases vars with
        | nil => simp [Json.getStrings, Json.getString, h]
        | cons v vs => simp [Json.getStrings, Json.getString, h, hne vs]
      | ok strings =>
        have hrest := (ih strings).1 h
        cases vars with
        | nil => simp [Json.getStrings, Json.getString, h]
        | cons v vs =>
          simp only [Json.getStrings, Json.getString, h, Except.ok.injEq, List.cons.injEq,
            List.map_cons, Json.string.injEq]
          constructor
          · rintro ⟨h1, h2⟩
            exact ⟨h1, by rw [← h2]; exact hrest⟩
          · rintro ⟨h1, h2⟩
            refine ⟨h1, ?_⟩
            have := (ih vs).2 h2
            rw [h] at this
            cases this
            rfl
    | _ => cases vars <;> simp [Json.getStrings, Json.getString]

theorem hashSetEq_iff {α : Type} [DecidableEq α] (a b : List α) :
    hashSetEq a b = true ↔ a.toFinset = b.toFinset := by
  simp only [hashSetEq, Bool.and_eq_true, List.all_eq_true, decide_eq_true_eq]
  constructor
  · rintro ⟨h1, h2⟩
    ext x
    simp only [List.mem_toFinset]
    exact ⟨h1 x, h2 x⟩
  · intro h
    have h' : ∀ x, x ∈ a ↔ x ∈ b := by
      intro x
      have := Finset.ext_iff.1 h x
      simpa using this
    exact ⟨fun x hx => (h' x).1 hx, fun x hx => (h' x).2 hx⟩

theorem verifyVariables_ok_iff_aux (clause : parsedQuery.Service) (ctx : Context) (head : Json)
    (details : LazyJsonParser.Details) :
    verifyVariables clause ctx head details = .ok () ↔
      ∃ vars : List String, head.get? "vars" = some (Json.array (vars.map Json.string)) ∧
        (vars.map (fun v => Variable.mk ("?" ++ v))).toFinset
          = clause.visibleVariables_.toFinset := by
  unfold verifyVariables
  cases hv : (head.at_ "vars").bind Json.getStringVector with
  | error e =>
    refine ⟨(fun h => nomatch h), ?_⟩
    rintro ⟨vars, hget, -⟩
    exfalso
    cases head <;> simp [Json.get?] at hget
    simp [Json.at_, hget, Except.bind, Json.getStringVector, (getStrings_eq_ok _ vars).2 rfl] at hv
  | ok vars =>
    have hget : head.get? "vars" = some (Json.array (vars.map Json.string)) := by
      cases head <;> simp [Json.at_, Except.bind] at hv
      rename_i members
      cases hl : List.lookup "vars" members with
      | none => simp [hl] at hv
      | some j =>
        simp only [hl] at hv
        cases j <;> simp [Json.getStringVector] at hv
        simp [Json.get?, hl, (getStrings_eq_ok _ vars).1 hv]
    simp only [hget, Option.some.injEq, Json.array.injEq]
    by_cases hs : hashSetEq (vars.map (fun v => Variable.mk ("?" ++ v))) clause.visibleVariables_
        = true
    · simp only [hs, Bool.not_true, Bool.false_eq_true, if_false, true_iff]
      exact ⟨vars, rfl, (hashSetEq_iff _ _).1 hs⟩
    · have hs' : hashSetEq (vars.map (fun v => Variable.mk ("?" ++ v)))
          clause.visibleVariables_ = false := by simpa using hs
      simp only [hs', Bool.not_false, if_true]
      refine ⟨(fun h => nomatch h), ?_⟩
      rintro ⟨vars', hvars, hset⟩
      exfalso
      apply hs
      rw [hashSetEq_iff]
      have hinj : vars = vars' := by
        have := List.map_injective_iff.2 (fun a b h => by cases h; rfl) hvars
        exact this
      rw [hinj]
      exact hset

/-! ## Rejected bindings abort the decode -/

theorem contains_of_get? (j child : Json) (key : String) (h : j.get? key = some child) :
    j.contains key = true := by
  simp [Json.contains, h]

theorem bindingToTripleComponent_typed (ctx : Context) (binding : Json) (refs : Refs)
    (type value : String)
    (htype : binding.get? "type" = some (Json.string type))
    (hvalue : binding.get? "value" = some (Json.string value)) :
    bindingToTripleComponent ctx binding refs =
      if type = "literal" then (bindingToLiteral ctx binding value, refs)
      else if type = "uri" then (.ok (.iri (Iri.fromIrirefWithoutBrackets value)), refs)
      else if type = "bnode" then
        (if (refs.blankNodeMap.try_emplace value ValueId.makeUndefined).2 = true then
          (.ok (.id (((refs.blankNodeMap.try_emplace value ValueId.makeUndefined).1.assign value
              (ValueId.makeFromBlankNodeIndex
                (refs.localVocab.getBlankNodeIndex refs.world).1)).second value)),
            ⟨(refs.blankNodeMap.try_emplace value ValueId.makeUndefined).1.assign value
              (ValueId.makeFromBlankNodeIndex (refs.localVocab.getBlankNodeIndex refs.world).1),
              (refs.localVocab.getBlankNodeIndex refs.world).2.1,
              (refs.localVocab.getBlankNodeIndex refs.world).2.2⟩)
        else
          (.ok (.id ((refs.blankNodeMap.try_emplace value ValueId.makeUndefined).1.second
              value)),
            { refs with
              blankNodeMap := (refs.blankNodeMap.try_emplace value ValueId.makeUndefined).1 }))
      else
        (.error (.runtime_error ("Type " ++ type ++ " is undefined. The binding is: '"
          ++ ctx.dump binding ++ "'")), refs) := by
  simp only [bindingToTripleComponent, contains_of_get? _ _ _ htype,
    contains_of_get? _ _ _ hvalue, htype, hvalue, Option.getD_some, Json.getString,
    Bool.not_true, Bool.or_self, Bool.false_eq_true, if_false]

theorem bindingToTripleComponent_rejects (ctx : Context) (b : Json) (refs : Refs)
    (hbad : b.contains "type" = false ∨ b.contains "value" = false
      ∨ (b.get? "type" ≠ some (Json.string "literal") ∧ b.get? "type" ≠ some (Json.string "uri")
        ∧ b.get? "type" ≠ some (Json.string "bnode"))) :
    (bindingToTripleComponent ctx b refs).2 = refs
      ∧ ∃ e, (bindingToTripleComponent ctx b refs).1 = .error e := by
  by_cases hmiss : (!b.contains "type" || !b.contains "value") = true
  · simp only [bindingToTripleComponent, hmiss, if_true]
    exact ⟨trivial, _, rfl⟩
  · have hmiss' : (!b.contains "type" || !b.contains "value") = false := by simpa using hmiss
    have ht : b.contains "type" = true := by
      cases h : b.contains "type" <;> simp [h] at hmiss'; rfl
    have hv : b.contains "value" = true := by
      cases h : b.contains "value" <;> simp [h] at hmiss'; rfl
    rcases hbad with h | h | ⟨h1, h2, h3⟩
    · rw [ht] at h; cases h
    · rw [hv] at h; cases h
    · cases hty : b.get? "type" with
      | none => simp [Json.contains, hty] at ht
      | some tj =>
        cases tj with
        | string t =>
          cases hvl : b.get? "value" with
          | none => simp [Json.contains, hvl] at hv
          | some vj =>
            cases vj with
            | string v =>
              have hne1 : t ≠ "literal" := fun h => h1 (by rw [hty, h])
              have hne2 : t ≠ "uri" := fun h => h2 (by rw [hty, h])
              have hne3 : t ≠ "bnode" := fun h => h3 (by rw [hty, h])
              rw [bindingToTripleComponent_typed ctx b refs t v hty hvl]
              simp only [hne1, hne2, hne3, if_false]
              exact ⟨trivial, _, rfl⟩
            | _ =>
              simp only [bindingToTripleComponent, hmiss', hty, hvl,
                Option.getD_some, Json.getString, Bool.false_eq_true, if_false]
              exact ⟨trivial, _, rfl⟩
        | _ =>
          simp only [bindingToTripleComponent, hmiss', hty,
            Option.getD_some, Json.getString, Bool.false_eq_true, if_false]
          exact ⟨trivial, _, rfl⟩


theorem writeBindingsColumns_rejects (ctx : Context) (binding : Json) (rowIdx : Nat)
    (v : String) (b : Json) (hget : binding.get? v = some b)
    (hbad : b.contains "type" = false ∨ b.contains "value" = false
      ∨ (b.get? "type" ≠ some (Json.string "literal") ∧ b.get? "type" ≠ some (Json.string "uri")
        ∧ b.get? "type" ≠ some (Json.string "bnode"))) :
    ∀ (vars : List String) (colIdx : Nat) (idTable : IdTable) (refs : Refs), v ∈ vars →
      ∃ e, (writeBindingsColumns ctx binding rowIdx colIdx vars idTable refs).1 = .error e := by
  intro vars
  induction vars with
  | nil => intro _ _ _ h; cases h
  | cons var vars ih =>
    intro colIdx idTable refs hmem
    by_cases hv : var = v
    · subst hv
      obtain ⟨h2, e, h1⟩ := bindingToTripleComponent_rejects ctx b refs hbad
      refine ⟨e, ?_⟩
      simp only [writeBindingsColumns, hget]
      rw [show bindingToTripleComponent ctx b refs = (.error e, refs) from Prod.ext h1 h2]
    · have hmem' : v ∈ vars := by
        rcases List.mem_cons.1 hmem with h | h
        · exact absurd h.symm hv
        · exact h
      simp only [writeBindingsColumns]
      split
      · exact ⟨_, rfl⟩
      · split
        · exact ⟨_, rfl⟩
        · exact ih _ _ _ hmem'

theorem writeBindings_rejects (ctx : Context) (vars : List String)
    (v : String) (b binding : Json) (hv : v ∈ vars) (hget : binding.get? v = some b)
    (hbad : b.contains "type" = false ∨ b.contains "value" = false
      ∨ (b.get? "type" ≠ some (Json.string "literal") ∧ b.get? "type" ≠ some (Json.string "uri")
        ∧ b.get? "type" ≠ some (Json.string "bnode"))) :
    ∀ (bindings : List Json) (idTable : IdTable) (rowIdx : Nat) (refs : Refs),
      binding ∈ bindings →
      ∃ e, (writeBindings ctx vars bindings idTable rowIdx refs).1 = .error e := by
  intro bindings
  induction bindings with
  | nil => intro _ _ _ h; cases h
  | cons first rest ih =>
    intro idTable rowIdx refs hmem
    simp only [writeBindings]
    by_cases hb : first = binding
    · subst hb
      obtain ⟨e, he⟩ := writeBindingsColumns_rejects ctx first rowIdx v b hget hbad vars 0
        (idTable.emplace_back ctx.uninitialized) refs hv
      split
      · exact ⟨_, rfl⟩
      · rename_i heq
        rw [heq] at he
        cases he
    · have hmem' : binding ∈ rest := by
        rcases List.mem_cons.1 hmem with h | h
        · exact absurd h.symm hb
        · exact h
      split
      · exact ⟨_, rfl⟩
      · split
        · exact ⟨_, rfl⟩
        · exact ih _ _ _ hmem'

theorem writeJsonResult_rejects (ctx : Context) (vars : List String) (partJson : Json)
    (bindings : List Json) (hbindings : resultsBindings partJson = some bindings)
    (v : String) (b binding : Json) (hmem : binding ∈ bindings) (hv : v ∈ vars)
    (hget : binding.get? v = some b)
    (hbad : b.contains "type" = false ∨ b.contains "value" = false
      ∨ (b.get? "type" ≠ some (Json.string "literal") ∧ b.get? "type" ≠ some (Json.string "uri")
        ∧ b.get? "type" ≠ some (Json.string "bnode")))
    (idTable : IdTable) (localVocab : LocalVocab) (rowIdx : Nat) (w : World) :
    ∃ e, (writeJsonResult ctx vars partJson idTable localVocab rowIdx w).1 = .error e := by
  simp only [writeJsonResult, hbindings]
  split
  · exact ⟨_, rfl⟩
  · rename_i w1 _
    obtain ⟨e, he⟩ := writeBindings_rejects ctx vars v b binding hv hget hbad bindings idTable
      rowIdx ⟨[], localVocab, w1⟩ hmem
    split
    · exact ⟨_, rfl⟩
    · rename_i heq
      rw [heq] at he
      cases he


theorem whileLoop_rejects (ctx : Context) (vars : List String) (partJson : Json)
    (bindings : List Json) (hbindings : resultsBindings partJson = some bindings)
    (v : String) (b binding : Json) (hmem : binding ∈ bindings) (hv : v ∈ vars)
    (hget : binding.get? v = some b)
    (hbad : b.contains "type" = false ∨ b.contains "value" = false
      ∨ (b.get? "type" ≠ some (Json.string "literal") ∧ b.get? "type" ≠ some (Json.string "uri")
        ∧ b.get? "type" ≠ some (Json.string "bnode"))) :
    ∀ (parts : List (Json × LazyJsonParser.Details)) (g : Get) (w : World),
      g.vars = vars → (∃ d, (partJson, d) ∈ parts) →
      ∀ (out : Option IdTableVocabPair) (g1 : Get) (w1 : World),
        Get.whileLoop ctx parts g w = (.ok (out, g1), w1) →
        out ≠ none ∧ g1.vars = vars ∧ g1.inputRange.parts.length < parts.length
          ∧ ∃ d, (partJson, d) ∈ g1.inputRange.parts := by
  intro parts
  induction parts with
  | nil => intro g w _ h; obtain ⟨d, hd⟩ := h; cases hd
  | cons p rest ih =>
    obtain ⟨pj, d0⟩ := p
    intro g w hvars hin out g1 w1 hrun
    simp only [Get.whileLoop] at hrun
    split at hrun
    · cases hrun
    · split at hrun
      · cases hrun
      · rename_i written w2 hwritten
        obtain ⟨d, hd⟩ := hin
        rcases List.mem_cons.1 hd with hhead | htail
        · exfalso
          have hpj : pj = partJson := by cases hhead; rfl
          subst hpj
          obtain ⟨e, he⟩ := writeJsonResult_rejects ctx g.vars pj bindings hbindings v b binding
            hmem (hvars ▸ hv) hget hbad g.idTable g.localVocab g.rowIdx w
          rw [hwritten] at he
          cases he
        · split at hrun
          · cases hrun
            exact ⟨by simp, hvars, by simp, d, htail⟩
          · obtain ⟨h1, h2, h3, h4⟩ := ih _ _ (by exact hvars) ⟨d, htail⟩ out g1 w1 hrun
            exact ⟨h1, h2, by simp; omega, h4⟩


theorem call_rejects (ctx : Context) (vars : List String) (partJson : Json)
    (bindings : List Json) (hbindings : resultsBindings partJson = some bindings)
    (v : String) (b binding : Json) (hmem : binding ∈ bindings) (hv : v ∈ vars)
    (hget : binding.get? v = some b)
    (hbad : b.contains "type" = false ∨ b.contains "value" = false
      ∨ (b.get? "type" ≠ some (Json.string "literal") ∧ b.get? "type" ≠ some (Json.string "uri")
        ∧ b.get? "type" ≠ some (Json.string "bnode")))
    (g : Get) (w : World) (hvars : g.vars = vars)
    (hin : ∃ d, (partJson, d) ∈ g.inputRange.parts)
    (control : LoopControl) (g1 : Get) (w1 : World)
    (hcall : Get.call ctx g w = (.ok (control, g1), w1)) :
    (∃ pair, control = .yieldValue pair) ∧ g1.vars = vars
      ∧ g1.inputRange.parts.length < g.inputRange.parts.length
      ∧ ∃ d, (partJson, d) ∈ g1.inputRange.parts := by
  have hloop := whileLoop_rejects ctx vars partJson bindings hbindings v b binding hmem hv hget
    hbad g.inputRange.parts g w hvars hin
  simp only [Get.call] at hcall
  split at hcall
  · cases hcall
  · cases hcall
  · rename_i pair g2 w2 heq
    obtain ⟨-, h2, h3, h4⟩ := hloop _ _ _ heq
    cases hcall
    exact ⟨⟨pair, rfl⟩, h2, h3, h4⟩
  · rename_i g2 w2 heq
    exact absurd rfl (hloop _ _ _ heq).1

theorem get_rejects (ctx : Context) (vars : List String) (partJson : Json)
    (bindings : List Json) (hbindings : resultsBindings partJson = some bindings)
    (v : String) (b binding : Json) (hmem : binding ∈ bindings) (hv : v ∈ vars)
    (hget : binding.get? v = some b)
    (hbad : b.contains "type" = false ∨ b.contains "value" = false
      ∨ (b.get? "type" ≠ some (Json.string "literal") ∧ b.get? "type" ≠ some (Json.string "uri")
        ∧ b.get? "type" ≠ some (Json.string "bnode")))
    (r : InputRangeFromLoopControlGet) (w : World) (hfin : r.finished = false)
    (hvars : r.getter.vars = vars)
    (hin : ∃ d, (partJson, d) ∈ r.getter.inputRange.parts)
    (out : Option IdTableVocabPair) (r1 : InputRangeFromLoopControlGet) (w1 : World)
    (hpull : r.get ctx w = (.ok (out, r1), w1)) :
    out ≠ none ∧ r1.finished = false ∧ r1.getter.vars = vars
      ∧ r1.getter.inputRange.parts.length < r.getter.inputRange.parts.length
      ∧ ∃ d, (partJson, d) ∈ r1.getter.inputRange.parts := by
  have hcall := call_rejects ctx vars partJson bindings hbindings v b binding hmem hv hget hbad
    r.getter w hvars hin
  simp only [InputRangeFromLoopControlGet.get, hfin, Bool.false_eq_true, if_false] at hpull
  split at hpull
  · cases hpull
  · rename_i pair g w2 heq
    obtain ⟨-, h2, h3, h4⟩ := hcall _ _ _ heq
    cases hpull
    exact ⟨by simp, rfl, h2, h3, h4⟩
  · rename_i pair g w2 heq
    obtain ⟨⟨p, hp⟩, -⟩ := hcall _ _ _ heq
    cases hp
  · rename_i g w2 heq
    obtain ⟨⟨p, hp⟩, -⟩ := hcall _ _ _ heq
    cases hp

theorem drain_rejects (ctx : Context) (vars : List String) (partJson : Json)
    (bindings : List Json) (hbindings : resultsBindings partJson = some bindings)
    (v : String) (b binding : Json) (hmem : binding ∈ bindings) (hv : v ∈ vars)
    (hget : binding.get? v = some b)
    (hbad : b.contains "type" = false ∨ b.contains "value" = false
      ∨ (b.get? "type" ≠ some (Json.string "literal") ∧ b.get? "type" ≠ some (Json.string "uri")
        ∧ b.get? "type" ≠ some (Json.string "bnode"))) :
    ∀ (fuel : Nat) (r : InputRangeFromLoopControlGet) (w : World), r.finished = false →
      r.getter.vars = vars → (∃ d, (partJson, d) ∈ r.getter.inputRange.parts) →
      r.getter.inputRange.parts.length < fuel →
      ∃ e w1, r.drain ctx fuel w = some (.error e, w1) := by
  intro fuel
  induction fuel with
  | zero => intro r w _ _ _ h; cases h
  | succ fuel ih =>
    intro r w hfin hvars hin hlen
    have hpull := get_rejects ctx vars partJson bindings hbindings v b binding hmem hv hget hbad
      r w hfin hvars hin
    simp only [InputRangeFromLoopControlGet.drain]
    split
    · exact ⟨_, _, rfl⟩
    · rename_i r1 w1 heq
      exact absurd rfl (hpull _ _ _ heq).1
    · rename_i pair r1 w1 heq
      obtain ⟨-, h2, h3, h4, h5⟩ := hpull _ _ _ heq
      obtain ⟨e, w2, hd⟩ := ih r1 w1 h2 h3 h5 (by omega)
      rw [hd]
      exact ⟨_, _, rfl⟩

/-! ## What a fragment writes into the table -/

theorem set_getElem?_self {α : Type} (l : List α) (i : Nat) (a : α) (h : l[i]? = some a) :
    l.set i a = l := by
  apply List.ext_getElem?
  intro n
  rw [List.getElem?_set]
  by_cases hin : i = n
  · subst hin
    have hlt : i < l.length := by
      rcases List.getElem?_eq_some.1 h with ⟨hlt, -⟩
      exact hlt
    simp [hlt, h]
  · simp [hin]

theorem IdTable.set?_eq_some (t : IdTable) (rowIdx colIdx : Nat) (id : ValueId)
    (row : List ValueId) (hrow : t.rows[rowIdx]? = some row) (hcol : colIdx < row.length) :
    t.set? rowIdx colIdx id
      = some ⟨t.numColumns_, t.rows.set rowIdx (row.set colIdx id)⟩ := by
  simp [IdTable.set?, hrow, hcol]

theorem writeBindingsColumns_spec (ctx : Context) (binding : Json) (rowIdx : Nat) :
    ∀ (vars : List String) (colIdx : Nat) (idTable : IdTable) (refs : Refs)
      (row : List ValueId),
      idTable.rows[rowIdx]? = some row → colIdx + vars.length ≤ row.length →
      (∀ t refs1, writeBindingsColumns ctx binding rowIdx colIdx vars idTable refs
          = (.ok t, refs1) →
        t.numColumns_ = idTable.numColumns_ ∧
        ∃ row1, t.rows = idTable.rows.set rowIdx row1 ∧ row1.length = row.length ∧
          (∀ c, c < colIdx → row1[c]? = row[c]?) ∧
          (∀ j v, vars[j]? = some v → binding.get? v = none →
            row1[colIdx + j]? = some ValueId.makeUndefined) ∧
          (∀ j v b, vars[j]? = some v → binding.get? v = some b →
            ∃ refs0 tc refs2, bindingToTripleComponent ctx b refs0 = (.ok tc, refs2) ∧
              row1[colIdx + j]? = some (tc.toValueId ctx.vocab refs2.localVocab).1))
      ∧ (∀ e refs1, writeBindingsColumns ctx binding rowIdx colIdx vars idTable refs
          = (.error e, refs1) →
        ∃ v b refs0, v ∈ vars ∧ binding.get? v = some b ∧
          (bindingToTripleComponent ctx b refs0).1 = .error e) := by
  intro vars
  induction vars with
  | nil =>
    intro colIdx idTable refs row hrow _
    constructor
    · intro t refs1 h
      simp only [writeBindingsColumns, Prod.mk.injEq, Except.ok.injEq] at h
      obtain ⟨rfl, -⟩ := h
      refine ⟨rfl, row, (set_getElem?_self _ _ _ hrow).symm, rfl, fun _ _ => rfl, ?_, ?_⟩
      · intro j v hj; simp at hj
      · intro j v b hj; simp at hj
    · intro e refs1 h
      simp [writeBindingsColumns] at h
  | cons var vars ih =>
    intro colIdx idTable refs row hrow hlen
    have hcol : colIdx < row.length := by simp at hlen; omega
    have hrlt : rowIdx < idTable.rows.length := by
      rcases List.getElem?_eq_some.1 hrow with ⟨hlt, -⟩
      exact hlt
    -- the step shared by both kinds of cells
    have step : ∀ (id : ValueId) (refsA : Refs),
        (∀ t refs1, writeBindingsColumns ctx binding rowIdx (colIdx + 1) vars
            ⟨idTable.numColumns_, idTable.rows.set rowIdx (row.set colIdx id)⟩ refsA
            = (.ok t, refs1) →
          t.numColumns_ = idTable.numColumns_ ∧
          ∃ row1, t.rows = idTable.rows.set rowIdx row1 ∧ row1.length = row.length ∧
            (∀ c, c < colIdx → row1[c]? = row[c]?) ∧ row1[colIdx]? = some id ∧
            (∀ j v, vars[j]? = some v → binding.get? v = none →
              row1[colIdx + 1 + j]? = some ValueId.makeUndefined) ∧
            (∀ j v b, vars[j]? = some v → binding.get? v = some b →
              ∃ refs0 tc refs2, bindingToTripleComponent ctx b refs0 = (.ok tc, refs2) ∧
                row1[colIdx + 1 + j]? = some (tc.toValueId ctx.vocab refs2.localVocab).1))
        ∧ (∀ e refs1, writeBindingsColumns ctx binding rowIdx (colIdx + 1) vars
            ⟨idTable.numColumns_, idTable.rows.set rowIdx (row.set colIdx id)⟩ refsA
            = (.error e, refs1) →
          ∃ v b refs0, v ∈ vars ∧ binding.get? v = some b ∧
            (bindingToTripleComponent ctx b refs0).1 = .error e) := by
      intro id refsA
      have hrow' : (⟨idTable.numColumns_, idTable.rows.set rowIdx (row.set colIdx id)⟩
          : IdTable).rows[rowIdx]? = some (row.set colIdx id) := by
        simp [hrlt]
      have hlen' : colIdx + 1 + vars.length ≤ (row.set colIdx id).length := by
        simp at hlen ⊢; omega
      obtain ⟨hok, herr⟩ := ih (colIdx + 1) _ refsA (row.set colIdx id) hrow' hlen'
      refine ⟨?_, herr⟩
      intro t refs1 h
      obtain ⟨h1, row1, h2, h3, h4, h5, h6⟩ := hok t refs1 h
      refine ⟨h1, row1, ?_, ?_, ?_, ?_, h5, h6⟩
      · rw [h2]; simp [List.set_set]
      · rw [h3]; simp
      · intro c hc
        rw [h4 c (by omega)]
        simp [List.getElem?_set_ne (show colIdx ≠ c by omega)]
      · rw [h4 colIdx (by omega)]
        simp [hcol]
    simp only [writeBindingsColumns]
    cases hget : binding.get? var with
    | none =>
      simp only [TripleComponent.toValueId,
        IdTable.set?_eq_some idTable rowIdx colIdx _ row hrow hcol]
      obtain ⟨hok, herr⟩ := step ValueId.makeUndefined refs
      constructor
      · intro t refs1 h
        obtain ⟨h1, row1, h2, h3, h4, h5, h6, h7⟩ := hok t refs1 h
        refine ⟨h1, row1, h2, h3, h4, ?_, ?_⟩
        · intro j v hj hnone
          cases j with
          | zero => simpa using h5
          | succ j =>
            have hidx : colIdx + (j + 1) = colIdx + 1 + j := by omega
            rw [hidx]
            exact h6 j v (by simpa using hj) hnone
        · intro j v b hj hsome
          cases j with
          | zero =>
            simp at hj; subst hj; rw [hget] at hsome; cases hsome
          | succ j =>
            obtain ⟨refs0, tc, refs2, hd, hcell⟩ := h7 j v b (by simpa using hj) hsome
            have hidx : colIdx + (j + 1) = colIdx + 1 + j := by omega
            rw [hidx]
            exact ⟨refs0, tc, refs2, hd, hcell⟩
      · intro e refs1 h
        obtain ⟨v, b, refs0, hv, hb⟩ := herr e refs1 h
        exact ⟨v, b, refs0, List.mem_cons_of_mem _ hv, hb⟩
    | some b0 =>
      cases hdec : bindingToTripleComponent ctx b0 refs with
      | mk res refsB =>
        cases res with
        | error e0 =>
          simp only [hdec]
          constructor
          · intro t refs1 h; cases h
          · intro e refs1 h
            cases h
            exact ⟨var, b0, refs, List.mem_cons_self _ _, hget, by rw [hdec]⟩
        | ok tc0 =>
          simp only [hdec, IdTable.set?_eq_some idTable rowIdx colIdx _ row hrow hcol]
          obtain ⟨hok, herr⟩ := step (tc0.toValueId ctx.vocab refsB.localVocab).1
            { refsB with localVocab := (tc0.toValueId ctx.vocab refsB.localVocab).2 }
          constructor
          · intro t refs1 h
            obtain ⟨h1, row1, h2, h3, h4, h5, h6, h7⟩ := hok t refs1 h
            refine ⟨h1, row1, h2, h3, h4, ?_, ?_⟩
            · intro j v hj hnone
              cases j with
              | zero =>
                simp at hj; subst hj; rw [hget] at hnone; cases hnone
              | succ j =>
                have hidx : colIdx + (j + 1) = colIdx + 1 + j := by omega
                rw [hidx]
                exact h6 j v (by simpa using hj) hnone
            · intro j v b hj hsome
              cases j with
              | zero =>
                simp at hj; subst hj; rw [hget] at hsome; cases hsome
                exact ⟨refs, tc0, refsB, hdec, by simpa using h5⟩
              | succ j =>
                obtain ⟨refs0, tc, refs2, hd, hcell⟩ := h7 j v b (by simpa using hj) hsome
                have hidx : colIdx + (j + 1) = colIdx + 1 + j := by omega
                rw [hidx]
                exact ⟨refs0, tc, refs2, hd, hcell⟩
          · intro e refs1 h
            obtain ⟨v, b, refs0, hv, hb⟩ := herr e refs1 h
            exact ⟨v, b, refs0, List.mem_cons_of_mem _ hv, hb⟩


theorem checkCancellation_error (ctx : Context) (w w1 : World) (e : Exception)
    (h : checkCancellation ctx w = (.error e, w1)) : e.isCancellation = true := by
  simp only [checkCancellation] at h
  split at h
  · cases h; rfl
  · cases h

theorem IdTable.get?_of_row (t : IdTable) (rowIdx col : Nat) (row : List ValueId)
    (hrow : t.rows[rowIdx]? = some row) : t.get? rowIdx col = row[col]? := by
  simp [IdTable.get?, hrow]

theorem writeBindings_spec (ctx : Context) (vars : List String) :
    ∀ (bindings : List Json) (idTable : IdTable) (rowIdx : Nat) (refs : Refs),
      rowIdx = idTable.rows.length → vars.length ≤ idTable.numColumns_ →
      (∀ t r refs1, writeBindings ctx vars bindings idTable rowIdx refs = (.ok (t, r), refs1) →
        r = rowIdx + bindings.length ∧ t.rows.length = rowIdx + bindings.length ∧
        t.numColumns_ = idTable.numColumns_ ∧
        (∀ k, k < rowIdx → t.rows[k]? = idTable.rows[k]?) ∧
        (∀ i binding j v, bindings[i]? = some binding → vars[j]? = some v →
          binding.get? v = none → t.get? (rowIdx + i) j = some ValueId.makeUndefined) ∧
        (∀ i binding j v b, bindings[i]? = some binding → vars[j]? = some v →
          binding.get? v = some b →
          ∃ refs0 tc refs2, bindingToTripleComponent ctx b refs0 = (.ok tc, refs2) ∧
            t.get? (rowIdx + i) j = some (tc.toValueId ctx.vocab refs2.localVocab).1))
      ∧ (∀ e refs1, writeBindings ctx vars bindings idTable rowIdx refs = (.error e, refs1) →
          e.isCancellation = true ∨
          ∃ binding v b refs0, binding ∈ bindings ∧ v ∈ vars ∧ binding.get? v = some b ∧
            (bindingToTripleComponent ctx b refs0).1 = .error e) := by
  intro bindings
  induction bindings with
  | nil =>
    intro idTable rowIdx refs _ _
    constructor
    · intro t r refs1 h
      simp only [writeBindings, Prod.mk.injEq, Except.ok.injEq] at h
      obtain ⟨⟨rfl, rfl⟩, -⟩ := h
      refine ⟨rfl, by simp [*], rfl, fun _ _ => rfl, ?_, ?_⟩
      · intro i binding j v hi; simp at hi
      · intro i binding j v b hi; simp at hi
    · intro e refs1 h
      simp [writeBindings] at h
  | cons binding rest ih =>
    intro idTable rowIdx refs hrowIdx hwidth
    have hrow1 : (idTable.emplace_back ctx.uninitialized).rows[rowIdx]?
        = some (List.replicate idTable.numColumns_ ctx.uninitialized) := by
      simp only [IdTable.emplace_back, hrowIdx]
      exact List.getElem?_concat_length _ _
    obtain ⟨hokc, herrc⟩ := writeBindingsColumns_spec ctx binding rowIdx vars 0
      (idTable.emplace_back ctx.uninitialized) refs _ hrow1 (by simpa using hwidth)
    simp only [writeBindings]
    cases hc : writeBindingsColumns ctx binding rowIdx 0 vars
        (idTable.emplace_back ctx.uninitialized) refs with
    | mk res refsC =>
      cases res with
      | error e0 =>
        simp only []
        constructor
        · intro t r refs1 h; cases h
        · intro e refs1 h
          cases h
          obtain ⟨v, b, refs0, hv, hb, hd⟩ := herrc _ _ hc
          exact Or.inr ⟨binding, v, b, refs0, List.mem_cons_self _ _, hv, hb, hd⟩
      | ok t1 =>
        simp only []
        obtain ⟨hcols, row1, hrows, hlen1, -, hundef, hdec⟩ := hokc _ _ hc
        have hrows1 : t1.rows = idTable.rows ++ [row1] := by
          rw [hrows]
          simp only [IdTable.emplace_back, hrowIdx]
          rw [List.set_append_right _ _ (le_refl _)]
          simp
        cases hcc : checkCancellation ctx refsC.world with
        | mk rc wc =>
          cases rc with
          | error e1 =>
            simp only []
            constructor
            · intro t r refs1 h; cases h
            · intro e refs1 h
              cases h
              exact Or.inl (checkCancellation_error ctx _ _ _ hcc)
          | ok u =>
            simp only []
            obtain ⟨hok, herr⟩ := ih t1 (rowIdx + 1) { refsC with world := wc }
              (by rw [hrows1, hrowIdx]; simp)
              (by rw [hcols]; simpa [IdTable.emplace_back] using hwidth)
            constructor
            · intro t r refs1 h
              obtain ⟨h1, h2, h3, h4, h5, h6⟩ := hok t r refs1 h
              have hrowAt : t.rows[rowIdx]? = some row1 := by
                rw [h4 rowIdx (by omega), hrows1, hrowIdx]
                exact List.getElem?_concat_length _ _
              refine ⟨by rw [h1]; simp; omega, by rw [h2]; simp; omega,
                by rw [h3, hcols]; rfl, ?_, ?_, ?_⟩
              · intro k hk
                rw [h4 k (by omega), hrows1]
                exact List.getElem?_append_left (by omega)
              · intro i b0 j v hi hj hnone
                cases i with
                | zero =>
                  simp at hi; subst hi
                  rw [Nat.add_zero, IdTable.get?_of_row t rowIdx j row1 hrowAt]
                  simpa using hundef j v hj hnone
                | succ i =>
                  have hidx : rowIdx + (i + 1) = rowIdx + 1 + i := by omega
                  rw [hidx]
                  exact h5 i b0 j v (by simpa using hi) hj hnone
              · intro i b0 j v b hi hj hsome
                cases i with
                | zero =>
                  simp at hi; subst hi
                  rw [Nat.add_zero, IdTable.get?_of_row t rowIdx j row1 hrowAt]
                  simpa using hdec j v b hj hsome
                | succ i =>
                  have hidx : rowIdx + (i + 1) = rowIdx + 1 + i := by omega
                  rw [hidx]
                  exact h6 i b0 j v b (by simpa using hi) hj hsome
            · intro e refs1 h
              rcases herr e refs1 h with hcanc | ⟨b0, v, b, refs0, hb0, hv, hb, hd⟩
              · exact Or.inl hcanc
              · exact Or.inr ⟨b0, v, b, refs0, List.mem_cons_of_mem _ hb0, hv, hb, hd⟩

/-! ## Properties of the decode on concrete and on arbitrary inputs -/

/-- C3 (failing input): a SILENT clause, a response with status 200 and the right content
type, and a body on which the tokenizer fails.  With `requestLaziness = false` the result is
the neutral result.  With `requestLaziness = true` `computeResult` returns a lazy result
without error, and consuming that result raises the decode error: SILENT does not turn it
into the neutral result. -/
theorem computeResult_lazy_silent_decode_error :
    Example.silentClause.silent_ = true
      ∧ Example.silentService200.computeResult Example.ctx false Example.world
        = (.ok (.materialized ⟨2, [[ValueId.makeUndefined, ValueId.makeUndefined]]⟩ []
            LocalVocab.empty), Example.worldAfterRequest)
      ∧ ∃ generator : InputRangeFromLoopControlGet,
          Example.silentService200.computeResult Example.ctx true Example.world
            = (.ok (.lazy generator []), Example.worldAfterRequest)
          ∧ generator.consume Example.ctx Example.worldAfterRequest
            = some (.error (.runtime_error
                ("Error while executing a SERVICE request to <http://e/>: "
                  ++ "Parser failed with error: 'unexpected end of input'. "
                  ++ "First 100 bytes of the response: ''")), Example.worldAfterRequest) :=
  ⟨rfl, rfl, _, rfl, rfl⟩

/-- C7 (failing input): the label `b0` occurs twice in the first fragment and once in the
second.  Within the first fragment both occurrences get the blank node 0; the occurrence in
the second fragment gets the new blank node 1, in single-table mode (one table with both
rows) as in multi-chunk mode (one chunk per fragment). -/
theorem computeResult_bnode_label_across_fragments :
    Example.service200.computeResult Example.ctxTwoFragments false Example.world
        = (.ok (.materialized
            ⟨2, [[ValueId.makeFromBlankNodeIndex 0, ValueId.makeFromBlankNodeIndex 0],
                 [ValueId.makeFromBlankNodeIndex 1, ValueId.makeUndefined]]⟩ []
            ⟨[], [0, 1]⟩), ⟨6, 2, Example.worldAfterRequest.sentRequests⟩)
      ∧ ∃ generator : InputRangeFromLoopControlGet,
          Example.service200.computeResult Example.ctxTwoFragments true Example.world
            = (.ok (.lazy generator []), Example.worldAfterRequest)
          ∧ generator.consume Example.ctxTwoFragments Example.worldAfterRequest
            = some (.ok
                [⟨⟨2, [[ValueId.makeFromBlankNodeIndex 0, ValueId.makeFromBlankNodeIndex 0]]⟩,
                    ⟨[], [0]⟩⟩,
                  ⟨⟨2, [[ValueId.makeFromBlankNodeIndex 1, ValueId.makeUndefined]]⟩,
                    ⟨[], [1]⟩⟩], ⟨6, 2, Example.worldAfterRequest.sentRequests⟩) :=
  ⟨rfl, _, rfl, rfl⟩

/-- C6: `verifyVariables` succeeds exactly when the header has a member `vars` that is an
array of strings and the set of the names, each with a leading question mark, equals the set
of the visible variables of the clause; otherwise it raises an error.  Whether it succeeds
does not depend on the order of the names in `vars`. -/
theorem verifyVariables_ok_iff (clause : parsedQuery.Service) (ctx : Context) (head : Json)
    (details : LazyJsonParser.Details) :
    (verifyVariables clause ctx head details = .ok () ↔
      ∃ vars : List String, head.get? "vars" = some (Json.array (vars.map Json.string)) ∧
        (vars.map (fun v => Variable.mk ("?" ++ v))).toFinset
          = clause.visibleVariables_.toFinset)
    ∧ ((¬ ∃ vars : List String, head.get? "vars" = some (Json.array (vars.map Json.string)) ∧
          (vars.map (fun v => Variable.mk ("?" ++ v))).toFinset
            = clause.visibleVariables_.toFinset) →
        ∃ e, verifyVariables clause ctx head details = .error e)
    ∧ (∀ (other : Json) (otherDetails : LazyJsonParser.Details) (vars permuted : List String),
        head.get? "vars" = some (Json.array (vars.map Json.string)) →
        other.get? "vars" = some (Json.array (permuted.map Json.string)) →
        vars.Perm permuted →
        (verifyVariables clause ctx head details = .ok () ↔
          verifyVariables clause ctx other otherDetails = .ok ())) := by
  refine ⟨verifyVariables_ok_iff_aux clause ctx head details, ?_, ?_⟩
  · intro hnot
    cases h : verifyVariables clause ctx head details with
    | error e => exact ⟨e, rfl⟩
    | ok u => exact absurd ((verifyVariables_ok_iff_aux clause ctx head details).1 h) hnot
  · intro other otherDetails vars permuted hhead hother hperm
    rw [verifyVariables_ok_iff_aux, verifyVariables_ok_iff_aux]
    have hset : (vars.map (fun v => Variable.mk ("?" ++ v))).toFinset
        = (permuted.map (fun v => Variable.mk ("?" ++ v))).toFinset :=
      List.toFinset_eq_of_perm _ _ (hperm.map _)
    have hinj : Function.Injective Json.string := fun a b h => by cases h; rfl
    constructor
    · rintro ⟨vs, h1, h2⟩
      rw [hhead] at h1
      have hvs : vars = vs := List.map_injective_iff.2 hinj (by simpa using h1)
      subst hvs
      exact ⟨permuted, hother, by rw [← hset]; exact h2⟩
    · rintro ⟨vs, h1, h2⟩
      rw [hother] at h1
      have hvs : permuted = vs := List.map_injective_iff.2 hinj (by simpa using h1)
      subst hvs
      exact ⟨vars, hhead, by rw [hset]; exact h2⟩

theorem verifyVariables_ok_iff_witness :
    List.Perm ["y", "x"] ["x", "y"]
      ∧ verifyVariables Example.silentClause Example.ctx Example.headXY Example.details = .ok ()
      ∧ verifyVariables Example.silentClause Example.ctx Example.headYX Example.details
        = .ok () :=
  ⟨List.Perm.swap _ _ _, rfl,
    ((verifyVariables_ok_iff Example.silentClause Example.ctx Example.headYX
      Example.details).2.2 Example.headXY Example.details ["y", "x"] ["x", "y"] rfl rfl
      (List.Perm.swap _ _ _)).2 rfl⟩

/-- C8: let `rowIdx` be the number of rows of the table and let the table have a column for
every expected variable.  If `writeJsonResult` succeeds on a fragment, then the row of every
binding holds Undefined in the column of every expected variable that has no entry in the
binding, and in the column of a variable that has an entry it holds the Id of what
`bindingToTripleComponent` decodes from the entry.  If it fails, the error is a
cancellation, a fragment without a bindings array, or the error that
`bindingToTripleComponent` raises on an entry that is present: a missing entry raises no
error. -/
theorem writeJsonResult_missing_variable_undefined (ctx : Context) (vars : List String)
    (partJson : Json) (idTable : IdTable) (localVocab : LocalVocab) (rowIdx : Nat) (w : World)
    (hrowIdx : rowIdx = idTable.size) (hwidth : vars.length ≤ idTable.numColumns) :
    (∀ written w1,
      writeJsonResult ctx vars partJson idTable localVocab rowIdx w = (.ok written, w1) →
      ∃ bindings, resultsBindings partJson = some bindings ∧
        written.rowIdx = rowIdx + bindings.length ∧
        written.idTable.size = rowIdx + bindings.length ∧
        (∀ i binding j v, bindings[i]? = some binding → vars[j]? = some v →
          binding.get? v = none →
          written.idTable.get? (rowIdx + i) j = some ValueId.makeUndefined) ∧
        (∀ i binding j v b, bindings[i]? = some binding → vars[j]? = some v →
          binding.get? v = some b →
          ∃ refs0 tc refs2, bindingToTripleComponent ctx b refs0 = (.ok tc, refs2) ∧
            written.idTable.get? (rowIdx + i) j
              = some (tc.toValueId ctx.vocab refs2.localVocab).1))
    ∧ (∀ e w1,
      writeJsonResult ctx vars partJson idTable localVocab rowIdx w = (.error e, w1) →
      e.isCancellation = true ∨ resultsBindings partJson = none ∨
        ∃ bindings binding v b refs0, resultsBindings partJson = some bindings ∧
          binding ∈ bindings ∧ v ∈ vars ∧ binding.get? v = some b ∧
          (bindingToTripleComponent ctx b refs0).1 = .error e) := by
  cases hb : resultsBindings partJson with
  | none =>
    constructor
    · intro written w1 h
      simp only [writeJsonResult, hb] at h
      split at h <;> cases h
    · intro e w1 _
      exact Or.inr (Or.inl rfl)
  | some bindings =>
    constructor
    · intro written w1 h
      simp only [writeJsonResult, hb] at h
      split at h
      · cases h
      · rename_i w2 _
        obtain ⟨hok, -⟩ := writeBindings_spec ctx vars bindings idTable rowIdx
          ⟨[], localVocab, w2⟩ hrowIdx hwidth
        split at h
        · cases h
        · rename_i res refs1 heq
          obtain ⟨h1, h2, -, -, h5, h6⟩ := hok res.1 res.2 refs1 heq
          split at h
          · cases h
          · cases h
            exact ⟨bindings, rfl, h1, h2, h5, h6⟩
    · intro e w1 h
      simp only [writeJsonResult, hb] at h
      split at h
      · rename_i e0 w2 hcc
        cases h
        exact Or.inl (checkCancellation_error ctx _ _ _ hcc)
      · rename_i w2 _
        obtain ⟨-, herr⟩ := writeBindings_spec ctx vars bindings idTable rowIdx
          ⟨[], localVocab, w2⟩ hrowIdx hwidth
        split at h
        · rename_i e0 refs1 heq
          cases h
          rcases herr _ _ heq with hc | ⟨binding, v, b, refs0, h1, h2, h3, h4⟩
          · exact Or.inl hc
          · exact Or.inr (Or.inr ⟨bindings, binding, v, b, refs0, rfl, h1, h2, h3, h4⟩)
        · split at h
          · rename_i e0 w3 hcc
            cases h
            exact Or.inl (checkCancellation_error ctx _ _ _ hcc)
          · cases h

theorem writeJsonResult_missing_variable_undefined_witness :
    0 = (IdTable.mk0 2).size ∧ ["x", "y"].length ≤ (IdTable.mk0 2).numColumns
      ∧ writeJsonResult Example.ctx ["x", "y"] Example.fragmentSecond (IdTable.mk0 2)
          LocalVocab.empty 0 Example.world
        = (.ok ⟨⟨2, [[ValueId.makeFromBlankNodeIndex 0, ValueId.makeUndefined]]⟩,
            ⟨[], [0]⟩, 1⟩, ⟨3, 1, []⟩)
      ∧ (⟨2, [[ValueId.makeFromBlankNodeIndex 0, ValueId.makeUndefined]]⟩ : IdTable).get? 0 1
        = some ValueId.makeUndefined := by
  refine ⟨rfl, by decide, rfl, ?_⟩
  obtain ⟨bindings, hb, -, -, hundef, -⟩ :=
    (writeJsonResult_missing_variable_undefined Example.ctx ["x", "y"] Example.fragmentSecond
      (IdTable.mk0 2) LocalVocab.empty 0 Example.world rfl (by decide)).1 _ _ rfl
  cases hb
  exact hundef 0 _ 1 "y" rfl rfl rfl

/-- C9: for a binding whose `type` and `value` are the strings `type` and `value`: with
type "literal" the result is the typed literal built from `value` and the datatype when a
`datatype` is present (whether or not `xml:lang` is present too), otherwise the literal with
the language tag when `xml:lang` is present, otherwise the plain literal with content
`value`; with type "uri" it is the IRI whose bracket-free reference is `value`.  None of
these cases changes the blank-node map, the local vocabulary or the global state. -/
theorem bindingToTripleComponent_literal_and_uri (ctx : Context) (binding : Json) (refs : Refs)
    (type value : String)
    (htype : binding.get? "type" = some (Json.string type))
    (hvalue : binding.get? "value" = some (Json.string value)) :
    (type = "literal" →
      (∀ datatype, binding.get? "datatype" = some (Json.string datatype) →
        bindingToTripleComponent ctx binding refs
          = (ctx.literalAndDatatypeToTripleComponent value
              (Iri.fromIrirefWithoutBrackets datatype), refs))
      ∧ (binding.get? "datatype" = none →
          ∀ tag, binding.get? "xml:lang" = some (Json.string tag) →
          bindingToTripleComponent ctx binding refs
            = (.ok (.literal (Literal.literalWithNormalizedContent value (.languageTag tag))),
                refs))
      ∧ (binding.get? "datatype" = none → binding.get? "xml:lang" = none →
          bindingToTripleComponent ctx binding refs
            = (.ok (.literal (Literal.literalWithNormalizedContent value .none)), refs)
          ∧ (Literal.literalWithNormalizedContent value .none).content = value))
    ∧ (type = "uri" →
        bindingToTripleComponent ctx binding refs
          = (.ok (.iri (Iri.fromIrirefWithoutBrackets value)), refs)
        ∧ (Iri.fromIrirefWithoutBrackets value).getContent = value) := by
  rw [bindingToTripleComponent_typed ctx binding refs type value htype hvalue]
  constructor
  · intro hlit
    subst hlit
    refine ⟨?_, ?_, ?_⟩
    · intro datatype hdt
      simp [bindingToLiteral, hdt, Json.getString]
    · intro hdt tag hlang
      simp [bindingToLiteral, hdt, hlang, Json.getString]
    · intro hdt hlang
      simp [bindingToLiteral, hdt, hlang, Literal.literalWithNormalizedContent]
  · intro huri
    subst huri
    exact ⟨by simp, rfl⟩

theorem bindingToTripleComponent_literal_and_uri_witness :
    Example.bindingDatatypeAndLang.get? "type" = some (Json.string "literal")
      ∧ Example.bindingDatatypeAndLang.get? "value" = some (Json.string "5")
      ∧ Example.bindingDatatypeAndLang.get? "xml:lang" = some (Json.string "en")
      ∧ bindingToTripleComponent Example.ctx Example.bindingDatatypeAndLang Example.refs
        = (.ok (.literal ⟨"5", .datatype ⟨"http://www.w3.org/2001/XMLSchema#integer"⟩⟩),
            Example.refs) :=
  ⟨rfl, rfl, rfl,
    ((bindingToTripleComponent_literal_and_uri Example.ctx Example.bindingDatatypeAndLang
      Example.refs "literal" "5" rfl rfl).1 rfl).1
      "http://www.w3.org/2001/XMLSchema#integer" rfl⟩

/-- C10: a binding without `type` or without `value` (one of the two suffices, whatever the
other member is), or with a `type` that is none of "literal", "uri", "bnode", makes
`bindingToTripleComponent` raise an error and leave the blank-node map, the local vocabulary
and the blank-node manager as they were; a missing member gives the "Missing type or value"
error before the type is looked at.  The decode does not skip such a binding: the fragment
that holds it makes `writeJsonResult` fail, and whoever consumes the decode of a stream that
holds such a fragment ends with an error. -/
theorem bindingToTripleComponent_rejects_and_aborts (ctx : Context) (b : Json)
    (hbad : b.contains "type" = false ∨ b.contains "value" = false
      ∨ (b.get? "type" ≠ some (Json.string "literal") ∧ b.get? "type" ≠ some (Json.string "uri")
        ∧ b.get? "type" ≠ some (Json.string "bnode"))) :
    (∀ refs, ∃ e, bindingToTripleComponent ctx b refs = (.error e, refs))
    ∧ (b.contains "type" = false ∨ b.contains "value" = false →
        ∀ refs, bindingToTripleComponent ctx b refs
          = (.error (.runtime_error ("Missing type or value field in binding. "
              ++ "The binding is: '" ++ ctx.dump b ++ "'")), refs))
    ∧ (∀ (vars : List String) (partJson : Json) (bindings : List Json) (binding : Json)
        (v : String),
        resultsBindings partJson = some bindings → binding ∈ bindings → v ∈ vars →
        binding.get? v = some b →
        (∀ idTable localVocab rowIdx w,
          ∃ e, (writeJsonResult ctx vars partJson idTable localVocab rowIdx w).1 = .error e)
        ∧ (∀ (r : InputRangeFromLoopControlGet) (w : World), r.finished = false →
            r.getter.vars = vars → (∃ d, (partJson, d) ∈ r.getter.inputRange.parts) →
            ∃ e w1, r.consume ctx w = some (.error e, w1))) := by
  refine ⟨?_, ?_, ?_⟩
  · intro refs
    obtain ⟨h2, e, h1⟩ := bindingToTripleComponent_rejects ctx b refs hbad
    exact ⟨e, Prod.ext h1 h2⟩
  · intro hmiss refs
    have hcond : (!b.contains "type" || !b.contains "value") = true := by
      rcases hmiss with h | h <;> simp [h]
    simp only [bindingToTripleComponent, hcond, if_true]
    rfl
  · intro vars partJson bindings binding v hbindings hmem hv hget
    constructor
    · intro idTable localVocab rowIdx w
      exact writeJsonResult_rejects ctx vars partJson bindings hbindings v b binding hmem hv
        hget hbad idTable localVocab rowIdx w
    · intro r w hfin hvars hin
      exact drain_rejects ctx vars partJson bindings hbindings v b binding hmem hv hget hbad
        _ r w hfin hvars hin (by omega)

theorem bindingToTripleComponent_rejects_and_aborts_witness :
    Example.bindingWithoutValue.contains "value" = false
      ∧ bindingToTripleComponent Example.ctx Example.bindingWithoutValue Example.refs
        = (.error (.runtime_error
            "Missing type or value field in binding. The binding is: '<binding>'"),
            Example.refs)
      ∧ ∃ e w1, (Example.service200.computeResultLazily ["x", "y"] Example.bodyRejected
          false).consume Example.ctx Example.world = some (.error e, w1) :=
  ⟨rfl,
    (bindingToTripleComponent_rejects_and_aborts Example.ctx Example.bindingWithoutValue
      (Or.inr (Or.inl rfl))).2.1 (Or.inr rfl) Example.refs,
    ((bindingToTripleComponent_rejects_and_aborts Example.ctx Example.bindingWithoutValue
      (Or.inr (Or.inl rfl))).2.2 ["x", "y"] Example.fragmentRejected
        [.object [("x", Example.bindingWithoutValue)]] (.object [("x", Example.bindingWithoutValue)])
        "x" rfl (List.mem_cons_self _ _) (List.mem_cons_self _ _) rfl).2 _ Example.world
      rfl rfl ⟨Example.details, List.mem_cons_of_mem _ (List.mem_cons_self _ _)⟩⟩

/-! ## The query text and the response -/

theorem afterFirstBrace_append (pre rest : List Char) (h : Char.ofNat 123 ∉ pre) :
    Service.afterFirstBrace (pre ++ Char.ofNat 123 :: rest) = some rest := by
  induction pre with
  | nil => simp [Service.afterFirstBrace]
  | cons c pre ih =>
    have hc : c ≠ Char.ofNat 123 := fun hc => h (by simp [hc])
    have hpre : Char.ofNat 123 ∉ pre := fun hp => h (List.mem_cons_of_mem _ hp)
    simp [Service.afterFirstBrace, hc, ih hpre]

theorem afterFirstBrace_none (pattern : List Char) (h : Char.ofNat 123 ∉ pattern) :
    Service.afterFirstBrace pattern = none := by
  induction pattern with
  | nil => rfl
  | cons c rest ih =>
    have hc : c ≠ Char.ofNat 123 := fun hc => h (by simp [hc])
    have hrest : Char.ofNat 123 ∉ rest := fun hp => h (List.mem_cons_of_mem _ hp)
    simp [Service.afterFirstBrace, hc, ih hrest]

theorem startsWithSelect_iff (rest : List Char) :
    Service.startsWithSelect rest = true ↔
      ∃ ws tail : List Char, rest = ws ++ "SELECT".data ++ tail ∧
        ∀ c ∈ ws, c = ' ' ∨ c = '\t' ∨ c = '\r' ∨ c = '\n' := by
  induction rest with
  | nil =>
    constructor
    · intro h; simp [Service.startsWithSelect] at h
    · rintro ⟨ws, tail, h, -⟩
      have := congrArg List.length h
      simp at this
      omega
  | cons c rest ih =>
    by_cases hc : c = ' ' ∨ c = '\t' ∨ c = '\r' ∨ c = '\n'
    · have hstep : Service.startsWithSelect (c :: rest) = Service.startsWithSelect rest := by
        have hb : (c = ' ' || c = '\t' || c = '\r' || c = '\n') = true := by
          rcases hc with h | h | h | h <;> simp [h]
        simp only [Service.startsWithSelect, List.dropWhile_cons, hb, if_true]
      rw [hstep, ih]
      constructor
      · rintro ⟨ws, tail, h, hws⟩
        refine ⟨c :: ws, tail, by simp [h], ?_⟩
        intro x hx
        rcases List.mem_cons.1 hx with h | h
        · rw [h]; exact hc
        · exact hws x h
      · rintro ⟨ws, tail, h, hws⟩
        cases ws with
        | nil =>
          exfalso
          simp at h
          have hS : c = 'S' := by
            have := h.1
            exact this
          rw [hS] at hc
          revert hc
          decide
        | cons x ws =>
          simp at h
          exact ⟨ws, tail, by simp [h.2], fun y hy => hws y (List.mem_cons_of_mem _ hy)⟩
    · have hb : (c = ' ' || c = '\t' || c = '\r' || c = '\n') = false := by
        simp only [not_or] at hc
        simp [hc.1, hc.2.1, hc.2.2.1, hc.2.2.2]
      have hstep : Service.startsWithSelect (c :: rest)
          = "SELECT".data.isPrefixOf (c :: rest) := by
        simp only [Service.startsWithSelect, List.dropWhile_cons, hb, Bool.false_eq_true,
          if_false]
      rw [hstep]
      constructor
      · intro h
        have hp : "SELECT".data <+: (c :: rest) := List.isPrefixOf_iff_prefix.1 h
        obtain ⟨tail, ht⟩ := hp
        exact ⟨[], tail, by simp [← ht], by simp⟩
      · rintro ⟨ws, tail, h, hws⟩
        cases ws with
        | nil =>
          apply List.isPrefixOf_iff_prefix.2
          exact ⟨tail, by simp [h]⟩
        | cons x ws =>
          exfalso
          simp at h
          exact hc (h.1 ▸ hws x (List.mem_cons_self _ _))


/-- C13: for a pattern whose first opening brace is followed by `rest`, where `rest` does
not begin with whitespace and the keyword SELECT, `pushDownValues` returns an opening brace,
a line break, the VALUES text, a line break and `rest` unchanged; a pattern without an
opening brace fails the correctness check. -/
theorem pushDownValues_plain (values : String) :
    (∀ pre rest : List Char, Char.ofNat 123 ∉ pre →
      (¬ ∃ ws tail : List Char, rest = ws ++ "SELECT".data ++ tail ∧
        ∀ c ∈ ws, c = ' ' ∨ c = '\t' ∨ c = '\r' ∨ c = '\n') →
      Service.pushDownValues (String.mk (pre ++ Char.ofNat 123 :: rest)) values
        = .ok ("\x7b\n" ++ values ++ "\n" ++ String.mk rest))
    ∧ (∀ pattern : String, Char.ofNat 123 ∉ pattern.data →
        Service.pushDownValues pattern values
          = .error (.CorrectnessCheck "index != std::string::npos")) := by
  constructor
  · intro pre rest hpre hsel
    have hs : Service.startsWithSelect rest = false := by
      cases h : Service.startsWithSelect rest with
      | false => rfl
      | true => exact absurd ((startsWithSelect_iff rest).1 h) hsel
    simp [Service.pushDownValues, afterFirstBrace_append pre rest hpre, hs]
  · intro pattern hpat
    simp [Service.pushDownValues, afterFirstBrace_none _ hpat]

theorem pushDownValues_plain_witness :
    Char.ofNat 123 ∉ ([] : List Char)
      ∧ Service.pushDownValues "\x7b ?s ?p ?o \x7d" "VALUES (?s) \x7b (<a>) (<b>) \x7d . "
        = .ok "\x7b\nVALUES (?s) \x7b (<a>) (<b>) \x7d . \n ?s ?p ?o \x7d"
      ∧ Service.pushDownValues "?s ?p ?o" "VALUES (?s) \x7b (<a>) (<b>) \x7d . "
        = .error (.CorrectnessCheck "index != std::string::npos") :=
  ⟨by simp,
    (pushDownValues_plain "VALUES (?s) \x7b (<a>) (<b>) \x7d . ").1 [] " ?s ?p ?o \x7d".data
      (by simp) (by
        rintro ⟨ws, tail, h, hws⟩
        cases ws with
        | nil => simp at h
        | cons x ws =>
          simp at h
          cases ws with
          | nil => simp at h
          | cons y ws =>
            simp at h
            have := hws y (by simp)
            rw [← h.2.1] at this
            revert this
            decide),
    (pushDownValues_plain "VALUES (?s) \x7b (<a>) (<b>) \x7d . ").2 "?s ?p ?o" (by decide)⟩

/-- C14 (failing input): the text after the opening brace begins with whitespace and the
keyword in lower case (`select`) or mixed case (`Select`); `pushDownValues` does not add the
extra pair of braces.  It adds them when the keyword is written `SELECT`. -/
theorem pushDownValues_select_letter_case :
    Service.pushDownValues "\x7b select ?s \x7b ?s ?p ?o \x7d \x7d" "VALUES (?s) \x7b (<a>) \x7d . "
        = .ok "\x7b\nVALUES (?s) \x7b (<a>) \x7d . \n select ?s \x7b ?s ?p ?o \x7d \x7d"
      ∧ Service.pushDownValues "\x7b Select ?s \x7b ?s ?p ?o \x7d \x7d"
          "VALUES (?s) \x7b (<a>) \x7d . "
        = .ok "\x7b\nVALUES (?s) \x7b (<a>) \x7d . \n Select ?s \x7b ?s ?p ?o \x7d \x7d"
      ∧ Service.pushDownValues "\x7b SELECT ?s \x7b ?s ?p ?o \x7d \x7d"
          "VALUES (?s) \x7b (<a>) \x7d . "
        = .ok ("\x7b\nVALUES (?s) \x7b (<a>) \x7d . \n\x7b SELECT ?s \x7b ?s ?p ?o \x7d \x7d"
            ++ "\n\x7d") :=
  ⟨rfl, rfl, rfl⟩

/-- C17: with caching of SERVICE results enabled the cache key is the text "SERVICE ", then
"SILENT " for a SILENT clause, the endpoint IRI in angle brackets, an opening brace and a
line break, the prologue, a line break, the graph pattern, a line break and a closing brace;
two operators that agree in these four fields of the clause have the same key, whatever
their visible variables, sibling info, transport function and cache breaker are. -/
theorem getCacheKeyImpl_caching_enabled (ctx : Context)
    (hcache : ctx.runtimeParameters.cacheServiceResults = true) :
    (∀ s : Service, s.getCacheKeyImpl ctx
        = "SERVICE " ++ (if s.parsedServiceClause_.silent_ = true then "SILENT " else "")
          ++ ("<" ++ s.parsedServiceClause_.serviceIri_.content ++ ">") ++ " \x7b\n"
          ++ s.parsedServiceClause_.prologue_ ++ "\n"
          ++ s.parsedServiceClause_.graphPatternAsString_ ++ "\n\x7d")
    ∧ (∀ s t : Service,
        s.parsedServiceClause_.silent_ = t.parsedServiceClause_.silent_ →
        s.parsedServiceClause_.serviceIri_ = t.parsedServiceClause_.serviceIri_ →
        s.parsedServiceClause_.prologue_ = t.parsedServiceClause_.prologue_ →
        s.parsedServiceClause_.graphPatternAsString_
          = t.parsedServiceClause_.graphPatternAsString_ →
        s.getCacheKeyImpl ctx = t.getCacheKeyImpl ctx) := by
  constructor
  · intro s
    simp [Service.getCacheKeyImpl, hcache, Iri.toStringRepresentation]
  · intro s t h1 h2 h3 h4
    simp [Service.getCacheKeyImpl, hcache, h1, h2, h3, h4]

/-- C20: for every operator, `getMultiplicity` is 1 for every column, the size estimate is
100000 and the cost estimate is ten times the size estimate, 1000000. -/
theorem estimates_constant (s : Service) :
    (∀ col, s.getMultiplicity col = 1) ∧ s.getSizeEstimateBeforeLimit = 100000
      ∧ s.getCostEstimate = 10 * s.getSizeEstimateBeforeLimit
      ∧ s.getCostEstimate = 1000000 := by
  refine ⟨fun _ => rfl, ?_, ?_, ?_⟩
  · simp only [Service.getSizeEstimateBeforeLimit]
  · simp only [Service.getCostEstimate]
  · simp only [Service.getCostEstimate, Service.getSizeEstimateBeforeLimit]

/-! ## The request that is sent -/

theorem checkCancellation_sentRequests (ctx : Context) (w : World) :
    (checkCancellation ctx w).2.sentRequests = w.sentRequests := rfl

theorem valuesRows_sentRequests (ctx : Context) (idTable : IdTable) (localVocab : LocalVocab)
    (commonColumnIndices : List Nat) :
    ∀ (rowIndices : List Nat) (rowSet : List String) (values : String) (w : World),
      (Service.valuesRows ctx idTable localVocab commonColumnIndices rowIndices rowSet values
        w).2.sentRequests = w.sentRequests := by
  intro rowIndices
  induction rowIndices with
  | nil => intro _ _ _; rfl
  | cons rowIndex rest ih =>
    intro rowSet values w
    simp only [Service.valuesRows]
    split
    · rfl
    · split
      · exact ih _ _ _
      · split
        · rename_i heq
          have := checkCancellation_sentRequests ctx w
          rw [heq] at this
          exact this
        · rename_i heq
          have := checkCancellation_sentRequests ctx w
          rw [heq] at this
          rw [ih]
          exact this

theorem getSiblingValuesClause_sentRequests (s : Service) (ctx : Context) (w : World) :
    (s.getSiblingValuesClause ctx w).2.sentRequests = w.sentRequests := by
  simp only [Service.getSiblingValuesClause]
  split
  · rfl
  · split
    · rfl
    · split
      · rename_i heq
        have := checkCancellation_sentRequests ctx w
        rw [heq] at this
        exact this
      · rename_i w1 heq
        have h1 := checkCancellation_sentRequests ctx w
        rw [heq] at h1
        split
        · rename_i heq2
          have h2 := checkCancellation_sentRequests ctx w1
          rw [heq2] at h2
          exact h2.trans h1
        · rename_i w2 heq2
          have h2 := checkCancellation_sentRequests ctx w1
          rw [heq2] at h2
          split
          · exact h2.trans h1
          · split
            · rename_i heq3
              have h3 := congrArg (fun r => r.2.sentRequests) heq3
              simp only [valuesRows_sentRequests] at h3
              exact h3.symm.trans (h2.trans h1)
            · rename_i heq3
              have h3 := congrArg (fun r => r.2.sentRequests) heq3
              simp only [valuesRows_sentRequests] at h3
              exact h3.symm.trans (h2.trans h1)

theorem getGraphPattern_sentRequests (s : Service) (ctx : Context) (w : World) :
    (s.getGraphPattern ctx w).2.sentRequests = w.sentRequests := by
  have h := getSiblingValuesClause_sentRequests s ctx w
  simp only [Service.getGraphPattern]
  split <;> (rename_i heq; rw [heq] at h; exact h)

theorem bindingToTripleComponent_sentRequests (ctx : Context) (b : Json) (refs : Refs) :
    (bindingToTripleComponent ctx b refs).2.world.sentRequests = refs.world.sentRequests := by
  simp only [bindingToTripleComponent]
  split
  · rfl
  · split
    · rfl
    · split
      · rfl
      · split
        · rfl
        · split
          · rfl
          · split
            · split <;> rfl
            · rfl

theorem writeBindingsColumns_sentRequests (ctx : Context) (binding : Json) (rowIdx : Nat) :
    ∀ (vars : List String) (colIdx : Nat) (idTable : IdTable) (refs : Refs),
      (writeBindingsColumns ctx binding rowIdx colIdx vars idTable refs).2.world.sentRequests
        = refs.world.sentRequests := by
  intro vars
  induction vars with
  | nil => intro _ _ _; rfl
  | cons var vars ih =>
    intro colIdx idTable refs
    have hdec : ∀ r : Except Exception TripleComponent × Refs,
        (match binding.get? var with
          | some b => bindingToTripleComponent ctx b refs
          | none => (.ok TripleComponent.UNDEF, refs)) = r →
        r.2.world.sentRequests = refs.world.sentRequests := by
      intro r hr
      rw [← hr]
      split
      · exact bindingToTripleComponent_sentRequests ctx _ refs
      · rfl
    simp only [writeBindingsColumns]
    split
    · rename_i heq
      exact hdec _ heq
    · rename_i heq
      have := hdec _ heq
      split
      · exact this
      · rw [ih]
        exact this

theorem writeBindings_sentRequests (ctx : Context) (vars : List String) :
    ∀ (bindings : List Json) (idTable : IdTable) (rowIdx : Nat) (refs : Refs),
      (writeBindings ctx vars bindings idTable rowIdx refs).2.world.sentRequests
        = refs.world.sentRequests := by
  intro bindings
  induction bindings with
  | nil => intro _ _ _; rfl
  | cons binding rest ih =>
    intro idTable rowIdx refs
    simp only [writeBindings]
    have hcols := writeBindingsColumns_sentRequests ctx binding rowIdx vars 0
      (idTable.emplace_back ctx.uninitialized) refs
    split
    · rename_i heq
      rw [heq] at hcols
      exact hcols
    · rename_i refs1 heq
      rw [heq] at hcols
      have hcc := checkCancellation_sentRequests ctx refs1.world
      split
      · rename_i heq2
        rw [heq2] at hcc
        exact hcc.trans hcols
      · rename_i heq2
        rw [heq2] at hcc
        rw [ih]
        exact hcc.trans hcols

theorem writeJsonResult_sentRequests (ctx : Context) (vars : List String) (partJson : Json)
    (idTable : IdTable) (localVocab : LocalVocab) (rowIdx : Nat) (w : World) :
    (writeJsonResult ctx vars partJson idTable localVocab rowIdx w).2.sentRequests
      = w.sentRequests := by
  simp only [writeJsonResult]
  have h1 := checkCancellation_sentRequests ctx w
  split
  · rename_i heq
    rw [heq] at h1
    exact h1
  · rename_i w1 heq
    rw [heq] at h1
    split
    · exact h1
    · rename_i bindings _
      have h2 := writeBindings_sentRequests ctx vars bindings idTable rowIdx
        ⟨[], localVocab, w1⟩
      split
      · rename_i heq2
        rw [heq2] at h2
        exact h2.trans h1
      · rename_i refs heq2
        rw [heq2] at h2
        have h3 := checkCancellation_sentRequests ctx refs.world
        split <;> (rename_i heq3; rw [heq3] at h3; exact h3.trans (h2.trans h1))

theorem whileLoop_sentRequests (ctx : Context) :
    ∀ (parts : List (Json × LazyJsonParser.Details)) (g : Get) (w : World),
      (Get.whileLoop ctx parts g w).2.sentRequests = w.sentRequests := by
  intro parts
  induction parts with
  | nil =>
    intro g w
    simp only [Get.whileLoop]
    split <;> rfl
  | cons p rest ih =>
    obtain ⟨partJson, details⟩ := p
    intro g w
    simp only [Get.whileLoop]
    split
    · rfl
    · have h := writeJsonResult_sentRequests ctx g.vars partJson g.idTable g.localVocab
        g.rowIdx w
      split
      · rename_i heq
        rw [heq] at h
        exact h
      · rename_i heq
        rw [heq] at h
        split
        · exact h
        · rw [ih]
          exact h

theorem call_sentRequests (ctx : Context) (g : Get) (w : World) :
    (Get.call ctx g w).2.sentRequests = w.sentRequests := by
  have h := whileLoop_sentRequests ctx g.inputRange.parts g w
  simp only [Get.call]
  split
  · rename_i heq; rw [heq] at h; exact h
  · rename_i heq; rw [heq] at h; exact h
  · rename_i heq; rw [heq] at h; exact h
  · rename_i heq
    rw [heq] at h
    split
    · exact h
    · split
      · exact h
      · split <;> exact h

theorem get_sentRequests (ctx : Context) (r : InputRangeFromLoopControlGet) (w : World) :
    (r.get ctx w).2.sentRequests = w.sentRequests := by
  have h := call_sentRequests ctx r.getter w
  simp only [InputRangeFromLoopControlGet.get]
  split
  · rfl
  · split <;> (rename_i heq; rw [heq] at h; exact h)

theorem getSingleElement_sentRequests (ctx : Context) (r : InputRangeFromLoopControlGet)
    (w : World) : (getSingleElement ctx r w).2.sentRequests = w.sentRequests := by
  have h := get_sentRequests ctx r w
  simp only [getSingleElement]
  split
  · rename_i heq; rw [heq] at h; exact h
  · rename_i heq; rw [heq] at h; exact h
  · rename_i r1 w1 heq
    rw [heq] at h
    have h2 := get_sentRequests ctx r1 w1
    split <;> (rename_i heq2; rw [heq2] at h2; exact h2.trans h)


theorem computeResultImpl_unfold (s : Service) (ctx : Context) (requestLaziness : Bool)
    (w w1 : World) (url : Url) (G : String)
    (hmode : ctx.runtimeParameters.syntaxTestMode = false)
    (hurl : ctx.makeUrl s.parsedServiceClause_.serviceIri_.getContent = .ok url)
    (hG : s.getGraphPattern ctx w = (.ok G, w1)) :
    s.computeResultImpl ctx requestLaziness w =
      match s.getResultFunction_ ⟨url, "POST", s.serviceQuery G, "application/sparql-query",
          "application/sparql-results+json"⟩ with
      | .error e =>
        (.error e, { w1 with sentRequests := w1.sentRequests ++
          [⟨url, "POST", s.serviceQuery G, "application/sparql-query",
            "application/sparql-results+json"⟩] })
      | .ok response =>
        if response.status_ ≠ status_ok then
          (.error (throwErrorWithContext s.parsedServiceClause_ ctx
            ("SERVICE responded with HTTP status code: " ++ toString response.status_
              ++ ", " ++ ctx.obsolete_reason response.status_)
            (response.readResponseHead 100) ""),
            { w1 with sentRequests := w1.sentRequests ++
              [⟨url, "POST", s.serviceQuery G, "application/sparql-query",
                "application/sparql-results+json"⟩] })
        else if !starts_with (utf8ToLower response.contentType_)
            "application/sparql-results+json" then
          (.error (throwErrorWithContext s.parsedServiceClause_ ctx
            ("QLever requires the endpoint of a SERVICE to send the result as "
              ++ "'application/sparql-results+json' but the endpoint sent '"
              ++ response.contentType_ ++ "'")
            (response.readResponseHead 100) ""),
            { w1 with sentRequests := w1.sentRequests ++
              [⟨url, "POST", s.serviceQuery G, "application/sparql-query",
                "application/sparql-results+json"⟩] })
        else if requestLaziness then
          (.ok (.lazy (s.computeResultLazily
              (s.parsedServiceClause_.visibleVariables_.map Variable.nameWithoutQuestionMark)
              (ctx.parse response.body_) (!requestLaziness)) s.resultSortedOn),
            { w1 with sentRequests := w1.sentRequests ++
              [⟨url, "POST", s.serviceQuery G, "application/sparql-query",
                "application/sparql-results+json"⟩] })
        else
          match getSingleElement ctx (s.computeResultLazily
              (s.parsedServiceClause_.visibleVariables_.map Variable.nameWithoutQuestionMark)
              (ctx.parse response.body_) (!requestLaziness))
              { w1 with sentRequests := w1.sentRequests ++
                [⟨url, "POST", s.serviceQuery G, "application/sparql-query",
                  "application/sparql-results+json"⟩] } with
          | (.error e, w3) => (.error e, w3)
          | (.ok pair, w3) =>
            (.ok (.materialized pair.idTable_ s.resultSortedOn pair.localVocab_), w3) := by
  simp only [Service.computeResultImpl, hmode, hurl, hG, Bool.false_eq_true, if_false]


/-- C15: outside syntax-test mode, when the endpoint URL is valid and the graph pattern `G`
is built without error, exactly one request is sent, and its text is the prologue, a line
break, "SELECT ", then "*" for an empty list of visible variables and otherwise their names
separated by single blanks, a blank, and `G`.  `G` is the graph pattern of the clause when
no sibling info is set, and `pushDownValues` of the graph pattern and the sibling VALUES
clause when sibling info is set.  When building `G` fails, nothing is sent. -/
theorem serviceQuery_sent (s : Service) (ctx : Context) (requestLaziness : Bool) (w : World)
    (url : Url) (hmode : ctx.runtimeParameters.syntaxTestMode = false)
    (hurl : ctx.makeUrl s.parsedServiceClause_.serviceIri_.getContent = .ok url) :
    (∀ G w1, s.getGraphPattern ctx w = (.ok G, w1) →
      (s.computeResultImpl ctx requestLaziness w).2.sentRequests = w.sentRequests ++
        [⟨url, "POST",
          s.parsedServiceClause_.prologue_ ++ "\nSELECT "
            ++ (if s.parsedServiceClause_.visibleVariables_ = [] then "*"
                else " ".intercalate (s.parsedServiceClause_.visibleVariables_.map
                  Variable.name))
            ++ " " ++ G,
          "application/sparql-query", "application/sparql-results+json"⟩])
    ∧ (s.siblingInfo_ = none →
        s.getGraphPattern ctx w = (.ok s.parsedServiceClause_.graphPatternAsString_, w))
    ∧ (s.siblingInfo_ ≠ none → ∀ r w1, s.getSiblingValuesClause ctx w = (.ok r, w1) →
        ∃ valuesClause, r = some valuesClause ∧
          s.getGraphPattern ctx w
            = (Service.pushDownValues s.parsedServiceClause_.graphPatternAsString_
                valuesClause, w1))
    ∧ (∀ e w1, s.getGraphPattern ctx w = (.error e, w1) →
        (s.computeResultImpl ctx requestLaziness w).2.sentRequests = w.sentRequests) := by
  refine ⟨?_, ?_, ?_, ?_⟩
  · intro G w1 hG
    have hw1 : w1.sentRequests = w.sentRequests := by
      have := getGraphPattern_sentRequests s ctx w
      rw [hG] at this
      exact this
    have hquery : s.serviceQuery G = s.parsedServiceClause_.prologue_ ++ "\nSELECT "
        ++ (if s.parsedServiceClause_.visibleVariables_ = [] then "*"
            else " ".intercalate (s.parsedServiceClause_.visibleVariables_.map Variable.name))
        ++ " " ++ G := by
      simp only [Service.serviceQuery, StrJoin]
      cases s.parsedServiceClause_.visibleVariables_ <;> simp
    rw [computeResultImpl_unfold s ctx requestLaziness w w1 url G hmode hurl hG, ← hquery,
      ← hw1]
    split
    · rfl
    · split
      · rfl
      · split
        · rfl
        · split
          · rfl
          · rename_i response _ _ _ _
            have := getSingleElement_sentRequests ctx (s.computeResultLazily
              (s.parsedServiceClause_.visibleVariables_.map Variable.nameWithoutQuestionMark)
              (ctx.parse response.body_) (!requestLaziness))
              { w1 with sentRequests := w1.sentRequests ++
                [⟨url, "POST", s.serviceQuery G, "application/sparql-query",
                  "application/sparql-results+json"⟩] }
            split <;> (rename_i heq; rw [heq] at this; exact this)
  · intro hnone
    simp [Service.getGraphPattern, Service.getSiblingValuesClause, hnone]
  · intro hsome r w1 hvalues
    cases hinfo : s.siblingInfo_ with
    | none => exact absurd hinfo hsome
    | some info =>
      have hr : ∃ valuesClause, r = some valuesClause := by
        simp only [Service.getSiblingValuesClause, hinfo] at hvalues
        split at hvalues
        · cases hvalues
        · split at hvalues
          · cases hvalues
          · split at hvalues
            · cases hvalues
            · split at hvalues
              · cases hvalues
              · split at hvalues
                · cases hvalues
                · cases hvalues
                  exact ⟨_, rfl⟩
      obtain ⟨valuesClause, rfl⟩ := hr
      exact ⟨valuesClause, rfl, by simp only [Service.getGraphPattern, hvalues]⟩
  · intro e w1 hG
    have hw1 : w1.sentRequests = w.sentRequests := by
      have := getGraphPattern_sentRequests s ctx w
      rw [hG] at this
      exact this
    simp only [Service.computeResultImpl, hmode, hurl, hG, Bool.false_eq_true, if_false]
    exact hw1

/-- C16: outside syntax-test mode, with a valid endpoint URL, a graph pattern built without
error and a response of the transport function: a status other than 200 makes
`computeResultImpl` fail with an error that names the numeric status, whatever the content
type is; status 200 with a content type whose lower-cased form does not start with
`application/sparql-results+json` makes it fail with an error that quotes the required type
and the received content type as received; status 200 with such a content type makes it
decode the body, as a lazy result when laziness is requested and as the single element of
the decode otherwise. -/
theorem computeResultImpl_status_and_contentType (s : Service) (ctx : Context)
    (requestLaziness : Bool) (w w1 : World) (url : Url) (G : String)
    (response : HttpOrHttpsResponse)
    (hmode : ctx.runtimeParameters.syntaxTestMode = false)
    (hurl : ctx.makeUrl s.parsedServiceClause_.serviceIri_.getContent = .ok url)
    (hG : s.getGraphPattern ctx w = (.ok G, w1))
    (hresponse : s.getResultFunction_ ⟨url, "POST", s.serviceQuery G,
      "application/sparql-query", "application/sparql-results+json"⟩ = .ok response) :
    (response.status_ ≠ 200 →
      s.computeResultImpl ctx requestLaziness w
        = (.error (.runtime_error ("Error while executing a SERVICE request to <"
            ++ url.asString ++ ">: "
            ++ ("SERVICE responded with HTTP status code: " ++ toString response.status_
              ++ ", " ++ ctx.obsolete_reason response.status_)
            ++ ". First 100 bytes of the response: '" ++ response.readResponseHead 100
            ++ "'")),
          { w1 with sentRequests := w1.sentRequests ++
            [⟨url, "POST", s.serviceQuery G, "application/sparql-query",
              "application/sparql-results+json"⟩] }))
    ∧ (response.status_ = 200 →
        starts_with (utf8ToLower response.contentType_) "application/sparql-results+json"
          = false →
        s.computeResultImpl ctx requestLaziness w
          = (.error (.runtime_error ("Error while executing a SERVICE request to <"
              ++ url.asString ++ ">: "
              ++ ("QLever requires the endpoint of a SERVICE to send the result as "
                ++ "'application/sparql-results+json' but the endpoint sent '"
                ++ response.contentType_ ++ "'")
              ++ ". First 100 bytes of the response: '" ++ response.readResponseHead 100
              ++ "'")),
            { w1 with sentRequests := w1.sentRequests ++
              [⟨url, "POST", s.serviceQuery G, "application/sparql-query",
                "application/sparql-results+json"⟩] }))
    ∧ (response.status_ = 200 →
        starts_with (utf8ToLower response.contentType_) "application/sparql-results+json"
          = true →
        (requestLaziness = true →
          s.computeResultImpl ctx requestLaziness w
            = (.ok (.lazy (s.computeResultLazily
                (s.parsedServiceClause_.visibleVariables_.map
                  Variable.nameWithoutQuestionMark)
                (ctx.parse response.body_) false) s.resultSortedOn),
              { w1 with sentRequests := w1.sentRequests ++
                [⟨url, "POST", s.serviceQuery G, "application/sparql-query",
                  "application/sparql-results+json"⟩] }))
        ∧ (requestLaziness = false →
          (∀ pair w3, getSingleElement ctx (s.computeResultLazily
              (s.parsedServiceClause_.visibleVariables_.map Variable.nameWithoutQuestionMark)
              (ctx.parse response.body_) true)
              { w1 with sentRequests := w1.sentRequests ++
                [⟨url, "POST", s.serviceQuery G, "application/sparql-query",
                  "application/sparql-results+json"⟩] } = (.ok pair, w3) →
            s.computeResultImpl ctx requestLaziness w
              = (.ok (.materialized pair.idTable_ s.resultSortedOn pair.localVocab_), w3))
          ∧ (∀ e w3, getSingleElement ctx (s.computeResultLazily
              (s.parsedServiceClause_.visibleVariables_.map Variable.nameWithoutQuestionMark)
              (ctx.parse response.body_) true)
              { w1 with sentRequests := w1.sentRequests ++
                [⟨url, "POST", s.serviceQuery G, "application/sparql-query",
                  "application/sparql-results+json"⟩] } = (.error e, w3) →
            s.computeResultImpl ctx requestLaziness w = (.error e, w3)))) := by
  rw [computeResultImpl_unfold s ctx requestLaziness w w1 url G hmode hurl hG]
  simp only [hresponse]
  refine ⟨?_, ?_, ?_⟩
  · intro hstatus
    have : response.status_ ≠ status_ok := hstatus
    simp only [this, ne_eq, not_false_eq_true, if_true, throwErrorWithContext, hurl]
  · intro hstatus hct
    have : response.status_ = status_ok := hstatus
    simp only [this, ne_eq, not_true_eq_false, if_false, hct, Bool.not_false, if_true,
      throwErrorWithContext, hurl]
  · intro hstatus hct
    have : response.status_ = status_ok := hstatus
    simp only [this, ne_eq, not_true_eq_false, if_false, hct, Bool.not_true,
      Bool.false_eq_true]
    constructor
    · intro hlazy
      subst hlazy
      simp
    · intro hlazy
      subst hlazy
      simp only [Bool.false_eq_true, if_false, Bool.not_false]
      constructor
      · intro pair w3 hsingle
        rw [hsingle]
      · intro e w3 hsingle
        rw [hsingle]

/-! ## Width, columns and cache keys -/

theorem lookup_insert_self (map : VariableToColumnMap) (key : Variable)
    (value : ColumnIndexAndTypeInfo) : (map.insert key value).lookup key = some value := by
  simp [VariableToColumnMap.insert, List.lookup]

theorem lookup_filter_ne (map : VariableToColumnMap) (key v : Variable) (h : v ≠ key) :
    (map.filter (fun kv => kv.1 ≠ key)).lookup v = map.lookup v := by
  induction map with
  | nil => rfl
  | cons kv rest ih =>
    obtain ⟨k, c⟩ := kv
    by_cases hk : k = key
    · subst hk
      have hvk : (v == k) = false := by simpa using h
      simp [List.filter, List.lookup, hvk]
      simpa using ih
    · by_cases hv : v = k
      · subst hv
        simp [List.filter, hk, List.lookup]
      · have hvk : (v == k) = false := by simpa using hv
        simp [List.filter, hk, List.lookup, hvk]
        simpa using ih

theorem lookup_insert_ne (map : VariableToColumnMap) (key v : Variable)
    (value : ColumnIndexAndTypeInfo) (h : v ≠ key) :
    (map.insert key value).lookup v = map.lookup v := by
  have hvk : (v == key) = false := by simpa using h
  simp only [VariableToColumnMap.insert, List.lookup, hvk]
  exact lookup_filter_ne map key v h

theorem computeVariableToColumnMapLoop_spec :
    ∀ (vars : List Variable) (i : Nat) (map : VariableToColumnMap), vars.Nodup →
      (∀ k v, vars[k]? = some v →
        (Service.computeVariableToColumnMapLoop i vars map).lookup v
          = some (makePossiblyUndefinedColumn (i + k)))
      ∧ (∀ v, v ∉ vars →
        (Service.computeVariableToColumnMapLoop i vars map).lookup v = map.lookup v) := by
  intro vars
  induction vars with
  | nil =>
    intro i map _
    exact ⟨fun k v h => by simp at h, fun v _ => rfl⟩
  | cons x rest ih =>
    intro i map hnodup
    obtain ⟨hx, hrest⟩ := List.nodup_cons.1 hnodup
    obtain ⟨h1, h2⟩ := ih (i + 1) (map.insert x (makePossiblyUndefinedColumn i)) hrest
    constructor
    · intro k v hk
      cases k with
      | zero =>
        simp at hk
        subst hk
        simp only [Service.computeVariableToColumnMapLoop]
        rw [h2 x hx, lookup_insert_self]
        rfl
      | succ k =>
        simp only [Service.computeVariableToColumnMapLoop]
        rw [h1 k v (by simpa using hk)]
        congr 2
        omega
    · intro v hv
      have hvx : v ≠ x := fun h => hv (by simp [h])
      have hvr : v ∉ rest := fun h => hv (List.mem_cons_of_mem _ h)
      simp only [Service.computeVariableToColumnMapLoop]
      rw [h2 v hvr, lookup_insert_ne _ _ _ _ hvx]

/-- C19: for a clause whose visible variables are pairwise distinct, `getResultWidth` is the
number of visible variables, and `computeVariableToColumnMap` maps the variable at position
`i` of the list to column `i`, marked possibly undefined; its keys are exactly the visible
variables. -/
theorem resultWidth_and_variableToColumnMap (s : Service)
    (hunique : s.parsedServiceClause_.visibleVariables_.Nodup) :
    s.getResultWidth = s.parsedServiceClause_.visibleVariables_.length
      ∧ (∀ i v, s.parsedServiceClause_.visibleVariables_[i]? = some v →
          s.computeVariableToColumnMap.lookup v = some ⟨i, UndefStatus.PossiblyUndefined⟩)
      ∧ (∀ v, (s.computeVariableToColumnMap.lookup v).isSome = true ↔
          v ∈ s.parsedServiceClause_.visibleVariables_)
      ∧ (∀ v info, s.computeVariableToColumnMap.lookup v = some info →
          info.mightContainUndef_ = UndefStatus.PossiblyUndefined
            ∧ s.parsedServiceClause_.visibleVariables_[info.columnIndex_]? = some v) := by
  obtain ⟨h1, h2⟩ := computeVariableToColumnMapLoop_spec
    s.parsedServiceClause_.visibleVariables_ 0 [] hunique
  have hkey : ∀ v, v ∈ s.parsedServiceClause_.visibleVariables_ →
      ∃ i, s.parsedServiceClause_.visibleVariables_[i]? = some v ∧
        s.computeVariableToColumnMap.lookup v = some ⟨i, UndefStatus.PossiblyUndefined⟩ := by
    intro v hv
    obtain ⟨i, hi, hget⟩ := List.getElem_of_mem hv
    have hi' : s.parsedServiceClause_.visibleVariables_[i]? = some v := by
      rw [List.getElem?_eq_getElem hi, hget]
    refine ⟨i, hi', ?_⟩
    have := h1 i v hi'
    simpa [Service.computeVariableToColumnMap, makePossiblyUndefinedColumn] using this
  refine ⟨rfl, ?_, ?_, ?_⟩
  · intro i v hi
    have := h1 i v hi
    simpa [Service.computeVariableToColumnMap, makePossiblyUndefinedColumn] using this
  · intro v
    constructor
    · intro hsome
      by_contra hv
      have := h2 v hv
      simp only [Service.computeVariableToColumnMap] at hsome
      rw [this] at hsome
      simp at hsome
    · intro hv
      obtain ⟨i, -, hl⟩ := hkey v hv
      rw [hl]; rfl
  · intro v info hinfo
    by_cases hv : v ∈ s.parsedServiceClause_.visibleVariables_
    · obtain ⟨i, hi, hl⟩ := hkey v hv
      rw [hl] at hinfo
      cases hinfo
      exact ⟨rfl, hi⟩
    · have := h2 v hv
      simp only [Service.computeVariableToColumnMap] at hinfo
      rw [this] at hinfo
      simp at hinfo

theorem digitChar_value (k : Nat) (h : k < 10) : (Nat.digitChar k).toNat - 48 = k := by
  interval_cases k <;> rfl

theorem toDigitsCore_accumulator (fuel : Nat) :
    ∀ (n : Nat) (ds : List Char),
      Nat.toDigitsCore 10 fuel n ds = Nat.toDigitsCore 10 fuel n [] ++ ds := by
  induction fuel with
  | zero => intro n ds; simp [Nat.toDigitsCore]
  | succ fuel ih =>
    intro n ds
    simp only [Nat.toDigitsCore]
    by_cases h : n / 10 = 0
    · simp [h]
    · simp only [h, if_false]
      rw [ih (n / 10) (Nat.digitChar (n % 10) :: ds), ih (n / 10) [Nat.digitChar (n % 10)]]
      simp

theorem decimalValue_toDigitsCore (fuel : Nat) :
    ∀ n : Nat, n < fuel →
      List.foldl (fun acc c => 10 * acc + (c.toNat - 48)) 0 (Nat.toDigitsCore 10 fuel n [])
        = n := by
  induction fuel with
  | zero => intro n h; cases h
  | succ fuel ih =>
    intro n hn
    simp only [Nat.toDigitsCore]
    by_cases h : n / 10 = 0
    · simp only [h, if_true, List.foldl]
      have hlt : n < 10 := by omega
      rw [Nat.mod_eq_of_lt hlt, digitChar_value n hlt]
      omega
    · simp only [h, if_false]
      rw [toDigitsCore_accumulator]
      have hrec := ih (n / 10) (by omega)
      simp only [List.foldl_append, List.foldl] at hrec ⊢
      rw [hrec, digitChar_value (n % 10) (Nat.mod_lt _ (by decide))]
      omega

theorem toString_injective (a b : Nat) (h : toString a = toString b) : a = b := by
  have hd : Nat.toDigits 10 a = Nat.toDigits 10 b := by
    have := congrArg String.data h
    simpa [toString, Nat.repr, List.asString] using this
  have ha := decimalValue_toDigitsCore (a + 1) a (Nat.lt_succ_self a)
  have hb := decimalValue_toDigitsCore (b + 1) b (Nat.lt_succ_self b)
  simp only [Nat.toDigits] at hd
  rw [← ha, ← hb, hd]

theorem append_left_cancel (p a b : String) (h : p ++ a = p ++ b) : a = b := by
  have := congrArg String.data h
  simp only [String.data_append] at this
  exact String.ext (List.append_cancel_left this)

theorem serviceQuery_sent_witness :
    Example.ctx.runtimeParameters.syntaxTestMode = false
      ∧ (Example.service200.computeResultImpl Example.ctx false Example.world).2.sentRequests
        = [⟨⟨"http://e/"⟩, "POST", "\nSELECT ?x ?y \x7b ?x ?p ?y \x7d",
            "application/sparql-query", "application/sparql-results+json"⟩]
      ∧ (Example.serviceWithSibling.computeResultImpl Example.ctx false
          Example.world).2.sentRequests
        = [⟨⟨"http://e/"⟩, "POST",
            "\nSELECT ?x ?y \x7b\nVALUES (?x) \x7b (UNDEF) \x7d . \n ?x ?p ?y \x7d",
            "application/sparql-query", "application/sparql-results+json"⟩] :=
  ⟨rfl,
    (serviceQuery_sent Example.service200 Example.ctx false Example.world ⟨"http://e/"⟩ rfl
      rfl).1 _ _ rfl,
    (serviceQuery_sent Example.serviceWithSibling Example.ctx false Example.world
      ⟨"http://e/"⟩ rfl rfl).1 _ _ rfl⟩

theorem computeResultImpl_status_and_contentType_witness :
    starts_with (utf8ToLower "Application/SPARQL-Results+JSON; charset=utf-8")
        "application/sparql-results+json" = true
      ∧ starts_with (utf8ToLower "text/plain") "application/sparql-results+json" = false
      ∧ Example.serviceTextPlain.computeResultImpl Example.ctx false Example.world
        = (.error (.runtime_error ("Error while executing a SERVICE request to <http://e/>: "
            ++ "QLever requires the endpoint of a SERVICE to send the result as "
            ++ "'application/sparql-results+json' but the endpoint sent 'text/plain'. "
            ++ "First 100 bytes of the response: 'oops'")), Example.worldAfterRequest)
      ∧ Example.silentService500.computeResultImpl Example.ctx false Example.world
        = (.error (.runtime_error ("Error while executing a SERVICE request to <http://e/>: "
            ++ "SERVICE responded with HTTP status code: 500, Internal Server Error. "
            ++ "First 100 bytes of the response: 'oops'")), Example.worldAfterRequest) :=
  ⟨rfl, rfl,
    (computeResultImpl_status_and_contentType Example.serviceTextPlain Example.ctx false
      Example.world Example.world ⟨"http://e/"⟩ "\x7b ?x ?p ?y \x7d"
      ⟨200, "text/plain", ["oops"]⟩ rfl rfl rfl rfl).2.1 rfl rfl,
    (computeResultImpl_status_and_contentType Example.silentService500 Example.ctx false
      Example.world Example.world ⟨"http://e/"⟩ "\x7b ?x ?p ?y \x7d"
      ⟨500, "text/html", ["oops"]⟩ rfl rfl rfl rfl).1 (by decide)⟩

theorem getCacheKeyImpl_caching_enabled_witness :
    Example.ctxCaching.runtimeParameters.cacheServiceResults = true
      ∧ Example.silentService500.getCacheKeyImpl Example.ctxCaching
        = "SERVICE SILENT <http://e/> \x7b\n\n\x7b ?x ?p ?y \x7d\n\x7d"
      ∧ Example.silentService200.getCacheKeyImpl Example.ctxCaching
        = Example.silentService500.getCacheKeyImpl Example.ctxCaching :=
  ⟨rfl, (getCacheKeyImpl_caching_enabled Example.ctxCaching rfl).1 Example.silentService500,
    (getCacheKeyImpl_caching_enabled Example.ctxCaching rfl).2 Example.silentService200
      Example.silentService500 rfl rfl rfl rfl⟩

theorem resultWidth_and_variableToColumnMap_witness :
    Example.silentClause.visibleVariables_.Nodup
      ∧ Example.silentService500.getResultWidth = 2
      ∧ Example.silentService500.computeVariableToColumnMap.lookup ⟨"?y"⟩
        = some ⟨1, UndefStatus.PossiblyUndefined⟩ :=
  ⟨by decide,
    (resultWidth_and_variableToColumnMap Example.silentService500 (by decide)).1,
    (resultWidth_and_variableToColumnMap Example.silentService500 (by decide)).2.1 1 ⟨"?y"⟩
      rfl⟩

/-- C18 (counterexample): with caching disabled, an operator made by the constructor and
the operator that `cloneImpl` makes from it are two instances with the same cache key. -/
theorem cacheKey_of_clone_equal :
    Example.ctx.runtimeParameters.cacheServiceResults = false
      ∧ (Service.construct Example.silentClause (fun _ => .error (.other "")) 0).1.getCacheKeyImpl
          Example.ctx = "SERVICE 0"
      ∧ ((Service.construct Example.silentClause (fun _ => .error (.other "")) 0).1.cloneImpl
          1).1.getCacheKeyImpl Example.ctx = "SERVICE 0" :=
  ⟨rfl, rfl, rfl⟩

/-- C18 (amended): with caching disabled, two operators made by the constructor at
different states of the counter, the later of which is reached by every further
construction, have different cache keys, also when their clauses are identical; the
operator made by `cloneImpl` has the cache key of the operator it was cloned from. -/
theorem cacheKey_caching_disabled (ctx : Context)
    (hcache : ctx.runtimeParameters.cacheServiceResults = false) :
    (∀ clause1 clause2 fn1 fn2 counter1 counter2, counter1 < counter2 →
      (Service.construct clause1 fn1 counter1).1.getCacheKeyImpl ctx
        ≠ (Service.construct clause2 fn2 counter2).1.getCacheKeyImpl ctx)
    ∧ (∀ clause fn counter, (Service.construct clause fn counter).2 = counter + 1)
    ∧ (∀ (s : Service) counter, (s.cloneImpl counter).2 = counter + 1)
    ∧ (∀ (s : Service) counter,
        (s.cloneImpl counter).1.getCacheKeyImpl ctx = s.getCacheKeyImpl ctx) := by
  refine ⟨?_, fun _ _ _ => rfl, fun _ _ => rfl, ?_⟩
  · intro clause1 clause2 fn1 fn2 counter1 counter2 hlt hkey
    simp only [Service.getCacheKeyImpl, hcache, Bool.false_eq_true, if_false,
      Service.construct] at hkey
    have := toString_injective _ _ (append_left_cancel _ _ _ hkey)
    omega
  · intro s counter
    simp [Service.getCacheKeyImpl, hcache, Service.cloneImpl, Service.construct]

theorem cacheKey_caching_disabled_witness :
    Example.ctx.runtimeParameters.cacheServiceResults = false
      ∧ (Service.construct Example.silentClause (fun _ => .error (.other "")) 0).1.getCacheKeyImpl
          Example.ctx
        ≠ (Service.construct Example.silentClause (fun _ => .error (.other "")) 1).1.getCacheKeyImpl
          Example.ctx :=
  ⟨rfl, (cacheKey_caching_disabled Example.ctx rfl).1 _ _ _ _ 0 1 (by decide)⟩

/-! ## The end of the stream of fragments -/

theorem whileLoop_flags (ctx : Context) :
    ∀ (parts : List (Json × LazyJsonParser.Details)) (g : Get) (w : World)
      (out : Option IdTableVocabPair) (g1 : Get) (w1 : World),
      Get.whileLoop ctx parts g w = (.ok (out, g1), w1) →
      ∃ consumed, parts = consumed ++ g1.inputRange.parts ∧
        g1.resultExists = (g.resultExists || !consumed.isEmpty) ∧
        g1.varsChecked = (g.varsChecked || consumed.any (fun p => (p.1.get? "head").isSome)) ∧
        (out = none → g1.inputRange.parts = [] ∧ g.inputRange.failure = none) ∧
        (out ≠ none → consumed ≠ []) ∧
        g1.vars = g.vars ∧ g1.service = g.service ∧ g1.singleIdTable = g.singleIdTable ∧
        g1.inputRange.failure = g.inputRange.failure ∧
        g1.inputRange.details = g.inputRange.details := by
  intro parts
  induction parts with
  | nil =>
    intro g w out g1 w1 h
    simp only [Get.whileLoop] at h
    split at h
    · cases h
    · rename_i hfail
      cases h
      exact ⟨[], rfl, (by simp), (by simp), (fun _ => ⟨rfl, hfail⟩),
        (fun h => absurd rfl h), rfl, rfl, rfl, rfl, rfl⟩
  | cons p rest ih =>
    obtain ⟨partJson, details⟩ := p
    intro g w out g1 w1 h
    simp only [Get.whileLoop] at h
    split at h
    · cases h
    · rename_i varsChecked hhead
      have hvc : varsChecked = (g.varsChecked || (partJson.get? "head").isSome) := by
        cases hh : partJson.get? "head" with
        | none =>
          simp only [hh] at hhead
          cases hhead
          simp
        | some head =>
          simp only [hh] at hhead
          split at hhead
          · cases hhead
          · split at hhead
            · cases hhead
            · cases hhead
              simp
      split at h
      · cases h
      · split at h
        · cases h
          exact ⟨[(partJson, details)], rfl, (by simp), (by simp [hvc]),
            (fun h => by cases h), (fun _ => by simp), rfl, rfl, rfl, rfl, rfl⟩
        · obtain ⟨consumed, h1, h2, h3, h4, h5, h6, h7, h8, h9, h10⟩ := ih _ _ _ _ _ h
          refine ⟨(partJson, details) :: consumed, (by simp [h1]), (by simp [h2]), ?_, ?_,
            (fun _ => by simp), h6, h7, h8, h9, h10⟩
          · rw [h3, hvc]
            simp [Bool.or_assoc]
          · intro hn
            exact h4 hn


theorem call_at_stream_end (ctx : Context) (g : Get) (w : World)
    (hparts : g.inputRange.parts = []) (hfail : g.inputRange.failure = none) :
    Get.call ctx g w =
      if g.resultExists = false then
        (.error (throwErrorWithContext g.service ctx
          "JSON result does not have the expected structure (results section missing)"
          g.inputRange.details.first100_ g.inputRange.details.last100_), w)
      else if g.varsChecked = false then
        (.error (throwErrorWithContext g.service ctx
          "JSON result does not have the expected structure (head section missing)"
          g.inputRange.details.first100_ g.inputRange.details.last100_), w)
      else if g.singleIdTable = true then (.ok (.breakWithValue ⟨g.idTable, g.localVocab⟩, g), w)
      else (.ok (.makeBreak, g), w) := by
  obtain ⟨service, vars, single, ⟨parts, failure, details⟩, lv, t, r, vc, re⟩ := g
  simp only at hparts hfail
  subst hparts
  subst hfail
  simp only [Get.call, Get.whileLoop]
  cases re <;> cases vc <;> cases single <;> simp

theorem call_ok_history (ctx : Context) (g : Get) (w : World) (control : LoopControl)
    (g1 : Get) (w1 : World) (hcall : Get.call ctx g w = (.ok (control, g1), w1)) :
    ∃ consumed, g.inputRange.parts = consumed ++ g1.inputRange.parts ∧
      g1.resultExists = (g.resultExists || !consumed.isEmpty) ∧
      g1.varsChecked = (g.varsChecked || consumed.any (fun p => (p.1.get? "head").isSome)) ∧
      g1.vars = g.vars ∧ g1.service = g.service ∧ g1.singleIdTable = g.singleIdTable ∧
      g1.inputRange.failure = g.inputRange.failure ∧
      g1.inputRange.details = g.inputRange.details ∧
      ((∃ pair, control = .yieldValue pair) ∧ consumed ≠ [] ∨
        (∀ pair, control ≠ .yieldValue pair) ∧ g1.inputRange.parts = [] ∧
          g.inputRange.failure = none ∧ g1.resultExists = true ∧ g1.varsChecked = true) := by
  simp only [Get.call] at hcall
  split at hcall
  · cases hcall
  · cases hcall
  · rename_i pair g2 w2 heq
    obtain ⟨consumed, h1, h2, h3, -, h5, h6, h7, h8, h9, h10⟩ :=
      whileLoop_flags ctx _ _ _ _ _ _ heq
    cases hcall
    exact ⟨consumed, h1, h2, h3, h6, h7, h8, h9, h10, Or.inl ⟨⟨pair, rfl⟩, h5 (by simp)⟩⟩
  · rename_i g2 w2 heq
    obtain ⟨consumed, h1, h2, h3, h4, -, h6, h7, h8, h9, h10⟩ :=
      whileLoop_flags ctx _ _ _ _ _ _ heq
    obtain ⟨hp, hf⟩ := h4 rfl
    split at hcall
    · cases hcall
    · rename_i hre
      split at hcall
      · cases hcall
      · rename_i hvc
        have hre' : g2.resultExists = true := by simpa using hre
        have hvc' : g2.varsChecked = true := by simpa using hvc
        split at hcall
        · cases hcall
          exact ⟨consumed, h1, h2, h3, h6, h7, h8, h9, h10,
            Or.inr ⟨(fun _ h => by cases h), hp, hf, hre', hvc'⟩⟩
        · cases hcall
          exact ⟨consumed, h1, h2, h3, h6, h7, h8, h9, h10,
            Or.inr ⟨(fun _ h => by cases h), hp, hf, hre', hvc'⟩⟩

theorem drain_ok_history (ctx : Context) :
    ∀ (fuel : Nat) (r : InputRangeFromLoopControlGet) (w : World)
      (chunks : List IdTableVocabPair) (w1 : World), r.finished = false →
      r.drain ctx fuel w = some (.ok chunks, w1) →
      (r.getter.resultExists = true ∨ r.getter.inputRange.parts ≠ []) ∧
      (r.getter.varsChecked = true ∨
        ∃ p ∈ r.getter.inputRange.parts, (p.1.get? "head").isSome = true) ∧
      r.getter.inputRange.failure = none := by
  intro fuel
  induction fuel with
  | zero => intro r w chunks w1 _ h; cases h
  | succ fuel ih =>
    intro r w chunks w1 hfin hdrain
    simp only [InputRangeFromLoopControlGet.drain, InputRangeFromLoopControlGet.get, hfin,
      Bool.false_eq_true, if_false] at hdrain
    cases hcall : Get.call ctx r.getter w with
    | mk res w2 =>
      cases res with
      | error e => simp [hcall] at hdrain
      | ok v =>
        obtain ⟨control, g1⟩ := v
        obtain ⟨consumed, h1, h2, h3, -, -, -, h9, -, hkind⟩ :=
          call_ok_history ctx _ _ _ _ _ hcall
        rcases hkind with ⟨⟨pair, hy⟩, hne⟩ | ⟨-, hp, hf, hre, hvc⟩
        · subst hy
          simp only [hcall] at hdrain
          cases hrest : InputRangeFromLoopControlGet.drain ctx fuel ⟨g1, false⟩ w2 with
          | none => simp [hrest] at hdrain
          | some v =>
            obtain ⟨res2, w3⟩ := v
            cases res2 with
            | error e => simp [hrest] at hdrain
            | ok chunks2 =>
              obtain ⟨-, i2, i3⟩ := ih ⟨g1, false⟩ w2 chunks2 w3 rfl hrest
              refine ⟨Or.inr ?_, ?_, ?_⟩
              · rw [h1]
                cases consumed with
                | nil => exact absurd rfl hne
                | cons c cs => simp
              · rcases i2 with hv | ⟨p, hp, hh⟩
                · simp only at hv
                  rw [h3] at hv
                  rcases Bool.or_eq_true _ _ ▸ hv with hv | hv
                  · exact Or.inl hv
                  · obtain ⟨p, hp, hh⟩ := List.any_eq_true.1 hv
                    exact Or.inr ⟨p, by rw [h1]; exact List.mem_append_left _ hp, hh⟩
                · exact Or.inr ⟨p, by rw [h1]; exact List.mem_append_right _ hp, hh⟩
              · simp only at i3
                rw [← h9]
                exact i3
        · rw [hp, List.append_nil] at h1
          refine ⟨?_, ?_, hf⟩
          · rw [h2] at hre
            rcases Bool.or_eq_true _ _ ▸ hre with h | h
            · exact Or.inl h
            · right
              rw [h1]
              intro hnil
              rw [hnil] at h
              simp at h
          · rw [h3] at hvc
            rcases Bool.or_eq_true _ _ ▸ hvc with h | h
            · exact Or.inl h
            · obtain ⟨p, hp, hh⟩ := List.any_eq_true.1 h
              exact Or.inr ⟨p, by rw [h1]; exact hp, hh⟩


theorem writeJsonResult_inbounds (ctx : Context) (vars : List String) (partJson : Json)
    (idTable : IdTable) (localVocab : LocalVocab) (rowIdx : Nat) (w : World)
    (hrowIdx : rowIdx = idTable.size) (hwidth : vars.length ≤ idTable.numColumns)
    (written : Written) (w1 : World)
    (h : writeJsonResult ctx vars partJson idTable localVocab rowIdx w = (.ok written, w1)) :
    written.rowIdx = written.idTable.size
      ∧ written.idTable.numColumns_ = idTable.numColumns_ := by
  simp only [writeJsonResult] at h
  split at h
  · cases h
  · rename_i w2 _
    split at h
    · cases h
    · rename_i bindings _
      obtain ⟨hok, -⟩ := writeBindings_spec ctx vars bindings idTable rowIdx
        ⟨[], localVocab, w2⟩ hrowIdx hwidth
      split at h
      · cases h
      · rename_i res refs1 heq
        obtain ⟨h1, h2, h3, -⟩ := hok res.1 res.2 refs1 heq
        split at h
        · cases h
        · cases h
          exact ⟨by simp only [IdTable.size]; rw [h1, h2], h3⟩

theorem whileLoop_without_head (ctx : Context) (vars : List String) :
    ∀ (parts : List (Json × LazyJsonParser.Details)) (g : Get) (w : World),
      g.vars = vars → g.inputRange.failure = none →
      g.rowIdx = g.idTable.size → vars.length ≤ g.idTable.numColumns →
      (∀ p ∈ parts, p.1.get? "head" = none) →
      (∀ p ∈ parts, ∀ idTable localVocab rowIdx w0, rowIdx = idTable.size →
        vars.length ≤ idTable.numColumns → ∃ written w1,
        writeJsonResult ctx vars p.1 idTable localVocab rowIdx w0 = (.ok written, w1)) →
      ∃ out g1 w1, Get.whileLoop ctx parts g w = (.ok (out, g1), w1) ∧
        g1.rowIdx = g1.idTable.size ∧ g1.idTable.numColumns_ = g.idTable.numColumns_ := by
  intro parts
  induction parts with
  | nil =>
    intro g w _ hfail hrow _ _ _
    simp only [Get.whileLoop, hfail]
    exact ⟨_, _, _, rfl, hrow, rfl⟩
  | cons p rest ih =>
    obtain ⟨partJson, details⟩ := p
    intro g w hvars hfail hrow hwidth hhead hdecode
    have hh : partJson.get? "head" = none := hhead (partJson, details) (List.mem_cons_self _ _)
    obtain ⟨written, w1, hw⟩ := hdecode (partJson, details) (List.mem_cons_self _ _)
      g.idTable g.localVocab g.rowIdx w hrow hwidth
    obtain ⟨hb1, hb2⟩ := writeJsonResult_inbounds ctx vars partJson g.idTable g.localVocab
      g.rowIdx w hrow hwidth written w1 hw
    simp only [Get.whileLoop, hh, hvars, hw]
    split
    · exact ⟨_, _, _, rfl, rfl, hb2⟩
    · obtain ⟨out, g1, w2, h1, h2, h3⟩ := ih
        { g with
          vars := vars
          idTable := written.idTable
          localVocab := written.localVocab
          rowIdx := written.rowIdx
          varsChecked := g.varsChecked
          resultExists := true } w1 rfl hfail hb1
        (by show vars.length ≤ written.idTable.numColumns_; rw [hb2]; exact hwidth)
        (fun p hp => hhead p (List.mem_cons_of_mem _ hp))
        (fun p hp => hdecode p (List.mem_cons_of_mem _ hp))
      exact ⟨out, g1, w2, h1, h2, h3.trans hb2⟩

theorem drain_without_head (ctx : Context) (vars : List String) :
    ∀ (fuel : Nat) (r : InputRangeFromLoopControlGet) (w : World), r.finished = false →
      r.getter.vars = vars → r.getter.inputRange.failure = none →
      r.getter.varsChecked = false →
      r.getter.rowIdx = r.getter.idTable.size → vars.length ≤ r.getter.idTable.numColumns →
      (∀ p ∈ r.getter.inputRange.parts, p.1.get? "head" = none) →
      (∀ p ∈ r.getter.inputRange.parts, ∀ idTable localVocab rowIdx w0,
        rowIdx = idTable.size → vars.length ≤ idTable.numColumns → ∃ written w1,
        writeJsonResult ctx vars p.1 idTable localVocab rowIdx w0 = (.ok written, w1)) →
      (r.getter.resultExists = true ∨ r.getter.inputRange.parts ≠ []) →
      r.getter.inputRange.parts.length < fuel →
      ∃ w1, r.drain ctx fuel w = some (.error (throwErrorWithContext r.getter.service ctx
        "JSON result does not have the expected structure (head section missing)"
        r.getter.inputRange.details.first100_ r.getter.inputRange.details.last100_), w1) := by
  intro fuel
  induction fuel with
  | zero => intro r w _ _ _ _ _ _ _ _ _ h; cases h
  | succ fuel ih =>
    intro r w hfin hvars hfail hvc hrow hwidth hhead hdecode hre hlen
    obtain ⟨out, g1, w1, hloop, hb1, hb2⟩ := whileLoop_without_head ctx vars
      r.getter.inputRange.parts r.getter w hvars hfail hrow hwidth hhead hdecode
    obtain ⟨consumed, h1, h2, h3, h4, h5, h6, h7, h8, h9, h10⟩ :=
      whileLoop_flags ctx _ _ _ _ _ _ hloop
    have hvc1 : g1.varsChecked = false := by
      rw [h3, hvc, Bool.false_or]
      apply Bool.eq_false_iff.2
      intro hany
      obtain ⟨p, hp, hh⟩ := List.any_eq_true.1 hany
      have := hhead p (by rw [h1]; exact List.mem_append_left _ hp)
      rw [this] at hh
      cases hh
    simp only [InputRangeFromLoopControlGet.drain, InputRangeFromLoopControlGet.get, hfin,
      Bool.false_eq_true, if_false, Get.call, hloop]
    cases out with
    | none =>
      obtain ⟨hp, -⟩ := h4 rfl
      have hre1 : g1.resultExists = true := by
        rw [h2]
        rcases hre with h | h
        · simp [h]
        · rw [hp, List.append_nil] at h1
          rw [← h1]
          cases hparts : r.getter.inputRange.parts with
          | nil => exact absurd hparts h
          | cons c cs => simp
      simp only [hre1, hvc1, Bool.not_true, Bool.false_eq_true, if_false, Bool.not_false,
        if_true, h7, h10]
      exact ⟨_, rfl⟩
    | some pair =>
      have hne : consumed ≠ [] := h5 (by simp)
      have hlen1 : g1.inputRange.parts.length < fuel := by
        have := congrArg List.length h1
        simp only [List.length_append] at this
        have hpos : 0 < consumed.length := List.length_pos.2 hne
        omega
      obtain ⟨w2, hrec⟩ := ih ⟨g1, false⟩ w1 rfl (h6.trans hvars) (h9.trans hfail) hvc1 hb1
        (by show vars.length ≤ g1.idTable.numColumns_; rw [hb2]; exact hwidth)
        (fun p hp => hhead p (by rw [h1]; exact List.mem_append_right _ hp))
        (fun p hp => hdecode p (by rw [h1]; exact List.mem_append_right _ hp))
        (Or.inl (by
          show g1.resultExists = true
          rw [h2]
          cases consumed with
          | nil => exact absurd rfl hne
          | cons c cs => simp))
        hlen1
      simp only [hrec, h7, h10]
      exact ⟨_, rfl⟩

/-- C11: when the stream of fragments has ended normally, the lambda first checks
`resultExists` and raises the "results section missing" error, also when no header was
seen; then it checks `varsChecked` and raises the "head section missing" error; otherwise
it ends the decode without error.  For a whole decode this means: a stream without any
fragment fails with the first error; a stream of at least one fragment, none with a
`head`, whose fragments all decode, fails with the second error; and a decode that ends
without error has received at least one fragment and a fragment with a `head`. -/
theorem stream_end_checks (s : Service) (ctx : Context) (vars : List String)
    (body : LazyJsonParser.Generator) (singleIdTable : Bool) (w : World) :
    (∀ g : Get, g.inputRange.parts = [] → g.inputRange.failure = none →
      Get.call ctx g w =
        if g.resultExists = false then
          (.error (throwErrorWithContext g.service ctx
            "JSON result does not have the expected structure (results section missing)"
            g.inputRange.details.first100_ g.inputRange.details.last100_), w)
        else if g.varsChecked = false then
          (.error (throwErrorWithContext g.service ctx
            "JSON result does not have the expected structure (head section missing)"
            g.inputRange.details.first100_ g.inputRange.details.last100_), w)
        else if g.singleIdTable = true then
          (.ok (.breakWithValue ⟨g.idTable, g.localVocab⟩, g), w)
        else (.ok (.makeBreak, g), w))
    ∧ (body.parts = [] → body.failure = none →
        (s.computeResultLazily vars body singleIdTable).consume ctx w
          = some (.error (throwErrorWithContext s.parsedServiceClause_ ctx
              "JSON result does not have the expected structure (results section missing)"
              body.details.first100_ body.details.last100_), w))
    ∧ (body.parts ≠ [] → body.failure = none → vars.length ≤ s.getResultWidth →
        (∀ p ∈ body.parts, p.1.get? "head" = none) →
        (∀ p ∈ body.parts, ∀ idTable localVocab rowIdx w0, rowIdx = idTable.size →
          vars.length ≤ idTable.numColumns → ∃ written w1,
          writeJsonResult ctx vars p.1 idTable localVocab rowIdx w0 = (.ok written, w1)) →
        ∃ w1, (s.computeResultLazily vars body singleIdTable).consume ctx w
          = some (.error (throwErrorWithContext s.parsedServiceClause_ ctx
              "JSON result does not have the expected structure (head section missing)"
              body.details.first100_ body.details.last100_), w1))
    ∧ (∀ chunks w1,
        (s.computeResultLazily vars body singleIdTable).consume ctx w = some (.ok chunks, w1) →
        body.parts ≠ [] ∧ (∃ p ∈ body.parts, (p.1.get? "head").isSome = true)
          ∧ body.failure = none) := by
  refine ⟨fun g hp hf => call_at_stream_end ctx g w hp hf, ?_, ?_, ?_⟩
  · intro hparts hfail
    have hcall := call_at_stream_end ctx (s.computeResultLazily vars body singleIdTable).getter
      w hparts hfail
    simp only [InputRangeFromLoopControlGet.consume, InputRangeFromLoopControlGet.drain,
      InputRangeFromLoopControlGet.get, hcall]
    simp [Service.computeResultLazily]
  · intro hparts hfail hwidth hhead hdecode
    exact drain_without_head ctx vars _ (s.computeResultLazily vars body singleIdTable) w rfl
      rfl hfail rfl rfl hwidth hhead hdecode (Or.inr hparts) (by
        show body.parts.length < body.parts.length + 2
        omega)
  · intro chunks w1 hconsume
    obtain ⟨h1, h2, h3⟩ := drain_ok_history ctx _ (s.computeResultLazily vars body singleIdTable)
      w chunks w1 rfl hconsume
    refine ⟨?_, ?_, h3⟩
    · rcases h1 with h | h
      · cases h
      · exact h
    · rcases h2 with h | h
      · cases h
      · exact h

theorem stream_end_checks_witness :
    Example.bodyEmpty.parts = [] ∧ Example.bodyNoHead.parts ≠ []
      ∧ (Example.service200.computeResultLazily ["x", "y"] Example.bodyEmpty true).consume
          Example.ctx Example.world
        = some (.error (.runtime_error ("Error while executing a SERVICE request to "
            ++ "<http://e/>: JSON result does not have the expected structure "
            ++ "(results section missing). First 100 bytes of the response: ''")),
            Example.world)
      ∧ ∃ w1, (Example.service200.computeResultLazily ["x", "y"] Example.bodyNoHead
          false).consume Example.ctx Example.world
        = some (.error (.runtime_error ("Error while executing a SERVICE request to "
            ++ "<http://e/>: JSON result does not have the expected structure "
            ++ "(head section missing). First 100 bytes of the response: ''")), w1) :=
  ⟨rfl, (by simp [Example.bodyNoHead]),
    (stream_end_checks Example.service200 Example.ctx ["x", "y"] Example.bodyEmpty true
      Example.world).2.1 rfl rfl,
    (stream_end_checks Example.service200 Example.ctx ["x", "y"] Example.bodyNoHead false
      Example.world).2.2.1 (by simp [Example.bodyNoHead]) rfl (by decide)
      (by
        intro p hp
        simp only [Example.bodyNoHead, List.mem_singleton] at hp
        subst hp
        rfl)
      (by
        intro p hp idTable localVocab rowIdx w0 _ _
        simp only [Example.bodyNoHead, List.mem_singleton] at hp
        subst hp
        exact ⟨_, _, rfl⟩)⟩

/-! ## Chunks and the single table denote the same rows -/

theorem type_of_getString (b : Json) (type : String)
    (h : ((b.get? "type").getD Json.null).getString = .ok type) :
    b.get? "type" = some (.string type) := by
  cases hg : b.get? "type" with
  | none =>
    rw [hg] at h
    simp [Json.getString] at h
  | some t =>
    rw [hg] at h
    cases t <;> simp [Json.getString] at h
    subst h
    rfl

theorem bindingToTripleComponent_without_bnode (ctx : Context) (b : Json) (refs refs0 : Refs)
    (h : b.get? "type" ≠ some (.string "bnode")) :
    bindingToTripleComponent ctx b refs = ((bindingToTripleComponent ctx b refs0).1, refs) := by
  simp only [bindingToTripleComponent]
  split
  · rfl
  · split
    · rfl
    · rename_i type htype
      split
      · rfl
      · split
        · rfl
        · split
          · rfl
          · split
            · rename_i hb
              subst hb
              exact absurd (type_of_getString b _ htype) h
            · rfl

theorem bindingToLiteral_no_local_id (ctx : Context) (b : Json) (value : String)
    (hctx : ∀ v iri i, ctx.literalAndDatatypeToTripleComponent v iri = .ok (.id i) →
      i.datatype ≠ Datatype.LocalVocabIndex)
    (i : ValueId) (h : bindingToLiteral ctx b value = .ok (.id i)) :
    i.datatype ≠ Datatype.LocalVocabIndex := by
  simp only [bindingToLiteral] at h
  split at h
  · split at h
    · cases h
    · exact hctx _ _ _ h
  · split at h
    · split at h
      · cases h
      · cases h
    · cases h

theorem bindingToTripleComponent_no_local_id (ctx : Context) (b : Json) (refs : Refs)
    (hctx : ∀ v iri i, ctx.literalAndDatatypeToTripleComponent v iri = .ok (.id i) →
      i.datatype ≠ Datatype.LocalVocabIndex)
    (hnob : b.get? "type" ≠ some (.string "bnode"))
    (i : ValueId) (h : (bindingToTripleComponent ctx b refs).1 = .ok (.id i)) :
    i.datatype ≠ Datatype.LocalVocabIndex := by
  simp only [bindingToTripleComponent] at h
  split at h
  · cases h
  · split at h
    · cases h
    · rename_i type htype
      split at h
      · cases h
      · split at h
        · exact bindingToLiteral_no_local_id ctx b _ hctx i h
        · split at h
          · cases h
          · split at h
            · rename_i hb
              subst hb
              exact absurd (type_of_getString b _ htype) hnob
            · cases h

theorem getIndexAndAddIfNotContained_spec (lv : LocalVocab) (w : LiteralOrIri) :
    (lv.getIndexAndAddIfNotContained w).2.words[(lv.getIndexAndAddIfNotContained w).1]? = some w
      ∧ ∃ ext, (lv.getIndexAndAddIfNotContained w).2.words = lv.words ++ ext := by
  simp only [LocalVocab.getIndexAndAddIfNotContained]
  split
  · rename_i hc
    have hmem : w ∈ lv.words := by simpa using hc
    exact ⟨List.getElem?_indexOf hmem, [], by simp⟩
  · exact ⟨by simp, [w], rfl⟩

theorem meaning_stable (lv lv1 : LocalVocab) (ext : List LiteralOrIri) (id : ValueId)
    (hext : lv1.words = lv.words ++ ext)
    (hin : id.datatype = Datatype.LocalVocabIndex → id.bits < lv.words.length) :
    lv1.meaning id = lv.meaning id := by
  simp only [LocalVocab.meaning]
  split
  · rename_i hd
    rw [hext, List.getElem?_append_left (hin hd)]
  · rfl

theorem toValueId_meaning (tc : TripleComponent) (vocab : LiteralOrIri → Option Nat)
    (lv : LocalVocab) (hfree : ∀ i, tc = .id i → i.datatype ≠ Datatype.LocalVocabIndex) :
    (tc.toValueId vocab lv).2.meaning (tc.toValueId vocab lv).1 = tc.meaning vocab
      ∧ (∃ ext, (tc.toValueId vocab lv).2.words = lv.words ++ ext)
      ∧ ((tc.toValueId vocab lv).1.datatype = Datatype.LocalVocabIndex →
          (tc.toValueId vocab lv).1.bits < (tc.toValueId vocab lv).2.words.length) := by
  cases tc with
  | UNDEF =>
    simp only [TripleComponent.toValueId, TripleComponent.meaning, LocalVocab.meaning,
      ValueId.makeUndefined]
    exact ⟨by simp, ⟨[], by simp⟩, fun h => by cases h⟩
  | id i =>
    have hi := hfree i rfl
    simp only [TripleComponent.toValueId, TripleComponent.meaning, LocalVocab.meaning]
    exact ⟨by simp [hi], ⟨[], by simp⟩, fun h => absurd h hi⟩
  | iri i =>
    simp only [TripleComponent.toValueId, TripleComponent.meaning]
    cases hv : vocab (.iri i) with
    | some idx =>
      simp only [LocalVocab.meaning]
      exact ⟨by simp, ⟨[], by simp⟩, fun h => by cases h⟩
    | none =>
      obtain ⟨h1, h2⟩ := getIndexAndAddIfNotContained_spec lv (.iri i)
      simp only [LocalVocab.meaning, if_true, h1]
      refine ⟨trivial, h2, fun _ => ?_⟩
      rcases List.getElem?_eq_some.1 h1 with ⟨hlt, -⟩
      exact hlt
  | literal l =>
    simp only [TripleComponent.toValueId, TripleComponent.meaning]
    cases hv : vocab (.literal l) with
    | some idx =>
      simp only [LocalVocab.meaning]
      exact ⟨by simp, ⟨[], by simp⟩, fun h => by cases h⟩
    | none =>
      obtain ⟨h1, h2⟩ := getIndexAndAddIfNotContained_spec lv (.literal l)
      simp only [LocalVocab.meaning, if_true, h1]
      refine ⟨trivial, h2, fun _ => ?_⟩
      rcases List.getElem?_eq_some.1 h1 with ⟨hlt, -⟩
      exact hlt


theorem writeBindingsColumns_step (ctx : Context) (binding : Json) (rowIdx : Nat)
    (var : String) (vars : List String) (colIdx : Nat) (idTable : IdTable) (refs : Refs)
    (row : List ValueId) (hrow : idTable.rows[rowIdx]? = some row) (hcol : colIdx < row.length)
    (hnob : ∀ b, binding.get? var = some b → b.get? "type" ≠ some (.string "bnode"))
    (hctx : ∀ v iri i, ctx.literalAndDatatypeToTripleComponent v iri = .ok (.id i) →
      i.datatype ≠ Datatype.LocalVocabIndex) :
    (∃ e, writeBindingsColumns ctx binding rowIdx colIdx (var :: vars) idTable refs
        = (.error e, refs)
      ∧ ∃ b, binding.get? var = some b
        ∧ (bindingToTripleComponent ctx b ⟨[], LocalVocab.empty, ⟨0, 0, []⟩⟩).1 = .error e)
    ∨ ∃ tc : TripleComponent, tc.meaning ctx.vocab = cellMeaning ctx binding var
      ∧ (∀ i, tc = .id i → i.datatype ≠ Datatype.LocalVocabIndex)
      ∧ (∀ b, binding.get? var = some b →
          (bindingToTripleComponent ctx b ⟨[], LocalVocab.empty, ⟨0, 0, []⟩⟩).1 = .ok tc)
      ∧ writeBindingsColumns ctx binding rowIdx colIdx (var :: vars) idTable refs
        = writeBindingsColumns ctx binding rowIdx (colIdx + 1) vars
            ⟨idTable.numColumns_,
              idTable.rows.set rowIdx (row.set colIdx (tc.toValueId ctx.vocab refs.localVocab).1)⟩
            { refs with localVocab := (tc.toValueId ctx.vocab refs.localVocab).2 } := by
  simp only [writeBindingsColumns]
  cases hget : binding.get? var with
  | none =>
    right
    refine ⟨.UNDEF, ?_, (fun i h => by cases h), (fun b h => by cases h), ?_⟩
    · simp [cellMeaning, hget, TripleComponent.meaning]
    · simp only [IdTable.set?_eq_some idTable rowIdx colIdx _ row hrow hcol]
  | some b0 =>
    have hb := hnob b0 hget
    simp only [bindingToTripleComponent_without_bnode ctx b0 refs
      ⟨[], LocalVocab.empty, ⟨0, 0, []⟩⟩ hb]
    cases hres : (bindingToTripleComponent ctx b0 ⟨[], LocalVocab.empty, ⟨0, 0, []⟩⟩).1 with
    | error e =>
      left
      exact ⟨e, rfl, b0, rfl, hres⟩
    | ok tc =>
      right
      refine ⟨tc, ?_, ?_, ?_, ?_⟩
      · simp [cellMeaning, hget, hres]
      · intro i hi
        subst hi
        exact bindingToTripleComponent_no_local_id ctx b0 _ hctx hb i hres
      · intro b hbb
        cases hbb
        exact hres
      · simp only [IdTable.set?_eq_some idTable rowIdx colIdx _ row hrow hcol]

theorem writeBindingsColumns_meaning (ctx : Context) (binding : Json) (rowIdx : Nat)
    (hctx : ∀ v iri i, ctx.literalAndDatatypeToTripleComponent v iri = .ok (.id i) →
      i.datatype ≠ Datatype.LocalVocabIndex)
    (hnob : ∀ v b, binding.get? v = some b → b.get? "type" ≠ some (.string "bnode")) :
    ∀ (vars : List String) (colIdx : Nat) (idTable : IdTable) (refs : Refs)
      (row : List ValueId),
      idTable.rows[rowIdx]? = some row → colIdx + vars.length ≤ row.length →
      ∀ t refs1, writeBindingsColumns ctx binding rowIdx colIdx vars idTable refs
          = (.ok t, refs1) →
        refs1.world = refs.world ∧ refs1.blankNodeMap = refs.blankNodeMap ∧
        t.numColumns_ = idTable.numColumns_ ∧
        (∃ ext, refs1.localVocab.words = refs.localVocab.words ++ ext) ∧
        ∃ row1, t.rows = idTable.rows.set rowIdx row1 ∧ row1.length = row.length ∧
          (∀ c, c < colIdx → row1[c]? = row[c]?) ∧
          (∀ j v, vars[j]? = some v → ∃ id, row1[colIdx + j]? = some id ∧
            refs1.localVocab.meaning id = cellMeaning ctx binding v ∧
            (id.datatype = Datatype.LocalVocabIndex →
              id.bits < refs1.localVocab.words.length)) := by
  intro vars
  induction vars with
  | nil =>
    intro colIdx idTable refs row hrow _ t refs1 h
    simp only [writeBindingsColumns, Prod.mk.injEq, Except.ok.injEq] at h
    obtain ⟨rfl, rfl⟩ := h
    refine ⟨rfl, rfl, rfl, ⟨[], by simp⟩, row, (set_getElem?_self _ _ _ hrow).symm, rfl,
      fun _ _ => rfl, ?_⟩
    intro j v hj; simp at hj
  | cons var vars ih =>
    intro colIdx idTable refs row hrow hlen t refs1 h
    have hcol : colIdx < row.length := by simp at hlen; omega
    have hrlt : rowIdx < idTable.rows.length := by
      rcases List.getElem?_eq_some.1 hrow with ⟨hlt, -⟩
      exact hlt
    rcases writeBindingsColumns_step ctx binding rowIdx var vars colIdx idTable refs row hrow
      hcol (fun b hb => hnob var b hb) hctx with ⟨e, herr, -⟩ | ⟨tc, hden, hfree, -, hstep⟩
    · rw [herr] at h; cases h
    · rw [hstep] at h
      obtain ⟨hd, ⟨ext0, hext0⟩, hin⟩ := toValueId_meaning tc ctx.vocab refs.localVocab hfree
      have hrow1 : (⟨idTable.numColumns_, idTable.rows.set rowIdx
          (row.set colIdx (tc.toValueId ctx.vocab refs.localVocab).1)⟩ : IdTable).rows[rowIdx]?
          = some (row.set colIdx (tc.toValueId ctx.vocab refs.localVocab).1) := by
        simp [hrlt]
      have hlen1 : colIdx + 1 + vars.length
          ≤ (row.set colIdx (tc.toValueId ctx.vocab refs.localVocab).1).length := by
        simp at hlen ⊢; omega
      obtain ⟨h1, h2, h3, ⟨ext1, hext1⟩, row1, h4, h5, h6, h7⟩ :=
        ih (colIdx + 1) _ _ _ hrow1 hlen1 t refs1 h
      simp only at hext1
      refine ⟨h1, h2, h3, ⟨ext0 ++ ext1, by rw [hext1, hext0, List.append_assoc]⟩, row1,
        ?_, ?_, ?_, ?_⟩
      · rw [h4]; simp [List.set_set]
      · rw [h5]; simp
      · intro c hc
        rw [h6 c (by omega)]
        simp [List.getElem?_set_ne (show colIdx ≠ c by omega)]
      · intro j v hj
        cases j with
        | zero =>
          simp at hj
          subst hj
          refine ⟨(tc.toValueId ctx.vocab refs.localVocab).1, ?_, ?_, ?_⟩
          · rw [Nat.add_zero, h6 colIdx (by omega)]
            simp [hcol]
          · rw [meaning_stable _ _ ext1 _ hext1 hin, hd, hden]
          · intro hl
            have := hin hl
            rw [hext1, List.length_append]
            omega
        | succ j =>
          have hidx : colIdx + (j + 1) = colIdx + 1 + j := by omega
          rw [hidx]
          exact h7 j v (by simpa using hj)

theorem writeBindingsColumns_ok_iff (ctx : Context) (binding : Json) (rowIdx : Nat)
    (hctx : ∀ v iri i, ctx.literalAndDatatypeToTripleComponent v iri = .ok (.id i) →
      i.datatype ≠ Datatype.LocalVocabIndex)
    (hnob : ∀ v b, binding.get? v = some b → b.get? "type" ≠ some (.string "bnode")) :
    ∀ (vars : List String) (colIdx : Nat) (idTable : IdTable) (refs : Refs)
      (row : List ValueId),
      idTable.rows[rowIdx]? = some row → colIdx + vars.length ≤ row.length →
      ((∃ t refs1, writeBindingsColumns ctx binding rowIdx colIdx vars idTable refs
          = (.ok t, refs1))
        ↔ ∀ v ∈ vars, ∀ b, binding.get? v = some b →
          ∃ tc, (bindingToTripleComponent ctx b ⟨[], LocalVocab.empty, ⟨0, 0, []⟩⟩).1
            = .ok tc) := by
  intro vars
  induction vars with
  | nil =>
    intro colIdx idTable refs row _ _
    simp [writeBindingsColumns]
  | cons var vars ih =>
    intro colIdx idTable refs row hrow hlen
    have hcol : colIdx < row.length := by simp at hlen; omega
    have hrlt : rowIdx < idTable.rows.length := by
      rcases List.getElem?_eq_some.1 hrow with ⟨hlt, -⟩
      exact hlt
    rcases writeBindingsColumns_step ctx binding rowIdx var vars colIdx idTable refs row hrow
      hcol (fun b hb => hnob var b hb) hctx with
      ⟨e, herr, b, hb, hfail⟩ | ⟨tc, -, -, hdec, hstep⟩
    · rw [herr]
      constructor
      · rintro ⟨t, refs1, h⟩; cases h
      · intro h
        obtain ⟨tc, htc⟩ := h var (List.mem_cons_self _ _) b hb
        rw [hfail] at htc
        cases htc
    · rw [hstep]
      have hrow1 : (⟨idTable.numColumns_, idTable.rows.set rowIdx
          (row.set colIdx (tc.toValueId ctx.vocab refs.localVocab).1)⟩ : IdTable).rows[rowIdx]?
          = some (row.set colIdx (tc.toValueId ctx.vocab refs.localVocab).1) := by
        simp [hrlt]
      have hlen1 : colIdx + 1 + vars.length
          ≤ (row.set colIdx (tc.toValueId ctx.vocab refs.localVocab).1).length := by
        simp at hlen ⊢; omega
      rw [ih (colIdx + 1) _ _ _ hrow1 hlen1]
      constructor
      · intro h v hv b hb
        rcases List.mem_cons.1 hv with rfl | hv
        · exact ⟨tc, hdec b hb⟩
        · exact h v hv b hb
      · intro h v hv b hb
        exact h v (List.mem_cons_of_mem _ hv) b hb

theorem covers_mono (lv lv1 : LocalVocab) (ext : List LiteralOrIri)
    (rows : List (List ValueId)) (hext : lv1.words = lv.words ++ ext)
    (h : lv.covers rows) : lv1.covers rows := by
  intro row hrow id hid hl
  have := h row hrow id hid hl
  rw [hext, List.length_append]
  omega

theorem denotedRows_stable (lv lv1 : LocalVocab) (ext : List LiteralOrIri)
    (rows : List (List ValueId)) (hext : lv1.words = lv.words ++ ext)
    (h : lv.covers rows) :
    rows.map (fun row => row.map lv1.meaning) = rows.map (fun row => row.map lv.meaning) := by
  apply List.map_congr_left
  intro row hrow
  apply List.map_congr_left
  intro id hid
  exact meaning_stable lv lv1 ext id hext (h row hrow id hid)

theorem row_meaning (ctx : Context) (binding : Json) (lv : LocalVocab)
    (vars : List String) (row1 : List ValueId) (hlen : row1.length = vars.length)
    (hcells : ∀ j v, vars[j]? = some v → ∃ id, row1[0 + j]? = some id ∧
      lv.meaning id = cellMeaning ctx binding v ∧
      (id.datatype = Datatype.LocalVocabIndex → id.bits < lv.words.length)) :
    row1.map lv.meaning = vars.map (cellMeaning ctx binding) ∧ lv.covers [row1] := by
  constructor
  · apply List.ext_getElem?
    intro n
    rw [List.getElem?_map, List.getElem?_map]
    by_cases hn : n < vars.length
    · have hv : vars[n]? = some (vars[n]) := List.getElem?_eq_getElem hn
      obtain ⟨id, h1, h2, -⟩ := hcells n _ hv
      rw [Nat.zero_add] at h1
      rw [h1, hv]
      simp [h2]
    · have h1 : vars[n]? = none := List.getElem?_eq_none (by omega)
      have h2 : row1[n]? = none := List.getElem?_eq_none (by omega)
      rw [h1, h2]
      rfl
  · intro row hrow id hid hl
    simp only [List.mem_singleton] at hrow
    subst hrow
    obtain ⟨n, hn, hget⟩ := List.getElem_of_mem hid
    have hn2 : n < vars.length := by omega
    have hv : vars[n]? = some (vars[n]) := List.getElem?_eq_getElem hn2
    obtain ⟨id1, h1, -, h3⟩ := hcells n _ hv
    rw [Nat.zero_add, List.getElem?_eq_getElem hn, hget] at h1
    cases h1
    exact h3 hl

theorem writeBindings_meaning (ctx : Context) (vars : List String)
    (hctx : ∀ v iri i, ctx.literalAndDatatypeToTripleComponent v iri = .ok (.id i) →
      i.datatype ≠ Datatype.LocalVocabIndex) :
    ∀ (bindings : List Json) (idTable : IdTable) (rowIdx : Nat) (refs : Refs),
      (∀ binding ∈ bindings, ∀ v b, binding.get? v = some b →
        b.get? "type" ≠ some (.string "bnode")) →
      rowIdx = idTable.rows.length → vars.length = idTable.numColumns_ →
      refs.localVocab.covers idTable.rows →
      ∀ t r refs1, writeBindings ctx vars bindings idTable rowIdx refs = (.ok (t, r), refs1) →
        r = t.rows.length ∧ t.numColumns_ = idTable.numColumns_ ∧
        (∃ ext, refs1.localVocab.words = refs.localVocab.words ++ ext) ∧
        refs1.localVocab.covers t.rows ∧
        ∃ new, t.rows = idTable.rows ++ new ∧
          new.map (fun row => row.map refs1.localVocab.meaning)
            = bindings.map (fun binding => vars.map (cellMeaning ctx binding)) := by
  intro bindings
  induction bindings with
  | nil =>
    intro idTable rowIdx refs _ hrowIdx _ hcov t r refs1 h
    simp only [writeBindings, Prod.mk.injEq, Except.ok.injEq] at h
    obtain ⟨⟨rfl, rfl⟩, rfl⟩ := h
    exact ⟨hrowIdx, rfl, ⟨[], by simp⟩, hcov, [], by simp, rfl⟩
  | cons binding rest ih =>
    intro idTable rowIdx refs hnob hrowIdx hwidth hcov t r refs1 h
    have hrow1 : (idTable.emplace_back ctx.uninitialized).rows[rowIdx]?
        = some (List.replicate idTable.numColumns_ ctx.uninitialized) := by
      simp only [IdTable.emplace_back, hrowIdx]
      exact List.getElem?_concat_length _ _
    simp only [writeBindings] at h
    split at h
    · cases h
    · rename_i t1 refsC hc
      obtain ⟨hw, -, hcols, ⟨ext0, hext0⟩, row1, hrows, hlen1, -, hcells⟩ :=
        writeBindingsColumns_meaning ctx binding rowIdx hctx
          (hnob binding (List.mem_cons_self _ _)) vars 0
          (idTable.emplace_back ctx.uninitialized) refs _ hrow1
          (by simp [hwidth]) t1 refsC hc
      have hrows1 : t1.rows = idTable.rows ++ [row1] := by
        rw [hrows]
        simp only [IdTable.emplace_back, hrowIdx]
        rw [List.set_append_right _ _ (le_refl _)]
        simp
      have hlen2 : row1.length = vars.length := by
        rw [hlen1, List.length_replicate, hwidth]
      obtain ⟨hden1, hcov1⟩ := row_meaning ctx binding refsC.localVocab vars row1 hlen2 hcells
      split at h
      · cases h
      · rename_i u wc hcc
        have hcovC : refsC.localVocab.covers t1.rows := by
          intro row hrow id hid hl
          rw [hrows1] at hrow
          rcases List.mem_append.1 hrow with hr | hr
          · exact covers_mono _ _ ext0 _ hext0 hcov row hr id hid hl
          · exact hcov1 row hr id hid hl
        obtain ⟨h1, h2, ⟨ext1, hext1⟩, h4, new, h5, h6⟩ :=
          ih t1 (rowIdx + 1) { refsC with world := wc }
            (fun b hb => hnob b (List.mem_cons_of_mem _ hb))
            (by rw [hrows1, hrowIdx]; simp)
            (by rw [hcols]; simpa [IdTable.emplace_back] using hwidth)
            hcovC t r refs1 h
        simp only at hext1
        refine ⟨h1, by rw [h2, hcols]; rfl,
          ⟨ext0 ++ ext1, by rw [hext1, hext0, List.append_assoc]⟩, h4, row1 :: new, ?_, ?_⟩
        · rw [h5, hrows1]; simp
        · simp only [List.map_cons]
          rw [h6]
          congr 1
          rw [← hden1]
          apply List.map_congr_left
          intro id hid
          exact meaning_stable _ _ ext1 id hext1 (hcov1 row1 (List.mem_singleton_self _) id hid)

theorem writeBindings_ok_transfer (ctx : Context) (vars : List String)
    (hctx : ∀ v iri i, ctx.literalAndDatatypeToTripleComponent v iri = .ok (.id i) →
      i.datatype ≠ Datatype.LocalVocabIndex) :
    ∀ (bindings : List Json) (tableA : IdTable) (rowA : Nat) (refsA : Refs)
      (tableB : IdTable) (rowB : Nat) (refsB : Refs),
      (∀ binding ∈ bindings, ∀ v b, binding.get? v = some b →
        b.get? "type" ≠ some (.string "bnode")) →
      rowA = tableA.rows.length → vars.length ≤ tableA.numColumns_ →
      rowB = tableB.rows.length → vars.length ≤ tableB.numColumns_ →
      refsA.world = refsB.world →
      ∀ resB refsB1, writeBindings ctx vars bindings tableB rowB refsB = (.ok resB, refsB1) →
        ∃ resA refsA1, writeBindings ctx vars bindings tableA rowA refsA = (.ok resA, refsA1)
          ∧ refsA1.world = refsB1.world := by
  intro bindings
  induction bindings with
  | nil =>
    intro tableA rowA refsA tableB rowB refsB _ _ _ _ _ hw resB refsB1 h
    simp only [writeBindings, Prod.mk.injEq, Except.ok.injEq] at h
    obtain ⟨-, rfl⟩ := h
    exact ⟨_, _, rfl, hw⟩
  | cons binding rest ih =>
    intro tableA rowA refsA tableB rowB refsB hnob hrA hwA hrB hwB hw resB refsB1 h
    have hnob1 := hnob binding (List.mem_cons_self _ _)
    have hrowA : (tableA.emplace_back ctx.uninitialized).rows[rowA]?
        = some (List.replicate tableA.numColumns_ ctx.uninitialized) := by
      simp only [IdTable.emplace_back, hrA]
      exact List.getElem?_concat_length _ _
    have hrowB : (tableB.emplace_back ctx.uninitialized).rows[rowB]?
        = some (List.replicate tableB.numColumns_ ctx.uninitialized) := by
      simp only [IdTable.emplace_back, hrB]
      exact List.getElem?_concat_length _ _
    simp only [writeBindings] at h
    split at h
    · cases h
    · rename_i tB1 refsBC hcB
      have hdecodes := (writeBindingsColumns_ok_iff ctx binding rowB hctx hnob1 vars 0
        (tableB.emplace_back ctx.uninitialized) refsB _ hrowB (by simpa using hwB)).1
        ⟨_, _, hcB⟩
      obtain ⟨tA1, refsAC, hcA⟩ := (writeBindingsColumns_ok_iff ctx binding rowA hctx hnob1
        vars 0 (tableA.emplace_back ctx.uninitialized) refsA _ hrowA (by simpa using hwA)).2
        hdecodes
      obtain ⟨hwB1, -, hcolsB, -, rowB1, hrowsB, -, -, -⟩ :=
        writeBindingsColumns_meaning ctx binding rowB hctx hnob1 vars 0
          (tableB.emplace_back ctx.uninitialized) refsB _ hrowB (by simpa using hwB)
          tB1 refsBC hcB
      obtain ⟨hwA1, -, hcolsA, -, rowA1, hrowsA, -, -, -⟩ :=
        writeBindingsColumns_meaning ctx binding rowA hctx hnob1 vars 0
          (tableA.emplace_back ctx.uninitialized) refsA _ hrowA (by simpa using hwA)
          tA1 refsAC hcA
      have hworld : refsAC.world = refsBC.world := by rw [hwA1, hwB1, hw]
      simp only [writeBindings, hcA, hworld]
      split at h
      · cases h
      · rename_i u wc hcc
        exact ih tA1 (rowA + 1) { refsAC with world := wc } tB1 (rowB + 1)
          { refsBC with world := wc } (fun b hb => hnob b (List.mem_cons_of_mem _ hb))
          (by rw [hrowsA, hrA]; simp [IdTable.emplace_back])
          (by rw [hcolsA]; simpa [IdTable.emplace_back] using hwA)
          (by rw [hrowsB, hrB]; simp [IdTable.emplace_back])
          (by rw [hcolsB]; simpa [IdTable.emplace_back] using hwB)
          rfl resB refsB1 h

theorem writeJsonResult_meaning (ctx : Context) (vars : List String) (partJson : Json)
    (hctx : ∀ v iri i, ctx.literalAndDatatypeToTripleComponent v iri = .ok (.id i) →
      i.datatype ≠ Datatype.LocalVocabIndex)
    (hnob : ∀ bindings, resultsBindings partJson = some bindings → ∀ binding ∈ bindings,
      ∀ v b, binding.get? v = some b → b.get? "type" ≠ some (.string "bnode"))
    (idTable : IdTable) (localVocab : LocalVocab) (rowIdx : Nat) (w : World)
    (hrowIdx : rowIdx = idTable.rows.length) (hwidth : vars.length = idTable.numColumns_)
    (hcov : localVocab.covers idTable.rows) (written : Written) (w1 : World)
    (h : writeJsonResult ctx vars partJson idTable localVocab rowIdx w = (.ok written, w1)) :
    written.rowIdx = written.idTable.rows.length ∧
      written.idTable.numColumns_ = idTable.numColumns_ ∧
      (∃ ext, written.localVocab.words = localVocab.words ++ ext) ∧
      written.localVocab.covers written.idTable.rows ∧
      ∃ new, written.idTable.rows = idTable.rows ++ new ∧
        new.map (fun row => row.map written.localVocab.meaning)
          = rowsMeaning ctx vars partJson := by
  simp only [writeJsonResult] at h
  split at h
  · cases h
  · rename_i w2 _
    split at h
    · cases h
    · rename_i bindings hb
      split at h
      · cases h
      · rename_i res refs1 heq
        obtain ⟨h1, h2, h3, h4, new, h5, h6⟩ := writeBindings_meaning ctx vars hctx bindings
          idTable rowIdx ⟨[], localVocab, w2⟩ (hnob bindings hb) hrowIdx hwidth hcov
          res.1 res.2 refs1 heq
        split at h
        · cases h
        · cases h
          refine ⟨h1, h2, h3, h4, new, h5, ?_⟩
          simp only [rowsMeaning, hb, Option.getD_some]
          exact h6

theorem writeJsonResult_ok_transfer (ctx : Context) (vars : List String) (partJson : Json)
    (hctx : ∀ v iri i, ctx.literalAndDatatypeToTripleComponent v iri = .ok (.id i) →
      i.datatype ≠ Datatype.LocalVocabIndex)
    (hnob : ∀ bindings, resultsBindings partJson = some bindings → ∀ binding ∈ bindings,
      ∀ v b, binding.get? v = some b → b.get? "type" ≠ some (.string "bnode"))
    (tableA : IdTable) (vocabA : LocalVocab) (rowA : Nat)
    (tableB : IdTable) (vocabB : LocalVocab) (rowB : Nat) (w : World)
    (hrA : rowA = tableA.rows.length) (hwA : vars.length ≤ tableA.numColumns_)
    (hrB : rowB = tableB.rows.length) (hwB : vars.length ≤ tableB.numColumns_)
    (writtenB : Written) (w1 : World)
    (h : writeJsonResult ctx vars partJson tableB vocabB rowB w = (.ok writtenB, w1)) :
    ∃ writtenA, writeJsonResult ctx vars partJson tableA vocabA rowA w = (.ok writtenA, w1) := by
  simp only [writeJsonResult] at h ⊢
  split at h
  · cases h
  · rename_i u w2 hcc
    try simp only [hcc]
    split at h
    · cases h
    · rename_i bindings hb
      try simp only [hb]
      split at h
      · cases h
      · rename_i resB refsB1 heq
        obtain ⟨resA, refsA1, hA, hworld⟩ := writeBindings_ok_transfer ctx vars hctx bindings
          tableA rowA ⟨[], vocabA, w2⟩ tableB rowB ⟨[], vocabB, w2⟩ (hnob bindings hb)
          hrA hwA hrB hwB rfl resB refsB1 heq
        simp only [hA, hworld]
        split at h
        · cases h
        · rename_i u2 w3 hcc2
          cases h
          try simp only [hcc2]
          exact ⟨_, rfl⟩

theorem whileLoop_multi_cons (ctx : Context) (partJson : Json)
    (details : LazyJsonParser.Details) (rest : List (Json × LazyJsonParser.Details))
    (g : Get) (w : World) (hmulti : g.singleIdTable = false)
    (out : Option IdTableVocabPair) (g1 : Get) (w2 : World)
    (hloop : Get.whileLoop ctx ((partJson, details) :: rest) g w = (.ok (out, g1), w2)) :
    ∃ written, writeJsonResult ctx g.vars partJson g.idTable g.localVocab g.rowIdx w
        = (.ok written, w2)
      ∧ out = some ⟨written.idTable, written.localVocab⟩
      ∧ g1 = { g with
          inputRange := { g.inputRange with parts := rest }
          idTable := written.idTable.clear
          localVocab := LocalVocab.empty
          rowIdx := 0
          varsChecked := g1.varsChecked
          resultExists := true } := by
  simp only [Get.whileLoop] at hloop
  split at hloop
  · cases hloop
  · split at hloop
    · cases hloop
    · rename_i written w3 hw
      simp only [hmulti, Bool.not_false, if_true, Prod.mk.injEq, Except.ok.injEq] at hloop
      obtain ⟨⟨rfl, rfl⟩, rfl⟩ := hloop
      exact ⟨written, hw, rfl, by simp [hmulti]⟩

theorem whileLoop_single_cons (ctx : Context) (partJson : Json)
    (details : LazyJsonParser.Details) (rest : List (Json × LazyJsonParser.Details))
    (gM gS : Get) (w : World) (hmulti : gM.singleIdTable = false)
    (hsingle : gS.singleIdTable = true) (hservice : gS.service = gM.service)
    (hvc : gS.varsChecked = gM.varsChecked)
    (out : Option IdTableVocabPair) (gM1 : Get) (w2 : World)
    (hloop : Get.whileLoop ctx ((partJson, details) :: rest) gM w = (.ok (out, gM1), w2))
    (writtenS : Written)
    (hwS : writeJsonResult ctx gS.vars partJson gS.idTable gS.localVocab gS.rowIdx w
      = (.ok writtenS, w2)) :
    Get.whileLoop ctx ((partJson, details) :: rest) gS w
      = Get.whileLoop ctx rest
          { gS with
            idTable := writtenS.idTable
            localVocab := writtenS.localVocab
            rowIdx := writtenS.rowIdx
            varsChecked := gM1.varsChecked
            resultExists := true } w2 := by
  simp only [Get.whileLoop, hservice, hvc, hwS, hsingle] at hloop ⊢
  split at hloop
  · cases hloop
  · rename_i vc hhead
    split at hloop
    · cases hloop
    · simp only [hmulti, Bool.not_false, if_true, Prod.mk.injEq, Except.ok.injEq] at hloop
      obtain ⟨⟨-, rfl⟩, -⟩ := hloop
      simp

theorem drain_multi_step (ctx : Context) (fuel : Nat) (g : Get) (w : World)
    (hmulti : g.singleIdTable = false) (chunks : List IdTableVocabPair) (w1 : World)
    (h : InputRangeFromLoopControlGet.drain ctx (fuel + 1) ⟨g, false⟩ w
      = some (.ok chunks, w1)) :
    (∃ pair g1 w2 chunks1,
        Get.whileLoop ctx g.inputRange.parts g w = (.ok (some pair, g1), w2)
        ∧ chunks = pair :: chunks1
        ∧ InputRangeFromLoopControlGet.drain ctx fuel ⟨g1, false⟩ w2 = some (.ok chunks1, w1))
    ∨ (∃ g1, Get.whileLoop ctx g.inputRange.parts g w = (.ok (none, g1), w1)
        ∧ chunks = [] ∧ g1.resultExists = true ∧ g1.varsChecked = true) := by
  cases hloop : Get.whileLoop ctx g.inputRange.parts g w with
  | mk res w2 =>
    cases res with
    | error pe =>
      obtain ⟨e, d⟩ := pe
      cases e <;>
        simp [InputRangeFromLoopControlGet.drain, InputRangeFromLoopControlGet.get, Get.call,
          hloop] at h
    | ok v =>
      obtain ⟨out, g1⟩ := v
      obtain ⟨-, -, -, -, -, -, -, -, hs, -, -⟩ := whileLoop_flags ctx _ _ _ _ _ _ hloop
      cases out with
      | some pair =>
        left
        simp only [InputRangeFromLoopControlGet.drain, InputRangeFromLoopControlGet.get,
          Get.call, hloop, Bool.false_eq_true, if_false] at h
        cases hrest : InputRangeFromLoopControlGet.drain ctx fuel ⟨g1, false⟩ w2 with
        | none => simp [hrest] at h
        | some v =>
          obtain ⟨res2, w3⟩ := v
          cases res2 with
          | error e => simp [hrest] at h
          | ok chunks1 =>
            simp only [hrest, Option.some.injEq, Prod.mk.injEq, Except.ok.injEq] at h
            obtain ⟨rfl, rfl⟩ := h
            exact ⟨pair, g1, w2, chunks1, rfl, rfl, hrest⟩
      | none =>
        right
        have hs1 : g1.singleIdTable = false := hs.trans hmulti
        simp only [InputRangeFromLoopControlGet.drain, InputRangeFromLoopControlGet.get,
          Get.call, hloop, Bool.false_eq_true, if_false, hs1] at h
        cases hre : g1.resultExists <;> cases hvc : g1.varsChecked <;>
          simp [hre, hvc] at h
        obtain ⟨rfl, rfl⟩ := h
        exact ⟨g1, rfl, rfl, hre, hvc⟩


theorem drain_single_of_multi (ctx : Context) (vars : List String)
    (hctx : ∀ v iri i, ctx.literalAndDatatypeToTripleComponent v iri = .ok (.id i) →
      i.datatype ≠ Datatype.LocalVocabIndex) :
    ∀ (parts : List (Json × LazyJsonParser.Details)) (fuel : Nat) (gS gM : Get) (w : World)
      (chunks : List IdTableVocabPair) (w1 : World),
      (∀ p ∈ parts, ∀ bindings, resultsBindings p.1 = some bindings → ∀ binding ∈ bindings,
        ∀ v b, binding.get? v = some b → b.get? "type" ≠ some (.string "bnode")) →
      gS.singleIdTable = true → gM.singleIdTable = false →
      gS.vars = vars → gM.vars = vars → gS.service = gM.service →
      gS.varsChecked = gM.varsChecked → gS.resultExists = gM.resultExists →
      gS.inputRange.failure = gM.inputRange.failure →
      gM.inputRange.parts = parts →
      gS.rowIdx = gS.idTable.rows.length → vars.length = gS.idTable.numColumns_ →
      gS.localVocab.covers gS.idTable.rows →
      gM.rowIdx = 0 → gM.idTable.rows = [] → vars.length = gM.idTable.numColumns_ →
      InputRangeFromLoopControlGet.drain ctx fuel ⟨gM, false⟩ w = some (.ok chunks, w1) →
      ∃ gS1, Get.whileLoop ctx parts gS w = (.ok (none, gS1), w1)
        ∧ gS1.resultExists = true ∧ gS1.varsChecked = true ∧ gS1.singleIdTable = true
        ∧ chunks.map IdTableVocabPair.denotedRows
            = parts.map (fun p => rowsMeaning ctx vars p.1)
        ∧ (⟨gS1.idTable, gS1.localVocab⟩ : IdTableVocabPair).denotedRows
            = (⟨gS.idTable, gS.localVocab⟩ : IdTableVocabPair).denotedRows
              ++ (chunks.map IdTableVocabPair.denotedRows).flatten := by
  intro parts
  induction parts with
  | nil =>
    intro fuel gS gM w chunks w1 _ hsingle hmulti _ _ _ hvc hre hfail hparts _ _ _ _ _ _ h
    cases fuel with
    | zero => cases h
    | succ fuel =>
      rcases drain_multi_step ctx fuel gM w hmulti chunks w1 h with
        ⟨pair, g1, w2, chunks1, hloop, -, -⟩ | ⟨g1, hloop, hchunks, hre1, hvc1⟩
      · rw [hparts] at hloop
        simp only [Get.whileLoop] at hloop
        split at hloop
        · cases hloop
        · cases hloop
      · rw [hparts] at hloop
        simp only [Get.whileLoop] at hloop
        split at hloop
        · cases hloop
        · rename_i hfailM
          simp only [Prod.mk.injEq, Except.ok.injEq, true_and] at hloop
          obtain ⟨rfl, rfl⟩ := hloop
          simp only at hre1 hvc1
          subst hchunks
          refine ⟨{ gS with inputRange := { gS.inputRange with parts := [] } }, ?_, ?_, ?_,
            hsingle, rfl, ?_⟩
          · simp only [Get.whileLoop, hfail, hfailM]
          · exact hre.trans hre1
          · exact hvc.trans hvc1
          · simp
  | cons p rest ih =>
    obtain ⟨partJson, details⟩ := p
    intro fuel gS gM w chunks w1 hnob hsingle hmulti hvS hvM hservice hvc hre hfail hparts
      hrowS hwidthS hcovS hrowM hrowsM hwidthM h
    cases fuel with
    | zero => cases h
    | succ fuel =>
      rcases drain_multi_step ctx fuel gM w hmulti chunks w1 h with
        ⟨pair, g1, w2, chunks1, hloop, hchunks, hrest⟩ | ⟨g1, hloop, -, -, -⟩
      · rw [hparts] at hloop
        obtain ⟨-, -, -, -, -, -, hf6, hf7, hf8, hf9, -⟩ := whileLoop_flags ctx _ _ _ _ _ _ hloop
        obtain ⟨writtenM, hwM, hpair, hg1⟩ :=
          whileLoop_multi_cons ctx partJson details rest gM w hmulti _ g1 w2 hloop
        rw [hvM] at hwM
        have hnob1 := hnob (partJson, details) (List.mem_cons_self _ _)
        obtain ⟨writtenS, hwS⟩ := writeJsonResult_ok_transfer ctx vars partJson hctx hnob1
          gS.idTable gS.localVocab gS.rowIdx gM.idTable gM.localVocab gM.rowIdx w
          hrowS (le_of_eq hwidthS) (by rw [hrowM, hrowsM]; rfl) (le_of_eq hwidthM)
          writtenM w2 hwM
        have hstep := whileLoop_single_cons ctx partJson details rest gM gS w hmulti hsingle
          hservice hvc _ g1 w2 hloop writtenS (by rw [hvS]; exact hwS)
        obtain ⟨hS1, hS2, ⟨extS, hS3⟩, hS4, newS, hS5, hS6⟩ :=
          writeJsonResult_meaning ctx vars partJson hctx hnob1 gS.idTable gS.localVocab
            gS.rowIdx w hrowS hwidthS hcovS writtenS w2 hwS
        obtain ⟨-, hM2, -, -, newM, hM5, hM6⟩ :=
          writeJsonResult_meaning ctx vars partJson hctx hnob1 gM.idTable gM.localVocab
            gM.rowIdx w (by rw [hrowM, hrowsM]; rfl) hwidthM
            (by rw [hrowsM]; intro row hrow; cases hrow) writtenM w2 hwM
        rw [hrowsM, List.nil_append] at hM5
        have hpairRows : pair.denotedRows = rowsMeaning ctx vars partJson := by
          cases hpair
          simp only [IdTableVocabPair.denotedRows, hM5]
          exact hM6
        obtain ⟨gS1, i1, i2, i3, i4, i5, i6⟩ := ih fuel
          { gS with
            idTable := writtenS.idTable
            localVocab := writtenS.localVocab
            rowIdx := writtenS.rowIdx
            varsChecked := g1.varsChecked
            resultExists := true } g1 w2 chunks1 w1
          (fun p hp => hnob p (List.mem_cons_of_mem _ hp))
          hsingle (hf8.trans hmulti) hvS (hf6.trans hvM) (hservice.trans hf7.symm) rfl
          (by have := congrArg Get.resultExists hg1; simpa using this.symm)
          (hfail.trans hf9.symm)
          (by have := congrArg (fun g => g.inputRange.parts) hg1; simpa using this)
          hS1 (hwidthS.trans hS2.symm) hS4
          (by have := congrArg Get.rowIdx hg1; simpa using this)
          (by have := congrArg (fun g => g.idTable.rows) hg1; simpa [IdTable.clear] using this)
          (by
            have := congrArg (fun g => g.idTable.numColumns_) hg1
            simp only [IdTable.clear] at this
            rw [this, hM2]
            exact hwidthM)
          hrest
        refine ⟨gS1, hstep.trans i1, i2, i3, i4, ?_, ?_⟩
        · rw [hchunks]
          simp only [List.map_cons]
          rw [i5, hpairRows]
        · rw [i6, hchunks]
          simp only [List.map_cons, List.flatten_cons, IdTableVocabPair.denotedRows]
          rw [← List.append_assoc]
          congr 1
          rw [hS5, List.map_append, hS6]
          congr 1
          · exact denotedRows_stable gS.localVocab writtenS.localVocab extS _ hS3 hcovS
          · have := hpairRows
            simp only [IdTableVocabPair.denotedRows] at this
            exact this.symm
      · rw [hparts] at hloop
        obtain ⟨writtenM, -, hout, -⟩ :=
          whileLoop_multi_cons ctx partJson details rest gM w hmulti _ g1 w1 hloop
        cases hout


theorem drain_total (ctx : Context) :
    ∀ (fuel : Nat) (r : InputRangeFromLoopControlGet) (w : World),
      (r.finished = true → 1 ≤ fuel) →
      (r.finished = false → r.getter.inputRange.parts.length + 2 ≤ fuel) →
      ∃ res, r.drain ctx fuel w = some res := by
  intro fuel
  induction fuel with
  | zero =>
    intro r w h1 h2
    cases hf : r.finished
    · have := h2 hf; omega
    · have := h1 hf; omega
  | succ fuel ih =>
    intro r w h1 h2
    cases hf : r.finished
    · have hlen := h2 hf
      simp only [InputRangeFromLoopControlGet.drain, InputRangeFromLoopControlGet.get, hf,
        Bool.false_eq_true, if_false]
      cases hcall : Get.call ctx r.getter w with
      | mk res w2 =>
        cases res with
        | error e => exact ⟨_, rfl⟩
        | ok v =>
          obtain ⟨control, g1⟩ := v
          obtain ⟨consumed, hc1, -, -, -, -, -, -, -, hkind⟩ :=
            call_ok_history ctx _ _ _ _ _ hcall
          cases control with
          | yieldValue pair =>
            rcases hkind with ⟨-, hne⟩ | ⟨hno, -⟩
            · have hlen1 : g1.inputRange.parts.length + 2 ≤ fuel := by
                have := congrArg List.length hc1
                simp only [List.length_append] at this
                have hpos : 0 < consumed.length := List.length_pos.2 hne
                omega
              obtain ⟨res2, hres2⟩ := ih ⟨g1, false⟩ w2 (fun h => by cases h) (fun _ => hlen1)
              simp only [hres2]
              obtain ⟨res3, w3⟩ := res2
              cases res3 <;> exact ⟨_, rfl⟩
            · exact absurd rfl (hno pair)
          | breakWithValue pair =>
            obtain ⟨res2, hres2⟩ := ih ⟨g1, true⟩ w2 (fun _ => by omega) (fun h => by cases h)
            simp only [hres2]
            obtain ⟨res3, w3⟩ := res2
            cases res3 <;> exact ⟨_, rfl⟩
          | makeBreak => exact ⟨_, rfl⟩
    · simp only [InputRangeFromLoopControlGet.drain, InputRangeFromLoopControlGet.get, hf,
        if_true]
      exact ⟨_, rfl⟩

/-- C12: for a sequence of fragments without blank-node bindings that decodes without error
in multi-chunk mode, `computeResultLazily` yields in multi-chunk mode exactly one chunk per
fragment, chunk `i` holding one row per binding of fragment `i` in arrival order; in
single-table mode it yields exactly one chunk and ends in the same global state, and the
rows of that chunk are the rows of the chunks of the multi-chunk mode concatenated in order.
Rows are compared by what their cells denote: a local-vocabulary Id is an index into the
vocabulary of its own chunk, and every chunk of the multi-chunk mode has a vocabulary of
its own.  The converter of typed literals is assumed to return no local-vocabulary Id. -/
theorem computeResultLazily_modes (s : Service) (ctx : Context) (vars : List String)
    (body : LazyJsonParser.Generator) (w : World)
    (hwidth : vars.length = s.getResultWidth)
    (hctx : ∀ v iri i, ctx.literalAndDatatypeToTripleComponent v iri = .ok (.id i) →
      i.datatype ≠ Datatype.LocalVocabIndex)
    (hnob : ∀ p ∈ body.parts, ∀ bindings, resultsBindings p.1 = some bindings →
      ∀ binding ∈ bindings, ∀ v b, binding.get? v = some b →
        b.get? "type" ≠ some (.string "bnode"))
    (hdecodes : ∀ e w2,
      (s.computeResultLazily vars body false).consume ctx w ≠ some (.error e, w2)) :
    ∃ chunks w1,
      (s.computeResultLazily vars body false).consume ctx w = some (.ok chunks, w1)
      ∧ chunks.length = body.parts.length
      ∧ chunks.map (fun chunk => chunk.idTable_.rows.length)
          = body.parts.map (fun p => ((resultsBindings p.1).getD []).length)
      ∧ chunks.map IdTableVocabPair.denotedRows
          = body.parts.map (fun p => rowsMeaning ctx vars p.1)
      ∧ ∃ pair, (s.computeResultLazily vars body true).consume ctx w = some (.ok [pair], w1)
        ∧ pair.denotedRows = (chunks.map IdTableVocabPair.denotedRows).flatten := by
  obtain ⟨res, hres⟩ := drain_total ctx (body.parts.length + 2)
    (s.computeResultLazily vars body false) w (fun h => by cases h)
    (fun _ => le_refl _)
  obtain ⟨r, w1⟩ := res
  cases r with
  | error e => exact absurd hres (hdecodes e w1)
  | ok chunks =>
    obtain ⟨gS1, i1, i2, i3, i4, i5, i6⟩ := drain_single_of_multi ctx vars hctx body.parts
      (body.parts.length + 2) (s.computeResultLazily vars body true).getter
      (s.computeResultLazily vars body false).getter w chunks w1 hnob rfl rfl rfl rfl rfl rfl
      rfl rfl rfl rfl hwidth (by intro row hrow; cases hrow) rfl rfl hwidth hres
    refine ⟨chunks, w1, hres, ?_, ?_, i5, ⟨gS1.idTable, gS1.localVocab⟩, ?_, ?_⟩
    · have := congrArg List.length i5
      simpa using this
    · have := congrArg (List.map List.length) i5
      simpa [IdTableVocabPair.denotedRows, rowsMeaning, Function.comp_def] using this
    · have hloop : Get.whileLoop ctx
          (s.computeResultLazily vars body true).getter.inputRange.parts
          (s.computeResultLazily vars body true).getter w = (.ok (none, gS1), w1) := i1
      simp only [InputRangeFromLoopControlGet.consume, InputRangeFromLoopControlGet.drain,
        InputRangeFromLoopControlGet.get, Get.call]
      simp [Service.computeResultLazily] at hloop ⊢
      simp [hloop, i2, i3, i4]
    · rw [i6]
      simp [IdTableVocabPair.denotedRows, Service.computeResultLazily, IdTable.mk0]


theorem computeResultLazily_modes_witness :
    ∃ chunks w1,
      (Example.service200.computeResultLazily ["x", "y"] Example.bodyPlain false).consume
          Example.ctx Example.world = some (.ok chunks, w1)
      ∧ chunks.length = Example.bodyPlain.parts.length
      ∧ chunks.map (fun chunk => chunk.idTable_.rows.length)
          = Example.bodyPlain.parts.map (fun p => ((resultsBindings p.1).getD []).length)
      ∧ chunks.map IdTableVocabPair.denotedRows
          = Example.bodyPlain.parts.map (fun p => rowsMeaning Example.ctx ["x", "y"] p.1)
      ∧ ∃ pair, (Example.service200.computeResultLazily ["x", "y"] Example.bodyPlain
            true).consume Example.ctx Example.world = some (.ok [pair], w1)
        ∧ pair.denotedRows = (chunks.map IdTableVocabPair.denotedRows).flatten :=
  computeResultLazily_modes Example.service200 Example.ctx ["x", "y"] Example.bodyPlain
    Example.world rfl
    (by
      intro v iri i h
      cases h)
    (by
      intro p hp bindings hb binding hbinding v b hv
      simp only [Example.bodyPlain, List.mem_cons, List.mem_singleton, List.not_mem_nil,
        or_false] at hp
      rcases hp with rfl | rfl
      · cases hb
        simp only [List.mem_cons, List.mem_singleton, List.not_mem_nil, or_false] at hbinding
        rcases hbinding with rfl | rfl
        · simp only [Json.get?, Example.uri, Example.plainLiteral, List.lookup] at hv ⊢
          split at hv
          · cases hv; simp [List.lookup]
          · split at hv
            · cases hv; simp [List.lookup]
            · cases hv
        · simp only [Json.get?, Example.uri, List.lookup] at hv ⊢
          split at hv
          · cases hv; simp [List.lookup]
          · cases hv
      · cases hb
        simp only [List.mem_cons, List.mem_singleton, List.not_mem_nil, or_false] at hbinding
        subst hbinding
        simp only [Json.get?, Example.uri, Example.plainLiteral, List.lookup] at hv ⊢
        split at hv
        · cases hv; simp [List.lookup]
        · split at hv
          · cases hv; simp [List.lookup]
          · cases hv)
    (by
      intro e w2 h
      have heval : (Example.service200.computeResultLazily ["x", "y"] Example.bodyPlain
          false).consume Example.ctx Example.world
          = some (.ok [⟨⟨2, [[⟨Datatype.LocalVocabIndex, 0⟩, ⟨Datatype.LocalVocabIndex, 1⟩],
                [⟨Datatype.LocalVocabIndex, 2⟩, ValueId.makeUndefined]]⟩,
              ⟨[.iri ⟨"http://a"⟩, .literal ⟨"one", .none⟩, .iri ⟨"http://b"⟩], []⟩⟩,
            ⟨⟨2, [[⟨Datatype.LocalVocabIndex, 0⟩, ⟨Datatype.LocalVocabIndex, 1⟩]]⟩,
              ⟨[.iri ⟨"http://c"⟩, .literal ⟨"one", .none⟩], []⟩⟩],
            ⟨7, 0, []⟩) := rfl
      rw [heval] at h
      cases h)

/-! ## Errors with context -/

/-- C29: `throwErrorWithContext(msg, first100, last100)` never returns: its value is the
exception it throws.  When the IRI of the clause is a valid URL, the exception is a
`std::runtime_error` whose message is exactly the prefix naming the endpoint, the message,
the first 100 bytes and, when they are not empty, the last 100 bytes of the response. -/
theorem throwErrorWithContext_message (clause : parsedQuery.Service) (ctx : Context)
    (msg first100 last100 : String) (serviceUrl : Url)
    (hurl : ctx.makeUrl clause.serviceIri_.getContent = .ok serviceUrl) :
    throwErrorWithContext clause ctx msg first100 last100
      = .runtime_error ("Error while executing a SERVICE request to <" ++ serviceUrl.asString
          ++ ">: " ++ msg ++ ". First 100 bytes of the response: '" ++ first100
          ++ (if last100 = "" then "'" else ", last 100 bytes: '" ++ last100 ++ "'")) := by
  simp only [throwErrorWithContext, hurl]

theorem throwErrorWithContext_message_witness :
    throwErrorWithContext Example.silentClause Example.ctx "msg" "first" ""
        = .runtime_error ("Error while executing a SERVICE request to <http://e/>: msg. "
            ++ "First 100 bytes of the response: 'first'")
      ∧ throwErrorWithContext Example.silentClause Example.ctx "msg" "first" "last"
        = .runtime_error ("Error while executing a SERVICE request to <http://e/>: msg. "
            ++ "First 100 bytes of the response: 'first, last 100 bytes: 'last'") :=
  ⟨throwErrorWithContext_message Example.silentClause Example.ctx "msg" "first" ""
      ⟨"http://e/"⟩ rfl,
    throwErrorWithContext_message Example.silentClause Example.ctx "msg" "first" "last"
      ⟨"http://e/"⟩ rfl⟩

/-! ## The precomputation of the sibling -/

theorem Plan.modify_operations (plan : Plan) (op : Nat) (f : Operation → Operation)
    (other : Nat) :
    (plan.modify op f).operations[other]?
      = (plan.operations[other]?).map (fun operation => if other = op then f operation
          else operation) := by
  simp only [Plan.modify]
  cases hop : plan.operations[op]? with
  | none =>
    by_cases h : other = op
    · subst h; simp [hop]
    · simp [h]
  | some operation =>
    simp only [List.getElem?_set]
    by_cases h : op = other
    · subst h
      have hlt : op < plan.operations.length := by
        rcases List.getElem?_eq_some.1 hop with ⟨hlt, -⟩
        exact hlt
      simp [hlt, hop]
    · have h2 : ¬ other = op := fun h3 => h h3.symm
      simp [h, h2]

theorem Plan.modify_resultRequests (plan : Plan) (op : Nat) (f : Operation → Operation) :
    (plan.modify op f).resultRequests = plan.resultRequests := by
  simp only [Plan.modify]
  split <;> rfl

/-- C21: `precomputeSiblingResult` returns at once and leaves every operation and the log of
requested results as they are (no sibling info is set, no precomputed result is handed
over, no detail is added, no result is requested) when caching of SERVICE results is
enabled, or `rightOnly` is set and the right operation (after the sort is skipped) is no
`Service`, or `rightOnly` is not set and both or neither of the operations are a `Service`.
The pointers are not null and a skipped sort has exactly one child. -/
theorem precomputeSiblingResult_returns_at_once (ctx : Context) (left right : Nat)
    (rightOnly requestLaziness : Bool) (plan : Plan) (left1 right1 : Nat)
    (hleft : left < plan.operations.length) (hright : right < plan.operations.length)
    (hleft1 : Service.skipSortOperation plan left = .ok left1)
    (hright1 : Service.skipSortOperation plan right = .ok right1)
    (hskip : ctx.runtimeParameters.cacheServiceResults = true
      ∨ (rightOnly = true ∧ plan.isService right1 = false)
      ∨ (rightOnly = false ∧ plan.isService left1 = plan.isService right1)) :
    Service.precomputeSiblingResult ctx left right rightOnly requestLaziness plan
      = some (.ok (), plan) := by
  simp only [Service.precomputeSiblingResult, hleft, hright, hleft1, hright1, decide_True,
    Bool.and_self, Bool.not_true, Bool.false_eq_true, if_false]
  rcases hskip with h | ⟨h1, h2⟩ | ⟨h1, h2⟩
  · simp [h]
  · simp [h1, h2]
  · simp [h1, h2]


theorem Plan.modify_self (plan : Plan) (op : Nat) (f : Operation → Operation) :
    (plan.modify op f).operations[op]? = (plan.operations[op]?).map f := by
  rw [Plan.modify_operations]
  cases plan.operations[op]? <;> simp

theorem Plan.modify_other (plan : Plan) (op : Nat) (f : Operation → Operation)
    (other : Nat) (h : other ≠ op) :
    (plan.modify op f).operations[other]? = plan.operations[other]? := by
  rw [Plan.modify_operations]
  cases plan.operations[other]? <;> simp [h]

theorem Plan.siblingInfo_modify (plan : Plan) (op : Nat) (f : Operation → Operation)
    (hkind : ∀ operation, (f operation).kind = operation.kind) (other : Nat) :
    (plan.modify op f).siblingInfo other = plan.siblingInfo other := by
  by_cases h : other = op
  · subst h
    simp only [Plan.siblingInfo, Plan.modify_self]
    cases plan.operations[other]? with
    | none => rfl
    | some operation => simp [hkind]
  · simp only [Plan.siblingInfo, Plan.modify_other _ _ _ _ h]

theorem Plan.isService_modify (plan : Plan) (op : Nat) (f : Operation → Operation)
    (hkind : ∀ operation, (f operation).kind = operation.kind) (other : Nat) :
    (plan.modify op f).isService other = plan.isService other := by
  by_cases h : other = op
  · subst h
    simp only [Plan.isService, Plan.modify_self]
    cases plan.operations[other]? with
    | none => rfl
    | some operation => simp [hkind]
  · simp only [Plan.isService, Plan.modify_other _ _ _ _ h]

theorem Plan.siblingInfo_emplace (plan : Plan) (service : Nat) (info : SiblingInfo)
    (hservice : plan.isService service = true) :
    (plan.emplaceSiblingInfo service info).siblingInfo service = some info := by
  simp only [Plan.siblingInfo, Plan.emplaceSiblingInfo, Plan.modify_self]
  simp only [Plan.isService] at hservice
  cases hop : plan.operations[service]? with
  | none => simp [hop] at hservice
  | some operation =>
    rw [hop] at hservice
    simp only [Option.map_some']
    cases hk : operation.kind <;> simp [hk] at hservice ⊢

theorem Plan.precomputedResult_modify_self (plan : Plan) (op : Nat)
    (f : Operation → Operation) (operation : Operation)
    (hop : plan.operations[op]? = some operation) :
    (plan.modify op f).precomputedResult op = (f operation).precomputedResult := by
  simp only [Plan.precomputedResult, Plan.modify_self, hop, Option.map_some']

theorem Plan.precomputedResult_modify (plan : Plan) (op : Nat) (f : Operation → Operation)
    (hsame : ∀ operation, (f operation).precomputedResult = operation.precomputedResult)
    (other : Nat) :
    (plan.modify op f).precomputedResult other = plan.precomputedResult other := by
  by_cases h : other = op
  · subst h
    simp only [Plan.precomputedResult, Plan.modify_self]
    cases plan.operations[other]? with
    | none => rfl
    | some operation => simp [hsame]
  · simp only [Plan.precomputedResult, Plan.modify_other _ _ _ _ h]

theorem Plan.detail_modify_self (plan : Plan) (op : Nat) (f : Operation → Operation)
    (operation : Operation) (hop : plan.operations[op]? = some operation) (key : String) :
    (plan.modify op f).detail op key = (f operation).details.lookup key := by
  simp only [Plan.detail, Plan.modify_self, hop, Option.map_some']

theorem Plan.detail_modify (plan : Plan) (op : Nat) (f : Operation → Operation)
    (key : String)
    (hsame : ∀ operation, (f operation).details.lookup key = operation.details.lookup key)
    (other : Nat) :
    (plan.modify op f).detail other key = plan.detail other key := by
  by_cases h : other = op
  · subst h
    simp only [Plan.detail, Plan.modify_self]
    cases plan.operations[other]? with
    | none => rfl
    | some operation => simp [hsame]
  · simp only [Plan.detail, Plan.modify_other _ _ _ _ h]

theorem Plan.isSome_modify (plan : Plan) (op : Nat) (f : Operation → Operation)
    (other : Nat) :
    ((plan.modify op f).operations[other]?).isSome = (plan.operations[other]?).isSome := by
  rw [Plan.modify_operations]
  cases plan.operations[other]? <;> rfl

theorem lookup_addDetail_self (op : Operation) (key value : String) :
    (op.addDetail key value).details.lookup key = some value := by
  simp [Operation.addDetail, List.lookup]

theorem lookup_details_filter (details : List (String × String)) (key other : String)
    (h : other ≠ key) :
    (details.filter (fun kv => kv.1 ≠ key)).lookup other = details.lookup other := by
  induction details with
  | nil => rfl
  | cons kv rest ih =>
    obtain ⟨k, c⟩ := kv
    by_cases hk : k = key
    · subst hk
      have hvk : (other == k) = false := by simpa using h
      simp [List.filter, List.lookup, hvk]
      simpa using ih
    · by_cases hv : other = k
      · subst hv
        simp [List.filter, hk, List.lookup]
      · have hvk : (other == k) = false := by simpa using hv
        simp [List.filter, hk, List.lookup, hvk]
        simpa using ih

theorem lookup_addDetail_ne (op : Operation) (key value other : String) (h : other ≠ key) :
    (op.addDetail key value).details.lookup other = op.details.lookup other := by
  have h1 : (other == key) = false := by simpa using h
  simp only [Operation.addDetail, List.lookup, h1]
  exact lookup_details_filter op.details key other h

theorem precomputeSiblingResult_eq_precomputeFor (ctx : Context) (left right : Nat)
    (rightOnly requestLaziness : Bool) (plan : Plan) (left1 right1 service sibling : Nat)
    (hleft : left < plan.operations.length) (hright : right < plan.operations.length)
    (hleft1 : Service.skipSortOperation plan left = .ok left1)
    (hright1 : Service.skipSortOperation plan right = .ok right1)
    (hcache : ctx.runtimeParameters.cacheServiceResults = false)
    (hservice : plan.isService service = true)
    (hchoice : (service = left1 ∧ sibling = right1 ∧ plan.isService right1 = rightOnly)
      ∨ (service = right1 ∧ sibling = left1 ∧ plan.isService left1 = false)) :
    Service.precomputeSiblingResult ctx left right rightOnly requestLaziness plan
      = Service.precomputeFor ctx service sibling requestLaziness plan := by
  simp only [Service.precomputeSiblingResult, hleft, hright, hleft1, hright1, decide_True,
    Bool.and_self, Bool.not_true, Bool.false_eq_true, if_false, hcache, Bool.false_or]
  rcases hchoice with ⟨rfl, rfl, hb⟩ | ⟨rfl, rfl, ha⟩
  · rw [hservice, hb]
    cases rightOnly <;> simp
  · rw [hservice, ha]
    cases rightOnly <;> simp

theorem addRuntimeInfo_siblingInfo (plan : Plan) (service sibling : Nat) (used : Bool)
    (other : Nat) :
    (Service.addRuntimeInfo plan service sibling used).siblingInfo other
      = plan.siblingInfo other := by
  simp only [Service.addRuntimeInfo]
  rw [Plan.siblingInfo_modify, Plan.siblingInfo_modify]
  all_goals (intro _; rfl)

theorem addRuntimeInfo_precomputedResult (plan : Plan) (service sibling : Nat) (used : Bool)
    (other : Nat) :
    (Service.addRuntimeInfo plan service sibling used).precomputedResult other
      = plan.precomputedResult other := by
  simp only [Service.addRuntimeInfo]
  rw [Plan.precomputedResult_modify, Plan.precomputedResult_modify]
  all_goals (intro _; rfl)

theorem addRuntimeInfo_resultRequests (plan : Plan) (service sibling : Nat) (used : Bool) :
    (Service.addRuntimeInfo plan service sibling used).resultRequests
      = plan.resultRequests := by
  simp only [Service.addRuntimeInfo, Plan.modify_resultRequests]

theorem addRuntimeInfo_detail_service (plan : Plan) (service sibling : Nat) (used : Bool)
    (h : (plan.operations[service]?).isSome = true) :
    (Service.addRuntimeInfo plan service sibling used).detail service
        "optimized-with-sibling-result"
      = some (if used then "yes" else "no") := by
  simp only [Service.addRuntimeInfo]
  rw [Plan.detail_modify _ _ _ _
    (fun op => lookup_addDetail_ne op _ _ _ (by decide))]
  obtain ⟨operation, hop⟩ := Option.isSome_iff_exists.1 h
  rw [Plan.detail_modify_self _ _ _ operation hop, lookup_addDetail_self]

theorem addRuntimeInfo_detail_sibling (plan : Plan) (service sibling : Nat) (used : Bool)
    (h : (plan.operations[sibling]?).isSome = true) :
    (Service.addRuntimeInfo plan service sibling used).detail sibling
        "used-to-optimize-service-sibling"
      = some (if used then "yes" else "no") := by
  simp only [Service.addRuntimeInfo]
  have h1 := Plan.isSome_modify plan service
    (fun op => op.addDetail "optimized-with-sibling-result" (if used then "yes" else "no"))
    sibling
  rw [h] at h1
  obtain ⟨operation, hop⟩ := Option.isSome_iff_exists.1 h1
  rw [Plan.detail_modify_self _ _ _ operation hop, lookup_addDetail_self]

theorem isSome_of_isService (plan : Plan) (op : Nat) (h : plan.isService op = true) :
    (plan.operations[op]?).isSome = true := by
  simp only [Plan.isService] at h
  cases hop : plan.operations[op]? with
  | none => simp [hop] at h
  | some operation => rfl

theorem Plan.precomputedResult_emplace (plan : Plan) (service : Nat) (info : SiblingInfo)
    (other : Nat) :
    (plan.emplaceSiblingInfo service info).precomputedResult other
      = plan.precomputedResult other := by
  simp only [Plan.emplaceSiblingInfo]
  apply Plan.precomputedResult_modify
  intro operation
  split <;> rfl

theorem Plan.isSome_emplace (plan : Plan) (service : Nat) (info : SiblingInfo) (other : Nat) :
    ((plan.emplaceSiblingInfo service info).operations[other]?).isSome
      = (plan.operations[other]?).isSome := by
  simp only [Plan.emplaceSiblingInfo, Plan.isSome_modify]

theorem Plan.precomputedResult_set (plan : Plan) (sibling : Nat) (result : OperationResult)
    (h : (plan.operations[sibling]?).isSome = true) :
    (plan.modify sibling (fun op => { op with precomputedResult := some result })
      ).precomputedResult sibling = some result := by
  obtain ⟨operation, hop⟩ := Option.isSome_iff_exists.1 h
  rw [Plan.precomputedResult_modify_self _ _ _ operation hop]

/-- C23: when the result of the sibling is fully materialized with `n` rows and the
threshold is `t`, the sibling info of the SERVICE is set to that result, the variable
columns and the cache key of the sibling when `n ≤ t` and is left as it was otherwise; in
both cases the sibling receives that result as its precomputed result, and the details of
both operations record "yes" when `n ≤ t` and "no" otherwise. -/
theorem precomputeSiblingResult_materialized (ctx : Context) (left right : Nat)
    (rightOnly requestLaziness : Bool) (plan : Plan) (left1 right1 service sibling : Nat)
    (siblingOperation : Operation) (idTable : IdTable) (sortedBy : List Nat)
    (localVocab : LocalVocab)
    (hleft : left < plan.operations.length) (hright : right < plan.operations.length)
    (hleft1 : Service.skipSortOperation plan left = .ok left1)
    (hright1 : Service.skipSortOperation plan right = .ok right1)
    (hcache : ctx.runtimeParameters.cacheServiceResults = false)
    (hservice : plan.isService service = true)
    (hchoice : (service = left1 ∧ sibling = right1 ∧ plan.isService right1 = rightOnly)
      ∨ (service = right1 ∧ sibling = left1 ∧ plan.isService left1 = false))
    (hsibling : plan.operations[sibling]? = some siblingOperation)
    (hresult : siblingOperation.getResult
        (if requestLaziness then ComputationMode.LAZY_IF_SUPPORTED
          else ComputationMode.FULLY_MATERIALIZED)
      = .ok (.materialized idTable sortedBy localVocab)) :
    ∃ plan1, Service.precomputeSiblingResult ctx left right rightOnly requestLaziness plan
        = some (.ok (), plan1)
      ∧ plan1.siblingInfo service
        = (if idTable.size ≤ ctx.runtimeParameters.serviceMaxValueRows then
            some ⟨some (.materialized idTable sortedBy localVocab),
              siblingOperation.getExternallyVisibleVariableColumns,
              siblingOperation.getCacheKey⟩
          else plan.siblingInfo service)
      ∧ plan1.precomputedResult sibling = some (.materialized idTable sortedBy localVocab)
      ∧ plan1.detail service "optimized-with-sibling-result"
        = some (if idTable.size ≤ ctx.runtimeParameters.serviceMaxValueRows then "yes"
            else "no")
      ∧ plan1.detail sibling "used-to-optimize-service-sibling"
        = some (if idTable.size ≤ ctx.runtimeParameters.serviceMaxValueRows then "yes"
            else "no") := by
  rw [precomputeSiblingResult_eq_precomputeFor ctx left right rightOnly requestLaziness plan
    left1 right1 service sibling hleft hright hleft1 hright1 hcache hservice hchoice]
  simp only [Service.precomputeFor, hsibling, hresult]
  have hsome : (plan.operations[sibling]?).isSome = true := by rw [hsibling]; rfl
  have hsomeService := isSome_of_isService plan service hservice
  refine ⟨_, rfl, ?_, ?_, ?_, ?_⟩
  · rw [addRuntimeInfo_siblingInfo, Plan.siblingInfo_modify]
    swap
    · intro _; rfl
    by_cases hsmall : idTable.size ≤ ctx.runtimeParameters.serviceMaxValueRows
    · simp only [hsmall, decide_True, if_true]
      exact Plan.siblingInfo_emplace _ _ _ hservice
    · simp only [hsmall, decide_False, Bool.false_eq_true, if_false]
      rfl
  · rw [addRuntimeInfo_precomputedResult]
    apply Plan.precomputedResult_set
    split
    · rw [Plan.isSome_emplace]; exact hsome
    · exact hsome
  · rw [addRuntimeInfo_detail_service]
    · by_cases hsmall : idTable.size ≤ ctx.runtimeParameters.serviceMaxValueRows <;>
        simp [hsmall]
    · rw [Plan.isSome_modify]
      split
      · rw [Plan.isSome_emplace]; exact hsomeService
      · exact hsomeService
  · rw [addRuntimeInfo_detail_sibling]
    · by_cases hsmall : idTable.size ≤ ctx.runtimeParameters.serviceMaxValueRows <;>
        simp [hsmall]
    · rw [Plan.isSome_modify]
      split
      · rw [Plan.isSome_emplace]; exact hsome
      · exact hsome


theorem LazyResult.get_numPending :
    ∀ (g : LazyResult) (out : Option IdTableVocabPair) (g1 : LazyResult),
      g.get = .ok (out, g1) → g1.numPending + (if out.isSome then 1 else 0) = g.numPending := by
  intro g
  induction g with
  | range pending failure =>
    intro out g1 h
    cases pending with
    | nil =>
      cases failure with
      | none =>
        simp only [LazyResult.get, Except.ok.injEq, Prod.mk.injEq] at h
        obtain ⟨rfl, rfl⟩ := h
        rfl
      | some e => simp [LazyResult.get] at h
    | cons pair rest =>
      simp only [LazyResult.get, Except.ok.injEq, Prod.mk.injEq] at h
      obtain ⟨rfl, rfl⟩ := h
      simp [LazyResult.numPending]
  | join first second ih1 ih2 =>
    intro out g1 h
    simp only [LazyResult.get] at h
    cases hf : first.get with
    | error e => simp [hf] at h
    | ok v =>
      obtain ⟨out1, first1⟩ := v
      have h1 := ih1 out1 first1 hf
      cases out1 with
      | some pair =>
        simp only [hf, Except.ok.injEq, Prod.mk.injEq] at h
        obtain ⟨rfl, rfl⟩ := h
        simp only [LazyResult.numPending, Option.isSome_some, if_true] at h1 ⊢
        omega
      | none =>
        simp only [hf] at h
        cases hs : second.get with
        | error e => simp [hs] at h
        | ok v2 =>
          obtain ⟨out2, second1⟩ := v2
          have h2 := ih2 out2 second1 hs
          simp only [hs, Except.ok.injEq, Prod.mk.injEq] at h
          obtain ⟨rfl, rfl⟩ := h
          simp only [LazyResult.numPending, Option.isSome_none, Bool.false_eq_true,
            if_false] at h1 ⊢
          omega

theorem LazyResult.drain_enough_fuel :
    ∀ (fuel : Nat) (g : LazyResult), g.numPending < fuel → ∃ r, g.drain fuel = some r := by
  intro fuel
  induction fuel with
  | zero => intro g h; omega
  | succ fuel ih =>
    intro g h
    simp only [LazyResult.drain]
    cases hg : g.get with
    | error e => exact ⟨_, rfl⟩
    | ok v =>
      obtain ⟨out, g1⟩ := v
      cases out with
      | none => exact ⟨_, rfl⟩
      | some pair =>
        have hn := LazyResult.get_numPending g _ _ hg
        simp only [Option.isSome_some, if_true] at hn
        obtain ⟨r, hr⟩ := ih g1 (by omega)
        simp only [hr]
        exact ⟨_, rfl⟩

theorem LazyResult.drain_unique :
    ∀ (fuel1 fuel2 : Nat) (g : LazyResult) (r1 r2 : List IdTableVocabPair × Option Exception),
      g.drain fuel1 = some r1 → g.drain fuel2 = some r2 → r1 = r2 := by
  intro fuel1
  induction fuel1 with
  | zero => intro fuel2 g r1 r2 h; cases h
  | succ fuel1 ih =>
    intro fuel2 g r1 r2 h1 h2
    cases fuel2 with
    | zero => cases h2
    | succ fuel2 =>
      simp only [LazyResult.drain] at h1 h2
      cases hg : g.get with
      | error e =>
        simp only [hg, Option.some.injEq] at h1 h2
        rw [← h1, ← h2]
      | ok v =>
        obtain ⟨out, g1⟩ := v
        cases out with
        | none =>
          simp only [hg, Option.some.injEq] at h1 h2
          rw [← h1, ← h2]
        | some pair =>
          simp only [hg] at h1 h2
          cases hd1 : LazyResult.drain fuel1 g1 with
          | none => simp [hd1] at h1
          | some v1 =>
            cases hd2 : LazyResult.drain fuel2 g1 with
            | none => simp [hd2] at h2
            | some v2 =>
              have := ih fuel2 g1 v1 v2 hd1 hd2
              subst this
              simp only [hd1, Option.some.injEq] at h1
              simp only [hd2, Option.some.injEq] at h2
              rw [← h1, ← h2]

theorem LazyResult.consume_of_drain (fuel : Nat) (g : LazyResult)
    (r : List IdTableVocabPair × Option Exception) (h : g.drain fuel = some r) :
    g.consume = some r := by
  obtain ⟨r1, hr1⟩ := LazyResult.drain_enough_fuel (g.numPending + 1) g (by omega)
  have := LazyResult.drain_unique _ _ g r1 r hr1 h
  subst this
  exact hr1

theorem LazyResult.drain_join_nil :
    ∀ (fuel : Nat) (g : LazyResult),
      (LazyResult.join (.range [] none) g).drain fuel = g.drain fuel := by
  intro fuel
  induction fuel with
  | zero => intro g; rfl
  | succ fuel ih =>
    intro g
    simp only [LazyResult.drain, LazyResult.get]
    cases hg : g.get with
    | error e => rfl
    | ok v =>
      obtain ⟨out, g1⟩ := v
      cases out with
      | none => rfl
      | some pair =>
        simp only [ih]

theorem LazyResult.drain_succ_of_get (fuel : Nat) (g g1 : LazyResult) (pair : IdTableVocabPair)
    (r : List IdTableVocabPair × Option Exception) (hg : g.get = .ok (some pair, g1))
    (hr : g1.drain fuel = some r) : g.drain (fuel + 1) = some (pair :: r.1, r.2) := by
  simp only [LazyResult.drain, hg, hr]

theorem LazyResult.consume_join (pairs : List IdTableVocabPair) (g : LazyResult)
    (chunks : List IdTableVocabPair) (failure : Option Exception)
    (h : g.consume = some (chunks, failure)) :
    (LazyResult.join (moveToCachingInputRange pairs) g).consume
      = some (pairs ++ chunks, failure) := by
  apply LazyResult.consume_of_drain (pairs.length + (g.numPending + 1))
  simp only [moveToCachingInputRange]
  induction pairs with
  | nil =>
    simp only [List.length_nil, Nat.zero_add, List.nil_append]
    rw [LazyResult.drain_join_nil]
    exact h
  | cons pair rest ih =>
    have hfuel : (pair :: rest).length + (g.numPending + 1)
        = (rest.length + (g.numPending + 1)) + 1 := by
      simp only [List.length_cons]; omega
    rw [hfuel]
    exact LazyResult.drain_succ_of_get _ (.join (.range (pair :: rest) none) g)
      (.join (.range rest none) g) pair _ rfl ih

theorem concatenatePairs_spec :
    ∀ (pairs : List IdTableVocabPair) (siblingPair : IdTableVocabPair),
      Service.concatenatePairs pairs siblingPair
        = ⟨⟨siblingPair.idTable_.numColumns_,
            siblingPair.idTable_.rows ++ (pairs.map (fun pair => pair.idTable_.rows)).flatten⟩,
          ⟨siblingPair.localVocab_.words
              ++ (pairs.map (fun pair => pair.localVocab_.words)).flatten,
            siblingPair.localVocab_.blankNodes
              ++ (pairs.map (fun pair => pair.localVocab_.blankNodes)).flatten⟩⟩ := by
  intro pairs
  induction pairs with
  | nil => intro siblingPair; simp [Service.concatenatePairs]
  | cons pair rest ih =>
    intro siblingPair
    simp only [Service.concatenatePairs, ih, IdTable.insertAtEnd, LocalVocab.mergeWith,
      List.map_cons, List.flatten_cons, List.append_assoc]

theorem sum_take_le (sizes : List Nat) (j k : Nat) (h : j ≤ k) :
    (sizes.take j).sum ≤ (sizes.take k).sum := by
  induction sizes generalizing j k with
  | nil => simp
  | cons x rest ih =>
    cases j with
    | zero => simp
    | succ j =>
      cases k with
      | zero => omega
      | succ k =>
        simp only [List.take_succ_cons, List.sum_cons]
        have := ih j k (by omega)
        omega

theorem precomputeLoop_spec (maxValueRows : Nat) :
    ∀ (fuel : Nat) (g : LazyResult) (rows : Nat) (pairs chunks : List IdTableVocabPair)
      (failure : Option Exception),
      g.numPending < fuel → g.drain fuel = some (chunks, failure) → rows ≤ maxValueRows →
      (rows + (chunks.map (fun pair => pair.idTable_.size)).sum ≤ maxValueRows
        ∧ Service.precomputeLoop maxValueRows fuel g rows pairs
          = some (match failure with
              | none => .ok (.exhausted (pairs ++ chunks)
                  (rows + (chunks.map (fun pair => pair.idTable_.size)).sum))
              | some e => .error e))
      ∨ (∃ k generator, k < chunks.length
        ∧ rows + ((chunks.take k).map (fun pair => pair.idTable_.size)).sum ≤ maxValueRows
        ∧ maxValueRows < rows + ((chunks.take (k + 1)).map (fun pair => pair.idTable_.size)).sum
        ∧ Service.precomputeLoop maxValueRows fuel g rows pairs
          = some (.ok (.exceeded (pairs ++ chunks.take (k + 1)) generator))
        ∧ generator.consume = some (chunks.drop (k + 1), failure)) := by
  intro fuel
  induction fuel with
  | zero => intro g rows pairs chunks failure h; omega
  | succ fuel ih =>
    intro g rows pairs chunks failure hfuel hdrain hrows
    simp only [LazyResult.drain] at hdrain
    simp only [Service.precomputeLoop]
    cases hg : g.get with
    | error e =>
      simp only [hg, Option.some.injEq, Prod.mk.injEq] at hdrain
      obtain ⟨rfl, rfl⟩ := hdrain
      left
      exact ⟨by simpa using hrows, rfl⟩
    | ok v =>
      obtain ⟨out, g1⟩ := v
      cases out with
      | none =>
        simp only [hg, Option.some.injEq, Prod.mk.injEq] at hdrain
        obtain ⟨rfl, rfl⟩ := hdrain
        left
        exact ⟨by simpa using hrows, by simp⟩
      | some pair =>
        simp only [hg] at hdrain
        have hn := LazyResult.get_numPending g _ _ hg
        simp only [Option.isSome_some, if_true] at hn
        cases hd : LazyResult.drain fuel g1 with
        | none => simp [hd] at hdrain
        | some r =>
          obtain ⟨rest, failure1⟩ := r
          simp only [hd, Option.some.injEq, Prod.mk.injEq] at hdrain
          obtain ⟨rfl, rfl⟩ := hdrain
          by_cases hex : rows + pair.idTable_.size > maxValueRows
          · right
            refine ⟨0, g1, by simp, by simpa using hrows, by simpa using hex, ?_,
              LazyResult.consume_of_drain fuel g1 _ hd⟩
            simp [hex]
          · have hle : rows + pair.idTable_.size ≤ maxValueRows := by omega
            rcases ih g1 (rows + pair.idTable_.size) (pairs ++ [pair]) rest failure1
              (by omega) hd hle with ⟨h1, h2⟩ | ⟨k, generator, h1, h2, h3, h4, h5⟩
            · left
              refine ⟨by simp only [List.map_cons, List.sum_cons]; omega, ?_⟩
              simp only [hex, if_false, h2, List.map_cons, List.sum_cons, List.append_assoc,
                List.singleton_append, Nat.add_assoc]
            · right
              refine ⟨k + 1, generator, by simp only [List.length_cons]; omega, ?_, ?_, ?_, ?_⟩
              · simp only [List.take_succ_cons, List.map_cons, List.sum_cons]; omega
              · simp only [List.take_succ_cons, List.map_cons, List.sum_cons]; omega
              · simp only [hex, if_false, h4, List.take_succ_cons, List.append_assoc,
                  List.singleton_append]
              · simpa using h5

theorem sum_sizes_take_le (chunks : List IdTableVocabPair) (j k : Nat) (h : j ≤ k) :
    ((chunks.take j).map (fun pair => pair.idTable_.size)).sum
      ≤ ((chunks.take k).map (fun pair => pair.idTable_.size)).sum := by
  rw [List.map_take, List.map_take]
  exact sum_take_le _ j k h

/-- C24: for a lazy result of the sibling with the chunks `c1..cn` whose total number of
rows exceeds the threshold `t`, `precomputeSiblingResult` stops pulling after the smallest
number `k` of chunks whose rows together exceed `t`, leaves the sibling info of the SERVICE
as it was, records "no" on both operations, and hands the sibling a lazy result with the
sort key of the original: the join of the `k` chunks pulled so far with the rest of the
stream, which still holds `c(k+1)..cn`; consumed, the join delivers exactly `c1..cn` in
the original order and ends as the original stream ends. -/
theorem precomputeSiblingResult_threshold_exceeded (ctx : Context) (left right : Nat)
    (rightOnly requestLaziness : Bool) (plan : Plan) (left1 right1 service sibling : Nat)
    (siblingOperation : Operation) (idTables : LazyResult) (sortedBy : List Nat)
    (chunks : List IdTableVocabPair) (failure : Option Exception)
    (hleft : left < plan.operations.length) (hright : right < plan.operations.length)
    (hleft1 : Service.skipSortOperation plan left = .ok left1)
    (hright1 : Service.skipSortOperation plan right = .ok right1)
    (hcache : ctx.runtimeParameters.cacheServiceResults = false)
    (hservice : plan.isService service = true)
    (hchoice : (service = left1 ∧ sibling = right1 ∧ plan.isService right1 = rightOnly)
      ∨ (service = right1 ∧ sibling = left1 ∧ plan.isService left1 = false))
    (hsibling : plan.operations[sibling]? = some siblingOperation)
    (hresult : siblingOperation.getResult
        (if requestLaziness then ComputationMode.LAZY_IF_SUPPORTED
          else ComputationMode.FULLY_MATERIALIZED)
      = .ok (.lazy idTables sortedBy))
    (hchunks : idTables.consume = some (chunks, failure))
    (htotal : ctx.runtimeParameters.serviceMaxValueRows
      < (chunks.map (fun pair => pair.idTable_.size)).sum) :
    ∃ plan1 k generator, k ≤ chunks.length
      ∧ ctx.runtimeParameters.serviceMaxValueRows
          < ((chunks.take k).map (fun pair => pair.idTable_.size)).sum
      ∧ (∀ j, j < k → ((chunks.take j).map (fun pair => pair.idTable_.size)).sum
          ≤ ctx.runtimeParameters.serviceMaxValueRows)
      ∧ Service.precomputeSiblingResult ctx left right rightOnly requestLaziness plan
          = some (.ok (), plan1)
      ∧ plan1.siblingInfo service = plan.siblingInfo service
      ∧ plan1.precomputedResult sibling
          = some (.lazy (.join (moveToCachingInputRange (chunks.take k)) generator) sortedBy)
      ∧ generator.consume = some (chunks.drop k, failure)
      ∧ (LazyResult.join (moveToCachingInputRange (chunks.take k)) generator).consume
          = some (chunks, failure)
      ∧ plan1.detail service "optimized-with-sibling-result" = some "no"
      ∧ plan1.detail sibling "used-to-optimize-service-sibling" = some "no" := by
  rw [precomputeSiblingResult_eq_precomputeFor ctx left right rightOnly requestLaziness plan
    left1 right1 service sibling hleft hright hleft1 hright1 hcache hservice hchoice]
  have hsome : (plan.operations[sibling]?).isSome = true := by rw [hsibling]; rfl
  have hsomeService := isSome_of_isService plan service hservice
  rcases precomputeLoop_spec ctx.runtimeParameters.serviceMaxValueRows
    (idTables.numPending + 1) idTables 0 [] chunks failure (by omega) hchunks
    (Nat.zero_le _) with ⟨h1, -⟩ | ⟨k, generator, h1, h2, h3, h4, h5⟩
  · omega
  · simp only [Nat.zero_add, List.nil_append] at h2 h3 h4
    simp only [Service.precomputeFor, hsibling, hresult, h4]
    refine ⟨_, k + 1, generator, by omega, h3, ?_, rfl, ?_, ?_, h5, ?_, ?_, ?_⟩
    · intro j hj
      exact le_trans (sum_sizes_take_le chunks j k (by omega)) h2
    · rw [addRuntimeInfo_siblingInfo, Plan.siblingInfo_modify]
      · rfl
      · intro _; rfl
    · rw [addRuntimeInfo_precomputedResult]
      exact Plan.precomputedResult_set _ _ _ hsome
    · have := LazyResult.consume_join (chunks.take (k + 1)) generator _ _ h5
      rw [List.take_append_drop] at this
      exact this
    · rw [addRuntimeInfo_detail_service]
      · rfl
      · rw [Plan.isSome_modify]; exact hsomeService
    · rw [addRuntimeInfo_detail_sibling]
      · rfl
      · rw [Plan.isSome_modify]; exact hsome

theorem concatenatePairs_localVocab :
    ∀ (pairs : List IdTableVocabPair) (siblingPair : IdTableVocabPair),
      (Service.concatenatePairs pairs siblingPair).localVocab_
        = pairs.foldl (fun merged pair => merged.mergeWith pair.localVocab_)
            siblingPair.localVocab_ := by
  intro pairs
  induction pairs with
  | nil => intro siblingPair; rfl
  | cons pair rest ih =>
    intro siblingPair
    simp only [Service.concatenatePairs, ih, List.foldl_cons]

/-- C25: for a lazy result of the sibling whose chunks `c1..cn` (`n ≥ 0`) hold at most as
many rows as the threshold and whose stream ends normally, `precomputeSiblingResult` builds
one materialized result of the width of the sibling whose rows are the rows of `c1..cn` in
order (their number is the sum of the sizes of the chunks), whose vocabulary is the merge
of the vocabularies of the chunks, and whose sort key is that of the stream; the sibling
info of the SERVICE holds this result with the variable columns and the cache key of the
sibling, the sibling receives the same result as its precomputed result, and both
operations record "yes". -/
theorem precomputeSiblingResult_within_threshold (ctx : Context) (left right : Nat)
    (rightOnly requestLaziness : Bool) (plan : Plan) (left1 right1 service sibling : Nat)
    (siblingOperation : Operation) (idTables : LazyResult) (sortedBy : List Nat)
    (chunks : List IdTableVocabPair)
    (hleft : left < plan.operations.length) (hright : right < plan.operations.length)
    (hleft1 : Service.skipSortOperation plan left = .ok left1)
    (hright1 : Service.skipSortOperation plan right = .ok right1)
    (hcache : ctx.runtimeParameters.cacheServiceResults = false)
    (hservice : plan.isService service = true)
    (hchoice : (service = left1 ∧ sibling = right1 ∧ plan.isService right1 = rightOnly)
      ∨ (service = right1 ∧ sibling = left1 ∧ plan.isService left1 = false))
    (hsibling : plan.operations[sibling]? = some siblingOperation)
    (hresult : siblingOperation.getResult
        (if requestLaziness then ComputationMode.LAZY_IF_SUPPORTED
          else ComputationMode.FULLY_MATERIALIZED)
      = .ok (.lazy idTables sortedBy))
    (hchunks : idTables.consume = some (chunks, none))
    (htotal : (chunks.map (fun pair => pair.idTable_.size)).sum
      ≤ ctx.runtimeParameters.serviceMaxValueRows) :
    ∃ plan1 idTable localVocab,
      Service.precomputeSiblingResult ctx left right rightOnly requestLaziness plan
          = some (.ok (), plan1)
      ∧ idTable.numColumns_ = siblingOperation.getResultWidth
      ∧ idTable.rows = (chunks.map (fun pair => pair.idTable_.rows)).flatten
      ∧ idTable.size = (chunks.map (fun pair => pair.idTable_.size)).sum
      ∧ localVocab = chunks.foldl (fun merged pair => merged.mergeWith pair.localVocab_)
          LocalVocab.empty
      ∧ plan1.siblingInfo service
          = some ⟨some (.materialized idTable sortedBy localVocab),
              siblingOperation.getExternallyVisibleVariableColumns,
              siblingOperation.getCacheKey⟩
      ∧ plan1.precomputedResult sibling = some (.materialized idTable sortedBy localVocab)
      ∧ plan1.detail service "optimized-with-sibling-result" = some "yes"
      ∧ plan1.detail sibling "used-to-optimize-service-sibling" = some "yes" := by
  rw [precomputeSiblingResult_eq_precomputeFor ctx left right rightOnly requestLaziness plan
    left1 right1 service sibling hleft hright hleft1 hright1 hcache hservice hchoice]
  have hsome : (plan.operations[sibling]?).isSome = true := by rw [hsibling]; rfl
  have hsomeService := isSome_of_isService plan service hservice
  rcases precomputeLoop_spec ctx.runtimeParameters.serviceMaxValueRows
    (idTables.numPending + 1) idTables 0 [] chunks none (by omega) hchunks
    (Nat.zero_le _) with ⟨-, h2⟩ | ⟨k, generator, h1, -, h3, -, -⟩
  · simp only [Nat.zero_add, List.nil_append] at h2
    simp only [Service.precomputeFor, hsibling, hresult, h2]
    refine ⟨_, (Service.concatenatePairs chunks
        ⟨IdTable.mk0 siblingOperation.getResultWidth, LocalVocab.empty⟩).idTable_,
      (Service.concatenatePairs chunks
        ⟨IdTable.mk0 siblingOperation.getResultWidth, LocalVocab.empty⟩).localVocab_,
      rfl, ?_, ?_, ?_, ?_, ?_, ?_, ?_, ?_⟩
    · rw [concatenatePairs_spec]; rfl
    · rw [concatenatePairs_spec]; simp [IdTable.mk0]
    · rw [concatenatePairs_spec]
      simp only [IdTable.size, IdTable.mk0, List.nil_append, List.length_flatten,
        List.map_map]
      rfl
    · exact concatenatePairs_localVocab _ _
    · rw [addRuntimeInfo_siblingInfo, Plan.siblingInfo_modify]
      · exact Plan.siblingInfo_emplace _ _ _ hservice
      · intro _; rfl
    · rw [addRuntimeInfo_precomputedResult]
      apply Plan.precomputedResult_set
      rw [Plan.isSome_emplace]; exact hsome
    · rw [addRuntimeInfo_detail_service]
      · rfl
      · rw [Plan.isSome_modify, Plan.isSome_emplace]; exact hsomeService
    · rw [addRuntimeInfo_detail_sibling]
      · rfl
      · rw [Plan.isSome_modify, Plan.isSome_emplace]; exact hsome
  · have := sum_sizes_take_le chunks (k + 1) chunks.length (by omega)
    rw [List.take_length] at this
    simp only [Nat.zero_add] at h3
    omega

/-- C26: when the computation of the result of the sibling fails, `precomputeSiblingResult`
fails with the same exception, whatever the SILENT flag of the clause of the SERVICE is (the
plan is arbitrary), and it leaves every operation as it was: no sibling info and no
precomputed result is set.  The same holds when the lazy result of the sibling fails while
it is pulled before the threshold is exceeded. -/
theorem precomputeSiblingResult_sibling_fails (ctx : Context) (left right : Nat)
    (rightOnly requestLaziness : Bool) (plan : Plan) (left1 right1 service sibling : Nat)
    (siblingOperation : Operation) (e : Exception)
    (hleft : left < plan.operations.length) (hright : right < plan.operations.length)
    (hleft1 : Service.skipSortOperation plan left = .ok left1)
    (hright1 : Service.skipSortOperation plan right = .ok right1)
    (hcache : ctx.runtimeParameters.cacheServiceResults = false)
    (hservice : plan.isService service = true)
    (hchoice : (service = left1 ∧ sibling = right1 ∧ plan.isService right1 = rightOnly)
      ∨ (service = right1 ∧ sibling = left1 ∧ plan.isService left1 = false))
    (hsibling : plan.operations[sibling]? = some siblingOperation) :
    (siblingOperation.getResult
          (if requestLaziness then ComputationMode.LAZY_IF_SUPPORTED
            else ComputationMode.FULLY_MATERIALIZED) = .error e →
      ∃ plan1, Service.precomputeSiblingResult ctx left right rightOnly requestLaziness plan
          = some (.error e, plan1)
        ∧ plan1.operations = plan.operations)
    ∧ (∀ idTables sortedBy chunks,
        siblingOperation.getResult
          (if requestLaziness then ComputationMode.LAZY_IF_SUPPORTED
            else ComputationMode.FULLY_MATERIALIZED) = .ok (.lazy idTables sortedBy) →
        idTables.consume = some (chunks, some e) →
        (chunks.map (fun pair => pair.idTable_.size)).sum
          ≤ ctx.runtimeParameters.serviceMaxValueRows →
        ∃ plan1, Service.precomputeSiblingResult ctx left right rightOnly requestLaziness plan
            = some (.error e, plan1)
          ∧ plan1.operations = plan.operations) := by
  rw [precomputeSiblingResult_eq_precomputeFor ctx left right rightOnly requestLaziness plan
    left1 right1 service sibling hleft hright hleft1 hright1 hcache hservice hchoice]
  constructor
  · intro hresult
    simp only [Service.precomputeFor, hsibling, hresult]
    exact ⟨_, rfl, rfl⟩
  · intro idTables sortedBy chunks hresult hchunks htotal
    rcases precomputeLoop_spec ctx.runtimeParameters.serviceMaxValueRows
      (idTables.numPending + 1) idTables 0 [] chunks (some e) (by omega) hchunks
      (Nat.zero_le _) with ⟨-, h2⟩ | ⟨k, generator, h1, -, h3, -, -⟩
    · simp only [Service.precomputeFor, hsibling, hresult, h2]
      exact ⟨_, rfl, rfl⟩
    · have := sum_sizes_take_le chunks (k + 1) chunks.length (by omega)
      rw [List.take_length] at this
      simp only [Nat.zero_add] at h3
      omega

/-- C22 (failing input): `rightOnly` is set and both operations are a `Service`; the right
one has a materialized result of two rows.  The precomputation is performed, but the
SERVICE that receives the sibling info and the detail "optimized-with-sibling-result" is
the left operation (operation 0), and the operation whose result is requested and handed
over as precomputed result is the right one (operation 1). -/
theorem precomputeSiblingResult_rightOnly_two_services :
    ∃ plan1, Service.precomputeSiblingResult Example.ctx 0 1 true false Example.planTwoServices
        = some (.ok (), plan1)
      ∧ plan1.resultRequests = [(1, ComputationMode.FULLY_MATERIALIZED)]
      ∧ (plan1.siblingInfo 0).isSome = true
      ∧ (plan1.siblingInfo 1).isSome = false
      ∧ plan1.precomputedResult 0 = none
      ∧ plan1.precomputedResult 1 = some Example.twoRows
      ∧ plan1.detail 0 "optimized-with-sibling-result" = some "yes"
      ∧ plan1.detail 1 "optimized-with-sibling-result" = none
      ∧ plan1.detail 1 "used-to-optimize-service-sibling" = some "yes" :=
  ⟨_, rfl, rfl, rfl, rfl, rfl, rfl, rfl, rfl, rfl⟩

theorem precomputeSiblingResult_returns_at_once_witness :
    Service.precomputeSiblingResult Example.ctxCaching 0 1 false false
        Example.planServiceSibling = some (.ok (), Example.planServiceSibling)
      ∧ Service.precomputeSiblingResult Example.ctx 0 1 true false
        Example.planServiceSibling = some (.ok (), Example.planServiceSibling)
      ∧ Service.precomputeSiblingResult Example.ctx 0 1 false false
        Example.planTwoServices = some (.ok (), Example.planTwoServices) :=
  ⟨precomputeSiblingResult_returns_at_once Example.ctxCaching 0 1 false false
      Example.planServiceSibling 0 1 (by decide) (by decide) rfl rfl (Or.inl rfl),
    precomputeSiblingResult_returns_at_once Example.ctx 0 1 true false
      Example.planServiceSibling 0 1 (by decide) (by decide) rfl rfl
      (Or.inr (Or.inl ⟨rfl, rfl⟩)),
    precomputeSiblingResult_returns_at_once Example.ctx 0 1 false false
      Example.planTwoServices 0 1 (by decide) (by decide) rfl rfl
      (Or.inr (Or.inr ⟨rfl, rfl⟩))⟩

theorem precomputeSiblingResult_materialized_witness :
    ∃ plan1, Service.precomputeSiblingResult Example.ctx 0 1 false false
        Example.planServiceSibling = some (.ok (), plan1)
      ∧ plan1.siblingInfo 0
        = some ⟨some (.materialized
            (Example.siblingTable [⟨Datatype.Int, 1⟩, ⟨Datatype.Int, 2⟩]) [0]
            LocalVocab.empty), [(⟨"?x"⟩, ⟨0, UndefStatus.AlwaysDefined⟩)], "sibling"⟩
      ∧ plan1.precomputedResult 1 = some Example.twoRows
      ∧ plan1.detail 0 "optimized-with-sibling-result" = some "yes"
      ∧ plan1.detail 1 "used-to-optimize-service-sibling" = some "yes" :=
  precomputeSiblingResult_materialized Example.ctx 0 1 false false Example.planServiceSibling
    0 1 0 1 (Example.otherOperation (.ok Example.twoRows))
    (Example.siblingTable [⟨Datatype.Int, 1⟩, ⟨Datatype.Int, 2⟩]) [0] LocalVocab.empty
    (by decide) (by decide) rfl rfl rfl rfl (Or.inl ⟨rfl, rfl, rfl⟩) rfl rfl

theorem precomputeSiblingResult_threshold_exceeded_witness :
    ∃ plan1 generator,
      Service.precomputeSiblingResult Example.ctxThresholdTwo 0 1 false true
        Example.planLazySibling = some (.ok (), plan1)
      ∧ plan1.siblingInfo 0 = none
      ∧ plan1.precomputedResult 1
        = some (.lazy (.join (moveToCachingInputRange
            [Example.chunk [⟨Datatype.Int, 1⟩, ⟨Datatype.Int, 2⟩],
              Example.chunk [⟨Datatype.Int, 3⟩]]) generator) [0])
      ∧ generator.consume
        = some ([Example.chunk [⟨Datatype.Int, 4⟩, ⟨Datatype.Int, 5⟩]], none) := by
  obtain ⟨plan1, k, generator, h1, h2, h3, h4, h5, h6, h7, -⟩ :=
    precomputeSiblingResult_threshold_exceeded Example.ctxThresholdTwo 0 1 false true
      Example.planLazySibling 0 1 0 1 (Example.otherOperation (.ok Example.threeChunks))
      (.range [Example.chunk [⟨Datatype.Int, 1⟩, ⟨Datatype.Int, 2⟩],
        Example.chunk [⟨Datatype.Int, 3⟩],
        Example.chunk [⟨Datatype.Int, 4⟩, ⟨Datatype.Int, 5⟩]] none) [0]
      [Example.chunk [⟨Datatype.Int, 1⟩, ⟨Datatype.Int, 2⟩],
        Example.chunk [⟨Datatype.Int, 3⟩],
        Example.chunk [⟨Datatype.Int, 4⟩, ⟨Datatype.Int, 5⟩]] none
      (by decide) (by decide) rfl rfl rfl rfl (Or.inl ⟨rfl, rfl, rfl⟩) rfl rfl rfl
      (by decide)
  have hk : k = 2 := by
    have h31 := h3 1
    have hk3 : k ≤ 3 := h1
    have ne0 : k ≠ 0 := by
      intro h0; subst h0; revert h2; decide
    have ne1 : k ≠ 1 := by
      intro h0; subst h0; revert h2; decide
    have ne3 : k ≠ 3 := by
      intro h0; subst h0
      have := h3 2 (by omega)
      revert this; decide
    omega
  subst hk
  exact ⟨plan1, generator, h4, h5, h6, h7⟩

theorem precomputeSiblingResult_within_threshold_witness :
    ∃ plan1, Service.precomputeSiblingResult Example.ctx 0 1 false true
        Example.planLazySibling = some (.ok (), plan1)
      ∧ plan1.precomputedResult 1
        = some (.materialized (Example.siblingTable [⟨Datatype.Int, 1⟩, ⟨Datatype.Int, 2⟩,
            ⟨Datatype.Int, 3⟩, ⟨Datatype.Int, 4⟩, ⟨Datatype.Int, 5⟩]) [0] LocalVocab.empty)
      ∧ plan1.detail 0 "optimized-with-sibling-result" = some "yes" := by
  obtain ⟨plan1, idTable, localVocab, h1, h2, h3, -, h5, -, h7, h8, -⟩ :=
    precomputeSiblingResult_within_threshold Example.ctx 0 1 false true
      Example.planLazySibling 0 1 0 1 (Example.otherOperation (.ok Example.threeChunks))
      (.range [Example.chunk [⟨Datatype.Int, 1⟩, ⟨Datatype.Int, 2⟩],
        Example.chunk [⟨Datatype.Int, 3⟩],
        Example.chunk [⟨Datatype.Int, 4⟩, ⟨Datatype.Int, 5⟩]] none) [0]
      [Example.chunk [⟨Datatype.Int, 1⟩, ⟨Datatype.Int, 2⟩],
        Example.chunk [⟨Datatype.Int, 3⟩],
        Example.chunk [⟨Datatype.Int, 4⟩, ⟨Datatype.Int, 5⟩]]
      (by decide) (by decide) rfl rfl rfl rfl (Or.inl ⟨rfl, rfl, rfl⟩) rfl rfl rfl
      (by decide)
  refine ⟨plan1, h1, ?_, h8⟩
  rw [h7]
  obtain ⟨numColumns, rows⟩ := idTable
  simp only at h2 h3
  subst h2 h3 h5
  rfl

theorem precomputeSiblingResult_sibling_fails_witness :
    (∃ plan1, Service.precomputeSiblingResult Example.ctx 0 1 false false
        (Example.planFailingSibling true)
          = some (.error (.runtime_error "sibling failed"), plan1)
        ∧ plan1.operations = (Example.planFailingSibling true).operations)
      ∧ (∃ plan1, Service.precomputeSiblingResult Example.ctx 0 1 false false
        (Example.planFailingSibling false)
          = some (.error (.runtime_error "sibling failed"), plan1)
        ∧ plan1.operations = (Example.planFailingSibling false).operations) :=
  ⟨(precomputeSiblingResult_sibling_fails Example.ctx 0 1 false false
      (Example.planFailingSibling true) 0 1 0 1
      (Example.otherOperation (.error (.runtime_error "sibling failed")))
      (.runtime_error "sibling failed") (by decide) (by decide) rfl rfl rfl rfl
      (Or.inl ⟨rfl, rfl, rfl⟩) rfl).1 rfl,
    (precomputeSiblingResult_sibling_fails Example.ctx 0 1 false false
      (Example.planFailingSibling false) 0 1 0 1
      (Example.otherOperation (.error (.runtime_error "sibling failed")))
      (.runtime_error "sibling failed") (by decide) (by decide) rfl rfl rfl rfl
      (Or.inl ⟨rfl, rfl, rfl⟩) rfl).1 rfl⟩

/-! ## The VALUES clause of the sibling -/

theorem mem_firstOccurrences (l : List String) (x : String) :
    x ∈ firstOccurrences l ↔ x ∈ l := by
  induction l with
  | nil => simp [firstOccurrences]
  | cons y rest ih =>
    simp only [firstOccurrences, List.mem_cons, List.mem_filter, ih]
    by_cases h : x = y
    · simp [h]
    · simp [h]

theorem nodup_firstOccurrences (l : List String) : (firstOccurrences l).Nodup := by
  induction l with
  | nil => simp [firstOccurrences]
  | cons y rest ih =>
    simp only [firstOccurrences, List.nodup_cons, List.mem_filter]
    exact ⟨fun h => by simp at h, ih.filter _⟩

theorem count_firstOccurrences (l : List String) (x : String) (h : x ∈ l) :
    (firstOccurrences l).count x = 1 :=
  List.count_eq_one_of_mem (nodup_firstOccurrences l) ((mem_firstOccurrences l x).2 h)

theorem firstOccurrences_order (l : List String) (p : String → Bool) :
    ((firstOccurrences (l.filter p)).map (fun x => l.indexOf x)).Pairwise
      (fun a b => a < b) := by
  induction l with
  | nil => simp [firstOccurrences]
  | cons y rest ih =>
    have hshift : ∀ (sub : List String), (∀ x ∈ sub, x ≠ y) →
        sub.map (fun x => (y :: rest).indexOf x)
          = (sub.map (fun x => rest.indexOf x)).map (fun n => n + 1) := by
      intro sub hsub
      rw [List.map_map]
      apply List.map_congr_left
      intro x hx
      have hne : x ≠ y := hsub x hx
      simp [List.indexOf_cons_ne _ (fun h => hne h.symm)]
    by_cases hp : p y = true
    · simp only [List.filter_cons, hp, if_true, firstOccurrences, List.map_cons,
        List.pairwise_cons, List.indexOf_cons_self]
      constructor
      · intro a ha
        simp only [List.mem_map, List.mem_filter] at ha
        obtain ⟨x, ⟨-, hx⟩, rfl⟩ := ha
        have hne : x ≠ y := by simpa using hx
        rw [List.indexOf_cons_ne _ (fun h => hne h.symm)]
        omega
      · rw [hshift _ (fun x hx => by
          simp only [List.mem_filter] at hx
          simpa using hx.2)]
        apply List.Pairwise.map _ _ _
        · exact (fun a b => a < b)
        · intro a b hab; omega
        · exact List.Pairwise.sublist (List.Sublist.map _ (List.filter_sublist _)) ih
    · simp only [List.filter_cons, hp, Bool.false_eq_true, if_false]
      rw [hshift _ (fun x hx => by
        have hx1 := (mem_firstOccurrences _ x).1 hx
        simp only [List.mem_filter] at hx1
        intro hxy
        subst hxy
        exact hp hx1.2)]
      apply List.Pairwise.map _ _ _
      · exact (fun a b => a < b)
      · intro a b hab; omega
      · exact ih

theorem setBack_ne_nil (l : List Char) (c : Char) (h : l ≠ []) : setBack l c ≠ [] := by
  cases l with
  | nil => exact absurd rfl h
  | cons x rest =>
    cases rest with
    | nil => simp [setBack]
    | cons y rest => simp [setBack]

theorem createValueRow_congr (ctx : Context) (idTable : IdTable) (localVocab : LocalVocab)
    (i j : Nat) :
    ∀ (columns : List Nat) (row : String),
      (∀ c ∈ columns, idTable.get? i c = idTable.get? j c) →
      Service.createValueRow ctx idTable localVocab i columns row
        = Service.createValueRow ctx idTable localVocab j columns row := by
  intro columns
  induction columns with
  | nil => intro row _; rfl
  | cons c rest ih =>
    intro row h
    simp only [Service.createValueRow, h c (List.mem_cons_self _ _)]
    cases idTable.get? j c with
    | none => rfl
    | some id =>
      simp only []
      cases idToValue : Service.idToValueForValuesClause ctx id localVocab with
      | error e => rfl
      | ok v =>
        cases v with
        | none => rfl
        | some str =>
          simp only []
          exact ih _ (fun c1 hc1 => h c1 (List.mem_cons_of_mem _ hc1))

theorem idToValueForValuesClause_none (ctx : Context) (id : ValueId) (localVocab : LocalVocab)
    (h : Service.idToValueForValuesClause ctx id localVocab = .ok none) :
    id.getDatatype = Datatype.BlankNodeIndex := by
  simp only [Service.idToValueForValuesClause] at h
  split at h
  · split at h <;> cases h
  · split at h
    · assumption
    · cases h
    · cases h
    · cases h
    · split at h
      · cases h
      · split at h <;> cases h

theorem idToValueForValuesClause_blank (ctx : Context) (id : ValueId)
    (localVocab : LocalVocab) (hblank : id.getDatatype = Datatype.BlankNodeIndex)
    (str : String) : Service.idToValueForValuesClause ctx id localVocab ≠ .ok (some str) := by
  intro h
  simp only [Service.idToValueForValuesClause, hblank] at h
  split at h
  · simp at h
  · cases h

theorem createValueRow_empty_iff (ctx : Context) (idTable : IdTable) (localVocab : LocalVocab)
    (i : Nat) :
    ∀ (columns : List Nat) (row : String) (r : String), row.data ≠ [] →
      Service.createValueRow ctx idTable localVocab i columns row = .ok r →
      (r = "" ↔ ∃ c ∈ columns, ∃ id, idTable.get? i c = some id
        ∧ id.getDatatype = Datatype.BlankNodeIndex) := by
  intro columns
  induction columns with
  | nil =>
    intro row r hrow h
    simp only [Service.createValueRow, Except.ok.injEq] at h
    subst h
    constructor
    · intro h
      have : setBack row.data ')' = [] := by
        have := congrArg String.data h
        simpa using this
      exact absurd this (setBack_ne_nil _ _ hrow)
    · rintro ⟨c, hc, -⟩
      cases hc
  | cons c rest ih =>
    intro row r hrow h
    simp only [Service.createValueRow] at h
    cases hget : idTable.get? i c with
    | none => simp [hget] at h
    | some id =>
      simp only [hget] at h
      cases hv : Service.idToValueForValuesClause ctx id localVocab with
      | error e => simp [hv] at h
      | ok v =>
        cases v with
        | none =>
          simp only [hv, Except.ok.injEq] at h
          subst h
          constructor
          · intro _
            exact ⟨c, List.mem_cons_self _ _, id, hget,
              idToValueForValuesClause_none ctx id localVocab hv⟩
          · intro _; rfl
        | some str =>
          simp only [hv] at h
          have hrow1 : (row ++ str ++ " ").data ≠ [] := by
            simp [String.data_append]
          rw [ih _ r hrow1 h]
          constructor
          · rintro ⟨c1, hc1, id1, h1, h2⟩
            exact ⟨c1, List.mem_cons_of_mem _ hc1, id1, h1, h2⟩
          · rintro ⟨c1, hc1, id1, h1, h2⟩
            rcases List.mem_cons.1 hc1 with rfl | hc1
            · rw [hget] at h1
              cases h1
              exact absurd hv (idToValueForValuesClause_blank ctx id localVocab h2 str)
            · exact ⟨c1, hc1, id1, h1, h2⟩

theorem commonVariables_columns :
    ∀ (visible : List Variable) (siblingVars : VariableToColumnMap) (vars : String)
      (columns : List Nat),
      (Service.commonVariables visible siblingVars vars columns).2
        = columns ++ visible.filterMap
            (fun v => (siblingVars.lookup v).map (fun info => info.columnIndex_)) := by
  intro visible
  induction visible with
  | nil => intro siblingVars vars columns; simp [Service.commonVariables]
  | cons v rest ih =>
    intro siblingVars vars columns
    simp only [Service.commonVariables]
    cases hlook : siblingVars.lookup v with
    | none => simp [ih, hlook]
    | some info => simp [ih, hlook]

theorem valuesRows_spec (ctx : Context) (idTable : IdTable) (localVocab : LocalVocab)
    (columns : List Nat) :
    ∀ (rows : List Nat) (rowSet : List String) (values : String) (w : World)
      (values1 : String) (w1 : World),
      Service.valuesRows ctx idTable localVocab columns rows rowSet values w
        = (.ok values1, w1) →
      ∃ renderings : List String,
        rows.map (fun i => Service.createValueRow ctx idTable localVocab i columns "(")
          = renderings.map Except.ok
        ∧ values1 = ((firstOccurrences (renderings.filter (fun r => r ≠ ""))).filter
            (fun r => r ∉ rowSet)).foldl (fun text entry => text ++ entry ++ " ") values := by
  intro rows
  induction rows with
  | nil =>
    intro rowSet values w values1 w1 h
    simp only [Service.valuesRows, Prod.mk.injEq, Except.ok.injEq] at h
    exact ⟨[], rfl, by simp [firstOccurrences, h.1]⟩
  | cons i rest ih =>
    intro rowSet values w values1 w1 h
    simp only [Service.valuesRows] at h
    cases hr : Service.createValueRow ctx idTable localVocab i columns "(" with
    | error e => simp [hr] at h
    | ok r =>
      simp only [hr] at h
      by_cases hskip : (r = "" || rowSet.contains r) = true
      · simp only [hskip, if_true] at h
        obtain ⟨renderings, h1, h2⟩ := ih rowSet values w values1 w1 h
        refine ⟨r :: renderings, by simp [hr, h1], ?_⟩
        rw [h2]
        congr 1
        by_cases hempty : r = ""
        · simp [hempty]
        · have hmem : r ∈ rowSet := by simpa [hempty] using hskip
          simp only [List.filter_cons, hempty, ne_eq, not_false_eq_true, decide_True, if_true,
            firstOccurrences, hmem, not_true_eq_false, decide_False, Bool.false_eq_true,
            if_false, List.filter_filter]
          apply List.filter_congr
          intro x _
          by_cases hx : x = r
          · subst hx; simp [hmem]
          · simp [hx]
      · simp only [hskip, Bool.false_eq_true, if_false] at h
        have hempty : r ≠ "" := by
          intro h0; apply hskip; simp [h0]
        have hmem : r ∉ rowSet := by
          intro h0; apply hskip; simp [h0]
        cases hcc : checkCancellation ctx w with
        | mk res w2 =>
          cases res with
          | error e => simp [hcc] at h
          | ok u =>
            simp only [hcc] at h
            obtain ⟨renderings, h1, h2⟩ := ih (r :: rowSet) (values ++ r ++ " ") w2 values1 w1 h
            refine ⟨r :: renderings, by simp [hr, h1], ?_⟩
            rw [h2]
            simp only [List.filter_cons, hempty, ne_eq, not_false_eq_true, decide_True, if_true,
              firstOccurrences, hmem, List.foldl_cons, List.filter_filter]
            congr 1
            apply List.filter_congr
            intro x _
            by_cases hx : x = r
            · subst hx; simp
            · simp [hx]

theorem getSiblingValuesClause_unfold (s : Service) (ctx : Context) (w : World)
    (info : SiblingInfo) (idTable : IdTable) (sortedBy : List Nat) (localVocab : LocalVocab)
    (clause : String) (w1 : World) (hinfo : s.siblingInfo_ = some info)
    (hresult : info.precomputedResult_ = some (.materialized idTable sortedBy localVocab))
    (hclause : s.getSiblingValuesClause ctx w = (.ok (some clause), w1)) :
    ∃ renderings : List String,
      (List.range idTable.size).map (fun i => Service.createValueRow ctx idTable localVocab i
          (s.parsedServiceClause_.visibleVariables_.filterMap
            (fun v => (info.variables_.lookup v).map (fun column => column.columnIndex_))) "(")
        = renderings.map Except.ok
      ∧ clause = "VALUES "
          ++ String.mk (setBack (Service.commonVariables
              s.parsedServiceClause_.visibleVariables_ info.variables_ "(" []).1.data ')')
          ++ (firstOccurrences (renderings.filter (fun r => r ≠ ""))).foldl
              (fun text entry => text ++ entry ++ " ") " \x7b "
          ++ "\x7d . " := by
  simp only [Service.getSiblingValuesClause, hinfo, hresult] at hclause
  split at hclause
  · cases hclause
  · split at hclause
    · cases hclause
    · split at hclause
      · cases hclause
      · rename_i values w3 hvalues
        simp only [Prod.mk.injEq, Except.ok.injEq, Option.some.injEq] at hclause
        obtain ⟨hc, -⟩ := hclause
        obtain ⟨renderings, h1, h2⟩ := valuesRows_spec ctx idTable localVocab _ _ _ _ _ _ _
          hvalues
        rw [commonVariables_columns] at h1
        simp only [List.nil_append] at h1
        refine ⟨renderings, h1, ?_⟩
        rw [← hc, h2]
        simp

/-- C27: when `getSiblingValuesClause` returns a clause for a materialized sibling table,
the rows of the table are rendered by `createValueRow` over the columns of the variables
common to sibling and SERVICE (the rendering depends on the cells of these columns only),
and the entries listed in the block, each followed by a blank, are the non-empty renderings
in the order of their first occurrence: they are pairwise distinct, each is the rendering of
a row, every non-empty rendering of a row occurs exactly once, and they are ordered by the
index of the first row with that rendering. -/
theorem getSiblingValuesClause_entries (s : Service) (ctx : Context) (w : World)
    (info : SiblingInfo) (idTable : IdTable) (sortedBy : List Nat) (localVocab : LocalVocab)
    (clause : String) (w1 : World) (hinfo : s.siblingInfo_ = some info)
    (hresult : info.precomputedResult_ = some (.materialized idTable sortedBy localVocab))
    (hclause : s.getSiblingValuesClause ctx w = (.ok (some clause), w1)) :
    ∃ (columns : List Nat) (renderings entries : List String),
      columns = s.parsedServiceClause_.visibleVariables_.filterMap
          (fun v => (info.variables_.lookup v).map (fun column => column.columnIndex_))
      ∧ (List.range idTable.size).map
            (fun i => Service.createValueRow ctx idTable localVocab i columns "(")
          = renderings.map Except.ok
      ∧ (∀ i j, (∀ c ∈ columns, idTable.get? i c = idTable.get? j c) →
          Service.createValueRow ctx idTable localVocab i columns "("
            = Service.createValueRow ctx idTable localVocab j columns "(")
      ∧ entries = firstOccurrences (renderings.filter (fun r => r ≠ ""))
      ∧ clause = "VALUES "
          ++ String.mk (setBack (Service.commonVariables
              s.parsedServiceClause_.visibleVariables_ info.variables_ "(" []).1.data ')')
          ++ entries.foldl (fun text entry => text ++ entry ++ " ") " \x7b " ++ "\x7d . "
      ∧ entries.Nodup
      ∧ (∀ r, r ∈ entries ↔ r ∈ renderings ∧ r ≠ "")
      ∧ (∀ r ∈ renderings, r ≠ "" → entries.count r = 1)
      ∧ (entries.map (fun r => renderings.indexOf r)).Pairwise (fun a b => a < b) := by
  obtain ⟨renderings, h1, h2⟩ := getSiblingValuesClause_unfold s ctx w info idTable sortedBy
    localVocab clause w1 hinfo hresult hclause
  refine ⟨_, renderings, _, rfl, h1, ?_, rfl, h2, nodup_firstOccurrences _, ?_, ?_,
    firstOccurrences_order renderings _⟩
  · intro i j h
    exact createValueRow_congr ctx idTable localVocab i j _ _ h
  · intro r
    rw [mem_firstOccurrences]
    simp [List.mem_filter]
  · intro r hr hne
    apply count_firstOccurrences
    simp [List.mem_filter, hr, hne]

theorem getSiblingValuesClause_entries_witness :
    ∃ (renderings entries : List String),
      (List.range Example.siblingRows.size).map
            (fun i => Service.createValueRow Example.ctxExport Example.siblingRows
              LocalVocab.empty i [0] "(")
          = renderings.map Except.ok
      ∧ entries = firstOccurrences (renderings.filter (fun r => r ≠ ""))
      ∧ "VALUES (?x) \x7b (1) (UNDEF) (2) \x7d . "
          = "VALUES (?x)" ++ entries.foldl (fun text entry => text ++ entry ++ " ") " \x7b "
            ++ "\x7d . "
      ∧ entries.Nodup := by
  obtain ⟨columns, renderings, entries, h1, h2, -, h4, h5, h6, -⟩ :=
    getSiblingValuesClause_entries Example.serviceSiblingRows Example.ctxExport Example.world
      _ Example.siblingRows [] LocalVocab.empty
      "VALUES (?x) \x7b (1) (UNDEF) (2) \x7d . " ⟨5, 0, []⟩ rfl rfl rfl
  have hc : columns = [0] := h1
  subst hc
  exact ⟨renderings, entries, h2, h4, h5, h6⟩

/-- C28: when `getSiblingValuesClause` returns a clause for a materialized sibling table, the
rendering of a row is not among the entries of the block if and only if a cell of the row
in a column of a common variable is a blank node; cells of other columns are not looked at.
An Undefined cell never makes `idToValueForValuesClause` drop the row, and it is rendered as
UNDEF when the export has no string for it. -/
theorem getSiblingValuesClause_dropped_rows (s : Service) (ctx : Context) (w : World)
    (info : SiblingInfo) (idTable : IdTable) (sortedBy : List Nat) (localVocab : LocalVocab)
    (clause : String) (w1 : World) (hinfo : s.siblingInfo_ = some info)
    (hresult : info.precomputedResult_ = some (.materialized idTable sortedBy localVocab))
    (hclause : s.getSiblingValuesClause ctx w = (.ok (some clause), w1)) :
    ∃ (columns : List Nat) (renderings entries : List String),
      columns = s.parsedServiceClause_.visibleVariables_.filterMap
          (fun v => (info.variables_.lookup v).map (fun column => column.columnIndex_))
      ∧ (List.range idTable.size).map
            (fun i => Service.createValueRow ctx idTable localVocab i columns "(")
          = renderings.map Except.ok
      ∧ entries = firstOccurrences (renderings.filter (fun r => r ≠ ""))
      ∧ clause = "VALUES "
          ++ String.mk (setBack (Service.commonVariables
              s.parsedServiceClause_.visibleVariables_ info.variables_ "(" []).1.data ')')
          ++ entries.foldl (fun text entry => text ++ entry ++ " ") " \x7b " ++ "\x7d . "
      ∧ (∀ i r, renderings[i]? = some r →
          (r ∉ entries ↔ ∃ c ∈ columns, ∃ id, idTable.get? i c = some id
            ∧ id.getDatatype = Datatype.BlankNodeIndex))
      ∧ (∀ id vocab, id.getDatatype = Datatype.Undefined →
          Service.idToValueForValuesClause ctx id vocab ≠ .ok none
          ∧ (ctx.idToStringAndType id vocab = none →
            Service.idToValueForValuesClause ctx id vocab = .ok (some "UNDEF"))) := by
  obtain ⟨renderings, h1, h2⟩ := getSiblingValuesClause_unfold s ctx w info idTable sortedBy
    localVocab clause w1 hinfo hresult hclause
  refine ⟨_, renderings, _, rfl, h1, rfl, h2, ?_, ?_⟩
  · intro i r hir
    have hlt : i < renderings.length := by
      rcases List.getElem?_eq_some.1 hir with ⟨hlt, -⟩
      exact hlt
    have hrender := congrArg (fun l => l[i]?) h1
    simp only [List.getElem?_map, hir, Option.map_some'] at hrender
    have hlen : i < idTable.size := by
      have := congrArg List.length h1
      simp only [List.length_map, List.length_range] at this
      omega
    rw [List.getElem?_range hlen] at hrender
    simp only [Option.map_some', Option.some.injEq] at hrender
    rw [← createValueRow_empty_iff ctx idTable localVocab i _ "(" r (by decide) hrender,
      mem_firstOccurrences]
    simp only [List.mem_filter, ne_eq, decide_not, Bool.not_eq_true', decide_eq_false_iff_not,
      not_and, not_not]
    constructor
    · intro h
      exact h (List.getElem?_mem hir)
    · intro h _
      exact h
  · intro id vocab hundef
    constructor
    · intro h
      have := idToValueForValuesClause_none ctx id vocab h
      rw [hundef] at this
      cases this
    · intro hnone
      simp [Service.idToValueForValuesClause, hnone, hundef]

theorem getSiblingValuesClause_dropped_rows_witness :
    ∃ (renderings entries : List String),
      (List.range Example.siblingRows.size).map
            (fun i => Service.createValueRow Example.ctxExport Example.siblingRows
              LocalVocab.empty i [0] "(")
          = renderings.map Except.ok
      ∧ entries = firstOccurrences (renderings.filter (fun r => r ≠ ""))
      ∧ (∀ i r, renderings[i]? = some r →
          (r ∉ entries ↔ ∃ c ∈ [0], ∃ id, Example.siblingRows.get? i c = some id
            ∧ id.getDatatype = Datatype.BlankNodeIndex)) := by
  obtain ⟨columns, renderings, entries, h1, h2, h3, -, h5, -⟩ :=
    getSiblingValuesClause_dropped_rows Example.serviceSiblingRows Example.ctxExport
      Example.world _ Example.siblingRows [] LocalVocab.empty
      "VALUES (?x) \x7b (1) (UNDEF) (2) \x7d . " ⟨5, 0, []⟩ rfl rfl rfl
  have hc : columns = [0] := h1
  subst hc
  exact ⟨renderings, entries, h2, h3, h5⟩

/-! ## Two decodes of the same body give the same chunks -/


theorem lookup_map_shift (d : Nat) (m : BlankNodeMap) (key : String) :
    (m.map (fun kv => (kv.1, kv.2.shiftBlankNode d))).lookup key
      = (m.lookup key).map (ValueId.shiftBlankNode d) := by
  induction m with
  | nil => rfl
  | cons kv rest ih =>
    obtain ⟨k, v⟩ := kv
    simp only [List.map_cons, List.lookup]
    cases key == k
    · exact ih
    · rfl

theorem bindingToLiteral_no_blank (ctx : Context) (b : Json) (value : String) (d : Nat)
    (hctx : ∀ v iri i, ctx.literalAndDatatypeToTripleComponent v iri = .ok (.id i) →
      i.datatype ≠ Datatype.BlankNodeIndex) :
    (bindingToLiteral ctx b value).map (TripleComponent.shiftBlankNode d)
      = bindingToLiteral ctx b value := by
  cases h : bindingToLiteral ctx b value with
  | error e => rfl
  | ok tc =>
    cases tc with
    | id i =>
      have hi : i.datatype ≠ Datatype.BlankNodeIndex := by
        simp only [bindingToLiteral] at h
        split at h
        · split at h
          · cases h
          · exact hctx _ _ _ h
        · split at h
          · split at h
            · cases h
            · cases h
          · cases h
      simp [Except.map, TripleComponent.shiftBlankNode, ValueId.shiftBlankNode, hi]
    | UNDEF => rfl
    | iri i => rfl
    | literal l => rfl

theorem assign_map_shift (d : Nat) (m : BlankNodeMap) (key : String) (v : ValueId) :
    BlankNodeMap.assign (m.map (fun kv => (kv.1, kv.2.shiftBlankNode d))) key
        (v.shiftBlankNode d)
      = (BlankNodeMap.assign m key v).map (fun kv => (kv.1, kv.2.shiftBlankNode d)) := by
  simp only [BlankNodeMap.assign, List.map_map]
  apply List.map_congr_left
  intro kv _
  simp only [Function.comp]
  split <;> rfl

theorem bindingToTripleComponent_shifted (ctx : Context) (b : Json) (d : Nat)
    (refsA refsB : Refs)
    (hctx : ∀ v iri i, ctx.literalAndDatatypeToTripleComponent v iri = .ok (.id i) →
      i.datatype ≠ Datatype.BlankNodeIndex)
    (hrel : refsA.shiftedBy d refsB) :
    (bindingToTripleComponent ctx b refsB).1
        = (bindingToTripleComponent ctx b refsA).1.map (TripleComponent.shiftBlankNode d)
      ∧ (bindingToTripleComponent ctx b refsA).2.shiftedBy d
          (bindingToTripleComponent ctx b refsB).2 := by
  obtain ⟨hmap, hvocab, hworld⟩ := hrel
  simp only [bindingToTripleComponent]
  by_cases hc : (!b.contains "type" || !b.contains "value") = true
  · simp only [hc, if_true]
    exact ⟨rfl, hmap, hvocab, hworld⟩
  · simp only [hc, Bool.false_eq_true, if_false]
    cases ((b.get? "type").getD Json.null).getString with
    | error e => exact ⟨rfl, hmap, hvocab, hworld⟩
    | ok type =>
      simp only []
      cases ((b.get? "value").getD Json.null).getString with
      | error e => exact ⟨rfl, hmap, hvocab, hworld⟩
      | ok value =>
        simp only []
        by_cases h1 : type = "literal"
        · simp only [h1, if_true]
          exact ⟨(bindingToLiteral_no_blank ctx b value d hctx).symm, hmap, hvocab, hworld⟩
        · simp only [h1, if_false]
          by_cases h2 : type = "uri"
          · simp only [h2, if_true]
            exact ⟨rfl, hmap, hvocab, hworld⟩
          · simp only [h2, if_false]
            by_cases h3 : type = "bnode"
            · simp only [h3, if_true, BlankNodeMap.try_emplace, hmap, lookup_map_shift]
              cases hl : List.lookup value refsA.blankNodeMap with
              | none =>
                simp only [Option.map_none', if_true]
                have hfresh : ValueId.makeFromBlankNodeIndex
                      (refsB.localVocab.getBlankNodeIndex refsB.world).1
                    = (ValueId.makeFromBlankNodeIndex
                      (refsA.localVocab.getBlankNodeIndex refsA.world).1).shiftBlankNode d := by
                  simp [LocalVocab.getBlankNodeIndex, ValueId.makeFromBlankNodeIndex,
                    ValueId.shiftBlankNode, hworld]
                have hundef : ValueId.makeUndefined
                    = ValueId.makeUndefined.shiftBlankNode d := by
                  simp [ValueId.makeUndefined, ValueId.shiftBlankNode]
                have hmap1 : BlankNodeMap.assign
                      ((value, ValueId.makeUndefined) ::
                        List.map (fun kv => (kv.1, ValueId.shiftBlankNode d kv.2))
                          refsA.blankNodeMap) value
                      (ValueId.makeFromBlankNodeIndex
                        (refsB.localVocab.getBlankNodeIndex refsB.world).1)
                    = (BlankNodeMap.assign ((value, ValueId.makeUndefined) :: refsA.blankNodeMap)
                        value (ValueId.makeFromBlankNodeIndex
                          (refsA.localVocab.getBlankNodeIndex refsA.world).1)).map
                        (fun kv => (kv.1, kv.2.shiftBlankNode d)) := by
                  rw [hfresh, ← assign_map_shift]
                  simp only [List.map_cons]
                  rw [← hundef]
                refine ⟨?_, hmap1, ?_, ?_⟩
                · simp only [Except.map, hmap1, BlankNodeMap.second, lookup_map_shift]
                  congr 2
                  cases List.lookup value (BlankNodeMap.assign
                    ((value, ValueId.makeUndefined) :: refsA.blankNodeMap) value
                    (ValueId.makeFromBlankNodeIndex
                      (refsA.localVocab.getBlankNodeIndex refsA.world).1)) with
                  | none => exact hundef
                  | some v => rfl
                · simp [LocalVocab.getBlankNodeIndex, hvocab, hworld,
                    LocalVocab.shiftBlankNodes]
                · simp only [LocalVocab.getBlankNodeIndex, hworld]
                  omega
              | some v =>
                simp only [Option.map_some', Bool.false_eq_true, if_false]
                refine ⟨?_, rfl, hvocab, hworld⟩
                simp only [Except.map, BlankNodeMap.second, lookup_map_shift, hl,
                  Option.map_some', Option.getD_some]
                rfl
            · simp only [h3, if_false]
              exact ⟨rfl, hmap, hvocab, hworld⟩


theorem toValueId_shifted (tc : TripleComponent) (vocab : LiteralOrIri → Option Nat)
    (lv : LocalVocab) (d : Nat) :
    (tc.shiftBlankNode d).toValueId vocab (lv.shiftBlankNodes d)
      = (((tc.toValueId vocab lv).1).shiftBlankNode d,
          (tc.toValueId vocab lv).2.shiftBlankNodes d) := by
  cases tc with
  | UNDEF =>
    simp [TripleComponent.shiftBlankNode, TripleComponent.toValueId, ValueId.makeUndefined,
      ValueId.shiftBlankNode]
  | id i => simp [TripleComponent.shiftBlankNode, TripleComponent.toValueId]
  | iri i =>
    simp only [TripleComponent.shiftBlankNode, TripleComponent.toValueId]
    cases vocab (.iri i) with
    | some idx => simp [ValueId.shiftBlankNode]
    | none =>
      simp only [LocalVocab.getIndexAndAddIfNotContained, LocalVocab.shiftBlankNodes]
      split <;> simp [ValueId.shiftBlankNode]
  | literal l =>
    simp only [TripleComponent.shiftBlankNode, TripleComponent.toValueId]
    cases vocab (.literal l) with
    | some idx => simp [ValueId.shiftBlankNode]
    | none =>
      simp only [LocalVocab.getIndexAndAddIfNotContained, LocalVocab.shiftBlankNodes]
      split <;> simp [ValueId.shiftBlankNode]

theorem writeBindingsColumns_shifted (ctx : Context) (binding : Json) (rowIdx d : Nat)
    (hctx : ∀ v iri i, ctx.literalAndDatatypeToTripleComponent v iri = .ok (.id i) →
      i.datatype ≠ Datatype.BlankNodeIndex) :
    ∀ (vars : List String) (colIdx : Nat) (tableA tableB : IdTable) (refsA refsB : Refs)
      (rowA rowB : List ValueId),
      tableA.rows[rowIdx]? = some rowA → tableB.rows[rowIdx]? = some rowB →
      colIdx + vars.length ≤ rowA.length → colIdx + vars.length ≤ rowB.length →
      refsA.shiftedBy d refsB →
      ∀ tA refsA1, writeBindingsColumns ctx binding rowIdx colIdx vars tableA refsA
          = (.ok tA, refsA1) →
        ∃ tB refsB1, writeBindingsColumns ctx binding rowIdx colIdx vars tableB refsB
            = (.ok tB, refsB1)
          ∧ refsA1.shiftedBy d refsB1
          ∧ tA.numColumns_ = tableA.numColumns_ ∧ tB.numColumns_ = tableB.numColumns_
          ∧ ∃ rowA1 rowB1, tA.rows = tableA.rows.set rowIdx rowA1
            ∧ tB.rows = tableB.rows.set rowIdx rowB1
            ∧ rowA1.length = rowA.length ∧ rowB1.length = rowB.length
            ∧ (∀ c, c < colIdx → rowA1[c]? = rowA[c]? ∧ rowB1[c]? = rowB[c]?)
            ∧ (∀ j, j < vars.length →
                rowB1[colIdx + j]? = (rowA1[colIdx + j]?).map (ValueId.shiftBlankNode d)) := by
  intro vars
  induction vars with
  | nil =>
    intro colIdx tableA tableB refsA refsB rowA rowB hrowA hrowB _ _ hrel tA refsA1 h
    simp only [writeBindingsColumns, Prod.mk.injEq, Except.ok.injEq] at h
    obtain ⟨rfl, rfl⟩ := h
    refine ⟨tableB, refsB, rfl, hrel, rfl, rfl, rowA, rowB,
      (set_getElem?_self _ _ _ hrowA).symm, (set_getElem?_self _ _ _ hrowB).symm, rfl, rfl,
      (fun _ _ => ⟨rfl, rfl⟩), ?_⟩
    intro j hj
    simp at hj
  | cons var vars ih =>
    intro colIdx tableA tableB refsA refsB rowA rowB hrowA hrowB hlenA hlenB hrel tA refsA1 h
    have hcolA : colIdx < rowA.length := by simp at hlenA; omega
    have hcolB : colIdx < rowB.length := by simp at hlenB; omega
    have hltA : rowIdx < tableA.rows.length := by
      rcases List.getElem?_eq_some.1 hrowA with ⟨hlt, -⟩
      exact hlt
    have hltB : rowIdx < tableB.rows.length := by
      rcases List.getElem?_eq_some.1 hrowB with ⟨hlt, -⟩
      exact hlt
    have step : ∀ (tc : TripleComponent) (refsA2 refsB2 : Refs), refsA2.shiftedBy d refsB2 →
        ∀ tA refsA1, writeBindingsColumns ctx binding rowIdx (colIdx + 1) vars
            ⟨tableA.numColumns_, tableA.rows.set rowIdx
              (rowA.set colIdx (tc.toValueId ctx.vocab refsA2.localVocab).1)⟩
            { refsA2 with localVocab := (tc.toValueId ctx.vocab refsA2.localVocab).2 }
            = (.ok tA, refsA1) →
          ∃ tB refsB1, writeBindingsColumns ctx binding rowIdx (colIdx + 1) vars
              ⟨tableB.numColumns_, tableB.rows.set rowIdx (rowB.set colIdx
                ((tc.shiftBlankNode d).toValueId ctx.vocab refsB2.localVocab).1)⟩
              { refsB2 with localVocab :=
                  ((tc.shiftBlankNode d).toValueId ctx.vocab refsB2.localVocab).2 }
              = (.ok tB, refsB1)
            ∧ refsA1.shiftedBy d refsB1
            ∧ tA.numColumns_ = tableA.numColumns_ ∧ tB.numColumns_ = tableB.numColumns_
            ∧ ∃ rowA1 rowB1, tA.rows = tableA.rows.set rowIdx rowA1
              ∧ tB.rows = tableB.rows.set rowIdx rowB1
              ∧ rowA1.length = rowA.length ∧ rowB1.length = rowB.length
              ∧ (∀ c, c < colIdx → rowA1[c]? = rowA[c]? ∧ rowB1[c]? = rowB[c]?)
              ∧ (∀ j, j < (var :: vars).length →
                  rowB1[colIdx + j]?
                    = (rowA1[colIdx + j]?).map (ValueId.shiftBlankNode d)) := by
      intro tc refsA2 refsB2 hrel2 tA refsA1 h
      have hvocab2 := hrel2.2.1
      rw [hvocab2, toValueId_shifted]
      have hrowA1 : (⟨tableA.numColumns_, tableA.rows.set rowIdx
          (rowA.set colIdx (tc.toValueId ctx.vocab refsA2.localVocab).1)⟩
            : IdTable).rows[rowIdx]?
          = some (rowA.set colIdx (tc.toValueId ctx.vocab refsA2.localVocab).1) := by
        simp [hltA]
      have hrowB1 : (⟨tableB.numColumns_, tableB.rows.set rowIdx
          (rowB.set colIdx ((tc.toValueId ctx.vocab refsA2.localVocab).1.shiftBlankNode d))⟩
            : IdTable).rows[rowIdx]?
          = some (rowB.set colIdx
              ((tc.toValueId ctx.vocab refsA2.localVocab).1.shiftBlankNode d)) := by
        simp [hltB]
      obtain ⟨tB, refsB1, hB, hrel1, hnA, hnB, rowA1, rowB1, hA1, hB1, hlA, hlB, hbelow,
          hcells⟩ :=
        ih (colIdx + 1) _ _
          { refsA2 with localVocab := (tc.toValueId ctx.vocab refsA2.localVocab).2 }
          { refsB2 with localVocab :=
              (tc.toValueId ctx.vocab refsA2.localVocab).2.shiftBlankNodes d }
          _ _ hrowA1 hrowB1 (by simp at hlenA ⊢; omega) (by simp at hlenB ⊢; omega)
          ⟨hrel2.1, rfl, hrel2.2.2⟩ tA refsA1 h
      refine ⟨tB, refsB1, hB, hrel1, hnA, hnB, rowA1, rowB1, ?_, ?_, ?_, ?_, ?_, ?_⟩
      · rw [hA1]; simp [List.set_set]
      · rw [hB1]; simp [List.set_set]
      · rw [hlA]; simp
      · rw [hlB]; simp
      · intro c hc
        obtain ⟨h1, h2⟩ := hbelow c (by omega)
        rw [h1, h2]
        simp [List.getElem?_set_ne (show colIdx ≠ c by omega)]
      · intro j hj
        cases j with
        | zero =>
          obtain ⟨h1, h2⟩ := hbelow colIdx (by omega)
          rw [Nat.add_zero, h1, h2]
          simp [hcolA, hcolB]
        | succ j =>
          have hidx : colIdx + (j + 1) = colIdx + 1 + j := by omega
          rw [hidx]
          exact hcells j (by simp at hj; omega)
    simp only [writeBindingsColumns] at h ⊢
    cases hget : binding.get? var with
    | none =>
      simp only [hget, IdTable.set?_eq_some tableA rowIdx colIdx _ rowA hrowA hcolA] at h
      simp only [IdTable.set?_eq_some tableB rowIdx colIdx _ rowB hrowB hcolB]
      exact step .UNDEF refsA refsB hrel tA refsA1 h
    | some b =>
      obtain ⟨h1, h2⟩ := bindingToTripleComponent_shifted ctx b d refsA refsB hctx hrel
      cases hA : bindingToTripleComponent ctx b refsA with
      | mk resA refsA2 =>
        cases resA with
        | error e =>
          simp only [hget, hA] at h
          cases h
        | ok tc =>
          rw [hA] at h1 h2
          cases hB : bindingToTripleComponent ctx b refsB with
          | mk resB refsB2 =>
            rw [hB] at h1 h2
            simp only [Except.map] at h1 h2
            subst h1
            simp only [hget, hA,
              IdTable.set?_eq_some tableA rowIdx colIdx _ rowA hrowA hcolA] at h
            simp only [hB, IdTable.set?_eq_some tableB rowIdx colIdx _ rowB hrowB hcolB]
            exact step tc refsA2 refsB2 h2 tA refsA1 h

theorem checkCancellation_blankNodeManager (ctx : Context) (w w1 : World)
    (r : Except Exception Unit) (h : checkCancellation ctx w = (r, w1)) :
    w1.blankNodeManager = w.blankNodeManager := by
  simp only [checkCancellation, Prod.mk.injEq] at h
  obtain ⟨-, rfl⟩ := h
  rfl

theorem writeBindings_shifted (ctx : Context) (vars : List String) (d : Nat)
    (hctx : ∀ v iri i, ctx.literalAndDatatypeToTripleComponent v iri = .ok (.id i) →
      i.datatype ≠ Datatype.BlankNodeIndex) :
    ∀ (bindings : List Json) (tableA : IdTable) (rowIdx : Nat) (refsA refsB : Refs),
      rowIdx = tableA.rows.length → vars.length = tableA.numColumns_ →
      refsA.shiftedBy d refsB →
      ∀ resA refsA1 resB refsB1,
        writeBindings ctx vars bindings tableA rowIdx refsA = (.ok resA, refsA1) →
        writeBindings ctx vars bindings (tableA.shiftBlankNodes d) rowIdx refsB
          = (.ok resB, refsB1) →
        refsA1.shiftedBy d refsB1 ∧ resB = (resA.1.shiftBlankNodes d, resA.2)
          ∧ resA.2 = resA.1.rows.length ∧ resA.1.numColumns_ = tableA.numColumns_ := by
  intro bindings
  induction bindings with
  | nil =>
    intro tableA rowIdx refsA refsB hr _ hrel resA refsA1 resB refsB1 hA hB
    simp only [writeBindings, Prod.mk.injEq, Except.ok.injEq] at hA hB
    obtain ⟨rfl, rfl⟩ := hA
    obtain ⟨rfl, rfl⟩ := hB
    exact ⟨hrel, rfl, hr, rfl⟩
  | cons binding rest ih =>
    intro tableA rowIdx refsA refsB hr hw hrel resA refsA1 resB refsB1 hA hB
    have hrowA : (tableA.emplace_back ctx.uninitialized).rows[rowIdx]?
        = some (List.replicate tableA.numColumns_ ctx.uninitialized) := by
      simp only [IdTable.emplace_back, hr]
      exact List.getElem?_concat_length _ _
    have hrowB : ((tableA.shiftBlankNodes d).emplace_back ctx.uninitialized).rows[rowIdx]?
        = some (List.replicate tableA.numColumns_ ctx.uninitialized) := by
      simp only [IdTable.emplace_back, IdTable.shiftBlankNodes, hr]
      have := List.getElem?_concat_length
        (tableA.rows.map (fun row => row.map (ValueId.shiftBlankNode d)))
        (List.replicate tableA.numColumns_ ctx.uninitialized)
      simp
    simp only [writeBindings] at hA hB
    cases hcA : writeBindingsColumns ctx binding rowIdx 0 vars
        (tableA.emplace_back ctx.uninitialized) refsA with
    | mk rA refsA2 =>
      cases rA with
      | error e => simp [hcA] at hA
      | ok tA1 =>
        obtain ⟨tB1, refsB2, hcB, hrel2, hnA, hnB, rowA1, rowB1, hA1, hB1, hlA, hlB, -, hcells⟩ :=
          writeBindingsColumns_shifted ctx binding rowIdx d hctx vars 0
            (tableA.emplace_back ctx.uninitialized)
            ((tableA.shiftBlankNodes d).emplace_back ctx.uninitialized)
            refsA refsB _ _ hrowA hrowB (by simp [hw]) (by simp [hw]) hrel tA1 refsA2 hcA
        have hrowsA : tA1.rows = tableA.rows ++ [rowA1] := by
          rw [hA1]
          simp only [IdTable.emplace_back, hr]
          rw [List.set_append_right _ _ (le_refl _)]
          simp
        have hrow1 : rowB1 = rowA1.map (ValueId.shiftBlankNode d) := by
          apply List.ext_getElem?
          intro n
          rw [List.getElem?_map]
          by_cases hn : n < vars.length
          · have := hcells n hn
            simpa using this
          · have h1 : rowA1[n]? = none := List.getElem?_eq_none (by
              rw [hlA, List.length_replicate, ← hw]; omega)
            have h2 : rowB1[n]? = none := List.getElem?_eq_none (by
              rw [hlB, List.length_replicate, ← hw]; omega)
            rw [h1, h2]
            rfl
        have htB1 : tB1 = tA1.shiftBlankNodes d := by
          obtain ⟨nB, rowsB⟩ := tB1
          simp only [IdTable.shiftBlankNodes, IdTable.mk.injEq]
          simp only at hnB hB1
          refine ⟨?_, ?_⟩
          · rw [hnB, hnA]; rfl
          · rw [hB1, hrowsA, hrow1]
            simp only [IdTable.emplace_back, IdTable.shiftBlankNodes, hr, List.map_append,
              List.map_cons, List.map_nil]
            have hlen : tableA.rows.length
                = (tableA.rows.map (fun row => row.map (ValueId.shiftBlankNode d))).length := by
              simp
            rw [hlen, List.set_append_right _ _ (le_refl _)]
            simp
        subst htB1
        simp only [hcA] at hA
        simp only [hcB] at hB
        cases hccA : checkCancellation ctx refsA2.world with
        | mk rcA wA =>
          cases rcA with
          | error e => simp [hccA] at hA
          | ok uA =>
            cases hccB : checkCancellation ctx refsB2.world with
            | mk rcB wB =>
              cases rcB with
              | error e => simp [hccB] at hB
              | ok uB =>
                simp only [hccA] at hA
                simp only [hccB] at hB
                have hbA := checkCancellation_blankNodeManager ctx _ _ _ hccA
                have hbB := checkCancellation_blankNodeManager ctx _ _ _ hccB
                obtain ⟨i1, i2, i3, i4⟩ := ih tA1 (rowIdx + 1) { refsA2 with world := wA }
                  { refsB2 with world := wB } (by rw [hrowsA, hr]; simp)
                  (by rw [hnA]; simpa [IdTable.emplace_back] using hw)
                  ⟨hrel2.1, hrel2.2.1, by
                    show wB.blankNodeManager = wA.blankNodeManager + d
                    rw [hbA, hbB]; exact hrel2.2.2⟩
                  resA refsA1 resB refsB1 hA hB
                exact ⟨i1, i2, i3, by rw [i4, hnA]; rfl⟩

theorem writeJsonResult_shifted (ctx : Context) (vars : List String) (partJson : Json)
    (d : Nat)
    (hctx : ∀ v iri i, ctx.literalAndDatatypeToTripleComponent v iri = .ok (.id i) →
      i.datatype ≠ Datatype.BlankNodeIndex)
    (tableA : IdTable) (vocabA : LocalVocab) (rowIdx : Nat) (wA wB : World)
    (hr : rowIdx = tableA.rows.length) (hw : vars.length = tableA.numColumns_)
    (hworld : wB.blankNodeManager = wA.blankNodeManager + d)
    (writtenA writtenB : Written) (wA1 wB1 : World)
    (hA : writeJsonResult ctx vars partJson tableA vocabA rowIdx wA = (.ok writtenA, wA1))
    (hB : writeJsonResult ctx vars partJson (tableA.shiftBlankNodes d)
      (vocabA.shiftBlankNodes d) rowIdx wB = (.ok writtenB, wB1)) :
    writtenB = ⟨writtenA.idTable.shiftBlankNodes d, writtenA.localVocab.shiftBlankNodes d,
        writtenA.rowIdx⟩
      ∧ wB1.blankNodeManager = wA1.blankNodeManager + d
      ∧ writtenA.rowIdx = writtenA.idTable.rows.length
      ∧ writtenA.idTable.numColumns_ = tableA.numColumns_ := by
  simp only [writeJsonResult] at hA hB
  cases hccA : checkCancellation ctx wA with
  | mk rcA wA2 =>
    cases rcA with
    | error e => simp [hccA] at hA
    | ok uA =>
      cases hccB : checkCancellation ctx wB with
      | mk rcB wB2 =>
        cases rcB with
        | error e => simp [hccB] at hB
        | ok uB =>
          simp only [hccA] at hA
          simp only [hccB] at hB
          have hbA := checkCancellation_blankNodeManager ctx _ _ _ hccA
          have hbB := checkCancellation_blankNodeManager ctx _ _ _ hccB
          cases hb : resultsBindings partJson with
          | none => simp [hb] at hA
          | some bindings =>
            simp only [hb] at hA hB
            cases hwA : writeBindings ctx vars bindings tableA rowIdx ⟨[], vocabA, wA2⟩ with
            | mk resA refsA1 =>
              cases resA with
              | error e => simp [hwA] at hA
              | ok resA =>
                cases hwB : writeBindings ctx vars bindings (tableA.shiftBlankNodes d) rowIdx
                    ⟨[], vocabA.shiftBlankNodes d, wB2⟩ with
                | mk resB refsB1 =>
                  cases resB with
                  | error e => simp [hwB] at hB
                  | ok resB =>
                    simp only [hwA] at hA
                    simp only [hwB] at hB
                    obtain ⟨⟨-, hv, hm⟩, hres, hrow, hcols⟩ := writeBindings_shifted ctx vars d
                      hctx bindings tableA rowIdx ⟨[], vocabA, wA2⟩
                      ⟨[], vocabA.shiftBlankNodes d, wB2⟩ hr hw
                      ⟨rfl, rfl, by
                        show wB2.blankNodeManager = wA2.blankNodeManager + d
                        rw [hbA, hbB]; exact hworld⟩
                      resA refsA1 resB refsB1 hwA hwB
                    subst hres
                    cases hcc2A : checkCancellation ctx refsA1.world with
                    | mk rc2A wA3 =>
                      cases rc2A with
                      | error e => simp [hcc2A] at hA
                      | ok u2A =>
                        cases hcc2B : checkCancellation ctx refsB1.world with
                        | mk rc2B wB3 =>
                          cases rc2B with
                          | error e => simp [hcc2B] at hB
                          | ok u2B =>
                            simp only [hcc2A, Prod.mk.injEq, Except.ok.injEq] at hA
                            simp only [hcc2B, Prod.mk.injEq, Except.ok.injEq] at hB
                            obtain ⟨rfl, rfl⟩ := hA
                            obtain ⟨rfl, rfl⟩ := hB
                            have h2A := checkCancellation_blankNodeManager ctx _ _ _ hcc2A
                            have h2B := checkCancellation_blankNodeManager ctx _ _ _ hcc2B
                            refine ⟨?_, by rw [h2A, h2B]; exact hm, hrow, hcols⟩
                            simp only [hv]

theorem whileLoop_shifted (ctx : Context) (d : Nat)
    (hctx : ∀ v iri i, ctx.literalAndDatatypeToTripleComponent v iri = .ok (.id i) →
      i.datatype ≠ Datatype.BlankNodeIndex) :
    ∀ (parts : List (Json × LazyJsonParser.Details)) (gA : Get) (wA wB : World)
      (outA : Option IdTableVocabPair) (gA1 : Get) (wA1 : World)
      (outB : Option IdTableVocabPair) (gB1 : Get) (wB1 : World),
      gA.rowIdx = gA.idTable.rows.length → gA.vars.length = gA.idTable.numColumns_ →
      wB.blankNodeManager = wA.blankNodeManager + d →
      Get.whileLoop ctx parts gA wA = (.ok (outA, gA1), wA1) →
      Get.whileLoop ctx parts (gA.shiftBlankNodes d) wB = (.ok (outB, gB1), wB1) →
      outB = outA.map (IdTableVocabPair.shiftBlankNodes d) ∧ gB1 = gA1.shiftBlankNodes d
        ∧ wB1.blankNodeManager = wA1.blankNodeManager + d
        ∧ gA1.rowIdx = gA1.idTable.rows.length
        ∧ gA1.vars.length = gA1.idTable.numColumns_ := by
  intro parts
  induction parts with
  | nil =>
    intro gA wA wB outA gA1 wA1 outB gB1 wB1 hr hw hworld hA hB
    simp only [Get.whileLoop] at hA hB
    cases hf : gA.inputRange.failure with
    | some e => simp [hf] at hA
    | none =>
      have hfB : (gA.shiftBlankNodes d).inputRange.failure = none := hf
      simp only [hf, Prod.mk.injEq, Except.ok.injEq] at hA
      simp only [hfB, Prod.mk.injEq, Except.ok.injEq] at hB
      obtain ⟨⟨rfl, rfl⟩, rfl⟩ := hA
      obtain ⟨⟨rfl, rfl⟩, rfl⟩ := hB
      exact ⟨rfl, rfl, hworld, hr, hw⟩
  | cons p rest ih =>
    obtain ⟨partJson, details⟩ := p
    intro gA wA wB outA gA1 wA1 outB gB1 wB1 hr hw hworld hA hB
    simp only [Get.whileLoop] at hA hB
    split at hA
    · cases hA
    · rename_i vc hhead
      split at hB
      · cases hB
      · rename_i vcB hheadB
        have hvc : (Except.ok vcB : Except Exception Bool) = Except.ok vc :=
          hheadB.symm.trans hhead
        cases hvc
        split at hA
        · cases hA
        · rename_i writtenA wA2 hwA
          split at hB
          · cases hB
          · rename_i writtenB wB2 hwB
            obtain ⟨hwr, hworld2, hrow2, hcols2⟩ := writeJsonResult_shifted ctx gA.vars
              partJson d hctx gA.idTable gA.localVocab gA.rowIdx wA wB hr hw hworld
              writtenA writtenB wA2 wB2 hwA hwB
            subst hwr
            by_cases hs : gA.singleIdTable = true
            · have hsB : (gA.shiftBlankNodes d).singleIdTable = true := hs
              simp only [hs, Bool.not_true, Bool.false_eq_true, if_false] at hA
              simp only [hsB, Bool.not_true, Bool.false_eq_true, if_false] at hB
              exact ih
                { gA with
                  singleIdTable := true
                  idTable := writtenA.idTable
                  localVocab := writtenA.localVocab
                  rowIdx := writtenA.rowIdx
                  varsChecked := vc
                  resultExists := true } wA2 wB2 outA gA1 wA1 outB gB1 wB1 hrow2
                (hw.trans hcols2.symm) hworld2 hA hB
            · have hs1 : gA.singleIdTable = false := by simpa using hs
              have hsB : (gA.shiftBlankNodes d).singleIdTable = false := hs1
              simp only [hs1, Bool.not_false, if_true, Prod.mk.injEq, Except.ok.injEq] at hA
              simp only [hsB, Bool.not_false, if_true, Prod.mk.injEq, Except.ok.injEq] at hB
              obtain ⟨⟨rfl, rfl⟩, rfl⟩ := hA
              obtain ⟨⟨rfl, rfl⟩, rfl⟩ := hB
              refine ⟨rfl, ?_, hworld2, rfl, ?_⟩
              · simp [Get.shiftBlankNodes, IdTable.clear, IdTable.shiftBlankNodes,
                  LocalVocab.shiftBlankNodes, LocalVocab.empty]
              · show gA.vars.length = writtenA.idTable.numColumns_
                rw [hcols2]; exact hw

theorem drain_step (ctx : Context) (fuel : Nat) (g : Get) (w : World)
    (chunks : List IdTableVocabPair) (w1 : World)
    (h : InputRangeFromLoopControlGet.drain ctx (fuel + 1) ⟨g, false⟩ w
      = some (.ok chunks, w1)) :
    ∃ out g1 w2, Get.whileLoop ctx g.inputRange.parts g w = (.ok (out, g1), w2)
      ∧ ((∃ pair chunks1, out = some pair ∧ chunks = pair :: chunks1
          ∧ InputRangeFromLoopControlGet.drain ctx fuel ⟨g1, false⟩ w2
            = some (.ok chunks1, w1))
        ∨ (out = none ∧ w2 = w1 ∧ g1.resultExists = true ∧ g1.varsChecked = true
          ∧ chunks = (if g1.singleIdTable then [⟨g1.idTable, g1.localVocab⟩] else []))) := by
  cases hloop : Get.whileLoop ctx g.inputRange.parts g w with
  | mk res w2 =>
    cases res with
    | error pe =>
      obtain ⟨e, d⟩ := pe
      cases e <;>
        simp [InputRangeFromLoopControlGet.drain, InputRangeFromLoopControlGet.get, Get.call,
          hloop] at h
    | ok v =>
      obtain ⟨out, g1⟩ := v
      refine ⟨out, g1, w2, rfl, ?_⟩
      cases out with
      | some pair =>
        left
        simp only [InputRangeFromLoopControlGet.drain, InputRangeFromLoopControlGet.get,
          Get.call, hloop, Bool.false_eq_true, if_false] at h
        cases hrest : InputRangeFromLoopControlGet.drain ctx fuel ⟨g1, false⟩ w2 with
        | none => simp [hrest] at h
        | some v =>
          obtain ⟨res2, w3⟩ := v
          cases res2 with
          | error e => simp [hrest] at h
          | ok chunks1 =>
            simp only [hrest, Option.some.injEq, Prod.mk.injEq, Except.ok.injEq] at h
            obtain ⟨rfl, rfl⟩ := h
            exact ⟨pair, chunks1, rfl, rfl, rfl⟩
      | none =>
        right
        simp only [InputRangeFromLoopControlGet.drain, InputRangeFromLoopControlGet.get,
          Get.call, hloop, Bool.false_eq_true, if_false] at h
        cases hre : g1.resultExists with
        | false => simp [hre] at h
        | true =>
          cases hvc : g1.varsChecked with
          | false => simp [hre, hvc] at h
          | true =>
            cases hs : g1.singleIdTable with
            | false =>
              simp only [hre, hvc, hs, Bool.not_true, Bool.false_eq_true, if_false,
                Option.some.injEq, Prod.mk.injEq, Except.ok.injEq] at h
              obtain ⟨rfl, rfl⟩ := h
              exact ⟨rfl, rfl, rfl, rfl, rfl⟩
            | true =>
              simp only [hre, hvc, hs, Bool.not_true, Bool.false_eq_true, if_false,
                if_true] at h
              cases fuel with
              | zero => simp [InputRangeFromLoopControlGet.drain] at h
              | succ fuel =>
                simp only [InputRangeFromLoopControlGet.drain,
                  InputRangeFromLoopControlGet.get, if_true, Option.some.injEq,
                  Prod.mk.injEq, Except.ok.injEq] at h
                obtain ⟨rfl, rfl⟩ := h
                exact ⟨rfl, rfl, rfl, rfl, rfl⟩

theorem drain_shifted (ctx : Context) (d : Nat)
    (hctx : ∀ v iri i, ctx.literalAndDatatypeToTripleComponent v iri = .ok (.id i) →
      i.datatype ≠ Datatype.BlankNodeIndex) :
    ∀ (fuel : Nat) (gA : Get) (wA wB : World) (chunksA : List IdTableVocabPair) (wA1 : World)
      (chunksB : List IdTableVocabPair) (wB1 : World),
      gA.rowIdx = gA.idTable.rows.length → gA.vars.length = gA.idTable.numColumns_ →
      wB.blankNodeManager = wA.blankNodeManager + d →
      InputRangeFromLoopControlGet.drain ctx fuel ⟨gA, false⟩ wA = some (.ok chunksA, wA1) →
      InputRangeFromLoopControlGet.drain ctx fuel ⟨gA.shiftBlankNodes d, false⟩ wB
        = some (.ok chunksB, wB1) →
      chunksB = chunksA.map (IdTableVocabPair.shiftBlankNodes d)
        ∧ wB1.blankNodeManager = wA1.blankNodeManager + d := by
  intro fuel
  induction fuel with
  | zero => intro gA wA wB chunksA wA1 chunksB wB1 _ _ _ h; cases h
  | succ fuel ih =>
    intro gA wA wB chunksA wA1 chunksB wB1 hr hw hworld hA hB
    obtain ⟨outA, gA1, wA2, hloopA, hkindA⟩ := drain_step ctx fuel gA wA chunksA wA1 hA
    obtain ⟨outB, gB1, wB2, hloopB, hkindB⟩ :=
      drain_step ctx fuel (gA.shiftBlankNodes d) wB chunksB wB1 hB
    obtain ⟨hout, hg, hworld2, hr2, hw2⟩ := whileLoop_shifted ctx d hctx _ gA wA wB outA gA1
      wA2 outB gB1 wB2 hr hw hworld hloopA hloopB
    subst hg
    rcases hkindA with ⟨pairA, restA, rfl, rfl, hrestA⟩ | ⟨rfl, rfl, -, -, hchunksA⟩
    · rcases hkindB with ⟨pairB, restB, hob, rfl, hrestB⟩ | ⟨hob, -⟩
      · rw [hob] at hout
        simp only [Option.map_some', Option.some.injEq] at hout
        subst hout
        obtain ⟨i1, i2⟩ := ih gA1 wA2 wB2 restA wA1 restB wB1 hr2 hw2 hworld2 hrestA hrestB
        exact ⟨by rw [i1]; rfl, i2⟩
      · rw [hob] at hout
        cases hout
    · rcases hkindB with ⟨pairB, restB, hob, -, -⟩ | ⟨-, rfl, -, -, hchunksB⟩
      · rw [hob] at hout
        cases hout
      · refine ⟨?_, hworld2⟩
        rw [hchunksA, hchunksB]
        have hs : (gA1.shiftBlankNodes d).singleIdTable = gA1.singleIdTable := rfl
        rw [hs]
        cases gA1.singleIdTable <;> rfl

theorem lookup_mem (m : BlankNodeMap) (key : String) (v : ValueId)
    (h : m.lookup key = some v) : ∃ kv ∈ m, kv.2 = v := by
  induction m with
  | nil => cases h
  | cons kv rest ih =>
    obtain ⟨k, v0⟩ := kv
    simp only [List.lookup] at h
    cases hk : key == k with
    | true =>
      rw [hk] at h
      simp only [Option.some.injEq] at h
      exact ⟨(k, v0), List.mem_cons_self _ _, h⟩
    | false =>
      rw [hk] at h
      obtain ⟨kv, hmem, hv⟩ := ih h
      exact ⟨kv, List.mem_cons_of_mem _ hmem, hv⟩

theorem bindingToLiteral_not_blank (ctx : Context) (b : Json) (value : String)
    (hctx : ∀ v iri i, ctx.literalAndDatatypeToTripleComponent v iri = .ok (.id i) →
      i.datatype ≠ Datatype.BlankNodeIndex)
    (i : ValueId) (h : bindingToLiteral ctx b value = .ok (.id i)) :
    i.datatype ≠ Datatype.BlankNodeIndex := by
  simp only [bindingToLiteral] at h
  split at h
  · split at h
    · cases h
    · exact hctx _ _ _ h
  · split at h
    · split at h
      · cases h
      · cases h
    · cases h

theorem bindingToTripleComponent_blank (ctx : Context) (b : Json) (refs : Refs) (lo : Nat)
    (hctx : ∀ v iri i, ctx.literalAndDatatypeToTripleComponent v iri = .ok (.id i) →
      i.datatype ≠ Datatype.BlankNodeIndex)
    (hinv : refs.blankNodesFrom lo) (tc : TripleComponent) (refs1 : Refs)
    (h : bindingToTripleComponent ctx b refs = (.ok tc, refs1)) :
    refs1.blankNodesFrom lo ∧ refs.world.blankNodeManager ≤ refs1.world.blankNodeManager
      ∧ (isBnodeBinding (some b) = true → ∃ i, tc = .id i
          ∧ i.datatype = Datatype.BlankNodeIndex ∧ lo ≤ i.bits
          ∧ i.bits < refs1.world.blankNodeManager)
      ∧ (isBnodeBinding (some b) = false → ∀ i, tc = .id i →
          i.datatype ≠ Datatype.BlankNodeIndex) := by
  obtain ⟨hlo, hmap⟩ := hinv
  simp only [bindingToTripleComponent] at h
  by_cases hc : (!b.contains "type" || !b.contains "value") = true
  · simp only [hc, if_true] at h
    cases h
  · simp only [hc, Bool.false_eq_true, if_false] at h
    cases hty : ((b.get? "type").getD Json.null).getString with
    | error e => simp only [hty] at h; cases h
    | ok type =>
      have htype := type_of_getString b type hty
      have hflag : isBnodeBinding (some b) = (type == "bnode") := by
        simp only [isBnodeBinding, htype]
      simp only [hty] at h
      cases hval : ((b.get? "value").getD Json.null).getString with
      | error e => simp only [hval] at h; cases h
      | ok value =>
        simp only [hval] at h
        by_cases h1 : type = "literal"
        · simp only [h1, if_true, Prod.mk.injEq] at h
          obtain ⟨hl, rfl⟩ := h
          refine ⟨⟨hlo, hmap⟩, le_refl _, ?_, ?_⟩
          · intro hb
            rw [hflag, h1] at hb
            exact absurd hb (by decide)
          · intro _ i hi
            subst hi
            exact bindingToLiteral_not_blank ctx b value hctx i hl
        · simp only [h1, if_false] at h
          by_cases h2 : type = "uri"
          · simp only [h2, if_true, Prod.mk.injEq, Except.ok.injEq] at h
            obtain ⟨rfl, rfl⟩ := h
            refine ⟨⟨hlo, hmap⟩, le_refl _, ?_, ?_⟩
            · intro hb
              rw [hflag, h2] at hb
              exact absurd hb (by decide)
            · intro _ i hi
              cases hi
          · simp only [h2, if_false] at h
            by_cases h3 : type = "bnode"
            · have hyes : isBnodeBinding (some b) = true := by
                rw [hflag, h3]; decide
              simp only [h3, if_true, BlankNodeMap.try_emplace] at h
              cases hl : List.lookup value refs.blankNodeMap with
              | none =>
                simp only [hl, if_true, Prod.mk.injEq, Except.ok.injEq] at h
                obtain ⟨rfl, rfl⟩ := h
                have hsec : BlankNodeMap.second (BlankNodeMap.assign
                      ((value, ValueId.makeUndefined) :: refs.blankNodeMap) value
                      (ValueId.makeFromBlankNodeIndex
                        (refs.localVocab.getBlankNodeIndex refs.world).1)) value
                    = ⟨Datatype.BlankNodeIndex, refs.world.blankNodeManager⟩ := by
                  simp only [BlankNodeMap.second, BlankNodeMap.assign, List.map_cons]
                  simp only [if_true, List.lookup, beq_self_eq_true, Option.getD_some]
                  rfl
                refine ⟨⟨?_, ?_⟩, ?_, ?_, ?_⟩
                · show lo ≤ refs.world.blankNodeManager + 1
                  omega
                · intro kv hkv
                  show kv.2.datatype = Datatype.BlankNodeIndex ∧ lo ≤ kv.2.bits
                    ∧ kv.2.bits < refs.world.blankNodeManager + 1
                  simp only [BlankNodeMap.assign, List.map_cons, List.mem_cons,
                    List.mem_map] at hkv
                  rcases hkv with hkv | ⟨kv0, hkv0, hkv⟩
                  · simp only [if_true] at hkv
                    subst hkv
                    exact ⟨rfl, hlo, Nat.lt_succ_self _⟩
                  · by_cases hk : kv0.1 = value
                    · simp only [hk, if_true] at hkv
                      subst hkv
                      exact ⟨rfl, hlo, Nat.lt_succ_self _⟩
                    · simp only [hk, if_false] at hkv
                      subst hkv
                      obtain ⟨a, b1, c⟩ := hmap kv0 hkv0
                      exact ⟨a, b1, Nat.lt_succ_of_lt c⟩
                · show refs.world.blankNodeManager ≤ refs.world.blankNodeManager + 1
                  omega
                · intro _
                  refine ⟨_, rfl, ?_⟩
                  rw [hsec]
                  exact ⟨rfl, hlo, Nat.lt_succ_self _⟩
                · intro hno
                  rw [hyes] at hno
                  cases hno
              | some v =>
                simp only [hl, Bool.false_eq_true, if_false, Prod.mk.injEq,
                  Except.ok.injEq] at h
                obtain ⟨rfl, rfl⟩ := h
                obtain ⟨kv, hkv, hv⟩ := lookup_mem _ _ _ hl
                obtain ⟨a, b1, c⟩ := hmap kv hkv
                rw [hv] at a b1 c
                refine ⟨⟨hlo, hmap⟩, le_refl _, ?_, ?_⟩
                · intro _
                  refine ⟨_, rfl, ?_⟩
                  simp only [BlankNodeMap.second, hl, Option.getD_some]
                  exact ⟨a, b1, c⟩
                · intro hno
                  rw [hyes] at hno
                  cases hno
            · simp only [h3, if_false] at h
              cases h

theorem toValueId_blank (tc : TripleComponent) (vocab : LiteralOrIri → Option Nat)
    (lv : LocalVocab) :
    (∀ i, tc = .id i → (tc.toValueId vocab lv).1 = i)
      ∧ ((∀ i, tc ≠ .id i) → (tc.toValueId vocab lv).1.datatype ≠ Datatype.BlankNodeIndex) := by
  cases tc with
  | UNDEF =>
    refine ⟨fun i hi => (by cases hi), fun _ => ?_⟩
    simp [TripleComponent.toValueId, ValueId.makeUndefined]
  | id i =>
    refine ⟨fun j hj => (by cases hj; rfl), fun hno => absurd rfl (hno i)⟩
  | iri i =>
    refine ⟨fun j hj => (by cases hj), fun _ => ?_⟩
    simp only [TripleComponent.toValueId]
    cases vocab (.iri i) <;> simp
  | literal l =>
    refine ⟨fun j hj => (by cases hj), fun _ => ?_⟩
    simp only [TripleComponent.toValueId]
    cases vocab (.literal l) <;> simp

theorem cell_blank (tc : TripleComponent) (vocab : LiteralOrIri → Option Nat)
    (lv : LocalVocab) (flag : Bool) (lo hi : Nat)
    (hyes : flag = true → ∃ i, tc = .id i ∧ i.datatype = Datatype.BlankNodeIndex
      ∧ lo ≤ i.bits ∧ i.bits < hi)
    (hno : flag = false → ∀ i, tc = .id i → i.datatype ≠ Datatype.BlankNodeIndex) :
    decide ((tc.toValueId vocab lv).1.datatype = Datatype.BlankNodeIndex) = flag
      ∧ ((tc.toValueId vocab lv).1.datatype = Datatype.BlankNodeIndex →
          lo ≤ (tc.toValueId vocab lv).1.bits ∧ (tc.toValueId vocab lv).1.bits < hi) := by
  obtain ⟨hid, hother⟩ := toValueId_blank tc vocab lv
  cases flag with
  | true =>
    obtain ⟨i, hi1, hi2, hi3, hi4⟩ := hyes rfl
    rw [hid i hi1]
    exact ⟨by simp [hi2], fun _ => ⟨hi3, hi4⟩⟩
  | false =>
    have hnot : (tc.toValueId vocab lv).1.datatype ≠ Datatype.BlankNodeIndex := by
      by_cases hex : ∃ i, tc = .id i
      · obtain ⟨i, hi1⟩ := hex
        rw [hid i hi1]
        exact hno rfl i hi1
      · exact hother (fun i hi1 => hex ⟨i, hi1⟩)
    exact ⟨by simp [hnot], fun h => absurd h hnot⟩

theorem writeBindingsColumns_blank (ctx : Context) (binding : Json) (rowIdx lo : Nat)
    (hctx : ∀ v iri i, ctx.literalAndDatatypeToTripleComponent v iri = .ok (.id i) →
      i.datatype ≠ Datatype.BlankNodeIndex) :
    ∀ (vars : List String) (colIdx : Nat) (idTable : IdTable) (refs : Refs)
      (row : List ValueId),
      idTable.rows[rowIdx]? = some row → colIdx + vars.length ≤ row.length →
      refs.blankNodesFrom lo →
      ∀ t refs1, writeBindingsColumns ctx binding rowIdx colIdx vars idTable refs
          = (.ok t, refs1) →
        refs1.blankNodesFrom lo
        ∧ refs.world.blankNodeManager ≤ refs1.world.blankNodeManager
        ∧ t.numColumns_ = idTable.numColumns_
        ∧ ∃ row1, t.rows = idTable.rows.set rowIdx row1 ∧ row1.length = row.length
          ∧ (∀ c, c < colIdx → row1[c]? = row[c]?)
          ∧ (∀ j v, vars[j]? = some v → ∃ id, row1[colIdx + j]? = some id
            ∧ decide (id.datatype = Datatype.BlankNodeIndex) = isBnodeBinding (binding.get? v)
            ∧ (id.datatype = Datatype.BlankNodeIndex →
                lo ≤ id.bits ∧ id.bits < refs1.world.blankNodeManager)) := by
  intro vars
  induction vars with
  | nil =>
    intro colIdx idTable refs row hrow _ hinv t refs1 h
    simp only [writeBindingsColumns, Prod.mk.injEq, Except.ok.injEq] at h
    obtain ⟨rfl, rfl⟩ := h
    refine ⟨hinv, le_refl _, rfl, row, (set_getElem?_self _ _ _ hrow).symm, rfl,
      fun _ _ => rfl, ?_⟩
    intro j v hj; simp at hj
  | cons var vars ih =>
    intro colIdx idTable refs row hrow hlen hinv t refs1 h
    have hcol : colIdx < row.length := by simp at hlen; omega
    have hrlt : rowIdx < idTable.rows.length := by
      rcases List.getElem?_eq_some.1 hrow with ⟨hlt, -⟩
      exact hlt
    have step : ∀ (tc : TripleComponent) (refs2 : Refs), refs2.blankNodesFrom lo →
        refs.world.blankNodeManager ≤ refs2.world.blankNodeManager →
        (isBnodeBinding (binding.get? var) = true → ∃ i, tc = .id i
          ∧ i.datatype = Datatype.BlankNodeIndex ∧ lo ≤ i.bits
          ∧ i.bits < refs2.world.blankNodeManager) →
        (isBnodeBinding (binding.get? var) = false → ∀ i, tc = .id i →
          i.datatype ≠ Datatype.BlankNodeIndex) →
        writeBindingsColumns ctx binding rowIdx (colIdx + 1) vars
            ⟨idTable.numColumns_, idTable.rows.set rowIdx
              (row.set colIdx (tc.toValueId ctx.vocab refs2.localVocab).1)⟩
            { refs2 with localVocab := (tc.toValueId ctx.vocab refs2.localVocab).2 }
            = (.ok t, refs1) →
        refs1.blankNodesFrom lo
        ∧ refs.world.blankNodeManager ≤ refs1.world.blankNodeManager
        ∧ t.numColumns_ = idTable.numColumns_
        ∧ ∃ row1, t.rows = idTable.rows.set rowIdx row1 ∧ row1.length = row.length
          ∧ (∀ c, c < colIdx → row1[c]? = row[c]?)
          ∧ (∀ j v, (var :: vars)[j]? = some v → ∃ id, row1[colIdx + j]? = some id
            ∧ decide (id.datatype = Datatype.BlankNodeIndex) = isBnodeBinding (binding.get? v)
            ∧ (id.datatype = Datatype.BlankNodeIndex →
                lo ≤ id.bits ∧ id.bits < refs1.world.blankNodeManager)) := by
      intro tc refs2 hinv2 hmono hyes hno h
      obtain ⟨hflag, hbound⟩ := cell_blank tc ctx.vocab refs2.localVocab _ lo
        refs2.world.blankNodeManager hyes hno
      have hrow1 : (⟨idTable.numColumns_, idTable.rows.set rowIdx
          (row.set colIdx (tc.toValueId ctx.vocab refs2.localVocab).1)⟩ : IdTable).rows[rowIdx]?
          = some (row.set colIdx (tc.toValueId ctx.vocab refs2.localVocab).1) := by
        simp [hrlt]
      have hlen1 : colIdx + 1 + vars.length
          ≤ (row.set colIdx (tc.toValueId ctx.vocab refs2.localVocab).1).length := by
        simp at hlen ⊢; omega
      obtain ⟨h1, h2, h3, row1, h4, h5, h6, h7⟩ :=
        ih (colIdx + 1) _
          { refs2 with localVocab := (tc.toValueId ctx.vocab refs2.localVocab).2 }
          _ hrow1 hlen1 hinv2 t refs1 h
      simp only at h2
      refine ⟨h1, le_trans hmono h2, h3, row1, ?_, ?_, ?_, ?_⟩
      · rw [h4]; simp [List.set_set]
      · rw [h5]; simp
      · intro c hc
        rw [h6 c (by omega)]
        simp [List.getElem?_set_ne (show colIdx ≠ c by omega)]
      · intro j v hj
        cases j with
        | zero =>
          simp at hj
          subst hj
          refine ⟨(tc.toValueId ctx.vocab refs2.localVocab).1, ?_, hflag, ?_⟩
          · rw [Nat.add_zero, h6 colIdx (by omega)]
            simp [hcol]
          · intro hb
            obtain ⟨b1, b2⟩ := hbound hb
            exact ⟨b1, lt_of_lt_of_le b2 h2⟩
        | succ j =>
          have hidx : colIdx + (j + 1) = colIdx + 1 + j := by omega
          rw [hidx]
          exact h7 j v (by simpa using hj)
    simp only [writeBindingsColumns] at h
    cases hget : binding.get? var with
    | none =>
      simp only [hget, IdTable.set?_eq_some idTable rowIdx colIdx _ row hrow hcol] at h
      refine step .UNDEF refs hinv (le_refl _) ?_ ?_ h
      · intro hb
        rw [hget] at hb
        cases hb
      · intro _ i hi
        cases hi
    | some b =>
      cases hA : bindingToTripleComponent ctx b refs with
      | mk res refs2 =>
        cases res with
        | error e =>
          simp only [hget, hA] at h
          cases h
        | ok tc =>
          obtain ⟨p1, p2, p3, p4⟩ :=
            bindingToTripleComponent_blank ctx b refs lo hctx hinv tc refs2 hA
          simp only [hget, hA,
            IdTable.set?_eq_some idTable rowIdx colIdx _ row hrow hcol] at h
          refine step tc refs2 p1 p2 ?_ ?_ h
          · intro hb
            rw [hget] at hb
            exact p3 hb
          · intro hb
            rw [hget] at hb
            exact p4 hb

theorem row_blank (binding : Json) (lo hi : Nat) (vars : List String) (row1 : List ValueId)
    (hlen : row1.length = vars.length)
    (hcells : ∀ j v, vars[j]? = some v → ∃ id, row1[0 + j]? = some id
      ∧ decide (id.datatype = Datatype.BlankNodeIndex) = isBnodeBinding (binding.get? v)
      ∧ (id.datatype = Datatype.BlankNodeIndex → lo ≤ id.bits ∧ id.bits < hi)) :
    row1.map (fun id => decide (id.datatype = Datatype.BlankNodeIndex))
        = vars.map (fun v => isBnodeBinding (binding.get? v))
      ∧ blankNodesWithin lo hi [row1] := by
  constructor
  · apply List.ext_getElem?
    intro n
    rw [List.getElem?_map, List.getElem?_map]
    by_cases hn : n < vars.length
    · have hv : vars[n]? = some (vars[n]) := List.getElem?_eq_getElem hn
      obtain ⟨id, h1, h2, -⟩ := hcells n _ hv
      rw [Nat.zero_add] at h1
      rw [h1, hv]
      simp only [Option.map_some', h2]
    · have h1 : vars[n]? = none := List.getElem?_eq_none (by omega)
      have h2 : row1[n]? = none := List.getElem?_eq_none (by omega)
      rw [h1, h2]
      rfl
  · intro row hrow id hid hl
    simp only [List.mem_singleton] at hrow
    subst hrow
    obtain ⟨n, hn, hget⟩ := List.getElem_of_mem hid
    have hn2 : n < vars.length := by omega
    have hv : vars[n]? = some (vars[n]) := List.getElem?_eq_getElem hn2
    obtain ⟨id1, h1, -, h3⟩ := hcells n _ hv
    rw [Nat.zero_add, List.getElem?_eq_getElem hn, hget] at h1
    cases h1
    exact h3 hl

theorem blankNodesWithin_mono (lo hi lo1 hi1 : Nat) (rows : List (List ValueId))
    (hlo : lo1 ≤ lo) (hhi : hi ≤ hi1) (h : blankNodesWithin lo hi rows) :
    blankNodesWithin lo1 hi1 rows := by
  intro row hrow id hid hb
  obtain ⟨h1, h2⟩ := h row hrow id hid hb
  exact ⟨le_trans hlo h1, lt_of_lt_of_le h2 hhi⟩

theorem blankNodesWithin_append (lo hi : Nat) (rows rows1 : List (List ValueId))
    (h : blankNodesWithin lo hi rows) (h1 : blankNodesWithin lo hi rows1) :
    blankNodesWithin lo hi (rows ++ rows1) := by
  intro row hrow id hid hb
  rcases List.mem_append.1 hrow with hr | hr
  · exact h row hr id hid hb
  · exact h1 row hr id hid hb

theorem writeBindings_blank (ctx : Context) (vars : List String) (lo : Nat)
    (hctx : ∀ v iri i, ctx.literalAndDatatypeToTripleComponent v iri = .ok (.id i) →
      i.datatype ≠ Datatype.BlankNodeIndex) :
    ∀ (bindings : List Json) (idTable : IdTable) (rowIdx : Nat) (refs : Refs),
      rowIdx = idTable.rows.length → vars.length = idTable.numColumns_ →
      refs.blankNodesFrom lo →
      ∀ t r refs1, writeBindings ctx vars bindings idTable rowIdx refs = (.ok (t, r), refs1) →
        refs1.blankNodesFrom lo
        ∧ refs.world.blankNodeManager ≤ refs1.world.blankNodeManager
        ∧ r = t.rows.length ∧ t.numColumns_ = idTable.numColumns_
        ∧ ∃ new, t.rows = idTable.rows ++ new
          ∧ new.map (fun row => row.map
              (fun id => decide (id.datatype = Datatype.BlankNodeIndex)))
            = bindings.map (fun binding => vars.map (fun v => isBnodeBinding (binding.get? v)))
          ∧ blankNodesWithin lo refs1.world.blankNodeManager new := by
  intro bindings
  induction bindings with
  | nil =>
    intro idTable rowIdx refs hrowIdx _ hinv t r refs1 h
    simp only [writeBindings, Prod.mk.injEq, Except.ok.injEq] at h
    obtain ⟨⟨rfl, rfl⟩, rfl⟩ := h
    refine ⟨hinv, le_refl _, hrowIdx, rfl, [], by simp, rfl, ?_⟩
    intro row hrow
    cases hrow
  | cons binding rest ih =>
    intro idTable rowIdx refs hrowIdx hwidth hinv t r refs1 h
    have hrow1 : (idTable.emplace_back ctx.uninitialized).rows[rowIdx]?
        = some (List.replicate idTable.numColumns_ ctx.uninitialized) := by
      simp only [IdTable.emplace_back, hrowIdx]
      exact List.getElem?_concat_length _ _
    simp only [writeBindings] at h
    split at h
    · cases h
    · rename_i t1 refsC hc
      obtain ⟨hinvC, hmonoC, hcols, row1, hrows, hlen1, -, hcells⟩ :=
        writeBindingsColumns_blank ctx binding rowIdx lo hctx vars 0
          (idTable.emplace_back ctx.uninitialized) refs _ hrow1
          (by simp [hwidth]) hinv t1 refsC hc
      have hrows1 : t1.rows = idTable.rows ++ [row1] := by
        rw [hrows]
        simp only [IdTable.emplace_back, hrowIdx]
        rw [List.set_append_right _ _ (le_refl _)]
        simp
      have hlen2 : row1.length = vars.length := by
        rw [hlen1, List.length_replicate, hwidth]
      obtain ⟨hflags, hwithin⟩ := row_blank binding lo refsC.world.blankNodeManager vars row1
        hlen2 hcells
      split at h
      · cases h
      · rename_i u wc hcc
        have hbc := checkCancellation_blankNodeManager ctx _ _ _ hcc
        obtain ⟨h1, h2, h3, h4, new, h5, h6, h7⟩ :=
          ih t1 (rowIdx + 1) { refsC with world := wc }
            (by rw [hrows1, hrowIdx]; simp)
            (by rw [hcols]; simpa [IdTable.emplace_back] using hwidth)
            ⟨by show lo ≤ wc.blankNodeManager; rw [hbc]; exact hinvC.1, by
              intro kv hkv
              show kv.2.datatype = Datatype.BlankNodeIndex ∧ lo ≤ kv.2.bits
                ∧ kv.2.bits < wc.blankNodeManager
              rw [hbc]
              exact hinvC.2 kv hkv⟩
            t r refs1 h
        have h2a : refsC.world.blankNodeManager ≤ refs1.world.blankNodeManager := by
          have : wc.blankNodeManager ≤ refs1.world.blankNodeManager := h2
          rw [hbc] at this
          exact this
        refine ⟨h1, le_trans hmonoC h2a, h3, by rw [h4, hcols]; rfl, row1 :: new, ?_, ?_, ?_⟩
        · rw [h5, hrows1]; simp
        · simp only [List.map_cons]
          rw [h6, hflags]
        · have hw1 := blankNodesWithin_mono _ _ lo refs1.world.blankNodeManager _ (le_refl _)
            h2a hwithin
          exact blankNodesWithin_append lo _ [row1] new hw1 h7

theorem writeJsonResult_blank (ctx : Context) (vars : List String) (partJson : Json)
    (hctx : ∀ v iri i, ctx.literalAndDatatypeToTripleComponent v iri = .ok (.id i) →
      i.datatype ≠ Datatype.BlankNodeIndex)
    (idTable : IdTable) (localVocab : LocalVocab) (rowIdx : Nat) (w : World)
    (hrowIdx : rowIdx = idTable.rows.length) (hwidth : vars.length = idTable.numColumns_)
    (written : Written) (w1 : World)
    (h : writeJsonResult ctx vars partJson idTable localVocab rowIdx w = (.ok written, w1)) :
    written.rowIdx = written.idTable.rows.length
      ∧ written.idTable.numColumns_ = idTable.numColumns_
      ∧ w.blankNodeManager ≤ w1.blankNodeManager
      ∧ ∃ new, written.idTable.rows = idTable.rows ++ new
        ∧ new.map (fun row => row.map
            (fun id => decide (id.datatype = Datatype.BlankNodeIndex)))
          = bnodeBindings vars partJson
        ∧ blankNodesWithin w.blankNodeManager w1.blankNodeManager new := by
  simp only [writeJsonResult] at h
  cases hcc : checkCancellation ctx w with
  | mk rc w2 =>
    cases rc with
    | error e => simp [hcc] at h
    | ok u =>
      simp only [hcc] at h
      have hb := checkCancellation_blankNodeManager ctx _ _ _ hcc
      cases hbind : resultsBindings partJson with
      | none => simp [hbind] at h
      | some bindings =>
        simp only [hbind] at h
        cases hwb : writeBindings ctx vars bindings idTable rowIdx ⟨[], localVocab, w2⟩ with
        | mk res refs1 =>
          cases res with
          | error e => simp [hwb] at h
          | ok res =>
            obtain ⟨t, r⟩ := res
            simp only [hwb] at h
            obtain ⟨-, h2, h3, h4, new, h5, h6, h7⟩ := writeBindings_blank ctx vars
              w.blankNodeManager hctx bindings idTable rowIdx ⟨[], localVocab, w2⟩ hrowIdx
              hwidth ⟨by show w.blankNodeManager ≤ w2.blankNodeManager; rw [hb], by
                intro kv hkv; cases hkv⟩ t r refs1 hwb
            cases hcc2 : checkCancellation ctx refs1.world with
            | mk rc2 w3 =>
              cases rc2 with
              | error e => simp [hcc2] at h
              | ok u2 =>
                simp only [hcc2, Prod.mk.injEq, Except.ok.injEq] at h
                obtain ⟨rfl, rfl⟩ := h
                have hb2 := checkCancellation_blankNodeManager ctx _ _ _ hcc2
                have h2a : w.blankNodeManager ≤ refs1.world.blankNodeManager := by
                  have : w2.blankNodeManager ≤ refs1.world.blankNodeManager := h2
                  rw [hb] at this
                  exact this
                refine ⟨h3, h4, by rw [hb2]; exact h2a, new, h5, ?_, by rw [hb2]; exact h7⟩
                rw [h6]
                simp only [bnodeBindings, hbind, Option.getD_some]

theorem whileLoop_blank (ctx : Context)
    (hctx : ∀ v iri i, ctx.literalAndDatatypeToTripleComponent v iri = .ok (.id i) →
      i.datatype ≠ Datatype.BlankNodeIndex) :
    ∀ (parts : List (Json × LazyJsonParser.Details)) (g : Get) (w : World)
      (out : Option IdTableVocabPair) (g1 : Get) (w1 : World),
      g.rowIdx = g.idTable.rows.length → g.vars.length = g.idTable.numColumns_ →
      Get.whileLoop ctx parts g w = (.ok (out, g1), w1) →
      g1.rowIdx = g1.idTable.rows.length ∧ g1.vars.length = g1.idTable.numColumns_
        ∧ g1.vars = g.vars ∧ g1.singleIdTable = g.singleIdTable
        ∧ w.blankNodeManager ≤ w1.blankNodeManager
        ∧ (g.singleIdTable = true → out = none
            ∧ ∃ new, g1.idTable.rows = g.idTable.rows ++ new
              ∧ new.map (fun row => row.map
                  (fun id => decide (id.datatype = Datatype.BlankNodeIndex)))
                = (parts.map (fun p => bnodeBindings g.vars p.1)).flatten
              ∧ blankNodesWithin w.blankNodeManager w1.blankNodeManager new)
        ∧ (g.singleIdTable = false →
            (parts = [] → out = none ∧ g1.idTable = g.idTable ∧ g1.inputRange.parts = [])
            ∧ (∀ p rest, parts = p :: rest → ∃ pair new, out = some pair
              ∧ pair.idTable_.rows = g.idTable.rows ++ new
              ∧ new.map (fun row => row.map
                  (fun id => decide (id.datatype = Datatype.BlankNodeIndex)))
                = bnodeBindings g.vars p.1
              ∧ blankNodesWithin w.blankNodeManager w1.blankNodeManager new
              ∧ g1.idTable.rows = [] ∧ g1.inputRange.parts = rest)) := by
  intro parts
  induction parts with
  | nil =>
    intro g w out g1 w1 hr hw h
    simp only [Get.whileLoop] at h
    cases hf : g.inputRange.failure with
    | some e => simp [hf] at h
    | none =>
      simp only [hf, Prod.mk.injEq, Except.ok.injEq] at h
      obtain ⟨⟨rfl, rfl⟩, rfl⟩ := h
      refine ⟨hr, hw, rfl, rfl, le_refl _, ?_, ?_⟩
      · intro _
        refine ⟨rfl, [], by simp, rfl, ?_⟩
        intro row hrow
        cases hrow
      · intro _
        refine ⟨fun _ => ⟨rfl, rfl, rfl⟩, ?_⟩
        intro p rest hp
        cases hp
  | cons p rest ih =>
    obtain ⟨partJson, details⟩ := p
    intro g w out g1 w1 hr hw h
    simp only [Get.whileLoop] at h
    split at h
    · cases h
    · rename_i vc hhead
      split at h
      · cases h
      · rename_i written w2 hwr
        obtain ⟨hrow2, hcols2, hmono2, new, hrows, hflags, hwithin⟩ :=
          writeJsonResult_blank ctx g.vars partJson hctx g.idTable g.localVocab g.rowIdx w
            hr hw written w2 hwr
        by_cases hs : g.singleIdTable = true
        · simp only [hs, Bool.not_true, Bool.false_eq_true, if_false] at h
          obtain ⟨i1, i2, i3, i4, i5, i6, -⟩ := ih
            { g with
              singleIdTable := true
              idTable := written.idTable
              localVocab := written.localVocab
              rowIdx := written.rowIdx
              varsChecked := vc
              resultExists := true } w2 out g1 w1 hrow2 (hw.trans hcols2.symm) h
          obtain ⟨hout, new1, hrows1, hflags1, hwithin1⟩ := i6 rfl
          refine ⟨i1, i2, i3, by rw [i4, hs], le_trans hmono2 i5, ?_, ?_⟩
          · intro _
            refine ⟨hout, new ++ new1, ?_, ?_, ?_⟩
            · rw [hrows1]
              show written.idTable.rows ++ new1 = g.idTable.rows ++ (new ++ new1)
              rw [hrows, List.append_assoc]
            · simp only [List.map_append, List.map_cons, List.flatten_cons]
              rw [hflags]
              congr 1
            · exact blankNodesWithin_append _ _ _ _
                (blankNodesWithin_mono _ _ _ _ _ (le_refl _) i5 hwithin)
                (blankNodesWithin_mono _ _ _ _ _ hmono2 (le_refl _) hwithin1)
          · intro hno
            rw [hs] at hno
            cases hno
        · have hs1 : g.singleIdTable = false := by simpa using hs
          simp only [hs1, Bool.not_false, if_true, Prod.mk.injEq, Except.ok.injEq] at h
          obtain ⟨⟨rfl, rfl⟩, rfl⟩ := h
          refine ⟨rfl, ?_, rfl, hs1.symm, hmono2, ?_, ?_⟩
          · show g.vars.length = written.idTable.numColumns_
            rw [hcols2]; exact hw
          · intro hyes
            rw [hs1] at hyes
            cases hyes
          · intro _
            refine ⟨fun hnil => (by cases hnil), ?_⟩
            intro p1 rest1 hp
            simp only [List.cons.injEq] at hp
            obtain ⟨rfl, rfl⟩ := hp
            exact ⟨_, new, rfl, hrows, hflags, hwithin, rfl, rfl⟩

theorem drain_blank (ctx : Context)
    (hctx : ∀ v iri i, ctx.literalAndDatatypeToTripleComponent v iri = .ok (.id i) →
      i.datatype ≠ Datatype.BlankNodeIndex) :
    ∀ (fuel : Nat) (g : Get) (w : World) (chunks : List IdTableVocabPair) (w1 : World),
      g.rowIdx = g.idTable.rows.length → g.vars.length = g.idTable.numColumns_ →
      g.idTable.rows = [] →
      InputRangeFromLoopControlGet.drain ctx fuel ⟨g, false⟩ w = some (.ok chunks, w1) →
      w.blankNodeManager ≤ w1.blankNodeManager
        ∧ chunks.map IdTableVocabPair.blankNodeCells
          = bnodeOrigin g.vars g.inputRange.parts g.singleIdTable
        ∧ ∀ p ∈ chunks,
            blankNodesWithin w.blankNodeManager w1.blankNodeManager p.idTable_.rows := by
  intro fuel
  induction fuel with
  | zero => intro g w chunks w1 _ _ _ h; cases h
  | succ fuel ih =>
    intro g w chunks w1 hr hw hempty h
    obtain ⟨out, g1, w2, hloop, hkind⟩ := drain_step ctx fuel g w chunks w1 h
    obtain ⟨i1, i2, i3, i4, i5, i6, i7⟩ :=
      whileLoop_blank ctx hctx g.inputRange.parts g w out g1 w2 hr hw hloop
    rcases hkind with ⟨pair, chunks1, rfl, rfl, hrest⟩ | ⟨rfl, rfl, -, -, hchunks⟩
    · cases hs : g.singleIdTable with
      | true =>
        obtain ⟨hout, -⟩ := i6 hs
        cases hout
      | false =>
        obtain ⟨hnil, hcons⟩ := i7 hs
        cases hparts : g.inputRange.parts with
        | nil =>
          obtain ⟨hout, -⟩ := hnil hparts
          cases hout
        | cons p rest =>
          obtain ⟨pair1, new, hout, hrows, hflags, hwithin, hempty1, hrest1⟩ := hcons p rest hparts
          simp only [Option.some.injEq] at hout
          subst hout
          rw [hempty, List.nil_append] at hrows
          obtain ⟨j1, j2, j3⟩ := ih g1 w2 chunks1 w1 i1 i2 hempty1 hrest
          rw [i3, hrest1, i4, hs] at j2
          refine ⟨le_trans i5 j1, ?_, ?_⟩
          · simp only [List.map_cons, j2, bnodeOrigin, Bool.false_eq_true, if_false]
            congr 1
            simp only [IdTableVocabPair.blankNodeCells, hrows, hflags]
          · intro q hq
            rcases List.mem_cons.1 hq with rfl | hq
            · rw [hrows]
              exact blankNodesWithin_mono _ _ _ _ _ (le_refl _) j1 hwithin
            · exact blankNodesWithin_mono _ _ _ _ _ i5 (le_refl _) (j3 q hq)
    · cases hs : g.singleIdTable with
      | true =>
        obtain ⟨-, new, hrows, hflags, hwithin⟩ := i6 hs
        rw [hempty, List.nil_append] at hrows
        rw [i4, hs] at hchunks
        simp only [if_true] at hchunks
        subst hchunks
        refine ⟨i5, ?_, ?_⟩
        · simp only [List.map_cons, List.map_nil, bnodeOrigin, if_true,
            IdTableVocabPair.blankNodeCells, hrows, hflags]
        · intro q hq
          simp only [List.mem_singleton] at hq
          subst hq
          show blankNodesWithin _ _ g1.idTable.rows
          rw [hrows]
          exact hwithin
      | false =>
        obtain ⟨hnil, hcons⟩ := i7 hs
        rw [i4, hs] at hchunks
        simp only [Bool.false_eq_true, if_false] at hchunks
        subst hchunks
        cases hparts : g.inputRange.parts with
        | nil =>
          refine ⟨i5, ?_, ?_⟩
          · simp [bnodeOrigin]
          · intro q hq
            cases hq
        | cons p rest =>
          obtain ⟨pair1, new, hout, -⟩ := hcons p rest hparts
          cases hout

theorem shiftBlankNode_injective (d : Nat) (a b : ValueId)
    (h : a.shiftBlankNode d = b.shiftBlankNode d) : a = b := by
  obtain ⟨da, ba⟩ := a
  obtain ⟨db, bb⟩ := b
  simp only [ValueId.shiftBlankNode] at h
  by_cases h1 : da = Datatype.BlankNodeIndex
  · by_cases h2 : db = Datatype.BlankNodeIndex
    · simp only [h1, h2, if_true, ValueId.mk.injEq, true_and] at h
      subst h1 h2
      have : ba = bb := by omega
      rw [this]
    · simp only [h1, h2, if_true, if_false, ValueId.mk.injEq] at h
      exact absurd h.1.symm h2
  · by_cases h2 : db = Datatype.BlankNodeIndex
    · simp only [h1, h2, if_true, if_false, ValueId.mk.injEq] at h
      exact h.1.elim
    · simp only [h1, h2, if_false] at h
      exact h

theorem shiftBlankNode_of_not_blank (d : Nat) (a : ValueId)
    (h : a.datatype ≠ Datatype.BlankNodeIndex) : a.shiftBlankNode d = a := by
  simp [ValueId.shiftBlankNode, h]

theorem get?_shiftBlankNodes (d : Nat) (t : IdTable) (r c : Nat) :
    (t.shiftBlankNodes d).get? r c = (t.get? r c).map (ValueId.shiftBlankNode d) := by
  simp only [IdTable.get?, IdTable.shiftBlankNodes, List.getElem?_map]
  cases t.rows[r]? with
  | none => rfl
  | some row => simp [List.getElem?_map]

theorem mem_of_get? (t : IdTable) (r c : Nat) (id : ValueId) (h : t.get? r c = some id) :
    ∃ row ∈ t.rows, id ∈ row := by
  simp only [IdTable.get?] at h
  cases hrow : t.rows[r]? with
  | none => simp [hrow] at h
  | some row =>
    simp only [hrow] at h
    exact ⟨row, List.getElem?_mem hrow, List.getElem?_mem h⟩

/-- C30: two decodes of the same body, with the same variables and in the same mode, that
both end without error, the second one started when the first one had ended (the blank-node
manager hands out every index once).  The second decode gives the chunks of the first one
with every blank-node index moved by the distance between the two starts: the same number of
chunks, the same number of rows in each, the same entries in the vocabularies.  A cell holds
a blank node exactly when its binding has type `bnode`, in both decodes.  A cell that holds
no blank node holds the same Id in both decodes; two cells of a chunk are equal in the
second decode exactly when they are equal in the first; and no blank node of the first
decode occurs in a chunk of the second.  The converter of typed literals is assumed to
return no blank node. -/
theorem computeResultLazily_deterministic (s : Service) (ctx : Context) (vars : List String)
    (body : LazyJsonParser.Generator) (singleIdTable : Bool) (wA wB : World)
    (chunksA chunksB : List IdTableVocabPair) (wA1 wB1 : World)
    (hwidth : vars.length = s.getResultWidth)
    (hctx : ∀ v iri i, ctx.literalAndDatatypeToTripleComponent v iri = .ok (.id i) →
      i.datatype ≠ Datatype.BlankNodeIndex)
    (hA : (s.computeResultLazily vars body singleIdTable).consume ctx wA
      = some (.ok chunksA, wA1))
    (hB : (s.computeResultLazily vars body singleIdTable).consume ctx wB
      = some (.ok chunksB, wB1))
    (hafter : wA1.blankNodeManager ≤ wB.blankNodeManager) :
    chunksB = chunksA.map (IdTableVocabPair.shiftBlankNodes
        (wB.blankNodeManager - wA.blankNodeManager))
      ∧ chunksB.length = chunksA.length
      ∧ chunksA.map IdTableVocabPair.blankNodeCells
          = bnodeOrigin vars body.parts singleIdTable
      ∧ chunksB.map IdTableVocabPair.blankNodeCells
          = bnodeOrigin vars body.parts singleIdTable
      ∧ (∀ (k : Nat) (pA pB : IdTableVocabPair), chunksA[k]? = some pA →
          chunksB[k]? = some pB →
          pB.idTable_.rows.length = pA.idTable_.rows.length
          ∧ pB.localVocab_.words = pA.localVocab_.words
          ∧ ∀ (r c : Nat) (idA : ValueId), pA.idTable_.get? r c = some idA →
              ∃ idB, pB.idTable_.get? r c = some idB
                ∧ (idA.datatype ≠ Datatype.BlankNodeIndex → idB = idA)
                ∧ (idA.datatype = Datatype.BlankNodeIndex →
                    idB.datatype = Datatype.BlankNodeIndex ∧ idB ≠ idA)
                ∧ ∀ (r2 c2 : Nat) (idA2 idB2 : ValueId),
                    pA.idTable_.get? r2 c2 = some idA2 →
                    pB.idTable_.get? r2 c2 = some idB2 → (idB = idB2 ↔ idA = idA2))
      ∧ (∀ pA ∈ chunksA, ∀ rowA ∈ pA.idTable_.rows, ∀ idA ∈ rowA,
          ∀ pB ∈ chunksB, ∀ rowB ∈ pB.idTable_.rows, ∀ idB ∈ rowB,
            idA.datatype = Datatype.BlankNodeIndex → idA ≠ idB) := by
  have hgetter : ((s.computeResultLazily vars body singleIdTable).getter).shiftBlankNodes
      (wB.blankNodeManager - wA.blankNodeManager)
      = (s.computeResultLazily vars body singleIdTable).getter := rfl
  have hrA : (s.computeResultLazily vars body singleIdTable)
      = ⟨(s.computeResultLazily vars body singleIdTable).getter, false⟩ := rfl
  simp only [InputRangeFromLoopControlGet.consume] at hA hB
  rw [hrA] at hA hB
  obtain ⟨a1, a2, a3⟩ := drain_blank ctx hctx _ _ wA chunksA wA1 rfl hwidth rfl hA
  obtain ⟨b1, b2, b3⟩ := drain_blank ctx hctx _ _ wB chunksB wB1 rfl hwidth rfl hB
  have hd : wB.blankNodeManager
      = wA.blankNodeManager + (wB.blankNodeManager - wA.blankNodeManager) := by omega
  have hB2 := hB
  rw [← hgetter] at hB2
  obtain ⟨hchunks, -⟩ := drain_shifted ctx (wB.blankNodeManager - wA.blankNodeManager) hctx _
    (s.computeResultLazily vars body singleIdTable).getter wA wB chunksA wA1 chunksB wB1
    rfl hwidth hd hA hB2
  have hdisjoint : ∀ pA ∈ chunksA, ∀ rowA ∈ pA.idTable_.rows, ∀ idA ∈ rowA,
      ∀ pB ∈ chunksB, ∀ rowB ∈ pB.idTable_.rows, ∀ idB ∈ rowB,
        idA.datatype = Datatype.BlankNodeIndex → idA ≠ idB := by
    intro pA hpA rowA hrowA idA hidA pB hpB rowB hrowB idB hidB hblank heq
    obtain ⟨-, hlt⟩ := a3 pA hpA rowA hrowA idA hidA hblank
    obtain ⟨hge, -⟩ := b3 pB hpB rowB hrowB idB hidB (heq ▸ hblank)
    rw [heq] at hlt
    omega
  refine ⟨hchunks, by rw [hchunks, List.length_map], a2, b2, ?_, hdisjoint⟩
  intro k pA pB hkA hkB
  have hpB : pB = pA.shiftBlankNodes (wB.blankNodeManager - wA.blankNodeManager) := by
    rw [hchunks, List.getElem?_map, hkA] at hkB
    simp only [Option.map_some', Option.some.injEq] at hkB
    exact hkB.symm
  subst hpB
  refine ⟨by simp [IdTableVocabPair.shiftBlankNodes, IdTable.shiftBlankNodes], rfl, ?_⟩
  intro r c idA hcell
  have hcellB : (pA.shiftBlankNodes (wB.blankNodeManager - wA.blankNodeManager)).idTable_.get?
      r c = some (idA.shiftBlankNode (wB.blankNodeManager - wA.blankNodeManager)) := by
    show (pA.idTable_.shiftBlankNodes _).get? r c = _
    rw [get?_shiftBlankNodes, hcell]
    rfl
  refine ⟨_, hcellB, fun hnot => shiftBlankNode_of_not_blank _ idA hnot, ?_, ?_⟩
  · intro hblank
    have hdt : (idA.shiftBlankNode
        (wB.blankNodeManager - wA.blankNodeManager)).datatype = Datatype.BlankNodeIndex := by
      simp [ValueId.shiftBlankNode, hblank]
    refine ⟨hdt, ?_⟩
    intro heq
    obtain ⟨rowA, hrowA, hidA⟩ := mem_of_get? _ _ _ _ hcell
    obtain ⟨rowB, hrowB, hidB⟩ := mem_of_get? _ _ _ _ hcellB
    exact hdisjoint pA (List.getElem?_mem hkA) rowA hrowA idA hidA _ (List.getElem?_mem hkB)
      rowB hrowB _ hidB hblank heq.symm
  · intro r2 c2 idA2 idB2 hcell2 hcellB2
    have h2 : (pA.idTable_.shiftBlankNodes
        (wB.blankNodeManager - wA.blankNodeManager)).get? r2 c2 = some idB2 := hcellB2
    rw [get?_shiftBlankNodes, hcell2] at h2
    simp only [Option.map_some', Option.some.injEq] at h2
    subst h2
    exact ⟨fun h => shiftBlankNode_injective _ _ _ h, fun h => by rw [h]⟩

theorem computeResultLazily_deterministic_witness :
    (Example.service200.computeResultLazily ["x", "y"] Example.bodyTwoFragments false).consume
        Example.ctx Example.world
      = some (.ok Example.chunksFirstDecode, Example.worldAfterFirstDecode)
    ∧ (Example.service200.computeResultLazily ["x", "y"] Example.bodyTwoFragments
          false).consume Example.ctx Example.worldAfterFirstDecode
      = some (.ok Example.chunksSecondDecode, Example.worldAfterSecondDecode)
    ∧ Example.chunksSecondDecode = Example.chunksFirstDecode.map
        (IdTableVocabPair.shiftBlankNodes
          (Example.worldAfterFirstDecode.blankNodeManager - Example.world.blankNodeManager))
    ∧ Example.chunksSecondDecode.length = Example.chunksFirstDecode.length
    ∧ Example.chunksFirstDecode.map IdTableVocabPair.blankNodeCells
        = bnodeOrigin ["x", "y"] Example.bodyTwoFragments.parts false
    ∧ Example.chunksSecondDecode.map IdTableVocabPair.blankNodeCells
        = bnodeOrigin ["x", "y"] Example.bodyTwoFragments.parts false
    ∧ (∀ (k : Nat) (pA pB : IdTableVocabPair), Example.chunksFirstDecode[k]? = some pA →
        Example.chunksSecondDecode[k]? = some pB →
        pB.idTable_.rows.length = pA.idTable_.rows.length
        ∧ pB.localVocab_.words = pA.localVocab_.words
        ∧ ∀ (r c : Nat) (idA : ValueId), pA.idTable_.get? r c = some idA →
            ∃ idB, pB.idTable_.get? r c = some idB
              ∧ (idA.datatype ≠ Datatype.BlankNodeIndex → idB = idA)
              ∧ (idA.datatype = Datatype.BlankNodeIndex →
                  idB.datatype = Datatype.BlankNodeIndex ∧ idB ≠ idA)
              ∧ ∀ (r2 c2 : Nat) (idA2 idB2 : ValueId),
                  pA.idTable_.get? r2 c2 = some idA2 →
                  pB.idTable_.get? r2 c2 = some idB2 → (idB = idB2 ↔ idA = idA2))
    ∧ (∀ pA ∈ Example.chunksFirstDecode, ∀ rowA ∈ pA.idTable_.rows, ∀ idA ∈ rowA,
        ∀ pB ∈ Example.chunksSecondDecode, ∀ rowB ∈ pB.idTable_.rows, ∀ idB ∈ rowB,
          idA.datatype = Datatype.BlankNodeIndex → idA ≠ idB) :=
  ⟨rfl, rfl,
    computeResultLazily_deterministic Example.service200 Example.ctx ["x", "y"]
      Example.bodyTwoFragments false Example.world Example.worldAfterFirstDecode
      Example.chunksFirstDecode Example.chunksSecondDecode Example.worldAfterFirstDecode
      Example.worldAfterSecondDecode rfl
      (by
        intro v iri i h
        cases h)
      rfl rfl (le_refl _)⟩

/-! ## The exception class -/

theorem getFullErrorMessage_known_code (e : ad_semsearch.Exception) (message : String)
    (h : ad_semsearch.Exception.errorCodeAsString e.getErrorCode = some message) :
    e.getErrorMessage = .ok message
      ∧ e.getFullErrorMessage
        = .ok (if e.getErrorDetails.length > 0 then message ++ " (" ++ e.getErrorDetails ++ ")"
            else message) := by
  have hm : e.getErrorMessage = .ok message := by
    simp only [ad_semsearch.Exception.getErrorMessage]
    simp only [ad_semsearch.Exception.getErrorCode] at h
    rw [h]
  refine ⟨hm, ?_⟩
  simp only [ad_semsearch.Exception.getFullErrorMessage, hm,
    ad_semsearch.Exception.getErrorDetails]
  split <;> rfl

/-- C32 (failing input): an exception object whose error code is none of the enumerators,
with non-empty details.  `errorCodeAsString` takes the `default` branch and returns a pointer
into a string that no longer exists, so `getErrorMessage` and `getFullErrorMessage` read
through a dangling pointer instead of returning a message followed by the details.  For the
code `ASSERT_FAILED` and the same details the full message is "ASSERT FAILED (details)". -/
theorem getFullErrorMessage_unknown_code :
    ad_semsearch.Exception.errorCodeAsString Example.unknownCode.getErrorCode = none
      ∧ Example.unknownCode.getErrorDetails = "details"
      ∧ Example.unknownCode.getErrorMessage
        = .error (.UndefinedBehaviour "std::string(errorCodeAsString(_errorCode))")
      ∧ Example.unknownCode.getFullErrorMessage
        = .error (.UndefinedBehaviour "std::string(errorCodeAsString(_errorCode))")
      ∧ Example.assertFailed.getFullErrorMessage = .ok "ASSERT FAILED (details)" := by
  refine ⟨by decide, rfl, rfl, rfl, rfl⟩

/-- C40: after `setErrorDetails(d)` the details are `d`, and the error code and the details
without file and line are what they were before: the assignment to the latter member is a
self-assignment.  In particular an object built from a code and details `d0` still reports
`d0` as its details without file and line. -/
theorem setErrorDetails_frame (e : ad_semsearch.Exception) (d : String) :
    (e.setErrorDetails d).getErrorDetails = d
      ∧ (e.setErrorDetails d).getErrorCode = e.getErrorCode
      ∧ (e.setErrorDetails d).getErrorMsgNoFileAndLines = e.getErrorMsgNoFileAndLines
      ∧ (e.setErrorDetails d).getErrorMessage = e.getErrorMessage
      ∧ (∀ (code : Int) (d0 : String),
          ((ad_semsearch.Exception.ofCodeAndDetails code d0).setErrorDetails
            d).getErrorMsgNoFileAndLines = d0) := by
  refine ⟨rfl, rfl, rfl, rfl, fun _ _ => rfl⟩

/-! ## The text of the VALUES clause and of the pattern -/

/-- C35 (failing input): the sibling has the single variable `?z`, the SERVICE the visible
variables `?x` and `?y`, so no variable is common; the sibling table has two rows.  The
variable list of the clause is ")" and the only listed row is ")": the assignments
`vars.back() = ')'` and `row.back() = ')'` overwrite the opening parenthesis, the only
character there is.  With the common variable `?x` the clause has the form of the claim, and
without sibling info there is no clause. -/
theorem getSiblingValuesClause_no_common_variable :
    Example.serviceSiblingNoCommon.getSiblingValuesClause Example.ctxExport Example.world
        = (.ok (some "VALUES ) \x7b ) \x7d . "), ⟨3, 0, []⟩)
      ∧ Example.serviceSiblingRows.getSiblingValuesClause Example.ctxExport Example.world
        = (.ok (some "VALUES (?x) \x7b (1) (UNDEF) (2) \x7d . "), ⟨5, 0, []⟩)
      ∧ Example.service200.getSiblingValuesClause Example.ctxExport Example.world
        = (.ok none, Example.world) := by
  refine ⟨rfl, rfl, rfl⟩

theorem count_data_append (a b : String) (c : Char) :
    (a ++ b).data.count c = a.data.count c + b.data.count c := by
  rw [String.data_append, List.count_append]

/-- C37: for a pattern that begins with an opening brace, `pushDownValues` returns a text in
which the number of opening braces minus the number of closing braces is that difference in
the pattern plus that difference in the VALUES text, whether or not the text after the brace
begins with SELECT and receives the extra pair of braces. -/
theorem pushDownValues_brace_balance (pattern values : String) (rest : List Char)
    (hpattern : pattern.data = Char.ofNat 123 :: rest) :
    ∃ result, Service.pushDownValues pattern values = .ok result
      ∧ result = (if Service.startsWithSelect rest then
          "\x7b\n" ++ values ++ "\n\x7b" ++ String.mk rest ++ "\n\x7d"
        else "\x7b\n" ++ values ++ "\n" ++ String.mk rest)
      ∧ (result.data.count (Char.ofNat 123) : Int) - result.data.count (Char.ofNat 125)
        = ((pattern.data.count (Char.ofNat 123) : Int) - pattern.data.count (Char.ofNat 125))
          + ((values.data.count (Char.ofNat 123) : Int)
            - values.data.count (Char.ofNat 125)) := by
  have hopen : ("\x7b\n" : String).data.count (Char.ofNat 123) = 1 := by decide
  have hopen2 : ("\x7b\n" : String).data.count (Char.ofNat 125) = 0 := by decide
  have hmid : ("\n\x7b" : String).data.count (Char.ofNat 123) = 1 := by decide
  have hmid2 : ("\n\x7b" : String).data.count (Char.ofNat 125) = 0 := by decide
  have hnl : ("\n" : String).data.count (Char.ofNat 123) = 0 := by decide
  have hnl2 : ("\n" : String).data.count (Char.ofNat 125) = 0 := by decide
  have hclose : ("\n\x7d" : String).data.count (Char.ofNat 123) = 0 := by decide
  have hclose2 : ("\n\x7d" : String).data.count (Char.ofNat 125) = 1 := by decide
  have hp1 : pattern.data.count (Char.ofNat 123) = rest.count (Char.ofNat 123) + 1 := by
    rw [hpattern, List.count_cons_self]
  have hp2 : pattern.data.count (Char.ofNat 125) = rest.count (Char.ofNat 125) := by
    rw [hpattern, List.count_cons_of_ne (by decide)]
  have hfirst : Service.afterFirstBrace pattern.data = some rest := by
    rw [hpattern]
    simp [Service.afterFirstBrace]
  simp only [Service.pushDownValues, hfirst]
  by_cases hselect : Service.startsWithSelect rest = true
  · simp only [hselect, if_true]
    refine ⟨_, rfl, rfl, ?_⟩
    simp only [count_data_append, hopen, hopen2, hmid, hmid2, hclose, hclose2, hp1, hp2]
    push_cast
    ring
  · simp only [hselect, Bool.false_eq_true, if_false]
    refine ⟨_, rfl, rfl, ?_⟩
    simp only [count_data_append, hopen, hopen2, hnl, hnl2, hp1, hp2]
    push_cast
    ring

theorem pushDownValues_brace_balance_witness :
    ∃ result, Service.pushDownValues "\x7b SELECT ?s \x7b ?s ?p ?o \x7d \x7d"
          "VALUES (?s) \x7b (<a>) \x7d . " = .ok result
      ∧ result = (if Service.startsWithSelect " SELECT ?s \x7b ?s ?p ?o \x7d \x7d".data then
          "\x7b\n" ++ "VALUES (?s) \x7b (<a>) \x7d . " ++ "\n\x7b"
            ++ String.mk " SELECT ?s \x7b ?s ?p ?o \x7d \x7d".data ++ "\n\x7d"
        else "\x7b\n" ++ "VALUES (?s) \x7b (<a>) \x7d . " ++ "\n"
          ++ String.mk " SELECT ?s \x7b ?s ?p ?o \x7d \x7d".data)
      ∧ (result.data.count (Char.ofNat 123) : Int) - result.data.count (Char.ofNat 125)
        = ((("\x7b SELECT ?s \x7b ?s ?p ?o \x7d \x7d" : String).data.count
              (Char.ofNat 123) : Int)
            - ("\x7b SELECT ?s \x7b ?s ?p ?o \x7d \x7d" : String).data.count (Char.ofNat 125))
          + ((("VALUES (?s) \x7b (<a>) \x7d . " : String).data.count (Char.ofNat 123) : Int)
            - ("VALUES (?s) \x7b (<a>) \x7d . " : String).data.count (Char.ofNat 125)) :=
  pushDownValues_brace_balance "\x7b SELECT ?s \x7b ?s ?p ?o \x7d \x7d"
    "VALUES (?s) \x7b (<a>) \x7d . " " SELECT ?s \x7b ?s ?p ?o \x7d \x7d".data rfl

/-- C39: for an Id for which the export has no string exactly when the Id is Undefined,
`idToValueForValuesClause` returns "UNDEF" when the Id is Undefined, no value when it is a
blank node, the exported string as it is when it is an Int, a Double or a Bool, and for
every other Id the exported string in quotes followed by `^^<type>` when the export reports
an XSD type, the exported string as it is when it begins with `<`, and else the string
escaped by `validRDFLiteralFromNormalized`.  It never throws, and it returns no value only
for a blank node. -/
theorem idToValueForValuesClause_cases (ctx : Context) (id : ValueId) (localVocab : LocalVocab)
    (hexport : ctx.idToStringAndType id localVocab = none
      ↔ id.getDatatype = Datatype.Undefined) :
    (id.getDatatype = Datatype.Undefined →
        Service.idToValueForValuesClause ctx id localVocab = .ok (some "UNDEF"))
      ∧ (∀ value xsdType, ctx.idToStringAndType id localVocab = some (value, xsdType) →
          (id.getDatatype = Datatype.BlankNodeIndex →
              Service.idToValueForValuesClause ctx id localVocab = .ok none)
          ∧ (id.getDatatype = Datatype.Int ∨ id.getDatatype = Datatype.Double
                ∨ id.getDatatype = Datatype.Bool →
              Service.idToValueForValuesClause ctx id localVocab = .ok (some value))
          ∧ (id.getDatatype ≠ Datatype.BlankNodeIndex → id.getDatatype ≠ Datatype.Int →
              id.getDatatype ≠ Datatype.Double → id.getDatatype ≠ Datatype.Bool →
              Service.idToValueForValuesClause ctx id localVocab
                = .ok (some (match xsdType with
                    | some type => "\"" ++ value ++ "\"^^<" ++ type ++ ">"
                    | none =>
                      if starts_with value "<" then value
                      else ctx.validRDFLiteralFromNormalized value))))
      ∧ (id.getDatatype ≠ Datatype.Undefined →
          ∃ value xsdType, ctx.idToStringAndType id localVocab = some (value, xsdType))
      ∧ (Service.idToValueForValuesClause ctx id localVocab = .ok none
          ↔ id.getDatatype = Datatype.BlankNodeIndex)
      ∧ ∃ r, Service.idToValueForValuesClause ctx id localVocab = .ok r := by
  obtain ⟨dt, bits⟩ := id
  simp only [ValueId.getDatatype] at hexport ⊢
  cases hres : ctx.idToStringAndType ⟨dt, bits⟩ localVocab with
  | none =>
    have hdt : dt = Datatype.Undefined := hexport.1 hres
    subst hdt
    simp [Service.idToValueForValuesClause, hres, ValueId.getDatatype]
  | some r =>
    obtain ⟨value, xsdType⟩ := r
    have hdt : dt ≠ Datatype.Undefined := by
      intro h
      have := hexport.2 h
      rw [hres] at this
      cases this
    refine ⟨fun h => absurd h hdt, ?_, fun _ => ⟨value, xsdType, rfl⟩, ?_, ?_⟩
    · intro value1 xsdType1 h
      simp only [Option.some.injEq, Prod.mk.injEq] at h
      obtain ⟨rfl, rfl⟩ := h
      refine ⟨?_, ?_, ?_⟩
      · intro hb
        subst hb
        simp [Service.idToValueForValuesClause, hres, ValueId.getDatatype]
      · intro hb
        rcases hb with rfl | rfl | rfl <;>
          simp [Service.idToValueForValuesClause, hres, ValueId.getDatatype]
      · intro h1 h2 h3 h4
        cases dt <;> first
          | exact absurd rfl hdt
          | exact absurd rfl h1
          | exact absurd rfl h2
          | exact absurd rfl h3
          | exact absurd rfl h4
          | (cases xsdType with
              | none =>
                simp only [Service.idToValueForValuesClause, hres, ValueId.getDatatype]
                split <;> rfl
              | some type =>
                simp only [Service.idToValueForValuesClause, hres, ValueId.getDatatype])
    · constructor
      · intro h
        exact idToValueForValuesClause_none ctx ⟨dt, bits⟩ localVocab h
      · intro hb
        subst hb
        simp [Service.idToValueForValuesClause, hres, ValueId.getDatatype]
    · cases dt <;> cases xsdType <;>
        simp only [Service.idToValueForValuesClause, hres, ValueId.getDatatype] <;>
        first
          | exact ⟨_, rfl⟩
          | (split <;> exact ⟨_, rfl⟩)

theorem idToValueForValuesClause_cases_witness :
    (Example.ctxExport.idToStringAndType ⟨Datatype.Int, 1⟩ LocalVocab.empty = none
        ↔ (⟨Datatype.Int, 1⟩ : ValueId).getDatatype = Datatype.Undefined)
      ∧ Service.idToValueForValuesClause Example.ctxExport ⟨Datatype.Int, 1⟩ LocalVocab.empty
        = .ok (some "1")
      ∧ ∃ r, Service.idToValueForValuesClause Example.ctxExport ⟨Datatype.Int, 1⟩
          LocalVocab.empty = .ok r := by
  have hexport : Example.ctxExport.idToStringAndType ⟨Datatype.Int, 1⟩ LocalVocab.empty = none
      ↔ (⟨Datatype.Int, 1⟩ : ValueId).getDatatype = Datatype.Undefined := by
    constructor
    · intro h; cases h
    · intro h; cases h
  obtain ⟨-, h2, -, -, h5⟩ := idToValueForValuesClause_cases Example.ctxExport
    ⟨Datatype.Int, 1⟩ LocalVocab.empty hexport
  exact ⟨hexport, (h2 "1" none rfl).2.1 (Or.inl rfl), h5⟩

/-! ## Sorted sides and the two modes of the sibling -/

theorem Plan.precomputedResult_modify_other (plan : Plan) (op : Nat)
    (f : Operation → Operation) (other : Nat) (h : other ≠ op) :
    (plan.modify op f).precomputedResult other = plan.precomputedResult other := by
  simp only [Plan.precomputedResult]
  rw [Plan.modify_other plan op f other h]

theorem Plan.siblingInfo_emplace_other (plan : Plan) (service : Nat) (info : SiblingInfo)
    (other : Nat) (h : other ≠ service) :
    (plan.emplaceSiblingInfo service info).siblingInfo other = plan.siblingInfo other := by
  simp only [Plan.siblingInfo, Plan.emplaceSiblingInfo]
  rw [Plan.modify_other _ _ _ other h]

theorem Plan.resultRequests_emplace (plan : Plan) (service : Nat) (info : SiblingInfo) :
    (plan.emplaceSiblingInfo service info).resultRequests = plan.resultRequests := by
  simp only [Plan.emplaceSiblingInfo]
  exact Plan.modify_resultRequests _ _ _

theorem skipSortOperation_sort (plan : Plan) (op child : Nat) (operation : Operation)
    (hop : plan.operations[op]? = some operation) (hkind : operation.kind = .Sort [child]) :
    Service.skipSortOperation plan op = .ok child := by
  simp [Service.skipSortOperation, hop, hkind]

theorem skipSortOperation_check (plan : Plan) (op : Nat) (operation : Operation)
    (children : List Nat) (hop : plan.operations[op]? = some operation)
    (hkind : operation.kind = .Sort children) (hlen : children.length ≠ 1) :
    Service.skipSortOperation plan op = .error (.CorrectnessCheck "children.size() == 1") := by
  simp only [Service.skipSortOperation, hop, hkind]
  cases children with
  | nil => rfl
  | cons c rest =>
    cases rest with
    | nil => simp at hlen
    | cons c2 rest2 => rfl

theorem skipSortOperation_other (plan : Plan) (op : Nat) (operation : Operation)
    (hop : plan.operations[op]? = some operation)
    (hkind : ∀ children, operation.kind ≠ .Sort children) :
    Service.skipSortOperation plan op = .ok op := by
  cases hk : operation.kind
  · rename_i children
    exact absurd hk (hkind children)
  all_goals simp [Service.skipSortOperation, hop, hk]

/-- C31: `skipSortOperation` replaces a pointer to a `Sort` with one child by the root
operation of that child, whatever that operation is (one level), fails the check
`children.size() == 1` for a `Sort` with another number of children, and leaves every other
pointer as it is; `precomputeSiblingResult` then fails with that check and changes nothing.
When the two sides are a `Sort` over a `Service` and a `Sort` over a sibling that is no
`Service` (the `Service` on the left without `rightOnly`, or on the right), the sibling has a
materialized result within the threshold and caching is off: the `Service` under the sort
receives the sibling info, the result is requested from the child of the other sort, that
child receives the precomputed result, and no other operation (so neither sort, unless it
is its own child) receives a precomputed result or a sibling info. -/
theorem precomputeSiblingResult_skips_sort (ctx : Context) (left right : Nat)
    (rightOnly requestLaziness : Bool) (plan : Plan) (service sibling : Nat)
    (leftOperation rightOperation siblingOperation : Operation) (idTable : IdTable)
    (sortedBy : List Nat) (localVocab : LocalVocab)
    (hleft : plan.operations[left]? = some leftOperation)
    (hright : plan.operations[right]? = some rightOperation)
    (hsides : (leftOperation.kind = .Sort [service] ∧ rightOperation.kind = .Sort [sibling]
        ∧ rightOnly = false)
      ∨ (leftOperation.kind = .Sort [sibling] ∧ rightOperation.kind = .Sort [service]))
    (hcache : ctx.runtimeParameters.cacheServiceResults = false)
    (hservice : plan.isService service = true)
    (hnoService : plan.isService sibling = false)
    (hsibling : plan.operations[sibling]? = some siblingOperation)
    (hresult : siblingOperation.getResult
        (if requestLaziness then ComputationMode.LAZY_IF_SUPPORTED
          else ComputationMode.FULLY_MATERIALIZED)
      = .ok (.materialized idTable sortedBy localVocab))
    (hsmall : idTable.size ≤ ctx.runtimeParameters.serviceMaxValueRows) :
    (∀ (op child : Nat) (operation : Operation), plan.operations[op]? = some operation →
        operation.kind = .Sort [child] → Service.skipSortOperation plan op = .ok child)
      ∧ (∀ (op : Nat) (operation : Operation) (children : List Nat),
          plan.operations[op]? = some operation → operation.kind = .Sort children →
          children.length ≠ 1 →
          Service.skipSortOperation plan op
            = .error (.CorrectnessCheck "children.size() == 1"))
      ∧ (∀ (op : Nat) (operation : Operation), plan.operations[op]? = some operation →
          (∀ children, operation.kind ≠ .Sort children) →
          Service.skipSortOperation plan op = .ok op)
      ∧ (∀ (plan0 : Plan) (l r : Nat) (operation : Operation) (children : List Nat)
          (only lazy : Bool), l < plan0.operations.length → r < plan0.operations.length →
          (plan0.operations[l]? = some operation
            ∨ ((∃ l1, Service.skipSortOperation plan0 l = .ok l1)
              ∧ plan0.operations[r]? = some operation)) →
          operation.kind = .Sort children → children.length ≠ 1 →
          Service.precomputeSiblingResult ctx l r only lazy plan0
            = some (.error (.CorrectnessCheck "children.size() == 1"), plan0))
      ∧ ∃ plan1, Service.precomputeSiblingResult ctx left right rightOnly requestLaziness plan
          = some (.ok (), plan1)
        ∧ plan1.siblingInfo service
          = some ⟨some (.materialized idTable sortedBy localVocab),
              siblingOperation.getExternallyVisibleVariableColumns,
              siblingOperation.getCacheKey⟩
        ∧ plan1.resultRequests = plan.resultRequests
            ++ [(sibling, if requestLaziness then ComputationMode.LAZY_IF_SUPPORTED
                else ComputationMode.FULLY_MATERIALIZED)]
        ∧ plan1.precomputedResult sibling = some (.materialized idTable sortedBy localVocab)
        ∧ (∀ op, op ≠ sibling → plan1.precomputedResult op = plan.precomputedResult op)
        ∧ (∀ op, op ≠ service → plan1.siblingInfo op = plan.siblingInfo op) := by
  refine ⟨fun op child operation hop hk => skipSortOperation_sort plan op child operation hop hk,
    fun op operation children hop hk hlen =>
      skipSortOperation_check plan op operation children hop hk hlen,
    fun op operation hop hk => skipSortOperation_other plan op operation hop hk, ?_, ?_⟩
  · intro plan0 l r operation children only lazy hl hr hwhich hk hlen
    simp only [Service.precomputeSiblingResult, hl, hr, decide_True, Bool.and_self,
      Bool.not_true, Bool.false_eq_true, if_false]
    rcases hwhich with hop | ⟨⟨l1, hl1⟩, hop⟩
    · rw [skipSortOperation_check plan0 l operation children hop hk hlen]
    · rw [hl1]
      simp only []
      rw [skipSortOperation_check plan0 r operation children hop hk hlen]
  · have hleftLt : left < plan.operations.length := by
      rcases List.getElem?_eq_some.1 hleft with ⟨hlt, -⟩
      exact hlt
    have hrightLt : right < plan.operations.length := by
      rcases List.getElem?_eq_some.1 hright with ⟨hlt, -⟩
      exact hlt
    have heq : Service.precomputeSiblingResult ctx left right rightOnly requestLaziness plan
        = Service.precomputeFor ctx service sibling requestLaziness plan := by
      rcases hsides with ⟨hl, hr, honly⟩ | ⟨hl, hr⟩
      · exact precomputeSiblingResult_eq_precomputeFor ctx left right rightOnly
          requestLaziness plan service sibling service sibling hleftLt hrightLt
          (skipSortOperation_sort plan left service leftOperation hleft hl)
          (skipSortOperation_sort plan right sibling rightOperation hright hr) hcache hservice
          (Or.inl ⟨rfl, rfl, by rw [hnoService, honly]⟩)
      · exact precomputeSiblingResult_eq_precomputeFor ctx left right rightOnly
          requestLaziness plan sibling service service sibling hleftLt hrightLt
          (skipSortOperation_sort plan left sibling leftOperation hleft hl)
          (skipSortOperation_sort plan right service rightOperation hright hr) hcache hservice
          (Or.inr ⟨rfl, rfl, hnoService⟩)
    rw [heq]
    simp only [Service.precomputeFor, hsibling, hresult, hsmall, decide_True, if_true]
    have hsome : (plan.operations[sibling]?).isSome = true := by rw [hsibling]; rfl
    refine ⟨_, rfl, ?_, ?_, ?_, ?_, ?_⟩
    · rw [addRuntimeInfo_siblingInfo, Plan.siblingInfo_modify]
      · exact Plan.siblingInfo_emplace _ _ _ hservice
      · intro _; rfl
    · rw [addRuntimeInfo_resultRequests, Plan.modify_resultRequests,
        Plan.resultRequests_emplace]
    · rw [addRuntimeInfo_precomputedResult]
      apply Plan.precomputedResult_set
      rw [Plan.isSome_emplace]; exact hsome
    · intro op hop
      rw [addRuntimeInfo_precomputedResult, Plan.precomputedResult_modify_other _ _ _ _ hop,
        Plan.precomputedResult_emplace]
      rfl
    · intro op hop
      rw [addRuntimeInfo_siblingInfo, Plan.siblingInfo_modify]
      · rw [Plan.siblingInfo_emplace_other _ _ _ _ hop]
        rfl
      · intro _; rfl

theorem precomputeSiblingResult_skips_sort_witness :
    Service.precomputeSiblingResult Example.ctx 0 1 false false Example.planSortTwoChildren
        = some (.error (.CorrectnessCheck "children.size() == 1"), Example.planSortTwoChildren)
      ∧ ∃ plan1, Service.precomputeSiblingResult Example.ctx 0 1 false false Example.planSorted
          = some (.ok (), plan1)
        ∧ plan1.siblingInfo 2
          = some ⟨some (.materialized
              (Example.siblingTable [⟨Datatype.Int, 1⟩, ⟨Datatype.Int, 2⟩]) [0]
              LocalVocab.empty), [(⟨"?x"⟩, ⟨0, UndefStatus.AlwaysDefined⟩)], "sibling"⟩
        ∧ plan1.resultRequests = [(3, ComputationMode.FULLY_MATERIALIZED)]
        ∧ plan1.precomputedResult 3 = some Example.twoRows
        ∧ plan1.precomputedResult 1 = none
        ∧ plan1.siblingInfo 0 = none := by
  obtain ⟨-, -, -, hcheck, plan1, h1, h2, h3, h4, h5, h6⟩ :=
    precomputeSiblingResult_skips_sort Example.ctx 0 1 false false Example.planSorted 2 3
      (Example.sortOperation [2]) (Example.sortOperation [3])
      (Example.otherOperation (.ok Example.twoRows))
      (Example.siblingTable [⟨Datatype.Int, 1⟩, ⟨Datatype.Int, 2⟩]) [0] LocalVocab.empty
      rfl rfl (Or.inl ⟨rfl, rfl, rfl⟩) rfl rfl rfl rfl rfl (by decide)
  refine ⟨?_, plan1, h1, h2, h3, h4, ?_, ?_⟩
  · exact hcheck Example.planSortTwoChildren 0 1 (Example.sortOperation [2, 3]) [2, 3] false
      false (by decide) (by decide) (Or.inl rfl) rfl (by decide)
  · rw [h5 1 (by decide)]
    rfl
  · rw [h6 0 (by decide)]
    rfl

theorem precomputeFor_materialized_siblingInfo (ctx : Context) (service sibling : Nat)
    (requestLaziness : Bool) (plan : Plan) (siblingOperation : Operation) (idTable : IdTable)
    (sortedBy : List Nat) (localVocab : LocalVocab)
    (hservice : plan.isService service = true)
    (hsibling : plan.operations[sibling]? = some siblingOperation)
    (hresult : siblingOperation.getResult
        (if requestLaziness then ComputationMode.LAZY_IF_SUPPORTED
          else ComputationMode.FULLY_MATERIALIZED)
      = .ok (.materialized idTable sortedBy localVocab)) :
    ∃ plan1, Service.precomputeFor ctx service sibling requestLaziness plan
        = some (.ok (), plan1)
      ∧ plan1.siblingInfo service
        = (if idTable.size ≤ ctx.runtimeParameters.serviceMaxValueRows then
            some ⟨some (.materialized idTable sortedBy localVocab),
              siblingOperation.getExternallyVisibleVariableColumns,
              siblingOperation.getCacheKey⟩
          else plan.siblingInfo service) := by
  simp only [Service.precomputeFor, hsibling, hresult]
  refine ⟨_, rfl, ?_⟩
  rw [addRuntimeInfo_siblingInfo, Plan.siblingInfo_modify]
  swap
  · intro _; rfl
  by_cases hsmall : idTable.size ≤ ctx.runtimeParameters.serviceMaxValueRows
  · simp only [hsmall, decide_True, if_true]
    exact Plan.siblingInfo_emplace _ _ _ hservice
  · simp only [hsmall, decide_False, Bool.false_eq_true, if_false]
    rfl

theorem precomputeFor_lazy_siblingInfo (ctx : Context) (service sibling : Nat)
    (requestLaziness : Bool) (plan : Plan) (siblingOperation : Operation)
    (idTables : LazyResult) (sortedBy : List Nat) (chunks : List IdTableVocabPair)
    (hservice : plan.isService service = true)
    (hsibling : plan.operations[sibling]? = some siblingOperation)
    (hresult : siblingOperation.getResult
        (if requestLaziness then ComputationMode.LAZY_IF_SUPPORTED
          else ComputationMode.FULLY_MATERIALIZED)
      = .ok (.lazy idTables sortedBy))
    (hchunks : idTables.consume = some (chunks, none)) :
    ∃ plan1, Service.precomputeFor ctx service sibling requestLaziness plan
        = some (.ok (), plan1)
      ∧ plan1.siblingInfo service
        = (if (chunks.map (fun pair => pair.idTable_.size)).sum
              ≤ ctx.runtimeParameters.serviceMaxValueRows then
            some ⟨some (.materialized
                ⟨siblingOperation.getResultWidth,
                  (chunks.map (fun pair => pair.idTable_.rows)).flatten⟩ sortedBy
                (chunks.foldl (fun merged pair => merged.mergeWith pair.localVocab_)
                  LocalVocab.empty)),
              siblingOperation.getExternallyVisibleVariableColumns,
              siblingOperation.getCacheKey⟩
          else plan.siblingInfo service) := by
  rcases precomputeLoop_spec ctx.runtimeParameters.serviceMaxValueRows
    (idTables.numPending + 1) idTables 0 [] chunks none (by omega) hchunks
    (Nat.zero_le _) with ⟨h1, h2⟩ | ⟨k, generator, h1, h2, h3, h4, h5⟩
  · simp only [Nat.zero_add, List.nil_append] at h1 h2
    simp only [Service.precomputeFor, hsibling, hresult, h2, h1, if_true]
    refine ⟨_, rfl, ?_⟩
    rw [addRuntimeInfo_siblingInfo, Plan.siblingInfo_modify]
    swap
    · intro _; rfl
    have htable : (Service.concatenatePairs chunks
        ⟨IdTable.mk0 siblingOperation.getResultWidth, LocalVocab.empty⟩).idTable_
        = ⟨siblingOperation.getResultWidth,
            (chunks.map (fun pair => pair.idTable_.rows)).flatten⟩ := by
      rw [concatenatePairs_spec]
      simp [IdTable.mk0]
    rw [htable, concatenatePairs_localVocab]
    exact Plan.siblingInfo_emplace _ _ _ hservice
  · simp only [Nat.zero_add, List.nil_append] at h2 h3 h4
    have hbig : ¬ (chunks.map (fun pair => pair.idTable_.size)).sum
        ≤ ctx.runtimeParameters.serviceMaxValueRows := by
      have := sum_sizes_take_le chunks (k + 1) chunks.length (by omega)
      rw [List.take_length] at this
      omega
    simp only [Service.precomputeFor, hsibling, hresult, h4, hbig, if_false]
    refine ⟨_, rfl, ?_⟩
    rw [addRuntimeInfo_siblingInfo, Plan.siblingInfo_modify]
    · rfl
    · intro _; rfl

/-- C36: a sibling that delivers the chunks `c1..cn` (the stream ends normally) when laziness
is requested and a materialized table with the rows of `c1..cn` in order otherwise.  With
`n` the number of these rows and `t` the threshold, `precomputeSiblingResult` succeeds in
both modes; when `n ≤ t` it sets the sibling info of the SERVICE in both modes, to tables
with the same rows in the same order, and when `n > t` it leaves the sibling info as it was
in both modes.  So for a SERVICE without sibling info, the info is set on the stream exactly
when `n ≤ t` and on the table exactly when `n ≤ t`. -/
theorem precomputeSiblingResult_same_decision (ctx : Context) (left right : Nat)
    (rightOnly : Bool) (plan : Plan) (left1 right1 service sibling : Nat)
    (siblingOperation : Operation) (idTables : LazyResult) (sortedBy : List Nat)
    (chunks : List IdTableVocabPair) (idTable : IdTable) (sortedByTable : List Nat)
    (localVocab : LocalVocab)
    (hleft : left < plan.operations.length) (hright : right < plan.operations.length)
    (hleft1 : Service.skipSortOperation plan left = .ok left1)
    (hright1 : Service.skipSortOperation plan right = .ok right1)
    (hcache : ctx.runtimeParameters.cacheServiceResults = false)
    (hservice : plan.isService service = true)
    (hchoice : (service = left1 ∧ sibling = right1 ∧ plan.isService right1 = rightOnly)
      ∨ (service = right1 ∧ sibling = left1 ∧ plan.isService left1 = false))
    (hsibling : plan.operations[sibling]? = some siblingOperation)
    (hlazy : siblingOperation.getResult ComputationMode.LAZY_IF_SUPPORTED
      = .ok (.lazy idTables sortedBy))
    (hchunks : idTables.consume = some (chunks, none))
    (htable : siblingOperation.getResult ComputationMode.FULLY_MATERIALIZED
      = .ok (.materialized idTable sortedByTable localVocab))
    (hrows : idTable.rows = (chunks.map (fun pair => pair.idTable_.rows)).flatten) :
    ∃ planLazy planTable,
      Service.precomputeSiblingResult ctx left right rightOnly true plan
          = some (.ok (), planLazy)
      ∧ Service.precomputeSiblingResult ctx left right rightOnly false plan
          = some (.ok (), planTable)
      ∧ idTable.size = (chunks.map (fun pair => pair.idTable_.size)).sum
      ∧ (idTable.size ≤ ctx.runtimeParameters.serviceMaxValueRows →
          ∃ tableLazy vocabLazy,
            planLazy.siblingInfo service
              = some ⟨some (.materialized tableLazy sortedBy vocabLazy),
                  siblingOperation.getExternallyVisibleVariableColumns,
                  siblingOperation.getCacheKey⟩
            ∧ planTable.siblingInfo service
              = some ⟨some (.materialized idTable sortedByTable localVocab),
                  siblingOperation.getExternallyVisibleVariableColumns,
                  siblingOperation.getCacheKey⟩
            ∧ tableLazy.rows = idTable.rows)
      ∧ (ctx.runtimeParameters.serviceMaxValueRows < idTable.size →
          planLazy.siblingInfo service = plan.siblingInfo service
          ∧ planTable.siblingInfo service = plan.siblingInfo service)
      ∧ (plan.siblingInfo service = none →
          ((planLazy.siblingInfo service).isSome = true
            ↔ idTable.size ≤ ctx.runtimeParameters.serviceMaxValueRows)
          ∧ ((planTable.siblingInfo service).isSome = true
            ↔ idTable.size ≤ ctx.runtimeParameters.serviceMaxValueRows)) := by
  have hsize : idTable.size = (chunks.map (fun pair => pair.idTable_.size)).sum := by
    simp only [IdTable.size, hrows, List.length_flatten, List.map_map]
    rfl
  obtain ⟨planLazy, hL1, hL2⟩ := precomputeFor_lazy_siblingInfo ctx service sibling true plan
    siblingOperation idTables sortedBy chunks hservice hsibling hlazy hchunks
  obtain ⟨planTable, hT1, hT2⟩ := precomputeFor_materialized_siblingInfo ctx service sibling
    false plan siblingOperation idTable sortedByTable localVocab hservice hsibling htable
  rw [← hsize] at hL2
  refine ⟨planLazy, planTable, ?_, ?_, hsize, ?_, ?_, ?_⟩
  · rw [precomputeSiblingResult_eq_precomputeFor ctx left right rightOnly true plan
      left1 right1 service sibling hleft hright hleft1 hright1 hcache hservice hchoice]
    exact hL1
  · rw [precomputeSiblingResult_eq_precomputeFor ctx left right rightOnly false plan
      left1 right1 service sibling hleft hright hleft1 hright1 hcache hservice hchoice]
    exact hT1
  · intro hsmall
    rw [if_pos hsmall] at hL2 hT2
    exact ⟨_, _, hL2, hT2, hrows.symm⟩
  · intro hbig
    rw [if_neg (by omega)] at hL2 hT2
    exact ⟨hL2, hT2⟩
  · intro hnone
    by_cases hsmall : idTable.size ≤ ctx.runtimeParameters.serviceMaxValueRows
    · rw [if_pos hsmall] at hL2 hT2
      rw [hL2, hT2]
      simp [hsmall]
    · rw [if_neg hsmall] at hL2 hT2
      rw [hL2, hT2, hnone]
      simp [hsmall]

theorem precomputeSiblingResult_same_decision_witness :
    ∃ planLazy planTable,
      Service.precomputeSiblingResult Example.ctx 0 1 false true Example.planBothModes
          = some (.ok (), planLazy)
      ∧ Service.precomputeSiblingResult Example.ctx 0 1 false false Example.planBothModes
          = some (.ok (), planTable)
      ∧ (planLazy.siblingInfo 0).isSome = true
      ∧ (planTable.siblingInfo 0).isSome = true := by
  obtain ⟨planLazy, planTable, h1, h2, -, -, -, h6⟩ :=
    precomputeSiblingResult_same_decision Example.ctx 0 1 false Example.planBothModes 0 1 0 1
      Example.siblingBothModes
      (.range [Example.chunk [⟨Datatype.Int, 1⟩, ⟨Datatype.Int, 2⟩],
        Example.chunk [⟨Datatype.Int, 3⟩],
        Example.chunk [⟨Datatype.Int, 4⟩, ⟨Datatype.Int, 5⟩]] none) [0]
      [Example.chunk [⟨Datatype.Int, 1⟩, ⟨Datatype.Int, 2⟩],
        Example.chunk [⟨Datatype.Int, 3⟩],
        Example.chunk [⟨Datatype.Int, 4⟩, ⟨Datatype.Int, 5⟩]]
      (Example.siblingTable [⟨Datatype.Int, 1⟩, ⟨Datatype.Int, 2⟩, ⟨Datatype.Int, 3⟩,
        ⟨Datatype.Int, 4⟩, ⟨Datatype.Int, 5⟩]) [0] LocalVocab.empty
      (by decide) (by decide) rfl rfl rfl rfl (Or.inl ⟨rfl, rfl, rfl⟩) rfl rfl rfl rfl rfl
  obtain ⟨h7, h8⟩ := h6 rfl
  exact ⟨planLazy, planTable, h1, h2, h7.2 (by decide), h8.2 (by decide)⟩

/-! ## Cancellation while a fragment is decoded -/

theorem writeBindings_append (ctx : Context) (vars : List String) :
    ∀ (pre rest : List Json) (idTable : IdTable) (rowIdx : Nat) (refs : Refs),
      writeBindings ctx vars (pre ++ rest) idTable rowIdx refs
        = match writeBindings ctx vars pre idTable rowIdx refs with
          | (.ok (t1, r1), refs1) => writeBindings ctx vars rest t1 r1 refs1
          | (.error e, refs1) => (.error e, refs1) := by
  intro pre
  induction pre with
  | nil => intro rest idTable rowIdx refs; rfl
  | cons binding pre ih =>
    intro rest idTable rowIdx refs
    simp only [List.cons_append, writeBindings]
    cases writeBindingsColumns ctx binding rowIdx 0 vars
        (idTable.emplace_back ctx.uninitialized) refs with
    | mk res refs1 =>
      cases res with
      | error e => rfl
      | ok t1 =>
        simp only []
        cases checkCancellation ctx refs1.world with
        | mk rc w1 =>
          cases rc with
          | error e => rfl
          | ok u =>
            simp only []
            exact ih rest t1 (rowIdx + 1) { refs1 with world := w1 }

theorem whileLoop_of_writeJsonResult_error (ctx : Context) (partJson : Json)
    (details : LazyJsonParser.Details) (rest : List (Json × LazyJsonParser.Details))
    (g : Get) (w : World) (e : Exception) (w1 : World)
    (hhead : partJson.get? "head" = none
      ∨ (g.varsChecked = false ∧ ∃ head, partJson.get? "head" = some head
        ∧ verifyVariables g.service ctx head details = .ok ()))
    (hwrite : writeJsonResult ctx g.vars partJson g.idTable g.localVocab g.rowIdx w
      = (.error e, w1)) :
    Get.whileLoop ctx ((partJson, details) :: rest) g w = (.error (e, details), w1) := by
  simp only [Get.whileLoop]
  rcases hhead with hnone | ⟨hvc, head, hsome, hok⟩
  · simp only [hnone, hwrite]
  · simp only [hsome, hvc, Bool.false_eq_true, if_false, hok, hwrite]

theorem get_of_whileLoop_cancelled (ctx : Context) (g : Get) (w : World) (what : String)
    (details : LazyJsonParser.Details) (w1 : World)
    (hloop : Get.whileLoop ctx g.inputRange.parts g w
      = (.error (.CancellationException what, details), w1)) :
    InputRangeFromLoopControlGet.get ctx ⟨g, false⟩ w
        = (.error (.CancellationException what), w1)
      ∧ ∀ fuel, InputRangeFromLoopControlGet.drain ctx (fuel + 1) ⟨g, false⟩ w
        = some (.error (.CancellationException what), w1) := by
  have hget : InputRangeFromLoopControlGet.get ctx ⟨g, false⟩ w
      = (.error (.CancellationException what), w1) := by
    simp only [InputRangeFromLoopControlGet.get, Bool.false_eq_true, if_false, Get.call, hloop]
  refine ⟨hget, fun fuel => ?_⟩
  simp only [InputRangeFromLoopControlGet.drain, hget]

/-- C34: a fragment whose header check passes (it has no `head`, or its `head` is verified
for the first time).  If the cancellation handle is set at the poll with which
`writeJsonResult` starts, the call throws the cancellation error at once: the table is not
touched and no blank node is allocated.  If the handle is not set during the rows `pre`, the
row `binding` after them is decoded and the handle is set at the poll after that row, the
call throws the cancellation error with the global state as of that poll, whatever bindings
`post` follow: none of them is decoded.  In both cases the loop over the fragments ends with
this error, the pull of the next chunk throws it, and no chunk is delivered. -/
theorem writeJsonResult_cancellation (ctx : Context) (partJson : Json)
    (details : LazyJsonParser.Details) (rest : List (Json × LazyJsonParser.Details))
    (g : Get) (w : World)
    (hhead : partJson.get? "head" = none
      ∨ (g.varsChecked = false ∧ ∃ head, partJson.get? "head" = some head
        ∧ verifyVariables g.service ctx head details = .ok ())) :
    (ctx.cancelled w.cancellationPolls = true →
        writeJsonResult ctx g.vars partJson g.idTable g.localVocab g.rowIdx w
          = (.error (.CancellationException "Operation was cancelled"),
              { w with cancellationPolls := w.cancellationPolls + 1 })
        ∧ Get.whileLoop ctx ((partJson, details) :: rest) g w
          = (.error (.CancellationException "Operation was cancelled", details),
              { w with cancellationPolls := w.cancellationPolls + 1 })
        ∧ (g.inputRange.parts = (partJson, details) :: rest →
            InputRangeFromLoopControlGet.get ctx ⟨g, false⟩ w
              = (.error (.CancellationException "Operation was cancelled"),
                  { w with cancellationPolls := w.cancellationPolls + 1 })
            ∧ ∀ fuel, InputRangeFromLoopControlGet.drain ctx (fuel + 1) ⟨g, false⟩ w
              = some (.error (.CancellationException "Operation was cancelled"),
                  { w with cancellationPolls := w.cancellationPolls + 1 })))
      ∧ (∀ (pre : List Json) (binding : Json) (post : List Json) (t1 : IdTable) (r1 : Nat)
          (refs1 : Refs) (t2 : IdTable) (refs2 : Refs),
          ctx.cancelled w.cancellationPolls = false →
          resultsBindings partJson = some (pre ++ binding :: post) →
          writeBindings ctx g.vars pre g.idTable g.rowIdx
              ⟨[], g.localVocab, { w with cancellationPolls := w.cancellationPolls + 1 }⟩
            = (.ok (t1, r1), refs1) →
          writeBindingsColumns ctx binding r1 0 g.vars (t1.emplace_back ctx.uninitialized)
              refs1 = (.ok t2, refs2) →
          ctx.cancelled refs2.world.cancellationPolls = true →
          writeJsonResult ctx g.vars partJson g.idTable g.localVocab g.rowIdx w
            = (.error (.CancellationException "Operation was cancelled"),
                { refs2.world with cancellationPolls := refs2.world.cancellationPolls + 1 })
          ∧ Get.whileLoop ctx ((partJson, details) :: rest) g w
            = (.error (.CancellationException "Operation was cancelled", details),
                { refs2.world with cancellationPolls := refs2.world.cancellationPolls + 1 })
          ∧ (g.inputRange.parts = (partJson, details) :: rest →
              InputRangeFromLoopControlGet.get ctx ⟨g, false⟩ w
                = (.error (.CancellationException "Operation was cancelled"),
                    { refs2.world with
                      cancellationPolls := refs2.world.cancellationPolls + 1 })
              ∧ ∀ fuel, InputRangeFromLoopControlGet.drain ctx (fuel + 1) ⟨g, false⟩ w
                = some (.error (.CancellationException "Operation was cancelled"),
                    { refs2.world with
                      cancellationPolls := refs2.world.cancellationPolls + 1 }))) := by
  have finish : ∀ w1, writeJsonResult ctx g.vars partJson g.idTable g.localVocab g.rowIdx w
        = (.error (.CancellationException "Operation was cancelled"), w1) →
      writeJsonResult ctx g.vars partJson g.idTable g.localVocab g.rowIdx w
          = (.error (.CancellationException "Operation was cancelled"), w1)
        ∧ Get.whileLoop ctx ((partJson, details) :: rest) g w
          = (.error (.CancellationException "Operation was cancelled", details), w1)
        ∧ (g.inputRange.parts = (partJson, details) :: rest →
            InputRangeFromLoopControlGet.get ctx ⟨g, false⟩ w
              = (.error (.CancellationException "Operation was cancelled"), w1)
            ∧ ∀ fuel, InputRangeFromLoopControlGet.drain ctx (fuel + 1) ⟨g, false⟩ w
              = some (.error (.CancellationException "Operation was cancelled"), w1)) := by
    intro w1 hwrite
    have hloop := whileLoop_of_writeJsonResult_error ctx partJson details rest g w _ w1 hhead
      hwrite
    refine ⟨hwrite, hloop, fun hparts => ?_⟩
    rw [← hparts] at hloop
    exact get_of_whileLoop_cancelled ctx g w _ details w1 hloop
  constructor
  · intro hset
    apply finish
    simp only [writeJsonResult, checkCancellation, hset, if_true]
  · intro pre binding post t1 r1 refs1 t2 refs2 hstart hbindings hpre hrow hset
    apply finish
    simp only [writeJsonResult, checkCancellation, hstart, Bool.false_eq_true, if_false,
      hbindings]
    rw [writeBindings_append, hpre]
    simp only [writeBindings, hrow, checkCancellation, hset, if_true]

theorem writeJsonResult_cancellation_witness :
    writeJsonResult (Example.ctxCancelledAt 0) ["x", "y"] Example.fragmentPlainFirst
        (IdTable.mk0 2) LocalVocab.empty 0 Example.world
      = (.error (.CancellationException "Operation was cancelled"), ⟨1, 0, []⟩)
    ∧ writeJsonResult (Example.ctxCancelledAt 1) ["x", "y"] Example.fragmentPlainFirst
        (IdTable.mk0 2) LocalVocab.empty 0 Example.world
      = (.error (.CancellationException "Operation was cancelled"), ⟨2, 0, []⟩)
    ∧ (∀ fuel, InputRangeFromLoopControlGet.drain (Example.ctxCancelledAt 1) (fuel + 1)
        (Example.service200.computeResultLazily ["x", "y"] Example.bodyPlain false)
        Example.world
      = some (.error (.CancellationException "Operation was cancelled"), ⟨2, 0, []⟩)) := by
  have hfirst := (writeJsonResult_cancellation (Example.ctxCancelledAt 0)
    Example.fragmentPlainFirst Example.details [(Example.fragmentPlainSecond, Example.details)]
    (Example.service200.computeResultLazily ["x", "y"] Example.bodyPlain false).getter
    Example.world (Or.inr ⟨rfl, Example.headXY, rfl, rfl⟩)).1 rfl
  have hsecond := (writeJsonResult_cancellation (Example.ctxCancelledAt 1)
    Example.fragmentPlainFirst Example.details [(Example.fragmentPlainSecond, Example.details)]
    (Example.service200.computeResultLazily ["x", "y"] Example.bodyPlain false).getter
    Example.world (Or.inr ⟨rfl, Example.headXY, rfl, rfl⟩)).2 []
    (.object [("x", Example.uri "http://a"), ("y", Example.plainLiteral "one")])
    [.object [("x", Example.uri "http://b")]] (IdTable.mk0 2) 0
    ⟨[], LocalVocab.empty, ⟨1, 0, []⟩⟩
    ⟨2, [[⟨Datatype.LocalVocabIndex, 0⟩, ⟨Datatype.LocalVocabIndex, 1⟩]]⟩
    ⟨[], ⟨[.iri ⟨"http://a"⟩, .literal ⟨"one", .none⟩], []⟩, ⟨1, 0, []⟩⟩ rfl rfl rfl rfl rfl
  exact ⟨hfirst.1, hsecond.1, (hsecond.2.2 rfl).2⟩

/-! ## The header is verified once -/

theorem drain_more_fuel (ctx : Context) :
    ∀ (fuel : Nat) (r : InputRangeFromLoopControlGet) (w : World)
      (res : Except Exception (List IdTableVocabPair) × World) (k : Nat),
      r.drain ctx fuel w = some res → r.drain ctx (fuel + k) w = some res := by
  intro fuel
  induction fuel with
  | zero => intro r w res k h; cases h
  | succ fuel ih =>
    intro r w res k h
    have hk : fuel + 1 + k = (fuel + k) + 1 := by omega
    rw [hk]
    simp only [InputRangeFromLoopControlGet.drain] at h ⊢
    cases hget : r.get ctx w with
    | mk out w1 =>
      cases out with
      | error e => simp only [hget] at h ⊢; exact h
      | ok v =>
        obtain ⟨o, r1⟩ := v
        cases o with
        | none => simp only [hget] at h ⊢; exact h
        | some pair =>
          simp only [hget] at h ⊢
          cases hrest : InputRangeFromLoopControlGet.drain ctx fuel r1 w1 with
          | none => simp [hrest] at h
          | some res1 =>
            rw [ih r1 w1 res1 k hrest]
            rw [hrest] at h
            exact h

theorem whileLoop_second_head (ctx : Context) (partJson head : Json)
    (details : LazyJsonParser.Details) (rest : List (Json × LazyJsonParser.Details))
    (g : Get) (w : World) (hhead : partJson.get? "head" = some head)
    (hchecked : g.varsChecked = true) :
    Get.whileLoop ctx ((partJson, details) :: rest) g w
      = (.error (.CorrectnessCheck "!varsChecked", details), w) := by
  simp only [Get.whileLoop, hhead, hchecked, if_true]

theorem whileLoop_head_mismatch (ctx : Context) (partJson head : Json)
    (details : LazyJsonParser.Details) (rest : List (Json × LazyJsonParser.Details))
    (g : Get) (w : World) (e : Exception) (hhead : partJson.get? "head" = some head)
    (hchecked : g.varsChecked = false)
    (hverify : verifyVariables g.service ctx head details = .error e) :
    Get.whileLoop ctx ((partJson, details) :: rest) g w = (.error (e, details), w) := by
  simp only [Get.whileLoop, hhead, hchecked, Bool.false_eq_true, if_false, hverify]

theorem whileLoop_extended (ctx : Context) (extra : List (Json × LazyJsonParser.Details))
    (rangeB : LazyJsonParser.Generator) :
    ∀ (parts : List (Json × LazyJsonParser.Details)) (g : Get) (w : World)
      (out : Option IdTableVocabPair) (g1 : Get) (w1 : World),
      Get.whileLoop ctx parts g w = (.ok (out, g1), w1) →
      (∀ pair, out = some pair →
        Get.whileLoop ctx (parts ++ extra) { g with inputRange := rangeB } w
          = (.ok (some pair,
              { g1 with
                inputRange := { rangeB with parts := g1.inputRange.parts ++ extra } }), w1))
      ∧ (out = none →
        Get.whileLoop ctx (parts ++ extra) { g with inputRange := rangeB } w
          = Get.whileLoop ctx extra { g1 with inputRange := rangeB } w1) := by
  intro parts
  induction parts with
  | nil =>
    intro g w out g1 w1 h
    simp only [Get.whileLoop] at h
    cases hf : g.inputRange.failure with
    | some e => simp [hf] at h
    | none =>
      simp only [hf, Prod.mk.injEq, Except.ok.injEq] at h
      obtain ⟨⟨rfl, rfl⟩, rfl⟩ := h
      refine ⟨fun pair hp => (by cases hp), fun _ => ?_⟩
      rfl
  | cons p rest ih =>
    obtain ⟨partJson, details⟩ := p
    intro g w out g1 w1 h
    simp only [List.cons_append, Get.whileLoop] at h ⊢
    split at h
    · cases h
    · rename_i vc hvc
      split at h
      · cases h
      · rename_i written w2 hwritten
        by_cases hs : g.singleIdTable = true
        · simp only [hs, Bool.not_true, Bool.false_eq_true, if_false] at h ⊢
          exact ih _ w2 out g1 w1 h
        · have hs1 : g.singleIdTable = false := by simpa using hs
          simp only [hs1, Bool.not_false, if_true, Prod.mk.injEq, Except.ok.injEq] at h ⊢
          obtain ⟨⟨rfl, rfl⟩, rfl⟩ := h
          refine ⟨fun pair hp => ?_, fun hn => (by cases hn)⟩
          simp only [Option.some.injEq] at hp
          subst hp
          exact ⟨⟨rfl, rfl⟩, rfl⟩

theorem drain_second_head (ctx : Context) (p2 head : Json) (d2 : LazyJsonParser.Details)
    (post : List (Json × LazyJsonParser.Details)) (hhead : p2.get? "head" = some head) :
    ∀ (fuel : Nat) (g : Get) (w : World) (chunks : List IdTableVocabPair) (w1 : World)
      (rangeB : LazyJsonParser.Generator),
      rangeB.parts = g.inputRange.parts ++ (p2, d2) :: post →
      InputRangeFromLoopControlGet.drain ctx fuel ⟨g, false⟩ w = some (.ok chunks, w1) →
      InputRangeFromLoopControlGet.drain ctx fuel ⟨{ g with inputRange := rangeB }, false⟩ w
        = some (.error (.CorrectnessCheck "!varsChecked"), w1) := by
  intro fuel
  induction fuel with
  | zero => intro g w chunks w1 rangeB _ h; cases h
  | succ fuel ih =>
    intro g w chunks w1 rangeB hparts h
    obtain ⟨out, g1, w2, hloop, hkind⟩ := drain_step ctx fuel g w chunks w1 h
    obtain ⟨hsome, hnone⟩ := whileLoop_extended ctx ((p2, d2) :: post) rangeB
      g.inputRange.parts g w out g1 w2 hloop
    rcases hkind with ⟨pair, chunks1, rfl, -, hrest⟩ | ⟨rfl, rfl, -, hchecked, -⟩
    · have hB := hsome pair rfl
      rw [← hparts] at hB
      have hrec := ih g1 w2 chunks1 w1
        { rangeB with parts := g1.inputRange.parts ++ (p2, d2) :: post } rfl hrest
      simp only [InputRangeFromLoopControlGet.drain, InputRangeFromLoopControlGet.get,
        Bool.false_eq_true, if_false, Get.call, hB, hrec]
    · have hB := hnone rfl
      rw [← hparts, whileLoop_second_head ctx p2 head d2 post { g1 with inputRange := rangeB }
        w2 hhead hchecked] at hB
      simp only [InputRangeFromLoopControlGet.drain, InputRangeFromLoopControlGet.get,
        Bool.false_eq_true, if_false, Get.call, hB]

/-- C33: the fragments `pre` form a body whose decode ends without error (so the header was
verified in one of them), and `p2` is a further fragment with a `head`.  The decode of a body
that delivers `pre`, then `p2`, then anything, fails with the correctness check
`!varsChecked`, in the global state in which the decode of `pre` ended: nothing of `p2` is
verified or decoded.  In every state of the lambda: with `varsChecked` set, a fragment with a
`head` ends the loop with that check and leaves the global state untouched; with
`varsChecked` not set, a fragment whose `head` fails the verification ends the loop with the
error of the verification and leaves the global state untouched (no poll, no blank node,
hence no binding of that fragment was decoded), whatever its bindings are. -/
theorem head_verified_once (s : Service) (ctx : Context) (vars : List String)
    (pre : List (Json × LazyJsonParser.Details)) (p2 head : Json)
    (d2 detailsPre detailsAll : LazyJsonParser.Details)
    (post : List (Json × LazyJsonParser.Details)) (failure : Option Exception)
    (singleIdTable : Bool) (w : World) (chunks : List IdTableVocabPair) (w1 : World)
    (hhead : p2.get? "head" = some head)
    (hpre : (s.computeResultLazily vars ⟨pre, none, detailsPre⟩ singleIdTable).consume ctx w
      = some (.ok chunks, w1)) :
    (s.computeResultLazily vars ⟨pre ++ (p2, d2) :: post, failure, detailsAll⟩
        singleIdTable).consume ctx w
      = some (.error (.CorrectnessCheck "!varsChecked"), w1)
    ∧ (∃ p ∈ pre, (p.1.get? "head").isSome = true)
    ∧ (∀ (g : Get) (w0 : World) (partJson head0 : Json) (details : LazyJsonParser.Details)
        (rest : List (Json × LazyJsonParser.Details)),
        partJson.get? "head" = some head0 → g.varsChecked = true →
        Get.whileLoop ctx ((partJson, details) :: rest) g w0
          = (.error (.CorrectnessCheck "!varsChecked", details), w0))
    ∧ (∀ (g : Get) (w0 : World) (partJson head0 : Json) (details : LazyJsonParser.Details)
        (rest : List (Json × LazyJsonParser.Details)) (e : Exception),
        partJson.get? "head" = some head0 → g.varsChecked = false →
        verifyVariables g.service ctx head0 details = .error e →
        Get.whileLoop ctx ((partJson, details) :: rest) g w0 = (.error (e, details), w0)) := by
  refine ⟨?_, ?_, ?_, ?_⟩
  · simp only [InputRangeFromLoopControlGet.consume] at hpre ⊢
    have hB := drain_second_head ctx p2 head d2 post hhead _
      (s.computeResultLazily vars ⟨pre, none, detailsPre⟩ singleIdTable).getter w chunks w1
      ⟨pre ++ (p2, d2) :: post, failure, detailsAll⟩ rfl hpre
    have hmore := drain_more_fuel ctx _ _ w _ (post.length + 1) hB
    have hfuel : (s.computeResultLazily vars ⟨pre ++ (p2, d2) :: post, failure, detailsAll⟩
        singleIdTable).getter.inputRange.parts.length + 2
        = (s.computeResultLazily vars ⟨pre, none, detailsPre⟩
            singleIdTable).getter.inputRange.parts.length + 2 + (post.length + 1) := by
      simp [Service.computeResultLazily]
      omega
    rw [hfuel]
    exact hmore
  · obtain ⟨-, h2, -⟩ := drain_ok_history ctx _ _ w chunks w1 rfl hpre
    rcases h2 with h2 | h2
    · cases h2
    · exact h2
  · intro g w0 partJson head0 details rest h1 h2
    exact whileLoop_second_head ctx partJson head0 details rest g w0 h1 h2
  · intro g w0 partJson head0 details rest e h1 h2 h3
    exact whileLoop_head_mismatch ctx partJson head0 details rest g w0 e h1 h2 h3

theorem head_verified_once_witness :
    (Example.service200.computeResultLazily ["x", "y"]
        ⟨[(Example.fragmentFirst, Example.details)], none, Example.details⟩ false).consume
        Example.ctx Example.world
      = some (.ok [⟨⟨2, [[ValueId.makeFromBlankNodeIndex 0, ValueId.makeFromBlankNodeIndex 0]]⟩,
          ⟨[], [0]⟩⟩], ⟨3, 1, []⟩)
    ∧ (Example.service200.computeResultLazily ["x", "y"]
        ⟨[(Example.fragmentFirst, Example.details)]
          ++ (Example.fragmentFirst, Example.details) :: [], none, Example.details⟩
        false).consume Example.ctx Example.world
      = some (.error (.CorrectnessCheck "!varsChecked"), ⟨3, 1, []⟩) :=
  ⟨rfl, (head_verified_once Example.service200 Example.ctx ["x", "y"]
    [(Example.fragmentFirst, Example.details)] Example.fragmentFirst Example.headXY
    Example.details Example.details Example.details [] none false Example.world _ _ rfl
    rfl).1⟩

/-! ## Every write stays inside the table -/

theorem writeBindingsColumns_overwrites (ctx other : Context) (garbage : ValueId)
    (hother : other = { ctx with uninitialized := garbage }) (binding : Json) (rowIdx : Nat) :
    ∀ (vars : List String) (colIdx : Nat) (tableA : IdTable) (refs : Refs)
      (rowA rowB : List ValueId),
      tableA.rows[rowIdx]? = some rowA → rowA.length = rowB.length →
      colIdx + vars.length = rowA.length → (∀ c, c < colIdx → rowA[c]? = rowB[c]?) →
      writeBindingsColumns other binding rowIdx colIdx vars
          ⟨tableA.numColumns_, tableA.rows.set rowIdx rowB⟩ refs
        = writeBindingsColumns ctx binding rowIdx colIdx vars tableA refs := by
  intro vars
  induction vars with
  | nil =>
    intro colIdx tableA refs rowA rowB hrow hlen hcol hsame
    have hrows : rowB = rowA := by
      apply List.ext_getElem?
      intro n
      by_cases hn : n < colIdx
      · exact (hsame n hn).symm
      · simp only [List.length_nil, Nat.add_zero] at hcol
        rw [List.getElem?_eq_none (by omega), List.getElem?_eq_none (by omega)]
    subst hrows
    simp only [writeBindingsColumns, set_getElem?_self _ _ _ hrow]
  | cons var vars ih =>
    intro colIdx tableA refs rowA rowB hrow hlen hcol hsame
    have hcolA : colIdx < rowA.length := by simp at hcol; omega
    have hcolB : colIdx < rowB.length := by omega
    have hlt : rowIdx < tableA.rows.length := by
      rcases List.getElem?_eq_some.1 hrow with ⟨hlt, -⟩
      exact hlt
    have hrowB : (⟨tableA.numColumns_, tableA.rows.set rowIdx rowB⟩ : IdTable).rows[rowIdx]?
        = some rowB := by
      simp [hlt]
    have hvocab : other.vocab = ctx.vocab := by rw [hother]
    have step : ∀ (tc : TripleComponent) (refs1 : Refs),
        writeBindingsColumns other binding rowIdx (colIdx + 1)
            vars
            ⟨tableA.numColumns_, (tableA.rows.set rowIdx rowB).set rowIdx
              (rowB.set colIdx (tc.toValueId ctx.vocab refs1.localVocab).1)⟩
            { refs1 with localVocab := (tc.toValueId ctx.vocab refs1.localVocab).2 }
          = writeBindingsColumns ctx binding rowIdx (colIdx + 1) vars
            ⟨tableA.numColumns_, tableA.rows.set rowIdx
              (rowA.set colIdx (tc.toValueId ctx.vocab refs1.localVocab).1)⟩
            { refs1 with localVocab := (tc.toValueId ctx.vocab refs1.localVocab).2 } := by
      intro tc refs1
      have hA1 : (⟨tableA.numColumns_, tableA.rows.set rowIdx
          (rowA.set colIdx (tc.toValueId ctx.vocab refs1.localVocab).1)⟩ : IdTable).rows[rowIdx]?
          = some (rowA.set colIdx (tc.toValueId ctx.vocab refs1.localVocab).1) := by
        simp [hlt]
      have := ih (colIdx + 1)
        ⟨tableA.numColumns_, tableA.rows.set rowIdx
          (rowA.set colIdx (tc.toValueId ctx.vocab refs1.localVocab).1)⟩
        { refs1 with localVocab := (tc.toValueId ctx.vocab refs1.localVocab).2 }
        (rowA.set colIdx (tc.toValueId ctx.vocab refs1.localVocab).1)
        (rowB.set colIdx (tc.toValueId ctx.vocab refs1.localVocab).1) hA1
        (by simp [hlen]) (by simp at hcol ⊢; omega)
        (by
          intro c hc
          by_cases hcc : c = colIdx
          · subst hcc
            simp [hcolA, hcolB]
          · rw [List.getElem?_set_ne (Ne.symm hcc), List.getElem?_set_ne (Ne.symm hcc)]
            exact hsame c (by omega))
      simp only [List.set_set] at this ⊢
      exact this
    simp only [writeBindingsColumns, hvocab]
    cases hget : binding.get? var with
    | none =>
      simp only [IdTable.set?_eq_some _ rowIdx colIdx _ rowB hrowB hcolB,
        IdTable.set?_eq_some tableA rowIdx colIdx _ rowA hrow hcolA]
      exact step .UNDEF refs
    | some b =>
      have hsameCall : ∀ b0 refs0, bindingToTripleComponent other b0 refs0
          = bindingToTripleComponent ctx b0 refs0 := by
        intro b0 refs0; rw [hother]; rfl
      simp only [hsameCall]
      cases bindingToTripleComponent ctx b refs with
      | mk res refs1 =>
        cases res with
        | error e => rfl
        | ok tc =>
          simp only [IdTable.set?_eq_some _ rowIdx colIdx _ rowB hrowB hcolB,
            IdTable.set?_eq_some tableA rowIdx colIdx _ rowA hrow hcolA]
          exact step tc refs1

theorem writeBindingsColumns_shape (ctx : Context) (binding : Json) (rowIdx : Nat)
    (vars : List String) (idTable : IdTable) (refs : Refs) (row : List ValueId)
    (hrow : idTable.rows[rowIdx]? = some row) (hlen : vars.length ≤ row.length)
    (t : IdTable) (refs1 : Refs)
    (h : writeBindingsColumns ctx binding rowIdx 0 vars idTable refs = (.ok t, refs1)) :
    t.numColumns_ = idTable.numColumns_ ∧ t.rows.length = idTable.rows.length := by
  obtain ⟨h1, row1, h2, -⟩ := (writeBindingsColumns_spec ctx binding rowIdx vars 0 idTable refs
    row hrow (by omega)).1 t refs1 h
  exact ⟨h1, by rw [h2]; simp⟩

theorem writeBindings_garbage (ctx other : Context) (garbage : ValueId)
    (hother : other = { ctx with uninitialized := garbage }) (vars : List String) :
    ∀ (bindings : List Json) (idTable : IdTable) (rowIdx : Nat) (refs : Refs),
      rowIdx = idTable.rows.length → vars.length = idTable.numColumns_ →
      writeBindings other vars bindings idTable rowIdx refs
        = writeBindings ctx vars bindings idTable rowIdx refs := by
  intro bindings
  induction bindings with
  | nil => intro idTable rowIdx refs _ _; rfl
  | cons binding rest ih =>
    intro idTable rowIdx refs hr hw
    have hrowA : (idTable.emplace_back ctx.uninitialized).rows[rowIdx]?
        = some (List.replicate idTable.numColumns_ ctx.uninitialized) := by
      simp only [IdTable.emplace_back, hr]
      exact List.getElem?_concat_length _ _
    have htable : idTable.emplace_back garbage
        = ⟨(idTable.emplace_back ctx.uninitialized).numColumns_,
            (idTable.emplace_back ctx.uninitialized).rows.set rowIdx
              (List.replicate idTable.numColumns_ garbage)⟩ := by
      simp only [IdTable.emplace_back, hr]
      rw [List.set_append_right _ _ (le_refl _)]
      simp
    have hcols := writeBindingsColumns_overwrites ctx other garbage hother binding rowIdx vars 0
      (idTable.emplace_back ctx.uninitialized) refs
      (List.replicate idTable.numColumns_ ctx.uninitialized)
      (List.replicate idTable.numColumns_ garbage) hrowA (by simp) (by simp [hw])
      (fun c hc => absurd hc (Nat.not_lt_zero c))
    rw [← htable] at hcols
    simp only [writeBindings]
    have hgarbage : other.uninitialized = garbage := by rw [hother]
    rw [hgarbage, hcols]
    cases hc : writeBindingsColumns ctx binding rowIdx 0 vars
        (idTable.emplace_back ctx.uninitialized) refs with
    | mk res refs1 =>
      cases res with
      | error e => rfl
      | ok t1 =>
        obtain ⟨hn, hl⟩ := writeBindingsColumns_shape ctx binding rowIdx vars _ refs _ hrowA
          (by simp [hw]) t1 refs1 hc
        simp only []
        have hcc : checkCancellation other refs1.world
            = checkCancellation ctx refs1.world := by rw [hother]; rfl
        rw [hcc]
        cases checkCancellation ctx refs1.world with
        | mk rc w1 =>
          cases rc with
          | error e => rfl
          | ok u =>
            simp only []
            exact ih t1 (rowIdx + 1) { refs1 with world := w1 }
              (by rw [hl, hr]; simp [IdTable.emplace_back])
              (by rw [hn]; simpa [IdTable.emplace_back] using hw)

theorem writeJsonResult_garbage (ctx other : Context) (garbage : ValueId)
    (hother : other = { ctx with uninitialized := garbage }) (vars : List String)
    (partJson : Json) (idTable : IdTable) (localVocab : LocalVocab) (rowIdx : Nat) (w : World)
    (hr : rowIdx = idTable.rows.length) (hw : vars.length = idTable.numColumns_) :
    writeJsonResult other vars partJson idTable localVocab
        rowIdx w
      = writeJsonResult ctx vars partJson idTable localVocab rowIdx w := by
  simp only [writeJsonResult]
  have hcc : ∀ w0, checkCancellation other w0 = checkCancellation ctx w0 := by
    intro w0; rw [hother]; rfl
  simp only [hcc]
  cases checkCancellation ctx w with
  | mk rc w1 =>
    cases rc with
    | error e => rfl
    | ok u =>
      simp only []
      cases resultsBindings partJson with
      | none => rfl
      | some bindings =>
        simp only []
        rw [writeBindings_garbage ctx other garbage hother vars bindings idTable rowIdx _ hr hw]

theorem whileLoop_inbounds (ctx : Context) :
    ∀ (parts : List (Json × LazyJsonParser.Details)) (g : Get) (w : World)
      (out : Option IdTableVocabPair) (g1 : Get) (w1 : World),
      g.rowIdx = g.idTable.rows.length → g.vars.length = g.idTable.numColumns_ →
      Get.whileLoop ctx parts g w = (.ok (out, g1), w1) →
      g1.rowIdx = g1.idTable.rows.length ∧ g1.vars.length = g1.idTable.numColumns_
        ∧ (∀ pair, out = some pair → g1.rowIdx = 0 ∧ g1.idTable.rows = []
            ∧ g1.localVocab = LocalVocab.empty
            ∧ pair.idTable_.numColumns_ = g.idTable.numColumns_) := by
  intro parts
  induction parts with
  | nil =>
    intro g w out g1 w1 hr hw h
    simp only [Get.whileLoop] at h
    cases hf : g.inputRange.failure with
    | some e => simp [hf] at h
    | none =>
      simp only [hf, Prod.mk.injEq, Except.ok.injEq] at h
      obtain ⟨⟨rfl, rfl⟩, rfl⟩ := h
      exact ⟨hr, hw, fun pair hp => (by cases hp)⟩
  | cons p rest ih =>
    obtain ⟨partJson, details⟩ := p
    intro g w out g1 w1 hr hw h
    simp only [Get.whileLoop] at h
    split at h
    · cases h
    · rename_i vc hvc
      split at h
      · cases h
      · rename_i written w2 hwritten
        obtain ⟨h1, h2⟩ := writeJsonResult_inbounds ctx g.vars partJson g.idTable g.localVocab
          g.rowIdx w hr (le_of_eq hw) written w2 hwritten
        by_cases hs : g.singleIdTable = true
        · simp only [hs, Bool.not_true, Bool.false_eq_true, if_false] at h
          obtain ⟨i1, i2, i3⟩ := ih
            { g with
              singleIdTable := true
              idTable := written.idTable
              localVocab := written.localVocab
              rowIdx := written.rowIdx
              varsChecked := vc
              resultExists := true } w2 out g1 w1 h1 (hw.trans h2.symm) h
          refine ⟨i1, i2, fun pair hp => ?_⟩
          obtain ⟨j1, j2, j3, j4⟩ := i3 pair hp
          exact ⟨j1, j2, j3, j4.trans h2⟩
        · have hs1 : g.singleIdTable = false := by simpa using hs
          simp only [hs1, Bool.not_false, if_true, Prod.mk.injEq, Except.ok.injEq] at h
          obtain ⟨⟨rfl, rfl⟩, rfl⟩ := h
          refine ⟨rfl, ?_, fun pair hp => ?_⟩
          · show g.vars.length = written.idTable.numColumns_
            rw [h2]; exact hw
          · simp only [Option.some.injEq] at hp
            subst hp
            exact ⟨rfl, rfl, rfl, h2⟩

theorem get_inbounds (ctx : Context) (g : Get) (w : World) (out : Option IdTableVocabPair)
    (r1 : InputRangeFromLoopControlGet) (w1 : World)
    (hr : g.rowIdx = g.idTable.rows.length) (hw : g.vars.length = g.idTable.numColumns_)
    (h : InputRangeFromLoopControlGet.get ctx ⟨g, false⟩ w = (.ok (out, r1), w1)) :
    r1.getter.rowIdx = r1.getter.idTable.rows.length
      ∧ r1.getter.vars.length = r1.getter.idTable.numColumns_
      ∧ r1.getter.inputRange.failure = g.inputRange.failure
      ∧ (r1.finished = false → ∃ pair, out = some pair) := by
  simp only [InputRangeFromLoopControlGet.get, Bool.false_eq_true, if_false, Get.call] at h
  cases hloop : Get.whileLoop ctx g.inputRange.parts g w with
  | mk res w2 =>
    cases res with
    | error pe =>
      obtain ⟨e, d⟩ := pe
      cases e <;> simp [hloop] at h
    | ok v =>
      obtain ⟨o, g1⟩ := v
      obtain ⟨i1, i2, -⟩ := whileLoop_inbounds ctx _ g w o g1 w2 hr hw hloop
      obtain ⟨-, -, -, -, -, -, -, -, -, hfail, -⟩ := whileLoop_flags ctx _ g w o g1 w2 hloop
      cases o with
      | some pair =>
        simp only [hloop, Prod.mk.injEq, Except.ok.injEq] at h
        obtain ⟨⟨rfl, rfl⟩, rfl⟩ := h
        exact ⟨i1, i2, hfail, fun _ => ⟨pair, rfl⟩⟩
      | none =>
        cases hre : g1.resultExists with
        | false => simp [hloop, hre] at h
        | true =>
          cases hvc : g1.varsChecked with
          | false => simp [hloop, hre, hvc] at h
          | true =>
            cases hs : g1.singleIdTable with
            | false =>
              simp only [hloop, hre, hvc, hs, Bool.not_true, Bool.false_eq_true, if_false,
                Prod.mk.injEq, Except.ok.injEq] at h
              obtain ⟨⟨rfl, rfl⟩, rfl⟩ := h
              exact ⟨i1, i2, hfail, fun hfin => (by cases hfin)⟩
            | true =>
              simp only [hloop, hre, hvc, hs, Bool.not_true, Bool.false_eq_true, if_false,
                if_true, Prod.mk.injEq, Except.ok.injEq] at h
              obtain ⟨⟨rfl, rfl⟩, rfl⟩ := h
              exact ⟨i1, i2, hfail, fun hfin => (by cases hfin)⟩

theorem whileLoop_garbage (ctx other : Context) (garbage : ValueId)
    (hother : other = { ctx with uninitialized := garbage }) :
    ∀ (parts : List (Json × LazyJsonParser.Details)) (g : Get) (w : World),
      g.rowIdx = g.idTable.rows.length → g.vars.length = g.idTable.numColumns_ →
      Get.whileLoop other parts g w = Get.whileLoop ctx parts g w := by
  have hverify : ∀ clause head details, verifyVariables clause other head details
      = verifyVariables clause ctx head details := by
    intro clause head details; rw [hother]; rfl
  intro parts
  induction parts with
  | nil => intro g w _ _; rfl
  | cons p rest ih =>
    obtain ⟨partJson, details⟩ := p
    intro g w hr hw
    simp only [Get.whileLoop, hverify,
      writeJsonResult_garbage ctx other garbage hother g.vars partJson g.idTable g.localVocab
        g.rowIdx w hr hw]
    split
    · rfl
    · rename_i vc hvc
      cases hwritten : writeJsonResult ctx g.vars partJson g.idTable g.localVocab g.rowIdx w with
      | mk res w2 =>
        cases res with
        | error e => rfl
        | ok written =>
          obtain ⟨h1, h2⟩ := writeJsonResult_inbounds ctx g.vars partJson g.idTable
            g.localVocab g.rowIdx w hr (le_of_eq hw) written w2 hwritten
          simp only []
          split
          · rfl
          · exact ih _ w2 h1 (hw.trans h2.symm)

theorem drain_garbage (ctx other : Context) (garbage : ValueId)
    (hother : other = { ctx with uninitialized := garbage }) :
    ∀ (fuel : Nat) (r : InputRangeFromLoopControlGet) (w : World),
      r.getter.rowIdx = r.getter.idTable.rows.length →
      r.getter.vars.length = r.getter.idTable.numColumns_ →
      r.drain other fuel w = r.drain ctx fuel w := by
  have hthrow : ∀ clause msg first last, throwErrorWithContext clause other msg first last
      = throwErrorWithContext clause ctx msg first last := by
    intro clause msg first last; rw [hother]; rfl
  have hget : ∀ (r : InputRangeFromLoopControlGet) (w : World),
      r.getter.rowIdx = r.getter.idTable.rows.length →
      r.getter.vars.length = r.getter.idTable.numColumns_ →
      r.get other w = r.get ctx w := by
    intro r w hr hw
    simp only [InputRangeFromLoopControlGet.get, Get.call,
      whileLoop_garbage ctx other garbage hother _ r.getter w hr hw, hthrow]
  intro fuel
  induction fuel with
  | zero => intro r w _ _; rfl
  | succ fuel ih =>
    intro r w hr hw
    simp only [InputRangeFromLoopControlGet.drain, hget r w hr hw]
    cases hpull : r.get ctx w with
    | mk res w1 =>
      cases res with
      | error e => rfl
      | ok v =>
        obtain ⟨o, r1⟩ := v
        cases o with
        | none => rfl
        | some pair =>
          simp only []
          have hinv : r1.getter.rowIdx = r1.getter.idTable.rows.length
              ∧ r1.getter.vars.length = r1.getter.idTable.numColumns_ := by
            obtain ⟨g, fin⟩ := r
            cases fin with
            | true =>
              simp [InputRangeFromLoopControlGet.get] at hpull
            | false =>
              obtain ⟨i1, i2, -⟩ := get_inbounds ctx g w _ r1 w1 hr hw hpull
              exact ⟨i1, i2⟩
          rw [ih r1 w1 hinv.1 hinv.2]

theorem isStdException_of_isCancellation (e : Exception) (h : e.isCancellation = true) :
    e.isStdException = true := by
  cases e <;> first | rfl | cases h

theorem getString_error_std (j : Json) (e : Exception) (h : j.getString = .error e) :
    e.isStdException = true := by
  cases j <;> simp only [Json.getString] at h <;> cases h <;> rfl

theorem bindingToTripleComponent_error_std (ctx : Context) (b : Json) (refs : Refs)
    (e : Exception)
    (hconv : ∀ v iri e, ctx.literalAndDatatypeToTripleComponent v iri = .error e →
      e.isStdException = true)
    (h : (bindingToTripleComponent ctx b refs).1 = .error e) : e.isStdException = true := by
  simp only [bindingToTripleComponent] at h
  split at h
  · cases h; rfl
  · split at h
    · rename_i e1 he1
      cases h
      exact getString_error_std _ _ he1
    · split at h
      · rename_i e1 he1
        cases h
        exact getString_error_std _ _ he1
      · split at h
        · simp only [bindingToLiteral] at h
          split at h
          · split at h
            · rename_i e1 he1
              cases h
              exact getString_error_std _ _ he1
            · exact hconv _ _ _ h
          · split at h
            · split at h
              · rename_i e1 he1
                cases h
                exact getString_error_std _ _ he1
              · cases h
            · cases h
        · split at h
          · cases h
          · split at h
            · split at h <;> cases h
            · cases h; rfl

theorem writeJsonResult_error_std (ctx : Context) (vars : List String) (partJson : Json)
    (idTable : IdTable) (localVocab : LocalVocab) (rowIdx : Nat) (w : World)
    (hconv : ∀ v iri e, ctx.literalAndDatatypeToTripleComponent v iri = .error e →
      e.isStdException = true)
    (hr : rowIdx = idTable.rows.length) (hw : vars.length = idTable.numColumns_)
    (e : Exception) (w1 : World)
    (h : writeJsonResult ctx vars partJson idTable localVocab rowIdx w = (.error e, w1)) :
    e.isStdException = true := by
  simp only [writeJsonResult] at h
  split at h
  · rename_i e1 w2 hcc
    cases h
    exact isStdException_of_isCancellation _ (checkCancellation_error ctx _ _ _ hcc)
  · rename_i w2 _
    split at h
    · cases h; rfl
    · rename_i bindings _
      obtain ⟨-, herr⟩ := writeBindings_spec ctx vars bindings idTable rowIdx
        ⟨[], localVocab, w2⟩ hr (le_of_eq hw)
      split at h
      · rename_i e1 refs1 heq
        cases h
        rcases herr _ _ heq with hc | ⟨binding, v, b, refs0, -, -, -, hb⟩
        · exact isStdException_of_isCancellation _ hc
        · exact bindingToTripleComponent_error_std ctx b refs0 _ hconv hb
      · split at h
        · rename_i e1 w3 hcc
          cases h
          exact isStdException_of_isCancellation _ (checkCancellation_error ctx _ _ _ hcc)
        · cases h

theorem throwErrorWithContext_std (clause : parsedQuery.Service) (ctx : Context)
    (msg first last : String)
    (hurl : ∀ iri e, ctx.makeUrl iri = .error e → e.isStdException = true) :
    (throwErrorWithContext clause ctx msg first last).isStdException = true := by
  simp only [throwErrorWithContext]
  split
  · rename_i e he
    exact hurl _ _ he
  · rfl

theorem verifyVariables_error_std (clause : parsedQuery.Service) (ctx : Context) (head : Json)
    (details : LazyJsonParser.Details)
    (hurl : ∀ iri e, ctx.makeUrl iri = .error e → e.isStdException = true)
    (e : Exception) (h : verifyVariables clause ctx head details = .error e) :
    e.isStdException = true := by
  simp only [verifyVariables] at h
  split at h
  · cases h; rfl
  · split at h
    · cases h
      exact throwErrorWithContext_std clause ctx _ _ _ hurl
    · cases h

theorem whileLoop_error_std (ctx : Context)
    (hconv : ∀ v iri e, ctx.literalAndDatatypeToTripleComponent v iri = .error e →
      e.isStdException = true)
    (hurl : ∀ iri e, ctx.makeUrl iri = .error e → e.isStdException = true) :
    ∀ (parts : List (Json × LazyJsonParser.Details)) (g : Get) (w : World) (e : Exception)
      (d : LazyJsonParser.Details) (w1 : World),
      g.rowIdx = g.idTable.rows.length → g.vars.length = g.idTable.numColumns_ →
      (∀ e0, g.inputRange.failure = some e0 → e0.isStdException = true) →
      Get.whileLoop ctx parts g w = (.error (e, d), w1) → e.isStdException = true := by
  intro parts
  induction parts with
  | nil =>
    intro g w e d w1 _ _ hfail h
    simp only [Get.whileLoop] at h
    cases hf : g.inputRange.failure with
    | some e0 =>
      simp only [hf, Prod.mk.injEq, Except.error.injEq] at h
      obtain ⟨⟨rfl, -⟩, -⟩ := h
      exact hfail _ hf
    | none => simp [hf] at h
  | cons p rest ih =>
    obtain ⟨partJson, details⟩ := p
    intro g w e d w1 hr hw hfail h
    simp only [Get.whileLoop] at h
    split at h
    · rename_i e1 he1
      simp only [Prod.mk.injEq, Except.error.injEq] at h
      obtain ⟨⟨rfl, -⟩, -⟩ := h
      split at he1
      · split at he1
        · cases he1; rfl
        · split at he1
          · rename_i e2 he2
            cases he1
            exact verifyVariables_error_std _ ctx _ _ hurl _ he2
          · cases he1
      · cases he1
    · rename_i vc hvc
      split at h
      · rename_i e1 w2 hwritten
        simp only [Prod.mk.injEq, Except.error.injEq] at h
        obtain ⟨⟨rfl, -⟩, -⟩ := h
        exact writeJsonResult_error_std ctx g.vars partJson g.idTable g.localVocab g.rowIdx w
          hconv hr hw _ w2 hwritten
      · rename_i written w2 hwritten
        obtain ⟨h1, h2⟩ := writeJsonResult_inbounds ctx g.vars partJson g.idTable g.localVocab
          g.rowIdx w hr (le_of_eq hw) written w2 hwritten
        by_cases hs : g.singleIdTable = true
        · simp only [hs, Bool.not_true, Bool.false_eq_true, if_false] at h
          exact ih
            { g with
              singleIdTable := true
              idTable := written.idTable
              localVocab := written.localVocab
              rowIdx := written.rowIdx
              varsChecked := vc
              resultExists := true } w2 e d w1 h1 (hw.trans h2.symm) hfail h
        · have hs1 : g.singleIdTable = false := by simpa using hs
          simp [hs1] at h

theorem drain_error_std (ctx : Context)
    (hconv : ∀ v iri e, ctx.literalAndDatatypeToTripleComponent v iri = .error e →
      e.isStdException = true)
    (hurl : ∀ iri e, ctx.makeUrl iri = .error e → e.isStdException = true) :
    ∀ (fuel : Nat) (r : InputRangeFromLoopControlGet) (w : World) (e : Exception) (w1 : World),
      r.getter.rowIdx = r.getter.idTable.rows.length →
      r.getter.vars.length = r.getter.idTable.numColumns_ →
      (∀ e0, r.getter.inputRange.failure = some e0 → e0.isStdException = true) →
      r.drain ctx fuel w = some (.error e, w1) → e.isStdException = true := by
  intro fuel
  induction fuel with
  | zero => intro r w e w1 _ _ _ h; cases h
  | succ fuel ih =>
    intro r w e w1 hr hw hfail h
    obtain ⟨g, fin⟩ := r
    cases fin with
    | true => simp [InputRangeFromLoopControlGet.drain, InputRangeFromLoopControlGet.get] at h
    | false =>
      simp only [InputRangeFromLoopControlGet.drain] at h
      cases hpull : InputRangeFromLoopControlGet.get ctx ⟨g, false⟩ w with
      | mk res w2 =>
        cases res with
        | error e1 =>
          simp only [hpull, Option.some.injEq, Prod.mk.injEq, Except.error.injEq] at h
          obtain ⟨rfl, -⟩ := h
          simp only [InputRangeFromLoopControlGet.get, Bool.false_eq_true, if_false,
            Get.call] at hpull
          cases hloop : Get.whileLoop ctx g.inputRange.parts g w with
          | mk lres w3 =>
            cases lres with
            | error pe =>
              obtain ⟨e2, d⟩ := pe
              have hstd := whileLoop_error_std ctx hconv hurl _ g w e2 d w3 hr hw hfail hloop
              cases e2 <;>
                simp only [hloop, Prod.mk.injEq, Except.error.injEq] at hpull <;>
                obtain ⟨rfl, -⟩ := hpull <;>
                first
                  | exact hstd
                  | exact throwErrorWithContext_std _ ctx _ _ _ hurl
            | ok v =>
              obtain ⟨o, g1⟩ := v
              cases o with
              | some pair => simp [hloop] at hpull
              | none =>
                cases hre : g1.resultExists with
                | false =>
                  simp only [hloop, hre, Bool.not_false, if_true, Prod.mk.injEq,
                    Except.error.injEq] at hpull
                  obtain ⟨rfl, -⟩ := hpull
                  exact throwErrorWithContext_std _ ctx _ _ _ hurl
                | true =>
                  cases hvc : g1.varsChecked with
                  | false =>
                    simp only [hloop, hre, hvc, Bool.not_true, Bool.not_false,
                      Bool.false_eq_true, if_false, if_true, Prod.mk.injEq,
                      Except.error.injEq] at hpull
                    obtain ⟨rfl, -⟩ := hpull
                    exact throwErrorWithContext_std _ ctx _ _ _ hurl
                  | true =>
                    cases hs : g1.singleIdTable <;> simp [hloop, hre, hvc, hs] at hpull
        | ok v =>
          obtain ⟨o, r1⟩ := v
          cases o with
          | none => simp [hpull] at h
          | some pair =>
            simp only [hpull] at h
            obtain ⟨i1, i2, i3, -⟩ := get_inbounds ctx g w _ r1 w2 hr hw hpull
            cases hrest : InputRangeFromLoopControlGet.drain ctx fuel r1 w2 with
            | none => simp [hrest] at h
            | some res1 =>
              obtain ⟨x, w3⟩ := res1
              cases x with
              | ok chunks => simp [hrest] at h
              | error e1 =>
                simp only [hrest, Option.some.injEq, Prod.mk.injEq, Except.error.injEq] at h
                obtain ⟨rfl, rfl⟩ := h
                exact ih r1 w2 _ _ i1 i2 (fun e0 he0 => hfail e0 (i3 ▸ he0)) hrest

/-- C38: a decode with as many expected variables as the operator has columns (what
`computeResultImpl` passes).  The state of the lambda starts with `rowIdx` equal to the number
of rows of the table and with one expected variable per column; every run of the loop over
the fragments keeps both, in both modes, and after a yielded chunk `rowIdx` is 0 and the
table is empty; inside a fragment the counter equals the number of rows after any number of
decoded bindings, that is whenever the next binding starts.  Hence no failure of the
decode is the marker of an access outside the table (the collaborators are assumed to throw
exceptions only), and the outcome of the decode does not depend on what a freshly appended
row holds: every cell of every appended row is written. -/
theorem decode_writes_in_bounds (s : Service) (ctx : Context) (vars : List String)
    (body : LazyJsonParser.Generator) (singleIdTable : Bool) (w : World)
    (hwidth : vars.length = s.getResultWidth)
    (hconv : ∀ v iri e, ctx.literalAndDatatypeToTripleComponent v iri = .error e →
      e.isStdException = true)
    (hurl : ∀ iri e, ctx.makeUrl iri = .error e → e.isStdException = true)
    (hbody : ∀ e, body.failure = some e → e.isStdException = true) :
    ((s.computeResultLazily vars body singleIdTable).getter.rowIdx
        = (s.computeResultLazily vars body singleIdTable).getter.idTable.rows.length
      ∧ (s.computeResultLazily vars body singleIdTable).getter.vars.length
        = (s.computeResultLazily vars body singleIdTable).getter.idTable.numColumns_)
    ∧ (∀ (parts : List (Json × LazyJsonParser.Details)) (g : Get) (w0 : World)
        (out : Option IdTableVocabPair) (g1 : Get) (w1 : World),
        g.rowIdx = g.idTable.rows.length → g.vars.length = g.idTable.numColumns_ →
        Get.whileLoop ctx parts g w0 = (.ok (out, g1), w1) →
        g1.rowIdx = g1.idTable.rows.length ∧ g1.vars.length = g1.idTable.numColumns_
          ∧ (∀ pair, out = some pair → g1.rowIdx = 0 ∧ g1.idTable.rows = []
              ∧ g1.localVocab = LocalVocab.empty
              ∧ pair.idTable_.numColumns_ = g.idTable.numColumns_))
    ∧ (∀ (names : List String) (decoded : List Json) (idTable : IdTable) (rowIdx : Nat)
        (refs : Refs) (t1 : IdTable) (r1 : Nat) (refs1 : Refs),
        rowIdx = idTable.rows.length → names.length = idTable.numColumns_ →
        writeBindings ctx names decoded idTable rowIdx refs = (.ok (t1, r1), refs1) →
        r1 = t1.rows.length ∧ names.length = t1.numColumns_)
    ∧ (∀ (e : Exception) (w1 : World),
        (s.computeResultLazily vars body singleIdTable).consume ctx w = some (.error e, w1) →
        e.isStdException = true)
    ∧ (∀ garbage : ValueId,
        (s.computeResultLazily vars body singleIdTable).consume
            { ctx with uninitialized := garbage } w
          = (s.computeResultLazily vars body singleIdTable).consume ctx w) := by
  refine ⟨⟨rfl, hwidth⟩, ?_, ?_, ?_, ?_⟩
  · intro parts g w0 out g1 w1 hr hw h
    exact whileLoop_inbounds ctx parts g w0 out g1 w1 hr hw h
  · intro names decoded idTable rowIdx refs t1 r1 refs1 hr hw h
    obtain ⟨h1, h2, h3, -⟩ := (writeBindings_spec ctx names decoded idTable rowIdx refs hr
      (le_of_eq hw)).1 t1 r1 refs1 h
    exact ⟨by rw [h1, h2], by rw [h3]; exact hw⟩
  · intro e w1 h
    exact drain_error_std ctx hconv hurl _ _ w e w1 rfl hwidth hbody h
  · intro garbage
    exact drain_garbage ctx _ garbage rfl _ _ w rfl hwidth

theorem decode_writes_in_bounds_witness :
    (∀ (e : Exception) (w1 : World),
        (Example.service200.computeResultLazily ["x", "y"] Example.bodyRejected false).consume
          Example.ctx Example.world = some (.error e, w1) →
        e.isStdException = true)
    ∧ (∀ garbage : ValueId,
        (Example.service200.computeResultLazily ["x", "y"] Example.bodyTwoFragments
            false).consume { Example.ctx with uninitialized := garbage } Example.world
          = some (.ok Example.chunksFirstDecode, Example.worldAfterFirstDecode)) := by
  refine ⟨(decode_writes_in_bounds Example.service200 Example.ctx ["x", "y"]
      Example.bodyRejected false Example.world rfl
      (by intro v iri e h; cases h) (by intro iri e h; cases h)
      (by intro e h; cases h)).2.2.2.1, ?_⟩
  intro garbage
  rw [(decode_writes_in_bounds Example.service200 Example.ctx ["x", "y"]
      Example.bodyTwoFragments false Example.world rfl
      (by intro v iri e h; cases h) (by intro iri e h; cases h)
      (by intro e h; cases h)).2.2.2.2 garbage]
  rfl

end QLever
